import Mathlib

/-!
# PHPSourceFile: a shallow embedding of the CodeLite PHP source parser

The development follows `CodeLite/PHPSourceFile.cpp`.  Strings (`wxString`) are
lists of characters, the token source is a list of tokens, the entity tree is a
store of entities addressed by index (shared pointers become indices), and the
parser object is a record that every routine takes and returns.
-/

namespace PHP

/-! ## Strings -/

/-- A `wxString`, as the list of its characters. -/
abbrev WxString := List Char

/-- The path separator, the one-character string holding a backslash. -/
def nsSep : WxString := ['\\']

/-- Whitespace as `wxString::Trim` sees it (the C `isspace` set). -/
def wxIsSpace (c : Char) : Bool :=
  c == ' ' || c == '\t' || c == '\n' || c == '\r' || c == Char.ofNat 11 || c == Char.ofNat 12

/-- `wxString::Trim()`: whitespace removed from the right. -/
def TrimRight (s : WxString) : WxString := (s.reverse.dropWhile wxIsSpace).reverse

/-- `wxString::Trim(false)`: whitespace removed from the left. -/
def TrimLeft (s : WxString) : WxString := s.dropWhile wxIsSpace

/-- The idiom `s.Trim().Trim(false)`. -/
def Trim (s : WxString) : WxString := TrimLeft (TrimRight s)

/-- `wxString::StartsWith`. -/
def StartsWith (s p : WxString) : Bool := p.isPrefixOf s

/-- `wxString::EndsWith`. -/
def EndsWith (s p : WxString) : Bool := p.reverse.isPrefixOf s.reverse

/-- `wxString::Contains` for a one-character needle. -/
def Contains (s : WxString) (c : Char) : Bool := s.contains c

/-- `wxString::AfterLast`: the text after the last `c`, the whole string when
`c` does not occur. -/
def AfterLast (s : WxString) (c : Char) : WxString :=
  (s.reverse.takeWhile (fun x => x != c)).reverse

/-- `wxString::BeforeFirst`: the text before the first `c`, the whole string
when `c` does not occur. -/
def BeforeFirst (s : WxString) (c : Char) : WxString := s.takeWhile (fun x => x != c)

/-- `wxString::Mid(n)`: the text from position `n` on. -/
def Mid (s : WxString) (n : Nat) : WxString := s.drop n

/-- `wxString::RemoveLast()`. -/
def RemoveLast (s : WxString) : WxString := s.dropLast

/-- A name with a leading separator enforced: the idiom
`if(!w.StartsWith("\\")) w.Prepend("\\")`. -/
def withLeadingSep (w : WxString) : WxString :=
  if StartsWith w nsSep then w else nsSep ++ w

/-- The double-quote character. -/
def dquote : Char := Char.ofNat 34

/-- The single-quote character. -/
def squote : Char := Char.ofNat 39

/-! ## Tokens -/

/-- Modelled from the spec: the token kinds of `PHPScannerTokens.h`, which is
not part of the sources.  Single-character tokens have a constructor each
(`chr_lbrace` is the token of an opening brace), the end of input is `eof`
(type `0`), and every kind the parser never inspects is `other`. -/
inductive TokType where
  | eof
  | chr_assign
  | chr_lbrace
  | chr_rbrace
  | chr_semi
  | chr_comma
  | chr_lparen
  | chr_rparen
  | kPHP_T_VARIABLE
  | kPHP_T_IDENTIFIER
  | kPHP_T_NS_SEPARATOR
  | kPHP_T_PUBLIC
  | kPHP_T_PRIVATE
  | kPHP_T_PROTECTED
  | kPHP_T_ABSTRACT
  | kPHP_T_FINAL
  | kPHP_T_STATIC
  | kPHP_T_CONST
  | kPHP_T_DEFINE
  | kPHP_T_REQUIRE
  | kPHP_T_REQUIRE_ONCE
  | kPHP_T_INCLUDE
  | kPHP_T_INCLUDE_ONCE
  | kPHP_T_USE
  | kPHP_T_AS
  | kPHP_T_CLASS
  | kPHP_T_INTERFACE
  | kPHP_T_TRAIT
  | kPHP_T_NAMESPACE
  | kPHP_T_FUNCTION
  | kPHP_T_EXTENDS
  | kPHP_T_IMPLEMENTS
  | kPHP_T_NEW
  | kPHP_T_STRING_CAST
  | kPHP_T_CONSTANT_ENCAPSED_STRING
  | kPHP_T_C_COMMENT
  | kPHP_T_CXX_COMMENT
  | other (code : Nat)
  deriving DecidableEq, Repr

/-- A lexical token: kind, literal text, originating line. -/
structure phpLexerToken where
  type : TokType
  text : WxString
  lineNumber : Int
  deriving DecidableEq, Repr

/-- `phpLexerToken::IsAnyComment`. -/
def phpLexerToken.IsAnyComment (t : phpLexerToken) : Bool :=
  t.type == TokType.kPHP_T_C_COMMENT || t.type == TokType.kPHP_T_CXX_COMMENT

/-! ## Entities -/

/-- The four entity variants. -/
inductive EntityKind where
  | kEntityTypeNamespace
  | kEntityTypeClass
  | kEntityTypeFunction
  | kEntityTypeVariable
  deriving DecidableEq, Repr

/-- An entity of the symbol table: the shared header and the fields of every
variant.  `parent` and `children` hold indices into the entity store. -/
structure PHPEntity where
  kind : EntityKind
  fullName : WxString := []
  shortName : WxString := []
  line : Int := 0
  parent : Option Nat := none
  children : List Nat := []
  extends_ : WxString := []
  implements_ : List WxString := []
  traits : List WxString := []
  isInterface : Bool := false
  isTrait : Bool := false
  flags : Nat := 0
  typeHint : WxString := []
  expressionHint : WxString := []
  defaultValue : WxString := []
  isReference : Bool := false
  deriving DecidableEq, Repr

/-- Modelled from the spec: the public bit of the variable flags (the enum of
`PHPEntityVariable.h` is not part of the sources; each flag is a distinct
single bit). -/
def kVar_Public : Nat := 2

/-- Modelled from the spec: the private bit of the variable flags. -/
def kVar_Private : Nat := 4

/-- Modelled from the spec: the protected bit of the variable flags. -/
def kVar_Protected : Nat := 8

/-- Modelled from the spec: the member bit of the variable flags. -/
def kVar_Member : Nat := 16

/-- Modelled from the spec: the const bit of the variable flags. -/
def kVar_Const : Nat := 64

/-- Modelled from the spec: the function-argument bit of the variable flags. -/
def kVar_FunctionArg : Nat := 128

/-- Modelled from the spec: the static bit of the variable flags. -/
def kVar_Static : Nat := 256

/-- Modelled from the spec: the is-define bit of the variable flags. -/
def kVar_Define : Nat := 512

/-- Modelled from the spec: the public bit of the function flags (the enum of
`PHPEntityFunction.h` is not part of the sources; each flag is a distinct
single bit). -/
def kFunc_Public : Nat := 2

/-- Modelled from the spec: the private bit of the function flags. -/
def kFunc_Private : Nat := 4

/-- Modelled from the spec: the protected bit of the function flags. -/
def kFunc_Protected : Nat := 8

/-- Modelled from the spec: the final bit of the function flags. -/
def kFunc_Final : Nat := 16

/-- Modelled from the spec: the static bit of the function flags. -/
def kFunc_Static : Nat := 32

/-- Modelled from the spec: the abstract bit of the function flags. -/
def kFunc_Abstract : Nat := 64

/-- The C expression `flags & ~bit` on a 64-bit `size_t`. -/
def clearFlag (flags bit : Nat) : Nat := flags &&& (2 ^ 64 - 1 - bit)

/-- `HasFlag`: the C test `flags & bit`. -/
def HasFlag (flags bit : Nat) : Bool := (flags &&& bit) != 0

/-- `SetFlag(flag, b)`: sets the bit when `b`, clears it otherwise. -/
def PHPEntity.SetFlag (e : PHPEntity) (flag : Nat) (b : Bool) : PHPEntity :=
  if b then { e with flags := e.flags ||| flag } else { e with flags := clearFlag e.flags flag }

/-- Modelled from the spec: `PHPEntityBase::SetFullName` (its source is absent):
stores the full name; the short name is derived as the last path component. -/
def PHPEntity.SetFullName (e : PHPEntity) (n : WxString) : PHPEntity :=
  { e with fullName := n, shortName := AfterLast n '\\' }

/-- Modelled from the spec: `PHPEntityVariable::SetVisibility` (its source is
absent): sets the bit of the given visibility keyword and clears the other two. -/
def PHPEntity.SetVisibility (e : PHPEntity) (visibility : TokType) : PHPEntity :=
  match visibility with
  | TokType.kPHP_T_PUBLIC =>
    { e with flags := clearFlag (clearFlag e.flags kVar_Private) kVar_Protected ||| kVar_Public }
  | TokType.kPHP_T_PRIVATE =>
    { e with flags := clearFlag (clearFlag e.flags kVar_Public) kVar_Protected ||| kVar_Private }
  | TokType.kPHP_T_PROTECTED =>
    { e with flags := clearFlag (clearFlag e.flags kVar_Public) kVar_Private ||| kVar_Protected }
  | _ => e

/-! ## The parser object -/

/-- The fields of `PHPSourceFile` apart from the scanner, whose unread tokens
are passed alongside.  `store` is the memory holding every entity attached to
the tree; `m_scopes` lists indices bottom first; `phaseTwoRuns` counts the
calls of `PhaseTwo`; `nullClassCast` records that `OnUseTrait` used the result
of a class cast on a scope that is not a class. -/
structure PHPSourceFile where
  m_depth : Int := 0
  m_reachedEOF : Bool := false
  m_parseFunctionBody : Bool := false
  m_lookBackTokens : List phpLexerToken := []
  m_comments : List phpLexerToken := []
  m_aliases : List (WxString × WxString) := []
  m_scopes : List Nat := []
  m_defines : List PHPEntity := []
  store : List PHPEntity := []
  phaseTwoRuns : Nat := 0
  nullClassCast : Bool := false
  deriving DecidableEq, Repr

/-- Modelled from the spec: the scanner (`phpLexerNext`, `phpLexerUnget`), which
is not part of the sources, as the list of the tokens it has not yet handed
out; reading takes the head, pushing back puts the token in front again. -/
abbrev Tokens := List phpLexerToken

/-- Applies `f` to the entity at index `i`. -/
def storeModify (f : PHPEntity → PHPEntity) : Nat → List PHPEntity → List PHPEntity
  | _, [] => []
  | 0, e :: es => f e :: es
  | i + 1, e :: es => e :: storeModify f i es

/-- The entity at index `i` (a fresh namespace record when out of range). -/
def entityAt (s : PHPSourceFile) (i : Nat) : PHPEntity :=
  s.store.getD i { kind := EntityKind.kEntityTypeNamespace }

/-- Modelled from the spec: `PHPEntityBase::AddChild` (its source is absent) for
an entity that is not yet owned: the child is appended to the children of
`parent`, in insertion order, with `parent` as its back-reference.  Returns the
index of the child. -/
def AddChild (s : PHPSourceFile) (parent : Nat) (child : PHPEntity) : Nat × PHPSourceFile :=
  let id := s.store.length
  let st := s.store ++ [{ child with parent := some parent }]
  (id, { s with store := storeModify (fun p => { p with children := p.children ++ [id] }) parent st })

/-- Modelled from the spec: `PHPEntityBase::FindChild(name, true)` (its source
is absent): a child named `name`, or `name` with a dollar sign prepended. -/
def FindChild (s : PHPSourceFile) (parent : Nat) (name : WxString) : Bool :=
  (entityAt s parent).children.any
    (fun c => (entityAt s c).fullName == name || (entityAt s c).fullName == '$' :: name)

/-- `std::map::find` on the alias table. -/
def aliasFind (m : List (WxString × WxString)) (k : WxString) : Option WxString :=
  m.lookup k

/-- `std::map::insert` on the alias table: an existing key keeps its value. -/
def aliasInsert (m : List (WxString × WxString)) (k v : WxString) : List (WxString × WxString) :=
  match aliasFind m k with
  | some _ => m
  | none => m ++ [(k, v)]

/-! ## Token source -/

/-- The bookkeeping of `NextToken` for a token that was read. -/
def NextToken_found (s : PHPSourceFile) (token : phpLexerToken) : PHPSourceFile :=
  let s1 :=
    if token.type = TokType.kPHP_T_C_COMMENT then { s with m_comments := s.m_comments ++ [token] }
    else if token.type = TokType.chr_lbrace then { s with m_depth := s.m_depth + 1 }
    else if token.type = TokType.chr_rbrace then { s with m_depth := s.m_depth - 1 }
    else if token.type = TokType.chr_semi then { s with m_lookBackTokens := [] }
    else s
  { s1 with m_lookBackTokens := s1.m_lookBackTokens ++ [token] }

/-- The bookkeeping of `NextToken` at the end of input (the token then has
type `0`). -/
def NextToken_eof (s : PHPSourceFile) : PHPSourceFile := { s with m_reachedEOF := true }

/-- `PHPSourceFile::NextToken`. -/
def NextToken (toks : Tokens) (s : PHPSourceFile) : Option phpLexerToken × Tokens × PHPSourceFile :=
  match toks with
  | [] => (none, [], NextToken_eof s)
  | t :: ts => (some t, ts, NextToken_found s t)

/-- `PHPSourceFile::UngetToken`: the token goes back to the scanner and the
depth and comment bookkeeping is undone. -/
def UngetToken (toks : Tokens) (s : PHPSourceFile) (token : phpLexerToken) : Tokens × PHPSourceFile :=
  (token :: toks,
    if token.type = TokType.chr_lbrace then { s with m_depth := s.m_depth - 1 }
    else if token.type = TokType.chr_rbrace then { s with m_depth := s.m_depth + 1 }
    else if token.type = TokType.kPHP_T_C_COMMENT ∧ s.m_comments ≠ [] then
      { s with m_comments := s.m_comments.dropLast }
    else s)

/-! ## Scopes and name resolution -/

/-- `PHPSourceFile::CurrentScope`: the top of the scope stack; the global
namespace is pushed first when the stack is empty. -/
def CurrentScope (s : PHPSourceFile) : Nat × PHPSourceFile :=
  match s.m_scopes.getLast? with
  | some id => (id, s)
  | none =>
    let id := s.store.length
    let ns : PHPEntity := { kind := EntityKind.kEntityTypeNamespace }
    (id, { s with store := s.store ++ [ns.SetFullName nsSep], m_scopes := [id] })

/-- `PHPSourceFile::Namespace`: the bottom of the scope stack. -/
def Namespace (s : PHPSourceFile) : Nat × PHPSourceFile :=
  match s.m_scopes with
  | [] => CurrentScope s
  | id :: _ => (id, s)

/-- The eight primitive type names. -/
def isPrimitiveName (w : WxString) : Bool :=
  w == "string".toList || w == "array".toList || w == "mixed".toList || w == "bool".toList ||
  w == "int".toList || w == "integer".toList || w == "boolean".toList || w == "double".toList

/-- `PHPSourceFile::MakeIdentifierAbsolute`.  The alias table is searched for
the argument as given, the other tests use the trimmed copy. -/
def MakeIdentifierAbsolute (s : PHPSourceFile) (type : WxString) : WxString × PHPSourceFile :=
  let typeWithNS := Trim type
  if isPrimitiveName typeWithNS then (typeWithNS, s)
  else if typeWithNS.isEmpty then ([], s)
  else if Contains typeWithNS '\\' then
    (if StartsWith typeWithNS nsSep then typeWithNS else nsSep ++ typeWithNS, s)
  else if StartsWith typeWithNS nsSep then (typeWithNS, s)
  else
    match aliasFind s.m_aliases type with
    | some v => (v, s)
    | none =>
      let (nsId, s1) := Namespace s
      let ns := (entityAt s1 nsId).fullName
      let ns := if EndsWith ns nsSep then ns else ns ++ nsSep
      (ns ++ typeWithNS, s1)

/-! ## Token loops -/

/-- `PHPSourceFile::ConsumeUntil`. -/
def ConsumeUntil (delim : TokType) : Tokens → PHPSourceFile → Bool × Tokens × PHPSourceFile
  | [], s => (false, [], NextToken_eof s)
  | token :: ts, s =>
    if token.type = delim then (true, ts, NextToken_found s token)
    else ConsumeUntil delim ts (NextToken_found s token)

/-- `PHPSourceFile::ReadUntilFound`; the token found stands for `true`. -/
def ReadUntilFound (delim : TokType) :
    Tokens → PHPSourceFile → Option phpLexerToken × Tokens × PHPSourceFile
  | [], s => (none, [], NextToken_eof s)
  | token :: ts, s =>
    if token.type = delim then (some token, ts, NextToken_found s token)
    else ReadUntilFound delim ts (NextToken_found s token)

/-- `PHPSourceFile::ReadUntilFoundOneOf`; `none` stands for `wxNOT_FOUND`. -/
def ReadUntilFoundOneOf (delim1 delim2 : TokType) :
    Tokens → PHPSourceFile → Option (TokType × phpLexerToken) × Tokens × PHPSourceFile
  | [], s => (none, [], NextToken_eof s)
  | token :: ts, s =>
    if token.type = delim1 then (some (delim1, token), ts, NextToken_found s token)
    else if token.type = delim2 then (some (delim2, token), ts, NextToken_found s token)
    else ReadUntilFoundOneOf delim1 delim2 ts (NextToken_found s token)

/-- `PHPSourceFile::LookBackTokensContains`. -/
def LookBackTokensContains (s : PHPSourceFile) (type : TokType) : Bool :=
  s.m_lookBackTokens.any (fun tok => tok.type == type)

/-- One round of the loop of `LookBackForFunctionFlags`. -/
def functionFlagStep (flags : Nat) (tok : phpLexerToken) : Nat :=
  if tok.type = TokType.kPHP_T_ABSTRACT then flags ||| kFunc_Abstract
  else if tok.type = TokType.kPHP_T_FINAL then flags ||| kFunc_Final
  else if tok.type = TokType.kPHP_T_STATIC then flags ||| kFunc_Static
  else if tok.type = TokType.kPHP_T_PUBLIC then
    clearFlag (clearFlag (flags ||| kFunc_Public) kFunc_Private) kFunc_Protected
  else if tok.type = TokType.kPHP_T_PRIVATE then
    clearFlag (clearFlag (flags ||| kFunc_Private) kFunc_Public) kFunc_Protected
  else if tok.type = TokType.kPHP_T_PROTECTED then
    clearFlag (clearFlag (flags ||| kFunc_Protected) kFunc_Public) kFunc_Private
  else flags

/-- `PHPSourceFile::LookBackForFunctionFlags`. -/
def LookBackForFunctionFlags (s : PHPSourceFile) : Nat :=
  s.m_lookBackTokens.foldl functionFlagStep 0

/-- One round of the loop of `LookBackForVariablesFlags`. -/
def variableFlagStep (flags : Nat) (tok : phpLexerToken) : Nat :=
  if tok.type = TokType.kPHP_T_STATIC then flags ||| kVar_Static
  else if tok.type = TokType.kPHP_T_CONST then flags ||| kVar_Const
  else if tok.type = TokType.kPHP_T_PUBLIC then
    clearFlag (clearFlag (flags ||| kVar_Public) kVar_Private) kVar_Protected
  else if tok.type = TokType.kPHP_T_PRIVATE then
    clearFlag (clearFlag (flags ||| kVar_Private) kVar_Public) kVar_Protected
  else if tok.type = TokType.kPHP_T_PROTECTED then
    clearFlag (clearFlag (flags ||| kVar_Protected) kVar_Private) kVar_Public
  else flags

/-- `PHPSourceFile::LookBackForVariablesFlags`. -/
def LookBackForVariablesFlags (s : PHPSourceFile) : Nat :=
  s.m_lookBackTokens.foldl variableFlagStep kVar_Public

/-! ## `use` and `namespace` -/

/-- The insertion `OnUse` makes for an item with full name `fullname` and
alias `alias`: the full name gets its leading separator, is resolved, and is
stored under the alias unless the alias is a key already. -/
def OnUse_insert (s : PHPSourceFile) (fullname alias_ : WxString) : PHPSourceFile :=
  let r := MakeIdentifierAbsolute s (withLeadingSep fullname)
  { r.2 with m_aliases := aliasInsert r.2.m_aliases alias_ r.1 }

/-- The body of the `,` and `;` case of the loop of `OnUse`: the item read so
far, held in the locals `fullname`, `alias` and `temp`, is entered into the
alias table. -/
def OnUse_delimiter (s : PHPSourceFile) (fullname alias_ temp : WxString) : PHPSourceFile :=
  let (fullname, alias_) :=
    if fullname.isEmpty then (temp, alias_)
    else if alias_.isEmpty then (fullname, temp)
    else (fullname, alias_)
  let alias_ := if alias_.isEmpty then AfterLast fullname '\\' else alias_
  if !fullname.isEmpty && !alias_.isEmpty then OnUse_insert s fullname alias_
  else s

/-- The loop of `PHPSourceFile::OnUse` with its locals `fullname`, `alias`
and `temp`. -/
def OnUse_loop : Tokens → PHPSourceFile → WxString → WxString → WxString → Tokens × PHPSourceFile
  | [], s, _, _, _ => ([], NextToken_eof s)
  | token :: ts, s, fullname, alias_, temp =>
    let s := NextToken_found s token
    if token.type = TokType.chr_comma ∨ token.type = TokType.chr_semi then
      let s := OnUse_delimiter s fullname alias_ temp
      if token.type = TokType.chr_semi then (ts, s)
      else OnUse_loop ts s [] [] []
    else if token.type = TokType.kPHP_T_AS then
      OnUse_loop ts s temp alias_ []
    else
      OnUse_loop ts s fullname alias_ (temp ++ token.text)

/-- `PHPSourceFile::OnUse`. -/
def OnUse (toks : Tokens) (s : PHPSourceFile) : Tokens × PHPSourceFile :=
  OnUse_loop toks s [] [] []

/-- The loop of `PHPSourceFile::OnNamespace`, collecting `path`. -/
def OnNamespace_loop : Tokens → PHPSourceFile → WxString → WxString × Tokens × PHPSourceFile
  | [], s, path => (path, [], NextToken_eof s)
  | token :: ts, s, path =>
    let s := NextToken_found s token
    if token.type = TokType.chr_semi then (path, ts, s)
    else
      let path :=
        if path.isEmpty ∧ token.type ≠ TokType.kPHP_T_NS_SEPARATOR then path ++ nsSep else path
      OnNamespace_loop ts s (path ++ token.text)

/-- `PHPSourceFile::OnNamespace`. -/
def OnNamespace (toks : Tokens) (s : PHPSourceFile) : Tokens × PHPSourceFile :=
  let r := OnNamespace_loop toks s []
  let s := r.2.2
  if s.m_scopes.isEmpty then
    let ns : PHPEntity := { kind := EntityKind.kEntityTypeNamespace }
    (r.2.1, { s with store := s.store ++ [ns.SetFullName r.1], m_scopes := [s.store.length] })
  else (r.2.1, s)

/-! ## Functions -/

/-- Attaches a finished parameter to the current scope, as the signature
parser does at a comma and at the closing parenthesis. -/
def attachParameter (s : PHPSourceFile) (var : Option PHPEntity) (defaultValue : WxString) :
    PHPSourceFile :=
  match var with
  | none => s
  | some v =>
    let r := CurrentScope s
    (AddChild r.2 r.1 { v with defaultValue := defaultValue }).2

/-- The first loop of `ParseFunctionSignature`: reads up to the opening
parenthesis; `false` when the input ends first. -/
def ParseFunctionSignature_open : Tokens → PHPSourceFile → Bool × Tokens × PHPSourceFile
  | [], s => (false, [], NextToken_eof s)
  | token :: ts, s =>
    if token.type = TokType.chr_lparen then (true, ts, NextToken_found s token)
    else ParseFunctionSignature_open ts (NextToken_found s token)

/-- The main loop of `ParseFunctionSignature` with its locals `depth`,
`typeHint`, `defaultValue`, `var` and `collectingDefaultValue`. -/
def ParseFunctionSignature_loop :
    Tokens → PHPSourceFile → Int → WxString → WxString → Option PHPEntity → Bool →
      Tokens × PHPSourceFile
  | [], s, _, _, _, _, _ => ([], NextToken_eof s)
  | token :: ts, s, depth, typeHint, defaultValue, var, collectingDefaultValue =>
    let s := NextToken_found s token
    match token.type with
    | TokType.kPHP_T_VARIABLE =>
      let v : PHPEntity := { kind := EntityKind.kEntityTypeVariable }
      let v := { v.SetFullName token.text with line := token.lineNumber }
      let v := v.SetFlag kVar_FunctionArg true
      let isRef := EndsWith typeHint ['&']
      let v := if isRef then { v with isReference := true } else v
      let typeHint := if isRef then RemoveLast typeHint else typeHint
      let r := MakeIdentifierAbsolute s typeHint
      ParseFunctionSignature_loop ts r.2 depth typeHint defaultValue
        (some { v with typeHint := r.1 }) collectingDefaultValue
    | TokType.chr_lparen =>
      ParseFunctionSignature_loop ts s (depth + 1) typeHint
        (if collectingDefaultValue then defaultValue ++ ['('] else defaultValue)
        var collectingDefaultValue
    | TokType.chr_rparen =>
      if depth - 1 < 1 then (ts, attachParameter s var defaultValue)
      else if depth - 1 ≠ 0 then
        ParseFunctionSignature_loop ts s (depth - 1) typeHint (defaultValue ++ token.text)
          var collectingDefaultValue
      else
        ParseFunctionSignature_loop ts s (depth - 1) typeHint defaultValue
          var collectingDefaultValue
    | TokType.chr_assign =>
      ParseFunctionSignature_loop ts s depth typeHint defaultValue var true
    | TokType.chr_comma =>
      ParseFunctionSignature_loop ts (attachParameter s var defaultValue) depth [] [] none false
    | _ =>
      if collectingDefaultValue then
        ParseFunctionSignature_loop ts s depth typeHint (defaultValue ++ token.text)
          var collectingDefaultValue
      else
        ParseFunctionSignature_loop ts s depth (typeHint ++ token.text) defaultValue
          var collectingDefaultValue

/-- `PHPSourceFile::ParseFunctionSignature`. -/
def ParseFunctionSignature (startingDepth : Int) (toks : Tokens) (s : PHPSourceFile) :
    Tokens × PHPSourceFile :=
  if startingDepth = 0 then
    match ParseFunctionSignature_open toks s with
    | (false, ts, s1) => (ts, s1)
    | (true, ts, s1) => ParseFunctionSignature_loop ts s1 1 [] [] none false
  else ParseFunctionSignature_loop toks s 1 [] [] none false

/-- The loop of `PHPSourceFile::ConsumeFunctionBody`; `depth` is the brace
depth on entry. -/
def ConsumeFunctionBody_loop (depth : Int) : Tokens → PHPSourceFile → Tokens × PHPSourceFile
  | [], s => ([], NextToken_eof s)
  | token :: ts, s =>
    let s := NextToken_found s token
    if token.type = TokType.chr_rbrace ∧ s.m_depth < depth then (ts, s)
    else ConsumeFunctionBody_loop depth ts s

/-- `PHPSourceFile::ConsumeFunctionBody`. -/
def ConsumeFunctionBody (toks : Tokens) (s : PHPSourceFile) : Tokens × PHPSourceFile :=
  ConsumeFunctionBody_loop s.m_depth toks s

/-- The loop of `PHPSourceFile::ReadExpression` with its locals `expression`
and `depth`; returns the success flag and the expression text. -/
def ReadExpression_loop :
    Tokens → PHPSourceFile → WxString → Int → Bool × WxString × Tokens × PHPSourceFile
  | [], s, expression, _ => (false, expression, [], NextToken_eof s)
  | token :: ts, s, expression, depth =>
    let s := NextToken_found s token
    if token.type = TokType.chr_semi then (true, expression, ts, s)
    else if token.type = TokType.chr_lbrace then
      let u := UngetToken ts s token
      (true, expression, u.1, u.2)
    else
      match token.type with
      | TokType.kPHP_T_REQUIRE => (false, [], ts, s)
      | TokType.kPHP_T_REQUIRE_ONCE => (false, [], ts, s)
      | TokType.kPHP_T_STRING_CAST => ReadExpression_loop ts s expression depth
      | TokType.kPHP_T_CONSTANT_ENCAPSED_STRING => ReadExpression_loop ts s expression depth
      | TokType.kPHP_T_C_COMMENT => ReadExpression_loop ts s expression depth
      | TokType.kPHP_T_CXX_COMMENT => ReadExpression_loop ts s expression depth
      | TokType.chr_lparen => ReadExpression_loop ts s (expression ++ ['(']) (depth + 1)
      | TokType.chr_rparen =>
        ReadExpression_loop ts s (if depth - 1 = 0 then expression ++ [')'] else expression)
          (depth - 1)
      | TokType.kPHP_T_NEW =>
        ReadExpression_loop ts s
          (if depth = 0 then expression ++ token.text ++ [' '] else expression) depth
      | _ =>
        ReadExpression_loop ts s (if depth = 0 then expression ++ token.text else expression) depth

/-- `PHPSourceFile::ReadExpression`. -/
def ReadExpression (toks : Tokens) (s : PHPSourceFile) : Bool × WxString × Tokens × PHPSourceFile :=
  ReadExpression_loop toks s [] 0

/-- The hint a variable gets from the expression assigned to it, as
`ParseFunctionBody` and `OnVariable` compute it: the class of a `new`
expression becomes the type hint, any other expression the expression hint.
`var` is the index of the variable when it is attached to the tree. -/
def assignExpressionHint (s : PHPSourceFile) (var : Option Nat) (expr : WxString) : PHPSourceFile :=
  if StartsWith expr "new".toList then
    let r := MakeIdentifierAbsolute s (Trim (BeforeFirst (Trim (Mid expr 3)) '('))
    match var with
    | some id => { r.2 with store := storeModify (fun e => { e with typeHint := r.1 }) id r.2.store }
    | none => r.2
  else
    match var with
    | some id => { s with store := storeModify (fun e => { e with expressionHint := expr }) id s.store }
    | none => s

/-- The loop of `PHPSourceFile::ParseFunctionBody`; the first argument bounds
the number of rounds. -/
def ParseFunctionBody_loop :
    Nat → Int → Tokens → PHPSourceFile → Option (Tokens × PHPSourceFile)
  | 0, _, _, _ => none
  | _ + 1, _, [], s => some ([], NextToken_eof s)
  | fuel + 1, exitDepth, token :: ts, s =>
    let s := NextToken_found s token
    match token.type with
    | TokType.chr_lbrace =>
      ParseFunctionBody_loop fuel exitDepth ts { s with m_lookBackTokens := [] }
    | TokType.chr_rbrace =>
      let s := { s with m_lookBackTokens := [] }
      if s.m_depth = exitDepth then some (ts, s)
      else ParseFunctionBody_loop fuel exitDepth ts s
    | TokType.chr_semi =>
      ParseFunctionBody_loop fuel exitDepth ts { s with m_lookBackTokens := [] }
    | TokType.kPHP_T_VARIABLE =>
      let v : PHPEntity := { kind := EntityKind.kEntityTypeVariable }
      let v := { v.SetFullName token.text with line := token.lineNumber }
      let sc := CurrentScope s
      let a := AddChild sc.2 sc.1 v
      match NextToken ts a.2 with
      | (none, ts1, s1) => some (ts1, s1)
      | (some tk, ts1, s1) =>
        if tk.type ≠ TokType.chr_assign then
          let u := UngetToken ts1 { s1 with m_lookBackTokens := [] } tk
          ParseFunctionBody_loop fuel exitDepth u.1 u.2
        else
          match ReadExpression ts1 s1 with
          | (false, _, ts2, s2) => some (ts2, s2)
          | (true, expr, ts2, s2) =>
            ParseFunctionBody_loop fuel exitDepth ts2 (assignExpressionHint s2 (some a.1) expr)
    | _ => ParseFunctionBody_loop fuel exitDepth ts s

/-- `PHPSourceFile::ParseFunctionBody`. -/
def ParseFunctionBody (fuel : Nat) (toks : Tokens) (s : PHPSourceFile) :
    Option (Tokens × PHPSourceFile) :=
  ParseFunctionBody_loop fuel (s.m_depth - 1) toks { s with m_lookBackTokens := [] }

/-- `m_scopes.pop_back()`. -/
def popScope (s : PHPSourceFile) : PHPSourceFile := { s with m_scopes := s.m_scopes.dropLast }

/-- The part of `PHPSourceFile::OnFunction` after the function entity `func`
was created: attach, push, signature, flags, body, pop. -/
def OnFunction_body (fuel : Nat) (func : PHPEntity) (funcDepth : Int) (toks : Tokens)
    (s : PHPSourceFile) : Option (Tokens × PHPSourceFile) :=
  let sc := CurrentScope s
  let a := AddChild sc.2 sc.1 func
  let s := { a.2 with m_scopes := a.2.m_scopes ++ [a.1] }
  let sig := ParseFunctionSignature funcDepth toks s
  let s := sig.2
  let flags := LookBackForFunctionFlags s
  let parentIsInterface :=
    (entityAt s sc.1).kind == EntityKind.kEntityTypeClass && (entityAt s sc.1).isInterface
  let flags :=
    if LookBackTokensContains s TokType.kPHP_T_ABSTRACT || parentIsInterface then
      flags ||| kFunc_Abstract
    else flags
  let s := { s with store := storeModify (fun e => { e with flags := flags }) a.1 s.store }
  let r : Option (Tokens × PHPSourceFile) :=
    if HasFlag flags kFunc_Abstract then
      match ConsumeUntil TokType.chr_semi sig.1 s with
      | (false, ts, s1) => some (ts, popScope s1)
      | (true, ts, s1) => some (ts, s1)
    else
      match ReadUntilFound TokType.chr_lbrace sig.1 s with
      | (some _, ts, s1) =>
        if s1.m_parseFunctionBody then ParseFunctionBody fuel ts s1
        else some (ConsumeFunctionBody ts s1)
      | (none, ts, s1) => some (ts, popScope s1)
  match r with
  | none => none
  | some (ts, s1) =>
    let s2 := if !s1.m_reachedEOF then popScope s1 else s1
    some (ts, { s2 with m_lookBackTokens := [] })

/-- `PHPSourceFile::OnFunction`. -/
def OnFunction (fuel : Nat) (toks : Tokens) (s : PHPSourceFile) :
    Option (Tokens × PHPSourceFile) :=
  match toks with
  | [] => some ([], NextToken_eof s)
  | token :: ts =>
    let s := NextToken_found s token
    let f : PHPEntity := { kind := EntityKind.kEntityTypeFunction }
    if token.type = TokType.kPHP_T_IDENTIFIER then
      OnFunction_body fuel { f.SetFullName token.text with line := token.lineNumber } 0 ts s
    else if token.type = TokType.chr_lparen then
      OnFunction_body fuel { f with line := token.lineNumber } 1 ts s
    else some (ts, s)

/-! ## Variables, constants, traits -/

/-- The first part of `PHPSourceFile::OnVariable`: the variable entity is
created and attached to the current scope unless the scope has a child of that
name already; returns the index of the variable when it was attached. -/
def OnVariable_attach (tok : phpLexerToken) (s : PHPSourceFile) : Option Nat × PHPSourceFile :=
  let v : PHPEntity := { kind := EntityKind.kEntityTypeVariable }
  let v := { v.SetFullName tok.text with line := tok.lineNumber }
  let sc := CurrentScope s
  if !FindChild sc.2 sc.1 v.fullName then
    let r := AddChild sc.2 sc.1 v
    (some r.1, r.2)
  else (none, sc.2)

/-- `PHPSourceFile::OnVariable`. -/
def OnVariable (tok : phpLexerToken) (toks : Tokens) (s : PHPSourceFile) :
    Tokens × PHPSourceFile :=
  let a := OnVariable_attach tok s
  match NextToken toks a.2 with
  | (none, ts, s1) => (ts, s1)
  | (some token, ts, s1) =>
    if token.type ≠ TokType.chr_assign then (ts, { s1 with m_lookBackTokens := [] })
    else
      match ReadExpression ts s1 with
      | (false, _, ts2, s2) => (ts2, s2)
      | (true, expr, ts2, s2) => (ts2, assignExpressionHint s2 a.1 expr)

/-- The entity `OnDefine` builds for the constant whose name, quotes removed,
is `varName`. -/
def defineConstant (varName : WxString) (line : Int) : PHPEntity :=
  let varName := if StartsWith varName nsSep then varName else nsSep ++ varName
  let shortName := AfterLast varName '\\'
  let v : PHPEntity := { kind := EntityKind.kEntityTypeVariable }
  let v := { v.SetFullName varName with shortName := shortName }
  let v := v.SetFlag kVar_Define true
  { v with line := line }

/-- `PHPSourceFile::OnDefine`. -/
def OnDefine (tok : phpLexerToken) (toks : Tokens) (s : PHPSourceFile) : Tokens × PHPSourceFile :=
  match NextToken toks s with
  | (none, ts, s1) => (ts, s1)
  | (some token, ts, s1) =>
    if token.type ≠ TokType.chr_lparen then
      let r := ConsumeUntil TokType.chr_semi ts s1
      (r.2.1, r.2.2)
    else
      match NextToken ts s1 with
      | (none, ts2, s2) => (ts2, s2)
      | (some token2, ts2, s2) =>
        if token2.type ≠ TokType.kPHP_T_CONSTANT_ENCAPSED_STRING then
          let r := ConsumeUntil TokType.chr_semi ts2 s2
          (r.2.1, r.2.2)
        else
          let varName := token2.text
          let s3 :=
            if (StartsWith varName [dquote] && EndsWith varName [dquote]) ||
                (StartsWith varName [squote] && EndsWith varName [squote]) then
              let varName := RemoveLast (varName.drop 1)
              { s2 with m_defines := s2.m_defines ++ [defineConstant varName tok.lineNumber] }
            else s2
          let r := ConsumeUntil TokType.chr_semi ts2 s3
          (r.2.1, r.2.2)

/-- The loop of `PHPSourceFile::OnUseTrait` with its locals `identifiers` and
`tempname`; `clas` is the scope the statement was found in. -/
def OnUseTrait_loop (clas : Nat) :
    Tokens → PHPSourceFile → List WxString → WxString → Tokens × PHPSourceFile
  | [], s, _, _ => ([], NextToken_eof s)
  | token :: ts, s, identifiers, tempname =>
    let s := NextToken_found s token
    match token.type with
    | TokType.chr_comma =>
      if !tempname.isEmpty then
        let r := MakeIdentifierAbsolute s tempname
        OnUseTrait_loop clas ts r.2 (identifiers ++ [r.1]) []
      else OnUseTrait_loop clas ts s identifiers []
    | TokType.chr_semi =>
      let r : List WxString × PHPSourceFile :=
        if !tempname.isEmpty then
          let m := MakeIdentifierAbsolute s tempname
          (identifiers ++ [m.1], m.2)
        else (identifiers, s)
      if (entityAt r.2 clas).kind = EntityKind.kEntityTypeClass then
        (ts, { r.2 with store := storeModify (fun e => { e with traits := r.1 }) clas r.2.store })
      else (ts, { r.2 with nullClassCast := true })
    | _ => OnUseTrait_loop clas ts s identifiers (tempname ++ token.text)

/-- `PHPSourceFile::OnUseTrait`. -/
def OnUseTrait (toks : Tokens) (s : PHPSourceFile) : Tokens × PHPSourceFile :=
  let sc := CurrentScope s
  OnUseTrait_loop sc.1 toks sc.2 [] []

/-- The walk of `PHPSourceFile::Class` up the parents of `scope`; the first
argument bounds the number of steps. -/
def Class_walk (s : PHPSourceFile) : Nat → Nat → Bool
  | 0, _ => false
  | n + 1, scope =>
    if (entityAt s scope).kind = EntityKind.kEntityTypeClass then true
    else
      match (entityAt s scope).parent with
      | some p => Class_walk s n p
      | none => false

/-- `PHPSourceFile::Class`: whether the current scope is a class or lies
inside one. -/
def Class (s : PHPSourceFile) : Bool × PHPSourceFile :=
  let sc := CurrentScope s
  (Class_walk sc.2 (sc.2.store.length + 1) sc.1, sc.2)

/-! ## Classes and the statement loop -/

/-- `PHPSourceFile::ReadCommaSeparatedIdentifiers`, with its local `temp`;
returns the success flag and the list. -/
def ReadCommaSeparatedIdentifiers (delim : TokType) :
    Tokens → PHPSourceFile → List WxString → WxString →
      Bool × List WxString × Tokens × PHPSourceFile
  | [], s, list, _ => (false, list, [], NextToken_eof s)
  | token :: ts, s, list, temp =>
    let s := NextToken_found s token
    if token.IsAnyComment then ReadCommaSeparatedIdentifiers delim ts s list temp
    else if token.type = delim then
      let r : List WxString × PHPSourceFile :=
        if !temp.isEmpty && !list.contains temp then
          let m := MakeIdentifierAbsolute s temp
          (list ++ [m.1], m.2)
        else (list, s)
      let u := UngetToken ts r.2 token
      (true, r.1, u.1, u.2)
    else
      match token.type with
      | TokType.chr_comma =>
        if !list.contains temp then
          let m := MakeIdentifierAbsolute s temp
          ReadCommaSeparatedIdentifiers delim ts m.2 (list ++ [m.1]) []
        else ReadCommaSeparatedIdentifiers delim ts s list []
      | _ => ReadCommaSeparatedIdentifiers delim ts s list (temp ++ token.text)

/-- The token left in `token` when the scanner is at the end of input. -/
def eofToken : phpLexerToken := { type := TokType.eof, text := [], lineNumber := 0 }

/-- The first loop of `PHPSourceFile::OnClass`: skips comments up to the class
name; `none` when the token there is not an identifier. -/
def OnClass_name : Tokens → PHPSourceFile → Option phpLexerToken × Tokens × PHPSourceFile
  | [], s => (some eofToken, [], NextToken_eof s)
  | token :: ts, s =>
    let s := NextToken_found s token
    if token.IsAnyComment then OnClass_name ts s
    else if token.type ≠ TokType.kPHP_T_IDENTIFIER then (none, ts, s)
    else (some token, ts, s)

/-- The second loop of `PHPSourceFile::OnClass`; `parse` is the statement
loop run on the class body, the first argument bounds the number of rounds. -/
def OnClass_loop (parse : Int → Tokens → PHPSourceFile → Option (Tokens × PHPSourceFile)) :
    Nat → PHPEntity → Tokens → PHPSourceFile → Option (Tokens × PHPSourceFile)
  | 0, _, _, _ => none
  | _ + 1, _, [], s => some ([], NextToken_eof s)
  | fuel + 1, klass, token :: ts, s =>
    let s := NextToken_found s token
    if token.IsAnyComment then OnClass_loop parse fuel klass ts s
    else
      match token.type with
      | TokType.kPHP_T_EXTENDS =>
        match ReadUntilFound TokType.kPHP_T_IDENTIFIER ts s with
        | (none, ts1, s1) => some (ts1, s1)
        | (some tk, ts1, s1) =>
          let m := MakeIdentifierAbsolute s1 tk.text
          OnClass_loop parse fuel { klass with extends_ := m.1 } ts1 m.2
      | TokType.kPHP_T_IMPLEMENTS =>
        match ReadCommaSeparatedIdentifiers TokType.chr_lbrace ts s [] [] with
        | (false, _, ts1, s1) => some (ts1, s1)
        | (true, l, ts1, s1) => OnClass_loop parse fuel { klass with implements_ := l } ts1 s1
      | TokType.chr_lbrace =>
        let sc := CurrentScope s
        let a := AddChild sc.2 sc.1 klass
        let s1 := { a.2 with m_scopes := a.2.m_scopes ++ [a.1] }
        match parse (s1.m_depth - 1) ts s1 with
        | none => none
        | some (ts2, s2) => some (ts2, if !s2.m_reachedEOF then popScope s2 else s2)
      | _ => OnClass_loop parse fuel klass ts s

/-- `PHPSourceFile::OnClass`. -/
def OnClass (parse : Int → Tokens → PHPSourceFile → Option (Tokens × PHPSourceFile))
    (fuel : Nat) (tok : phpLexerToken) (toks : Tokens) (s : PHPSourceFile) :
    Option (Tokens × PHPSourceFile) :=
  match OnClass_name toks s with
  | (none, ts, s1) => some (ts, s1)
  | (some token, ts, s1) =>
    let m := MakeIdentifierAbsolute s1 token.text
    let k : PHPEntity := { kind := EntityKind.kEntityTypeClass }
    let k := { k with isInterface := tok.type == TokType.kPHP_T_INTERFACE,
                      isTrait := tok.type == TokType.kPHP_T_TRAIT }
    let k := { k.SetFullName m.1 with line := token.lineNumber }
    OnClass_loop parse fuel k ts m.2

/-- `PHPSourceFile::PhaseTwo`: the doc-comment visitor walks the tree from
`Namespace()`; the visitor itself is external and only decorates. -/
def PhaseTwo (s : PHPSourceFile) : PHPSourceFile :=
  let r := Namespace s
  { r.2 with phaseTwoRuns := r.2.phaseTwoRuns + 1 }

/-- The member variable created by the statement loop after a visibility
keyword. -/
def memberVariable (s : PHPSourceFile) (visibility : TokType) (token : phpLexerToken) : PHPEntity :=
  let v : PHPEntity := { kind := EntityKind.kEntityTypeVariable }
  let v := v.SetVisibility visibility
  let v := v.SetFullName token.text
  let flags := LookBackForVariablesFlags s
  let v := v.SetFlag kVar_Member true
  let v := v.SetFlag kVar_Const (HasFlag flags kVar_Const)
  let v := v.SetFlag kVar_Static (HasFlag flags kVar_Static)
  { v with line := token.lineNumber }

/-- The constant created by the statement loop after `const`. -/
def constVariable (token : phpLexerToken) : PHPEntity :=
  let v : PHPEntity := { kind := EntityKind.kEntityTypeVariable }
  let v := { v.SetFullName token.text with line := token.lineNumber }
  (v.SetFlag kVar_Member true).SetFlag kVar_Const true

/-- `PHPSourceFile::Parse`; the first argument bounds the number of rounds of
the loop, `none` is returned only when it is used up. -/
def Parse : Nat → Int → Tokens → PHPSourceFile → Option (Tokens × PHPSourceFile)
  | 0, _, _, _ => none
  | _ + 1, _, [], s => some ([], PhaseTwo (NextToken_eof s))
  | fuel + 1, retDepth, token :: ts, s =>
    let s := NextToken_found s token
    match token.type with
    | TokType.chr_assign => Parse fuel retDepth ts { s with m_lookBackTokens := [] }
    | TokType.chr_lbrace => Parse fuel retDepth ts { s with m_lookBackTokens := [] }
    | TokType.chr_rbrace =>
      let s := { s with m_lookBackTokens := [] }
      if s.m_depth = retDepth then some (ts, s) else Parse fuel retDepth ts s
    | TokType.chr_semi => Parse fuel retDepth ts { s with m_lookBackTokens := [] }
    | TokType.kPHP_T_VARIABLE =>
      let sc := CurrentScope s
      if (entityAt sc.2 sc.1).kind ≠ EntityKind.kEntityTypeClass then
        let r := OnVariable token ts sc.2
        Parse fuel retDepth r.1 r.2
      else Parse fuel retDepth ts sc.2
    | TokType.kPHP_T_PUBLIC | TokType.kPHP_T_PRIVATE | TokType.kPHP_T_PROTECTED =>
      let sc := CurrentScope s
      if (entityAt sc.2 sc.1).kind = EntityKind.kEntityTypeClass then
        let s1 := { sc.2 with m_lookBackTokens := sc.2.m_lookBackTokens ++ [token] }
        match ReadUntilFoundOneOf TokType.kPHP_T_VARIABLE TokType.kPHP_T_FUNCTION ts s1 with
        | (some (what, tk), ts1, s2) =>
          if what = TokType.kPHP_T_VARIABLE then
            let c := CurrentScope s2
            let a := AddChild c.2 c.1 (memberVariable s2 token.type tk)
            match ConsumeUntil TokType.chr_semi ts1 a.2 with
            | (false, ts2, s3) => some (ts2, s3)
            | (true, ts2, s3) => Parse fuel retDepth ts2 s3
          else
            match OnFunction fuel ts1 s2 with
            | none => none
            | some (ts2, s3) => Parse fuel retDepth ts2 { s3 with m_lookBackTokens := [] }
        | (none, ts1, s2) => Parse fuel retDepth ts1 s2
      else Parse fuel retDepth ts sc.2
    | TokType.kPHP_T_DEFINE =>
      let r := OnDefine token ts s
      Parse fuel retDepth r.1 r.2
    | TokType.kPHP_T_CONST =>
      match ReadUntilFound TokType.kPHP_T_IDENTIFIER ts s with
      | (some tk, ts1, s1) =>
        let c := CurrentScope s1
        let a := AddChild c.2 c.1 (constVariable tk)
        match ConsumeUntil TokType.chr_semi ts1 a.2 with
        | (false, ts2, s2) => some (ts2, s2)
        | (true, ts2, s2) => Parse fuel retDepth ts2 s2
      | (none, ts1, s1) => Parse fuel retDepth ts1 s1
    | TokType.kPHP_T_REQUIRE | TokType.kPHP_T_REQUIRE_ONCE
    | TokType.kPHP_T_INCLUDE | TokType.kPHP_T_INCLUDE_ONCE =>
      Parse fuel retDepth ts { s with m_lookBackTokens := [] }
    | TokType.kPHP_T_USE =>
      let c := Class s
      let r := if c.1 then OnUseTrait ts c.2 else OnUse ts c.2
      Parse fuel retDepth r.1 { r.2 with m_lookBackTokens := [] }
    | TokType.kPHP_T_CLASS | TokType.kPHP_T_INTERFACE | TokType.kPHP_T_TRAIT =>
      match OnClass (Parse fuel) fuel token ts s with
      | none => none
      | some (ts1, s1) => Parse fuel retDepth ts1 { s1 with m_lookBackTokens := [] }
    | TokType.kPHP_T_NAMESPACE =>
      let r := OnNamespace ts s
      Parse fuel retDepth r.1 { r.2 with m_lookBackTokens := [] }
    | TokType.kPHP_T_FUNCTION =>
      match OnFunction fuel ts s with
      | none => none
      | some (ts1, s1) => Parse fuel retDepth ts1 { s1 with m_lookBackTokens := [] }
    | _ => Parse fuel retDepth ts s

/-- A parser object as the constructor leaves it. -/
def newSourceFile (parseFunctionBody : Bool) : PHPSourceFile :=
  { m_parseFunctionBody := parseFunctionBody }

/-- A top-level call `Parse(exitDepth)` on the tokens of a whole file, with
one round of the loop allowed per token and one more for the end of input. -/
def ParseFile (parseFunctionBody : Bool) (exitDepth : Int) (toks : Tokens) :
    Option (Tokens × PHPSourceFile) :=
  Parse (toks.length + 1) exitDepth toks (newSourceFile parseFunctionBody)

/-! ## Token streams of the examples -/

/-- A token of kind `type` with the text `text` on line `line`. -/
def mkToken (type : TokType) (text : String) (line : Int) : phpLexerToken :=
  { type := type, text := text.toList, lineNumber := line }

/-- The tokens of `function f($a = foo(1,(2+3))){}`. -/
def tokensNestedDefault : Tokens :=
  [ mkToken TokType.kPHP_T_FUNCTION "function" 1,
    mkToken TokType.kPHP_T_IDENTIFIER "f" 1,
    mkToken TokType.chr_lparen "(" 1,
    mkToken TokType.kPHP_T_VARIABLE "$a" 1,
    mkToken TokType.chr_assign "=" 1,
    mkToken TokType.kPHP_T_IDENTIFIER "foo" 1,
    mkToken TokType.chr_lparen "(" 1,
    mkToken (TokType.other 0) "1" 1,
    mkToken TokType.chr_comma "," 1,
    mkToken TokType.chr_lparen "(" 1,
    mkToken (TokType.other 0) "2" 1,
    mkToken (TokType.other 1) "+" 1,
    mkToken (TokType.other 0) "3" 1,
    mkToken TokType.chr_rparen ")" 1,
    mkToken TokType.chr_rparen ")" 1,
    mkToken TokType.chr_rparen ")" 1,
    mkToken TokType.chr_lbrace "\x7b" 1,
    mkToken TokType.chr_rbrace "\x7d" 1 ]

/-- The tokens of
`namespace A\B; class C extends D implements E,F { public $x; function g($p = 1){} }`. -/
def tokensSpecExample : Tokens :=
  [ mkToken TokType.kPHP_T_NAMESPACE "namespace" 1,
    mkToken TokType.kPHP_T_IDENTIFIER "A" 1,
    mkToken TokType.kPHP_T_NS_SEPARATOR "\\" 1,
    mkToken TokType.kPHP_T_IDENTIFIER "B" 1,
    mkToken TokType.chr_semi ";" 1,
    mkToken TokType.kPHP_T_CLASS "class" 1,
    mkToken TokType.kPHP_T_IDENTIFIER "C" 1,
    mkToken TokType.kPHP_T_EXTENDS "extends" 1,
    mkToken TokType.kPHP_T_IDENTIFIER "D" 1,
    mkToken TokType.kPHP_T_IMPLEMENTS "implements" 1,
    mkToken TokType.kPHP_T_IDENTIFIER "E" 1,
    mkToken TokType.chr_comma "," 1,
    mkToken TokType.kPHP_T_IDENTIFIER "F" 1,
    mkToken TokType.chr_lbrace "\x7b" 1,
    mkToken TokType.kPHP_T_PUBLIC "public" 1,
    mkToken TokType.kPHP_T_VARIABLE "$x" 1,
    mkToken TokType.chr_semi ";" 1,
    mkToken TokType.kPHP_T_FUNCTION "function" 1,
    mkToken TokType.kPHP_T_IDENTIFIER "g" 1,
    mkToken TokType.chr_lparen "(" 1,
    mkToken TokType.kPHP_T_VARIABLE "$p" 1,
    mkToken TokType.chr_assign "=" 1,
    mkToken (TokType.other 0) "1" 1,
    mkToken TokType.chr_rparen ")" 1,
    mkToken TokType.chr_lbrace "\x7b" 1,
    mkToken TokType.chr_rbrace "\x7d" 1,
    mkToken TokType.chr_rbrace "\x7d" 1 ]

/-- The tokens of `class C implements E, E {}`. -/
def tokensRepeatedInterface : Tokens :=
  [ mkToken TokType.kPHP_T_CLASS "class" 1,
    mkToken TokType.kPHP_T_IDENTIFIER "C" 1,
    mkToken TokType.kPHP_T_IMPLEMENTS "implements" 1,
    mkToken TokType.kPHP_T_IDENTIFIER "E" 1,
    mkToken TokType.chr_comma "," 1,
    mkToken TokType.kPHP_T_IDENTIFIER "E" 1,
    mkToken TokType.chr_lbrace "\x7b" 1,
    mkToken TokType.chr_rbrace "\x7d" 1 ]

/-- The list of the eight primitive type names. -/
def primitiveNames : List WxString :=
  [ "string".toList, "int".toList, "integer".toList, "bool".toList, "boolean".toList,
    "double".toList, "array".toList, "mixed".toList ]

/-! ## Shapes of token streams used in the statements -/

/-- A character of an identifier: a letter, a digit, an underscore or a
character from code 127 on. -/
def isIdentifierChar (c : Char) : Bool :=
  c.isAlphanum || c == '_' || decide (127 ≤ c.toNat)

/-- The text of an identifier: not empty, identifier characters only. -/
def isNameText (w : WxString) : Bool :=
  !w.isEmpty && w.all isIdentifierChar

/-- An identifier token carrying the text of a name. -/
def isIdentifierToken (t : phpLexerToken) : Bool :=
  t.type == TokType.kPHP_T_IDENTIFIER && isNameText t.text

/-- A separator token; its text is the separator. -/
def isSeparatorToken (t : phpLexerToken) : Bool :=
  t.type == TokType.kPHP_T_NS_SEPARATOR && t.text == nsSep

/-- The tokens of a qualified name such as `Foo\Bar` or `\Foo\Bar`: identifier
and separator tokens, the last one an identifier. -/
def isPathTokens (p : Tokens) : Bool :=
  p.all (fun t => isIdentifierToken t || isSeparatorToken t) &&
    (match p.getLast? with
     | some t => isIdentifierToken t
     | none => false)

/-- The concatenation of the texts of a token sequence. -/
def tokensText : Tokens → WxString
  | [] => []
  | t :: ts => t.text ++ tokensText ts

/-- The parser bookkeeping after the tokens `l` were read one by one. -/
def readTokens (s : PHPSourceFile) (l : Tokens) : PHPSourceFile := l.foldl NextToken_found s

/-- One item of a `use` statement: the tokens of the path `P` and, when the
item reads `P as A`, the `as` token and the token of `A`. -/
structure UseItem where
  path : Tokens
  asAlias : Option (phpLexerToken × phpLexerToken)
  deriving DecidableEq, Repr

/-- The tokens of a `use` item. -/
def UseItem.tokens (i : UseItem) : Tokens :=
  i.path ++ (match i.asAlias with
    | some (a, n) => [a, n]
    | none => [])

/-- A well-formed `use` item: a qualified name, optionally followed by `as`
and an identifier. -/
def UseItem.wellFormed (i : UseItem) : Bool :=
  isPathTokens i.path &&
    (match i.asAlias with
     | some (a, n) => a.type == TokType.kPHP_T_AS && isIdentifierToken n
     | none => true)

/-- The key an item is stored under: `A`, or the part of `P` after its last
separator when `as` is absent. -/
def UseItem.key (i : UseItem) : WxString :=
  match i.asAlias with
  | some (_, n) => n.text
  | none => AfterLast (tokensText i.path) '\\'

/-- The value an item is stored with: `P` with a leading separator enforced. -/
def UseItem.value (i : UseItem) : WxString := withLeadingSep (tokensText i.path)

/-- The tokens of a `use` statement after the `use` keyword: every item but
the last is followed by its comma token, the last by the semicolon token. -/
def useStatementTokens (init : List (UseItem × phpLexerToken)) (last : UseItem)
    (semi : phpLexerToken) : Tokens :=
  match init with
  | [] => last.tokens ++ [semi]
  | (i, c) :: more => i.tokens ++ c :: useStatementTokens more last semi

/-- The items of a `use` statement in source order. -/
def useStatementItems (init : List (UseItem × phpLexerToken)) (last : UseItem) : List UseItem :=
  init.map Prod.fst ++ [last]

/-- The alias table after the items were inserted in order into `m`. -/
def insertItems (m : List (WxString × WxString)) (items : List UseItem) :
    List (WxString × WxString) :=
  items.foldl (fun acc i => aliasInsert acc i.key i.value) m

/-- The tokens after `use` of the statement `use A\X, B\X;`. -/
def tokensUseSameKey : Tokens :=
  [ mkToken TokType.kPHP_T_IDENTIFIER "A" 1,
    mkToken TokType.kPHP_T_NS_SEPARATOR "\\" 1,
    mkToken TokType.kPHP_T_IDENTIFIER "X" 1,
    mkToken TokType.chr_comma "," 1,
    mkToken TokType.kPHP_T_IDENTIFIER "B" 1,
    mkToken TokType.kPHP_T_NS_SEPARATOR "\\" 1,
    mkToken TokType.kPHP_T_IDENTIFIER "X" 1,
    mkToken TokType.chr_semi ";" 1 ]

/-- The item `Foo\Bar as Baz` followed by its comma, as in `use Foo\Bar as Baz, A\X;`. -/
def useExampleInit : List (UseItem × phpLexerToken) :=
  [ ({ path := [ mkToken TokType.kPHP_T_IDENTIFIER "Foo" 1,
                 mkToken TokType.kPHP_T_NS_SEPARATOR "\\" 1,
                 mkToken TokType.kPHP_T_IDENTIFIER "Bar" 1 ],
       asAlias := some (mkToken TokType.kPHP_T_AS "as" 1,
                        mkToken TokType.kPHP_T_IDENTIFIER "Baz" 1) },
     mkToken TokType.chr_comma "," 1) ]

/-- The item `A\X`, the last one of `use Foo\Bar as Baz, A\X;`. -/
def useExampleLast : UseItem :=
  { path := [ mkToken TokType.kPHP_T_IDENTIFIER "A" 1,
              mkToken TokType.kPHP_T_NS_SEPARATOR "\\" 1,
              mkToken TokType.kPHP_T_IDENTIFIER "X" 1 ],
    asAlias := none }

/-- The tokens of an `implements` list: every name but the last is followed by
its comma token. -/
def implementsTokens (init : List (phpLexerToken × phpLexerToken)) (last : phpLexerToken) :
    Tokens :=
  match init with
  | [] => [last]
  | (e, c) :: more => e :: c :: implementsTokens more last

/-- The texts of the names of an `implements` list in source order. -/
def implementsNames (init : List (phpLexerToken × phpLexerToken)) (last : phpLexerToken) :
    List WxString :=
  init.map (fun x => x.1.text) ++ [last.text]

/-! ## The resolver invariant -/

/-- A namespace name the resolver can prepend: empty, or beginning with the
separator. -/
def nameOk (w : WxString) : Bool := w.isEmpty || StartsWith w nsSep

/-- Every value of the alias table begins with the separator. -/
def aliasesOk (m : List (WxString × WxString)) : Bool := m.all (fun e => StartsWith e.2 nsSep)

/-- The bottom of the scope stack, when there is one, is an entity of the
store whose full name is empty or begins with the separator. -/
def bottomOk (s : PHPSourceFile) : Bool :=
  match s.m_scopes with
  | [] => true
  | id :: _ => decide (id < s.store.length) && nameOk (entityAt s id).fullName

/-- The invariant name resolution relies on. -/
def ResolverInv (s : PHPSourceFile) : Prop := aliasesOk s.m_aliases = true ∧ bottomOk s = true

/-- What the parser expects of the scanner: a separator token carries a text
that begins with the separator. -/
def lexerOk (toks : Tokens) : Bool :=
  toks.all (fun t => t.type != TokType.kPHP_T_NS_SEPARATOR || StartsWith t.text nsSep)

/-- The full name of the entity at index `i` of a store. -/
def nameAt (st : List PHPEntity) (i : Nat) : WxString :=
  (st.getD i { kind := EntityKind.kEntityTypeNamespace }).fullName

/-- A routine that goes from the unread tokens `toks` and the parser `s` to the
unread tokens `rest` and the parser `s1` keeps the resolver invariant (and the
well-formedness of the unread tokens). -/
def Keeps (toks : Tokens) (s : PHPSourceFile) (rest : Tokens) (s1 : PHPSourceFile) : Prop :=
  lexerOk toks = true → ResolverInv s → lexerOk rest = true ∧ ResolverInv s1

/-- A result of a bounded routine, when there is one, holds well-formed unread
tokens and a parser that satisfies the resolver invariant. -/
def GoodResult (r : Option (Tokens × PHPSourceFile)) : Prop :=
  ∀ rest s1, r = some (rest, s1) → lexerOk rest = true ∧ ResolverInv s1

/-- The parser after the whole-file parse of the spec's example
`namespace A\B; class C extends D implements E,F { public $x; function g($p = 1){} }`. -/
def specExampleState : PHPSourceFile :=
  ((ParseFile false (-1) tokensSpecExample).get (by decide)).2

/-- The tokens of
`use X\Y as Baz; use Foo\Bar as Baz; function f(Baz $x){}`. -/
def tokensShadowedAlias : Tokens :=
  [ mkToken TokType.kPHP_T_USE "use" 1,
    mkToken TokType.kPHP_T_IDENTIFIER "X" 1,
    mkToken TokType.kPHP_T_NS_SEPARATOR "\\" 1,
    mkToken TokType.kPHP_T_IDENTIFIER "Y" 1,
    mkToken TokType.kPHP_T_AS "as" 1,
    mkToken TokType.kPHP_T_IDENTIFIER "Baz" 1,
    mkToken TokType.chr_semi ";" 1,
    mkToken TokType.kPHP_T_USE "use" 2,
    mkToken TokType.kPHP_T_IDENTIFIER "Foo" 2,
    mkToken TokType.kPHP_T_NS_SEPARATOR "\\" 2,
    mkToken TokType.kPHP_T_IDENTIFIER "Bar" 2,
    mkToken TokType.kPHP_T_AS "as" 2,
    mkToken TokType.kPHP_T_IDENTIFIER "Baz" 2,
    mkToken TokType.chr_semi ";" 2,
    mkToken TokType.kPHP_T_FUNCTION "function" 3,
    mkToken TokType.kPHP_T_IDENTIFIER "f" 3,
    mkToken TokType.chr_lparen "(" 3,
    mkToken TokType.kPHP_T_IDENTIFIER "Baz" 3,
    mkToken TokType.kPHP_T_VARIABLE "$x" 3,
    mkToken TokType.chr_rparen ")" 3,
    mkToken TokType.chr_lbrace "\x7b" 3,
    mkToken TokType.chr_rbrace "\x7d" 3 ]

/-! ## Brace depth -/

/-- The change of the brace depth `NextToken` makes for a token: one up for an
opening brace, one down for a closing brace. -/
def braceDelta (t : phpLexerToken) : Int :=
  if t.type = TokType.chr_lbrace then 1 else if t.type = TokType.chr_rbrace then -1 else 0

/-- The opening braces minus the closing braces of a token sequence. -/
def braceBalance : Tokens → Int
  | [] => 0
  | t :: ts => braceDelta t + braceBalance ts

/-! ## Modifier keywords of the look-back buffer -/

/-- Whether a token is one of the keywords `public`, `private`, `protected`. -/
def isVisibilityToken (t : phpLexerToken) : Bool :=
  t.type == TokType.kPHP_T_PUBLIC || t.type == TokType.kPHP_T_PRIVATE ||
    t.type == TokType.kPHP_T_PROTECTED

/-- The kind of the last visibility keyword of a token sequence, when it has
one. -/
def lastVisibility (l : Tokens) : Option TokType :=
  (l.reverse.find? isVisibilityToken).map (fun t => t.type)

/-- Whether a token sequence holds a token of the given kind. -/
def hasKeyword (l : Tokens) (type : TokType) : Bool := l.any (fun tok => tok.type == type)

/-- The flag words a variable can carry after `LookBackForVariablesFlags`: one
visibility bit, with or without the const bit and the static bit. -/
def variableFlagWords : List Nat := [2, 4, 8, 66, 68, 72, 258, 260, 264, 322, 324, 328]

/-! ## Shapes of expressions -/

/-- A token that ends the scan of `ReadExpression`: `;`, an opening brace,
`require` or `require_once`. -/
def isExpressionStop (t : phpLexerToken) : Bool :=
  t.type == TokType.chr_semi || t.type == TokType.chr_lbrace ||
    t.type == TokType.kPHP_T_REQUIRE || t.type == TokType.kPHP_T_REQUIRE_ONCE

/-- A token `ReadExpression` reads without keeping its text: a string literal
or a comment. -/
def isSkippedToken (t : phpLexerToken) : Bool :=
  t.type == TokType.kPHP_T_STRING_CAST || t.type == TokType.kPHP_T_CONSTANT_ENCAPSED_STRING ||
    t.type == TokType.kPHP_T_C_COMMENT || t.type == TokType.kPHP_T_CXX_COMMENT

/-- A parenthesis token. -/
def isParenToken (t : phpLexerToken) : Bool :=
  t.type == TokType.chr_lparen || t.type == TokType.chr_rparen

/-- One item of an expression whose parentheses are not nested: a token outside
parentheses, or a parenthesised group `( inner )`. -/
inductive ExprItem where
  | plain (t : phpLexerToken)
  | group (lp : phpLexerToken) (inner : Tokens) (rp : phpLexerToken)
  deriving DecidableEq, Repr

/-- The tokens of an expression item. -/
def ExprItem.tokens : ExprItem → Tokens
  | ExprItem.plain t => [t]
  | ExprItem.group lp inner rp => lp :: (inner ++ [rp])

/-- A well-formed expression item: outside parentheses a token that is neither
a stop token, nor a string literal or comment, nor a parenthesis; a group is
delimited by `(` and `)` and holds neither stop tokens nor parentheses. -/
def ExprItem.wellFormed : ExprItem → Bool
  | ExprItem.plain t => !isExpressionStop t && !isSkippedToken t && !isParenToken t
  | ExprItem.group lp inner rp =>
    lp.type == TokType.chr_lparen && rp.type == TokType.chr_rparen &&
      inner.all (fun t => !isExpressionStop t && !isParenToken t)

/-- The text an expression item leaves in the scanned expression: the text of
a token outside parentheses (followed by a space for `new`), and the bare pair
of parentheses for a group. -/
def ExprItem.render : ExprItem → WxString
  | ExprItem.plain t => if t.type = TokType.kPHP_T_NEW then t.text ++ [' '] else t.text
  | ExprItem.group _ _ _ => ['(', ')']

/-- The tokens of an expression made of the given items. -/
def exprTokens : List ExprItem → Tokens
  | [] => []
  | i :: more => i.tokens ++ exprTokens more

/-- The text the items of an expression leave in the scanned expression. -/
def exprRender : List ExprItem → WxString
  | [] => []
  | i :: more => i.render ++ exprRender more

/-- The tokens of `foo(1,(2+3));`. -/
def tokensNestedCall : Tokens :=
  [ mkToken TokType.kPHP_T_IDENTIFIER "foo" 1,
    mkToken TokType.chr_lparen "(" 1,
    mkToken (TokType.other 0) "1" 1,
    mkToken TokType.chr_comma "," 1,
    mkToken TokType.chr_lparen "(" 1,
    mkToken (TokType.other 0) "2" 1,
    mkToken (TokType.other 1) "+" 1,
    mkToken (TokType.other 0) "3" 1,
    mkToken TokType.chr_rparen ")" 1,
    mkToken TokType.chr_rparen ")" 1,
    mkToken TokType.chr_semi ";" 1 ]

/-- The tokens of `$v = newsletter();`. -/
def tokensNewsletterAssignment : Tokens :=
  [ mkToken TokType.kPHP_T_VARIABLE "$v" 1,
    mkToken TokType.chr_assign "=" 1,
    mkToken TokType.kPHP_T_IDENTIFIER "newsletter" 1,
    mkToken TokType.chr_lparen "(" 1,
    mkToken TokType.chr_rparen ")" 1,
    mkToken TokType.chr_semi ";" 1 ]

/-- The tokens of `function f() \x7b $v = newsletter(); \x7d`. -/
def tokensNewsletterInBody : Tokens :=
  [ mkToken TokType.kPHP_T_FUNCTION "function" 1,
    mkToken TokType.kPHP_T_IDENTIFIER "f" 1,
    mkToken TokType.chr_lparen "(" 1,
    mkToken TokType.chr_rparen ")" 1,
    mkToken TokType.chr_lbrace "\x7b" 1 ] ++ tokensNewsletterAssignment ++
  [ mkToken TokType.chr_rbrace "\x7d" 1 ]

/-! ## Runs of the parser

A routine of the parser goes from the unread tokens and the parser it is given
to the unread tokens and the parser it leaves.  `Run` collects the steps all the
routines are made of, so that a property of every routine can be proved once,
by induction over the steps. -/

/-- A change of an entity that touches only its flags, its type hint, its
expression hint and its list of traits. -/
def attributeChange (f : PHPEntity → PHPEntity) : Prop :=
  ∀ e, f e = { e with flags := (f e).flags, typeHint := (f e).typeHint,
                      expressionHint := (f e).expressionHint, traits := (f e).traits }

/-- The steps a routine makes on the parser object without reading a token. -/
inductive Tweak : PHPSourceFile → PHPSourceFile → Prop where
  | refl (s : PHPSourceFile) : Tweak s s
  | trans {a b c : PHPSourceFile} : Tweak a b → Tweak b c → Tweak a c
  | lookBack (s : PHPSourceFile) (l : List phpLexerToken) :
      Tweak s { s with m_lookBackTokens := l }
  | newNamespace (s : PHPSourceFile) (name : WxString) : s.m_scopes = [] →
      Tweak s { s with
        store := s.store ++
          [({ kind := EntityKind.kEntityTypeNamespace } : PHPEntity).SetFullName name],
        m_scopes := [s.store.length] }
  | addChild (s : PHPSourceFile) (e : PHPEntity) :
      e.kind ≠ EntityKind.kEntityTypeNamespace → e.children = [] →
      Tweak s (AddChild (CurrentScope s).2 (CurrentScope s).1 e).2
  | modify (s : PHPSourceFile) (f : PHPEntity → PHPEntity) (i : Nat) : attributeChange f →
      Tweak s { s with store := storeModify f i s.store }
  | alias_ (s : PHPSourceFile) (k v : WxString) :
      Tweak s { s with m_aliases := aliasInsert s.m_aliases k v }
  | define (s : PHPSourceFile) (e : PHPEntity) :
      Tweak s { s with m_defines := s.m_defines ++ [e] }
  | nullCast (s : PHPSourceFile) : Tweak s { s with nullClassCast := true }
  | phaseTwo (s : PHPSourceFile) : Tweak s { s with phaseTwoRuns := s.phaseTwoRuns + 1 }

/-- The steps of a routine: reading a token, meeting the end of input, looking
at a token and pushing it back, changing the parser object, and running a part
of the input inside the scope of a new entity, which is popped afterwards unless
the input is exhausted. -/
inductive Run : Tokens → PHPSourceFile → Tokens → PHPSourceFile → Prop where
  | tweak {s s1 : PHPSourceFile} (toks : Tokens) : Tweak s s1 → Run toks s toks s1
  | read (t : phpLexerToken) (ts : Tokens) (s : PHPSourceFile) :
      Run (t :: ts) s ts (NextToken_found s t)
  | eof (s : PHPSourceFile) : Run [] s [] (NextToken_eof s)
  | peek (t : phpLexerToken) (ts : Tokens) {s s1 : PHPSourceFile} :
      Tweak (NextToken_found s t) s1 → Run (t :: ts) s (t :: ts) (UngetToken ts s1 t).2
  | trans {a b c : Tokens} {s s1 s2 : PHPSourceFile} :
      Run a s b s1 → Run b s1 c s2 → Run a s c s2
  | inScope {toks rest : Tokens} {s s1 : PHPSourceFile} (e : PHPEntity) (pop : Bool) :
      e.kind ≠ EntityKind.kEntityTypeNamespace → e.children = [] →
      Run toks
        { (AddChild (CurrentScope s).2 (CurrentScope s).1 e).2 with
          m_scopes := (AddChild (CurrentScope s).2 (CurrentScope s).1 e).2.m_scopes ++
            [(AddChild (CurrentScope s).2 (CurrentScope s).1 e).1] }
        rest s1 →
      (pop = false → s1.m_reachedEOF = true) →
      Run toks s rest (if pop then popScope s1 else s1)

/-- A result of a bounded routine, when there is one, is reached by a run from
the unread tokens `toks` and the parser `s`. -/
def RunsTo (toks : Tokens) (s : PHPSourceFile) (r : Option (Tokens × PHPSourceFile)) : Prop :=
  ∀ rest s1, r = some (rest, s1) → Run toks s rest s1

/-- The statement loop stopped because the input is exhausted. -/
def EofExit (rest : Tokens) (s1 : PHPSourceFile) : Prop :=
  rest = [] ∧ s1.m_reachedEOF = true ∧ s1.m_scopes ≠ []

/-- The statement loop stopped at a closing brace `t` that brought the depth to
`retDepth`: `s0` is the parser just before that brace was read. -/
def BraceExit (retDepth : Int) (toks : Tokens) (s : PHPSourceFile) (rest : Tokens)
    (s1 : PHPSourceFile) : Prop :=
  ∃ t s0, t.type = TokType.chr_rbrace ∧ Run toks s (t :: rest) s0 ∧
    s1 = { NextToken_found s0 t with m_lookBackTokens := [] } ∧ s1.m_depth = retDepth

/-- A result of the statement loop, when there is one, is reached by a run and
is one of the two ways the loop stops. -/
def ParseOutcome (retDepth : Int) (toks : Tokens) (s : PHPSourceFile)
    (r : Option (Tokens × PHPSourceFile)) : Prop :=
  ∀ rest s1, r = some (rest, s1) →
    Run toks s rest s1 ∧ (EofExit rest s1 ∨ BraceExit retDepth toks s rest s1)

/-! ## The entity tree -/

/-- The shape of the scope stack and of the entity tree: nothing is stored
before the namespace is; the namespace is entity 0, it is the bottom of the
scope stack and has no parent; the scope stack holds entities of the store;
every other entity is no namespace and is a child of an entity created before
it. -/
structure TreeInv (s : PHPSourceFile) : Prop where
  empty : s.m_scopes = [] → s.store = []
  bottom : ∀ x more, s.m_scopes = x :: more → x = 0
  valid : ∀ x ∈ s.m_scopes, x < s.store.length
  root : s.store ≠ [] → (entityAt s 0).kind = EntityKind.kEntityTypeNamespace ∧
    (entityAt s 0).parent = none
  child : ∀ i, 0 < i → i < s.store.length →
    (entityAt s i).kind ≠ EntityKind.kEntityTypeNamespace ∧
    ∃ p, (entityAt s i).parent = some p ∧ p < i ∧ i ∈ (entityAt s p).children

/-- The `n`-th ancestor of the entity `i`, following the `parent` references. -/
def ancestor (s : PHPSourceFile) : Nat → Nat → Option Nat
  | 0, i => some i
  | n + 1, i =>
    match (entityAt s i).parent with
    | some p => ancestor s n p
    | none => none

/-- Whether the entity `i` is the entity `a` or lies below it in the tree. -/
def descendsFrom (s : PHPSourceFile) (i a : Nat) : Bool :=
  (List.range (s.store.length + 1)).any (fun n => ancestor s n i == some a)

/-- The store only grows from `s` to `s1`, and the entities of `s` keep their
kind, their parent and their name. -/
def StoreGrows (s s1 : PHPSourceFile) : Prop :=
  s.store.length ≤ s1.store.length ∧
  ∀ i, i < s.store.length →
    (entityAt s1 i).kind = (entityAt s i).kind ∧
    (entityAt s1 i).parent = (entityAt s i).parent ∧
    (entityAt s1 i).fullName = (entityAt s i).fullName

/-- The entity `c` is on the scope stack, right above the entries `outer`; the
entries above it were created after it, and every entity created after `c` has
`c` or an entity created after `c` as its parent. -/
def Inside (outer : List Nat) (c : Nat) (s : PHPSourceFile) : Prop :=
  (∃ up, s.m_scopes = outer ++ c :: up ∧ ∀ x ∈ up, c < x) ∧
  c < s.store.length ∧
  ∀ i, c < i → i < s.store.length → ∃ p, (entityAt s i).parent = some p ∧ c ≤ p

/-- The class entity `c` was left open at the end of input: the input is
exhausted; `c` is on the scope stack, right above the entries `outer`; `c` is a
class and a child of the scope `sc`; every entity created after `c` is listed
among the children of its parent, which is `c` or an entity created after `c`,
and so it descends from `c`. -/
def LeftOpen (outer : List Nat) (sc c : Nat) (s : PHPSourceFile) : Prop :=
  s.m_reachedEOF = true ∧
  (∃ up, s.m_scopes = outer ++ c :: up) ∧
  (entityAt s c).kind = EntityKind.kEntityTypeClass ∧
  (entityAt s c).parent = some sc ∧
  c ∈ (entityAt s sc).children ∧
  ∀ i, c < i → i < s.store.length →
    (∃ p, (entityAt s i).parent = some p ∧ c ≤ p ∧ i ∈ (entityAt s p).children) ∧
    descendsFrom s i c = true

/-- The tokens of `class A { class B {`. -/
def tokensNestedClass : Tokens :=
  [mkToken TokType.kPHP_T_CLASS "class" 1, mkToken TokType.kPHP_T_IDENTIFIER "A" 1,
   mkToken TokType.chr_lbrace "\x7b" 1, mkToken TokType.kPHP_T_CLASS "class" 2,
   mkToken TokType.kPHP_T_IDENTIFIER "B" 2, mkToken TokType.chr_lbrace "\x7b" 2]

/-- The tokens of `class C { public $x; function f($a) {`. -/
def tokensTruncatedClass : Tokens :=
  [mkToken TokType.kPHP_T_CLASS "class" 1, mkToken TokType.kPHP_T_IDENTIFIER "C" 1,
   mkToken TokType.chr_lbrace "\x7b" 1, mkToken TokType.kPHP_T_PUBLIC "public" 2,
   mkToken TokType.kPHP_T_VARIABLE "$x" 2, mkToken TokType.chr_semi ";" 2,
   mkToken TokType.kPHP_T_FUNCTION "function" 3, mkToken TokType.kPHP_T_IDENTIFIER "f" 3,
   mkToken TokType.chr_lparen "(" 3, mkToken TokType.kPHP_T_VARIABLE "$a" 3,
   mkToken TokType.chr_rparen ")" 3, mkToken TokType.chr_lbrace "\x7b" 3]

/-- The tokens of `class C` followed by an opening brace and the end of input. -/
def tokensOpenClass : Tokens :=
  [mkToken TokType.kPHP_T_CLASS "class" 1, mkToken TokType.kPHP_T_IDENTIFIER "C" 1,
   mkToken TokType.chr_lbrace "\x7b" 1]

/-- The tokens of `class C` with an empty, closed body. -/
def tokensClosedClass : Tokens :=
  [mkToken TokType.kPHP_T_CLASS "class" 1, mkToken TokType.kPHP_T_IDENTIFIER "C" 1,
   mkToken TokType.chr_lbrace "\x7b" 1, mkToken TokType.chr_rbrace "\x7d" 1]

/-- The tokens of `const X` followed by the end of input. -/
def tokensConstCut : Tokens :=
  [mkToken TokType.kPHP_T_CONST "const" 1, mkToken TokType.kPHP_T_IDENTIFIER "X" 1]

/-- A parser whose alias table holds the single entry `Baz` to `\Foo\Bar`. -/
def aliasBazState : PHPSourceFile :=
  { m_aliases := [("Baz".toList, "\\Foo\\Bar".toList)] }
/-- The tokens of `use A\string; use B\string;`. -/
def tokensPrimitiveAlias : Tokens :=
  [ mkToken TokType.kPHP_T_USE "use" 1,
    mkToken TokType.kPHP_T_IDENTIFIER "A" 1,
    mkToken TokType.kPHP_T_NS_SEPARATOR "\\" 1,
    mkToken TokType.kPHP_T_IDENTIFIER "string" 1,
    mkToken TokType.chr_semi ";" 1,
    mkToken TokType.kPHP_T_USE "use" 2,
    mkToken TokType.kPHP_T_IDENTIFIER "B" 2,
    mkToken TokType.kPHP_T_NS_SEPARATOR "\\" 2,
    mkToken TokType.kPHP_T_IDENTIFIER "string" 2,
    mkToken TokType.chr_semi ";" 2 ]

/-- The item `X\Y as Baz`. -/
def useItemFirstBaz : UseItem :=
  { path := [ mkToken TokType.kPHP_T_IDENTIFIER "X" 1,
              mkToken TokType.kPHP_T_NS_SEPARATOR "\\" 1,
              mkToken TokType.kPHP_T_IDENTIFIER "Y" 1 ],
    asAlias := some (mkToken TokType.kPHP_T_AS "as" 1,
                     mkToken TokType.kPHP_T_IDENTIFIER "Baz" 1) }

/-- The item `Foo\Bar as Baz`. -/
def useItemSecondBaz : UseItem :=
  { path := [ mkToken TokType.kPHP_T_IDENTIFIER "Foo" 2,
              mkToken TokType.kPHP_T_NS_SEPARATOR "\\" 2,
              mkToken TokType.kPHP_T_IDENTIFIER "Bar" 2 ],
    asAlias := some (mkToken TokType.kPHP_T_AS "as" 2,
                     mkToken TokType.kPHP_T_IDENTIFIER "Baz" 2) }
/-- Following the spec's words: the name a `namespace` statement gives, "the
concatenation of the consumed token texts with a leading separator added if the
first token is not a separator"; `p` holds the tokens before the `;`. -/
def namespacePath : Tokens → WxString
  | [] => []
  | t :: ts =>
    if t.type = TokType.kPHP_T_NS_SEPARATOR then tokensText (t :: ts)
    else nsSep ++ tokensText (t :: ts)

/-- The tokens before the first token of kind `delim`. -/
def tokensBefore (delim : TokType) (toks : Tokens) : Tokens :=
  toks.takeWhile (fun t => t.type != delim)

/-- The tokens after the first token of kind `delim`; none when there is no such
token. -/
def tokensAfter (delim : TokType) (toks : Tokens) : Tokens :=
  (toks.dropWhile (fun t => t.type != delim)).drop 1

/-- The tokens of `A\B; class` after the keyword `namespace`. -/
def tokensNamespaceName : Tokens :=
  [ mkToken TokType.kPHP_T_IDENTIFIER "A" 1,
    mkToken TokType.kPHP_T_NS_SEPARATOR "\\" 1,
    mkToken TokType.kPHP_T_IDENTIFIER "B" 1,
    mkToken TokType.chr_semi ";" 1,
    mkToken TokType.kPHP_T_CLASS "class" 2 ]

/-- The texts of the comma-separated items of a token sequence, in source
order: the text of an item is the concatenation of the texts of its tokens;
`temp` is the text of the first item read so far. -/
def commaSeparatedTexts (temp : WxString) : Tokens → List WxString
  | [] => [temp]
  | t :: ts =>
    if t.type = TokType.chr_comma then temp :: commaSeparatedTexts [] ts
    else commaSeparatedTexts (temp ++ t.text) ts

/-- Following the spec's words: the list a trait-use statement sets, "a
comma-separated, `;`-terminated list of resolved absolute identifiers": the
items of the tokens `p` before the `;`, empty items skipped, each resolved by
`MakeIdentifierAbsolute` in the parser `s`. -/
def traitNames (s : PHPSourceFile) (p : Tokens) : List WxString :=
  ((commaSeparatedTexts [] p).filter (fun w => !w.isEmpty)).map
    (fun w => (MakeIdentifierAbsolute s w).1)

/-- The tokens of `A, B\C;` followed by a closing brace, after the keyword
`use`. -/
def tokensTraitUse : Tokens :=
  [ mkToken TokType.kPHP_T_IDENTIFIER "A" 2,
    mkToken TokType.chr_comma "," 2,
    mkToken TokType.kPHP_T_IDENTIFIER "B" 2,
    mkToken TokType.kPHP_T_NS_SEPARATOR "\\" 2,
    mkToken TokType.kPHP_T_IDENTIFIER "C" 2,
    mkToken TokType.chr_semi ";" 2,
    mkToken TokType.chr_rbrace "\x7d" 3 ]

/-- A parser inside the body of a class `\K` of the global namespace. -/
def insideClassState : PHPSourceFile :=
  { m_depth := 1,
    m_scopes := [0, 1],
    store := [ { kind := EntityKind.kEntityTypeNamespace, fullName := nsSep, children := [1] },
               { kind := EntityKind.kEntityTypeClass, fullName := "\\K".toList,
                 shortName := "K".toList, parent := some 0 } ] }

/-- The step a token makes on the parenthesis depth. -/
def parenDelta (t : phpLexerToken) : Int :=
  if t.type = TokType.chr_lparen then 1 else if t.type = TokType.chr_rparen then -1 else 0

/-- The opening parentheses minus the closing parentheses of a token sequence. -/
def parenBalance : Tokens → Int
  | [] => 0
  | t :: ts => parenDelta t + parenBalance ts

/-- The tokens of the default-value expression `foo((2+3))`. -/
def tokensNestedCallDefault : Tokens :=
  [ mkToken TokType.kPHP_T_IDENTIFIER "foo" 1,
    mkToken TokType.chr_lparen "(" 1,
    mkToken TokType.chr_lparen "(" 1,
    mkToken (TokType.other 0) "2" 1,
    mkToken (TokType.other 1) "+" 1,
    mkToken (TokType.other 0) "3" 1,
    mkToken TokType.chr_rparen ")" 1,
    mkToken TokType.chr_rparen ")" 1 ]

/-- The parser of `OnFunction` right after the function entity `func` was
attached to the current scope and pushed on the scope stack. -/
def OnFunction_pushed (func : PHPEntity) (s : PHPSourceFile) : PHPSourceFile :=
  { (AddChild (CurrentScope s).2 (CurrentScope s).1 func).2 with
    m_scopes := (AddChild (CurrentScope s).2 (CurrentScope s).1 func).2.m_scopes ++
      [(AddChild (CurrentScope s).2 (CurrentScope s).1 func).1] }

/-- The unread tokens and the parser of `OnFunction` right after the call of
`ParseFunctionSignature`. -/
def OnFunction_signature (func : PHPEntity) (funcDepth : Int) (toks : Tokens)
    (s : PHPSourceFile) : Tokens × PHPSourceFile :=
  ParseFunctionSignature funcDepth toks (OnFunction_pushed func s)

/-- The second operand of the test of `OnFunction` for an abstract function:
the parent of the function is a class marked as interface. -/
def OnFunction_inInterface (func : PHPEntity) (funcDepth : Int) (toks : Tokens)
    (s : PHPSourceFile) : Bool :=
  (entityAt (OnFunction_signature func funcDepth toks s).2 (CurrentScope s).1).kind ==
      EntityKind.kEntityTypeClass &&
    (entityAt (OnFunction_signature func funcDepth toks s).2 (CurrentScope s).1).isInterface

/-- The test of `OnFunction` for an abstract function: the look-back buffer
holds the keyword `abstract`, or the parent is an interface. -/
def OnFunction_isAbstract (func : PHPEntity) (funcDepth : Int) (toks : Tokens)
    (s : PHPSourceFile) : Bool :=
  LookBackTokensContains (OnFunction_signature func funcDepth toks s).2 TokType.kPHP_T_ABSTRACT ||
    OnFunction_inInterface func funcDepth toks s

/-- The flags `OnFunction` stores in the function entity. -/
def OnFunction_flags (func : PHPEntity) (funcDepth : Int) (toks : Tokens)
    (s : PHPSourceFile) : Nat :=
  if OnFunction_isAbstract func funcDepth toks s then
    LookBackForFunctionFlags (OnFunction_signature func funcDepth toks s).2 ||| kFunc_Abstract
  else LookBackForFunctionFlags (OnFunction_signature func funcDepth toks s).2

/-- A parser inside the body of an interface `\\I` of the global namespace. -/
def insideInterfaceState : PHPSourceFile :=
  { m_depth := 1,
    m_scopes := [0, 1],
    store := [ { kind := EntityKind.kEntityTypeNamespace, fullName := nsSep, children := [1] },
               { kind := EntityKind.kEntityTypeClass, fullName := "\\I".toList,
                 shortName := "I".toList, parent := some 0, isInterface := true } ] }

/-- The function entity of a method `m`, as `OnFunction` creates it. -/
def interfaceMethod : PHPEntity :=
  { ({ kind := EntityKind.kEntityTypeFunction } : PHPEntity).SetFullName "m".toList with
    line := 4 }

/-- The tokens of `(); public` after the name of a method. -/
def tokensInterfaceMethod : Tokens :=
  [ mkToken TokType.chr_lparen "(" 4,
    mkToken TokType.chr_rparen ")" 4,
    mkToken TokType.chr_semi ";" 4,
    mkToken TokType.kPHP_T_PUBLIC "public" 5 ]

/-- A parser inside the body of a class `\\K` that has read `abstract function m`. -/
def abstractMethodState : PHPSourceFile :=
  { insideClassState with
    m_lookBackTokens := [ mkToken TokType.kPHP_T_ABSTRACT "abstract" 4,
      mkToken TokType.kPHP_T_FUNCTION "function" 4,
      mkToken TokType.kPHP_T_IDENTIFIER "m" 4 ] }

/-- The two ways a round of the statement loop of `Parse` ends: the routine
returns (`stop`; the result is `none` when the bound of a nested call is used
up), or the loop goes on to its next round with the unread tokens and the
parser the round leaves (`next`). -/
inductive Round where
  | stop (r : Option (Tokens × PHPSourceFile))
  | next (ts : Tokens) (s : PHPSourceFile)

/-- One round of the loop of `PHPSourceFile::Parse`: the body of the `while`
loop, run on the token `token` the loop has just been given by the scanner;
`ts` are the tokens after it and `s` is the parser before `NextToken`. -/
def Parse_round (fuel : Nat) (retDepth : Int) (token : phpLexerToken) (ts : Tokens)
    (s : PHPSourceFile) : Round :=
  let s := NextToken_found s token
  match token.type with
  | TokType.chr_assign => Round.next ts { s with m_lookBackTokens := [] }
  | TokType.chr_lbrace => Round.next ts { s with m_lookBackTokens := [] }
  | TokType.chr_rbrace =>
    let s := { s with m_lookBackTokens := [] }
    if s.m_depth = retDepth then Round.stop (some (ts, s)) else Round.next ts s
  | TokType.chr_semi => Round.next ts { s with m_lookBackTokens := [] }
  | TokType.kPHP_T_VARIABLE =>
    let sc := CurrentScope s
    if (entityAt sc.2 sc.1).kind ≠ EntityKind.kEntityTypeClass then
      let r := OnVariable token ts sc.2
      Round.next r.1 r.2
    else Round.next ts sc.2
  | TokType.kPHP_T_PUBLIC | TokType.kPHP_T_PRIVATE | TokType.kPHP_T_PROTECTED =>
    let sc := CurrentScope s
    if (entityAt sc.2 sc.1).kind = EntityKind.kEntityTypeClass then
      let s1 := { sc.2 with m_lookBackTokens := sc.2.m_lookBackTokens ++ [token] }
      match ReadUntilFoundOneOf TokType.kPHP_T_VARIABLE TokType.kPHP_T_FUNCTION ts s1 with
      | (some (what, tk), ts1, s2) =>
        if what = TokType.kPHP_T_VARIABLE then
          let c := CurrentScope s2
          let a := AddChild c.2 c.1 (memberVariable s2 token.type tk)
          match ConsumeUntil TokType.chr_semi ts1 a.2 with
          | (false, ts2, s3) => Round.stop (some (ts2, s3))
          | (true, ts2, s3) => Round.next ts2 s3
        else
          match OnFunction fuel ts1 s2 with
          | none => Round.stop none
          | some (ts2, s3) => Round.next ts2 { s3 with m_lookBackTokens := [] }
      | (none, ts1, s2) => Round.next ts1 s2
    else Round.next ts sc.2
  | TokType.kPHP_T_DEFINE =>
    let r := OnDefine token ts s
    Round.next r.1 r.2
  | TokType.kPHP_T_CONST =>
    match ReadUntilFound TokType.kPHP_T_IDENTIFIER ts s with
    | (some tk, ts1, s1) =>
      let c := CurrentScope s1
      let a := AddChild c.2 c.1 (constVariable tk)
      match ConsumeUntil TokType.chr_semi ts1 a.2 with
      | (false, ts2, s2) => Round.stop (some (ts2, s2))
      | (true, ts2, s2) => Round.next ts2 s2
    | (none, ts1, s1) => Round.next ts1 s1
  | TokType.kPHP_T_REQUIRE | TokType.kPHP_T_REQUIRE_ONCE
  | TokType.kPHP_T_INCLUDE | TokType.kPHP_T_INCLUDE_ONCE =>
    Round.next ts { s with m_lookBackTokens := [] }
  | TokType.kPHP_T_USE =>
    let c := Class s
    let r := if c.1 then OnUseTrait ts c.2 else OnUse ts c.2
    Round.next r.1 { r.2 with m_lookBackTokens := [] }
  | TokType.kPHP_T_CLASS | TokType.kPHP_T_INTERFACE | TokType.kPHP_T_TRAIT =>
    match OnClass (Parse fuel) fuel token ts s with
    | none => Round.stop none
    | some (ts1, s1) => Round.next ts1 { s1 with m_lookBackTokens := [] }
  | TokType.kPHP_T_NAMESPACE =>
    let r := OnNamespace ts s
    Round.next r.1 { r.2 with m_lookBackTokens := [] }
  | TokType.kPHP_T_FUNCTION =>
    match OnFunction fuel ts s with
    | none => Round.stop none
    | some (ts1, s1) => Round.next ts1 { s1 with m_lookBackTokens := [] }
  | _ => Round.next ts s

/-- What `Parse` does with the outcome of a round: return, or run the
following rounds. -/
def Round.continue_ (fuel : Nat) (retDepth : Int) : Round → Option (Tokens × PHPSourceFile)
  | Round.stop r => r
  | Round.next ts s => Parse fuel retDepth ts s

/-- What a round of the statement loop does, as a run: a round that goes on
to the next round is a run from the tokens after the one it was given to the
tokens it leaves; a round that returns is a run too, and it returns either right after a
closing brace that brought the depth to `retDepth`, or at the end of input. -/
def RoundOutcome (retDepth : Int) (t : phpLexerToken) (ts : Tokens) (s : PHPSourceFile) :
    Round → Prop
  | Round.next ts1 s1 => Run ts (NextToken_found s t) ts1 s1
  | Round.stop none => True
  | Round.stop (some (ts1, s1)) =>
    Run ts (NextToken_found s t) ts1 s1 ∧
    ((t.type = TokType.chr_rbrace ∧ ts1 = ts ∧
        s1 = { NextToken_found s t with m_lookBackTokens := [] } ∧ s1.m_depth = retDepth) ∨
      (ts1 = [] ∧ s1.m_reachedEOF = true ∧ s1.m_scopes ≠ []))

/-- Whether the braces of a token sequence are balanced: no prefix closes more
braces than it opens, and every brace that is opened is closed. -/
def braceBalanced (l : Tokens) : Bool :=
  l.inits.all (fun p => decide (0 ≤ braceBalance p)) && decide (braceBalance l = 0)

/-- The tokens consumed between the moment `toks` were unread and the moment
`rest` are. -/
def consumedTokens (toks rest : Tokens) : Tokens := toks.take (toks.length - rest.length)

/-- Whether every nested construct of a body parsed by `Parse` is
brace-balanced.  The constructs are what the rounds of the loop consume: a
round consumes the token it dispatches on alone, or hands the tokens after it to
a routine (`OnFunction`, `OnClass`, `ConsumeUntil`, ...) that consumes a
construct; the tokens of such a round, dispatch token included, must be
balanced.  `closing` is the number of tokens unread when the loop is at the
brace that closes the body: the rounds from there on are not looked at. -/
def constructsBalanced (closing : Nat) : Nat → Int → Tokens → PHPSourceFile → Bool
  | 0, _, _, _ => true
  | _ + 1, _, [], _ => true
  | fuel + 1, retDepth, t :: ts, s =>
    if ts.length < closing then true
    else
      match Parse_round fuel retDepth t ts s with
      | Round.next ts1 s1 =>
        (decide (ts.length ≤ ts1.length) || braceBalanced (consumedTokens (t :: ts) ts1)) &&
          constructsBalanced closing fuel retDepth ts1 s1
      | Round.stop (some (ts1, _)) =>
        decide (ts.length ≤ ts1.length) || braceBalanced (consumedTokens (t :: ts) ts1)
      | Round.stop none => true

/-- The tokens of the class body `public $x; function f() { $y = 1; }`. -/
def tokensBalancedClassBody : Tokens :=
  [ mkToken TokType.kPHP_T_PUBLIC "public" 2,
    mkToken TokType.kPHP_T_VARIABLE "$x" 2,
    mkToken TokType.chr_semi ";" 2,
    mkToken TokType.kPHP_T_FUNCTION "function" 3,
    mkToken TokType.kPHP_T_IDENTIFIER "f" 3,
    mkToken TokType.chr_lparen "(" 3,
    mkToken TokType.chr_rparen ")" 3,
    mkToken TokType.chr_lbrace "\x7b" 3,
    mkToken TokType.kPHP_T_VARIABLE "$y" 3,
    mkToken TokType.chr_assign "=" 3,
    mkToken (TokType.other 0) "1" 3,
    mkToken TokType.chr_semi ";" 3,
    mkToken TokType.chr_rbrace "\x7d" 3 ]

/-- The tokens of `function g` that follow the class in the example. -/
def tokensAfterClassBody : Tokens :=
  [ mkToken TokType.kPHP_T_FUNCTION "function" 5,
    mkToken TokType.kPHP_T_IDENTIFIER "g" 5 ]

/-- A result of a bounded routine, when there is one, has the flag of the
failed class cast as the parser `s` has it. -/
def CastKept (s : PHPSourceFile) (r : Option (Tokens × PHPSourceFile)) : Prop :=
  ∀ x, r = some x → x.2.nullClassCast = s.nullClassCast

/-- The scope stack holds namespaces and classes only. -/
def scopesOk (s : PHPSourceFile) : Prop :=
  ∀ x ∈ s.m_scopes, (entityAt s x).kind = EntityKind.kEntityTypeNamespace ∨
    (entityAt s x).kind = EntityKind.kEntityTypeClass

/-- The invariant of the statement loop, for the unread tokens `toks` and the
parser `s` at the head of the loop: the entity tree is well formed; tokens are
left only while the end of input was not met; and until then the scope stack
holds namespaces and classes only. -/
def LoopInv (toks : Tokens) (s : PHPSourceFile) : Prop :=
  TreeInv s ∧ (s.m_reachedEOF = true → toks = []) ∧ (s.m_reachedEOF = false → scopesOk s)

/-- The scope stack of `s1` is the one of `s`, up to the global namespace that
`CurrentScope` pushes on an empty stack: either the two stacks are equal, and
then nothing was stored in between when they are empty, or the stack of `s` is
empty and the one of `s1` holds the namespace created first after `s`. -/
def ScopesRestored (s s1 : PHPSourceFile) : Prop :=
  (s1.m_scopes = s.m_scopes ∧ (s.m_scopes = [] → s1.store.length = s.store.length)) ∨
  (s.m_scopes = [] ∧ s1.m_scopes = [s.store.length])

/-- The two ways the header of a class declaration ends in `OnClass`: the
routine returns without a body (`done`), or it has attached and pushed the
class and calls the statement loop on the body, with the exit depth, the unread
tokens and the parser given (`body`). -/
inductive ClassHead where
  | done (r : Option (Tokens × PHPSourceFile))
  | body (retDepth : Int) (ts : Tokens) (s : PHPSourceFile)

/-- The second loop of `PHPSourceFile::OnClass` up to the call of the
statement loop on the class body. -/
def OnClass_loop_head : Nat → PHPEntity → Tokens → PHPSourceFile → ClassHead
  | 0, _, _, _ => ClassHead.done none
  | _ + 1, _, [], s => ClassHead.done (some ([], NextToken_eof s))
  | fuel + 1, klass, token :: ts, s =>
    let s := NextToken_found s token
    if token.IsAnyComment then OnClass_loop_head fuel klass ts s
    else
      match token.type with
      | TokType.kPHP_T_EXTENDS =>
        match ReadUntilFound TokType.kPHP_T_IDENTIFIER ts s with
        | (none, ts1, s1) => ClassHead.done (some (ts1, s1))
        | (some tk, ts1, s1) =>
          let m := MakeIdentifierAbsolute s1 tk.text
          OnClass_loop_head fuel { klass with extends_ := m.1 } ts1 m.2
      | TokType.kPHP_T_IMPLEMENTS =>
        match ReadCommaSeparatedIdentifiers TokType.chr_lbrace ts s [] [] with
        | (false, _, ts1, s1) => ClassHead.done (some (ts1, s1))
        | (true, l, ts1, s1) => OnClass_loop_head fuel { klass with implements_ := l } ts1 s1
      | TokType.chr_lbrace =>
        let sc := CurrentScope s
        let a := AddChild sc.2 sc.1 klass
        let s1 := { a.2 with m_scopes := a.2.m_scopes ++ [a.1] }
        ClassHead.body (s1.m_depth - 1) ts s1
      | _ => OnClass_loop_head fuel klass ts s

/-- `PHPSourceFile::OnClass` up to the call of the statement loop on the class
body. -/
def OnClass_head (fuel : Nat) (tok : phpLexerToken) (toks : Tokens) (s : PHPSourceFile) :
    ClassHead :=
  match OnClass_name toks s with
  | (none, ts, s1) => ClassHead.done (some (ts, s1))
  | (some token, ts, s1) =>
    let m := MakeIdentifierAbsolute s1 token.text
    let k : PHPEntity := { kind := EntityKind.kEntityTypeClass }
    let k := { k with isInterface := tok.type == TokType.kPHP_T_INTERFACE,
                      isTrait := tok.type == TokType.kPHP_T_TRAIT }
    let k := { k.SetFullName m.1 with line := token.lineNumber }
    OnClass_loop_head fuel k ts m.2

/-- What `OnClass` does after the header: it returns what the header returned,
or runs the statement loop `parse` on the body and pops the class unless the
input is exhausted. -/
def ClassHead.finish (parse : Int → Tokens → PHPSourceFile → Option (Tokens × PHPSourceFile)) :
    ClassHead → Option (Tokens × PHPSourceFile)
  | ClassHead.done r => r
  | ClassHead.body d ts s1 =>
    match parse d ts s1 with
    | none => none
    | some (ts2, s2) => some (ts2, if !s2.m_reachedEOF then popScope s2 else s2)

/-- What the header of a class declaration is, as a run from the tokens `toks`
and the parser `s`: a header that returns is a run that leaves the flag of the
failed class cast alone; a header that gets to the body is such a run up to the
opening brace `lb`, after which a class entity is attached to the current scope
and pushed. -/
def ClassHeadOutcome (toks : Tokens) (s : PHPSourceFile) : ClassHead → Prop
  | ClassHead.done none => True
  | ClassHead.done (some (ts, s1)) => Run toks s ts s1 ∧ s1.nullClassCast = s.nullClassCast
  | ClassHead.body d ts s1 =>
    ∃ (lb : phpLexerToken) (s0 : PHPSourceFile) (k : PHPEntity),
      k.kind = EntityKind.kEntityTypeClass ∧ k.children = [] ∧
      Run toks s (lb :: ts) s0 ∧ s0.nullClassCast = s.nullClassCast ∧
      s1 = OnFunction_pushed k (NextToken_found s0 lb) ∧ d = s1.m_depth - 1

/-- The parser `x` is one in which the loop of `Parse` asks the scanner for a
token and gets one to dispatch on, during the call `Parse fuel d toks s`: in the
loop of that call itself, at its first round (`here`) or at a later one
(`later`), or in the loop of a call of `Parse` that `OnClass` makes for the body
of a class met by the call (`nested`). -/
inductive Dispatches : Nat → Int → Tokens → PHPSourceFile → PHPSourceFile → Prop where
  | here (fuel : Nat) (d : Int) (t : phpLexerToken) (ts : Tokens) (s : PHPSourceFile) :
      Dispatches (fuel + 1) d (t :: ts) s s
  | later {fuel : Nat} {d : Int} {t : phpLexerToken} {ts ts1 : Tokens}
      {s s1 x : PHPSourceFile} :
      Parse_round fuel d t ts s = Round.next ts1 s1 → Dispatches fuel d ts1 s1 x →
      Dispatches (fuel + 1) d (t :: ts) s x
  | nested {fuel : Nat} {d d1 : Int} {t : phpLexerToken} {ts ts1 : Tokens}
      {s s1 x : PHPSourceFile} :
      (t.type = TokType.kPHP_T_CLASS ∨ t.type = TokType.kPHP_T_INTERFACE ∨
        t.type = TokType.kPHP_T_TRAIT) →
      OnClass_head fuel t ts (NextToken_found s t) = ClassHead.body d1 ts1 s1 →
      Dispatches fuel d1 ts1 s1 x → Dispatches (fuel + 1) d (t :: ts) s x

/-- A round of the statement loop leaves the flag of the failed class cast as
the parser `s` has it. -/
def RoundCast (s : PHPSourceFile) : Round → Prop
  | Round.next _ s1 => s1.nullClassCast = s.nullClassCast
  | Round.stop none => True
  | Round.stop (some (_, s1)) => s1.nullClassCast = s.nullClassCast

/-- The tokens of `f() { } ;` after the keyword `function`. -/
def tokensEmptyMethod : Tokens :=
  [ mkToken TokType.kPHP_T_IDENTIFIER "f" 2,
    mkToken TokType.chr_lparen "(" 2,
    mkToken TokType.chr_rparen ")" 2,
    mkToken TokType.chr_lbrace "\x7b" 2,
    mkToken TokType.chr_rbrace "\x7d" 2,
    mkToken TokType.chr_semi ";" 3 ]

/-! ## Strings: basic facts -/

theorem dropWhile_append_stop (p : Char → Bool) (l : List Char) (c : Char) (hc : p c = false) :
    (l ++ [c]).dropWhile p = l.dropWhile p ++ [c] := by
  induction l with
  | nil => simp [List.dropWhile, hc]
  | cons a l ih =>
    by_cases ha : p a = true
    · simp [List.dropWhile, ha, ih]
    · simp [List.dropWhile, ha]

theorem TrimRight_cons (c : Char) (r : WxString) (hc : wxIsSpace c = false) :
    TrimRight (c :: r) = c :: TrimRight r := by
  simp [TrimRight, dropWhile_append_stop _ _ _ hc]

theorem TrimLeft_cons (c : Char) (r : WxString) (hc : wxIsSpace c = false) :
    TrimLeft (c :: r) = c :: r := by
  simp [TrimLeft, List.dropWhile, hc]

theorem Trim_cons (c : Char) (r : WxString) (hc : wxIsSpace c = false) :
    Trim (c :: r) = c :: TrimRight r := by
  simp [Trim, TrimRight_cons c r hc, TrimLeft_cons c _ hc]

theorem isPrimitiveName_sep (r : WxString) : isPrimitiveName ('\\' :: r) = false := by
  simp [isPrimitiveName]

/-- A name that starts with the separator resolves to its right-trimmed form
and leaves the parser untouched. -/
theorem MakeIdentifierAbsolute_sep (s : PHPSourceFile) (r : WxString) :
    MakeIdentifierAbsolute s ('\\' :: r) = ('\\' :: TrimRight r, s) := by
  have hc : wxIsSpace '\\' = false := by decide
  simp [MakeIdentifierAbsolute, Trim_cons _ _ hc, isPrimitiveName_sep, Contains, StartsWith, nsSep]

/-! ## The claims -/

/-- C1 (the code departs from the claim): on the tokens of
`function f($a = foo(1,(2+3))){}` the parser attaches exactly one parameter,
`$a`, and its default value is `foo(1`: the comma inside the parentheses ends
the parameter, so the text is not `foo(1,(2+3))`. -/
theorem C1_nested_default_cut_at_comma :
    (ParseFile false (-1) tokensNestedDefault).map
        (fun r => r.2.store.map (fun e => (e.kind, e.fullName, e.children, e.defaultValue))) =
      some [ (EntityKind.kEntityTypeNamespace, "\\".toList, [1], []),
             (EntityKind.kEntityTypeFunction, "f".toList, [2], []),
             (EntityKind.kEntityTypeVariable, "$a".toList, [], "foo(1".toList) ] ∧
    "foo(1".toList ≠ "foo(1,(2+3))".toList := by
  decide

/-- C3: on the tokens of
`namespace A\B; class C extends D implements E,F { public $x; function g($p = 1){} }`,
with the function body skipped or parsed, the class (entity 1) has exactly the
two children 2 and 3 in declaration order: entity 2 is the variable `$x` with
the member flag and neither the static nor the const flag, entity 3 is the
function `g` whose only child, entity 4, is the function-argument variable
`$p` with default value `1` and empty type hint; at the end the scope stack
holds the namespace alone and the brace depth is 0 again. -/
theorem C3_class_body_members :
    ∀ parseBody : Bool, ∃ st : PHPSourceFile,
      ParseFile parseBody (-1) tokensSpecExample = some ([], st) ∧
      (entityAt st 1).kind = EntityKind.kEntityTypeClass ∧
      (entityAt st 1).children = [2, 3] ∧
      (entityAt st 2).kind = EntityKind.kEntityTypeVariable ∧
      (entityAt st 2).fullName = "$x".toList ∧
      (entityAt st 2).parent = some 1 ∧
      HasFlag (entityAt st 2).flags kVar_Member = true ∧
      HasFlag (entityAt st 2).flags kVar_Static = false ∧
      HasFlag (entityAt st 2).flags kVar_Const = false ∧
      (entityAt st 3).kind = EntityKind.kEntityTypeFunction ∧
      (entityAt st 3).fullName = "g".toList ∧
      (entityAt st 3).parent = some 1 ∧
      (entityAt st 3).children = [4] ∧
      (entityAt st 4).kind = EntityKind.kEntityTypeVariable ∧
      (entityAt st 4).fullName = "$p".toList ∧
      HasFlag (entityAt st 4).flags kVar_FunctionArg = true ∧
      (entityAt st 4).defaultValue = "1".toList ∧
      (entityAt st 4).typeHint = [] ∧
      st.store.length = 5 ∧
      st.m_scopes = [0] ∧
      (entityAt st 0).kind = EntityKind.kEntityTypeNamespace ∧
      st.m_depth = 0 := by
  intro parseBody
  cases parseBody
  · exact ⟨((ParseFile false (-1) tokensSpecExample).get (by decide)).2, by decide, by decide⟩
  · exact ⟨((ParseFile true (-1) tokensSpecExample).get (by decide)).2, by decide, by decide⟩

/-- C6: each of the eight primitive names `string`, `int`, `integer`, `bool`,
`boolean`, `double`, `array`, `mixed` is returned unchanged by
`MakeIdentifierAbsolute`, whatever the alias table, the namespace and the rest
of the parser state, and the parser state is left as it was. -/
theorem C6_primitive_names_unchanged (s : PHPSourceFile) (name : WxString)
    (h : name ∈ primitiveNames) : MakeIdentifierAbsolute s name = (name, s) := by
  simp only [primitiveNames, List.mem_cons, List.mem_singleton, List.not_mem_nil, or_false] at h
  rcases h with h | h | h | h | h | h | h | h <;> subst h <;> rfl

theorem C6_primitive_names_unchanged_witness :
    "int".toList ∈ primitiveNames ∧
    MakeIdentifierAbsolute { m_aliases := [("int".toList, "\\Foo\\Int".toList)] } "int".toList =
      ("int".toList, { m_aliases := [("int".toList, "\\Foo\\Int".toList)] }) :=
  ⟨by decide, C6_primitive_names_unchanged _ _ (by decide)⟩

/-- C7 (as stated, refuted): the name `\A ` begins with the path separator and
`MakeIdentifierAbsolute` does not return it unchanged: the result is `\A`. -/
theorem C7_trailing_space_counterexample :
    StartsWith "\\A ".toList nsSep = true ∧
    (MakeIdentifierAbsolute (newSourceFile false) "\\A ".toList).1 = "\\A".toList ∧
    (MakeIdentifierAbsolute (newSourceFile false) "\\A ".toList).1 ≠ "\\A ".toList := by
  decide

/-- C7 (amended): for every name that begins with the path separator, every
alias table and every namespace, `MakeIdentifierAbsolute` returns the name with
its trailing whitespace removed and leaves the parser state as it was; a name
without trailing whitespace is therefore returned unchanged. -/
theorem C7_absolute_name_right_trimmed (s : PHPSourceFile) (name : WxString)
    (h : StartsWith name nsSep = true) :
    MakeIdentifierAbsolute s name = (TrimRight name, s) ∧
    (TrimRight name = name → MakeIdentifierAbsolute s name = (name, s)) := by
  have hc : wxIsSpace '\\' = false := by decide
  cases name with
  | nil => simp [StartsWith, nsSep] at h
  | cons c r =>
    have hcc : c = '\\' := by
      have := h
      simp [StartsWith, nsSep] at this
      exact this.symm
    subst hcc
    have h1 : MakeIdentifierAbsolute s ('\\' :: r) = (TrimRight ('\\' :: r), s) := by
      rw [MakeIdentifierAbsolute_sep, TrimRight_cons _ _ hc]
    exact ⟨h1, fun h2 => by rw [h1, h2]⟩

theorem C7_absolute_name_right_trimmed_witness :
    StartsWith "\\Foo\\Bar".toList nsSep = true ∧
    (MakeIdentifierAbsolute (newSourceFile false) "\\Foo\\Bar".toList =
        (TrimRight "\\Foo\\Bar".toList, newSourceFile false) ∧
      (TrimRight "\\Foo\\Bar".toList = "\\Foo\\Bar".toList →
        MakeIdentifierAbsolute (newSourceFile false) "\\Foo\\Bar".toList =
          ("\\Foo\\Bar".toList, newSourceFile false))) :=
  ⟨by decide, C7_absolute_name_right_trimmed _ _ (by decide)⟩

/-- C10 (the code departs from the claim): on the tokens of
`class C implements E, E {}` the class gets the implements list `[\E, \E]`:
the interface named twice is stored twice, because the list of resolved names
is searched for the unresolved text. -/
theorem C10_repeated_interface_kept_twice :
    (ParseFile false (-1) tokensRepeatedInterface).map
        (fun r => r.2.store.map (fun e => (e.kind, e.fullName, e.implements_))) =
      some [ (EntityKind.kEntityTypeNamespace, "\\".toList, []),
             (EntityKind.kEntityTypeClass, "\\C".toList, ["\\E".toList, "\\E".toList]) ] ∧
    ¬ ["\\E".toList, "\\E".toList].Nodup := by
  decide

/-! ## Frame facts of the token source -/

@[simp] theorem NextToken_found_store (s : PHPSourceFile) (t : phpLexerToken) :
    (NextToken_found s t).store = s.store := by
  unfold NextToken_found; split_ifs <;> rfl

@[simp] theorem NextToken_found_scopes (s : PHPSourceFile) (t : phpLexerToken) :
    (NextToken_found s t).m_scopes = s.m_scopes := by
  unfold NextToken_found; split_ifs <;> rfl

@[simp] theorem NextToken_found_defines (s : PHPSourceFile) (t : phpLexerToken) :
    (NextToken_found s t).m_defines = s.m_defines := by
  unfold NextToken_found; split_ifs <;> rfl

@[simp] theorem NextToken_found_aliases (s : PHPSourceFile) (t : phpLexerToken) :
    (NextToken_found s t).m_aliases = s.m_aliases := by
  unfold NextToken_found; split_ifs <;> rfl

@[simp] theorem NextToken_found_reachedEOF (s : PHPSourceFile) (t : phpLexerToken) :
    (NextToken_found s t).m_reachedEOF = s.m_reachedEOF := by
  unfold NextToken_found; split_ifs <;> rfl

@[simp] theorem NextToken_found_parseFunctionBody (s : PHPSourceFile) (t : phpLexerToken) :
    (NextToken_found s t).m_parseFunctionBody = s.m_parseFunctionBody := by
  unfold NextToken_found; split_ifs <;> rfl

/-- `ConsumeUntil` touches neither the entities, nor the scope stack, nor the
list of defines, nor the alias table. -/
theorem ConsumeUntil_frame (delim : TokType) (toks : Tokens) (s : PHPSourceFile) :
    (ConsumeUntil delim toks s).2.2.store = s.store ∧
    (ConsumeUntil delim toks s).2.2.m_scopes = s.m_scopes ∧
    (ConsumeUntil delim toks s).2.2.m_defines = s.m_defines ∧
    (ConsumeUntil delim toks s).2.2.m_aliases = s.m_aliases := by
  induction toks generalizing s with
  | nil => simp [ConsumeUntil, NextToken_eof]
  | cons t ts ih =>
    unfold ConsumeUntil
    split_ifs
    · simp
    · have := ih (NextToken_found s t)
      simpa using this

/-- C5: for every constant name `name` written between two single or two
double quotes, every parser state (namespace, scope stack, entities) and every
continuation of the token stream, `OnDefine` on `(`, the quoted string and the
rest appends exactly one entity to the list of defines: a variable whose full
name is `name` with a leading separator enforced, whose short name is the part
of the full name after the last separator and which carries the is-define
flag; the entity store (hence every child list) and the scope stack are left
unchanged. -/
theorem C5_define_appends_global_constant (s : PHPSourceFile) (tok lp str : phpLexerToken)
    (q : Char) (name : WxString) (rest : Tokens)
    (hlp : lp.type = TokType.chr_lparen)
    (hstr : str.type = TokType.kPHP_T_CONSTANT_ENCAPSED_STRING)
    (hq : q = squote ∨ q = dquote) (htext : str.text = q :: name ++ [q]) :
    ∃ v : PHPEntity,
      (OnDefine tok (lp :: str :: rest) s).2.m_defines = s.m_defines ++ [v] ∧
      v.kind = EntityKind.kEntityTypeVariable ∧
      v.fullName = (if StartsWith name nsSep then name else nsSep ++ name) ∧
      v.shortName = AfterLast v.fullName '\\' ∧
      HasFlag v.flags kVar_Define = true ∧
      v.line = tok.lineNumber ∧
      v.parent = none ∧
      (OnDefine tok (lp :: str :: rest) s).2.store = s.store ∧
      (OnDefine tok (lp :: str :: rest) s).2.m_scopes = s.m_scopes := by
  have hcond : ((StartsWith str.text [dquote] && EndsWith str.text [dquote]) ||
      (StartsWith str.text [squote] && EndsWith str.text [squote])) = true := by
    rcases hq with h | h <;> subst h <;> simp [htext, StartsWith, EndsWith]
  have hname : RemoveLast (str.text.drop 1) = name := by
    simp [htext, RemoveLast]
  refine ⟨defineConstant name tok.lineNumber, ?_, ?_⟩
  · simp only [OnDefine, NextToken, hlp, hstr, ne_eq, not_true_eq_false, if_false, hcond,
      if_true, hname]
    rw [(ConsumeUntil_frame _ _ _).2.2.1]
    simp only [NextToken_found_defines]
  · simp only [OnDefine, NextToken, hlp, hstr, ne_eq, not_true_eq_false, if_false, hcond,
      if_true, hname]
    rw [(ConsumeUntil_frame _ _ _).1, (ConsumeUntil_frame _ _ _).2.1]
    simp [defineConstant, PHPEntity.SetFlag, PHPEntity.SetFullName, HasFlag, kVar_Define]

theorem C5_define_appends_global_constant_witness :
    ∃ v : PHPEntity,
      (OnDefine (mkToken TokType.kPHP_T_DEFINE "define" 3)
          (mkToken TokType.chr_lparen "(" 3 ::
            mkToken TokType.kPHP_T_CONSTANT_ENCAPSED_STRING "'FOO'" 3 ::
            [mkToken TokType.chr_comma "," 3, mkToken (TokType.other 0) "1" 3,
              mkToken TokType.chr_rparen ")" 3, mkToken TokType.chr_semi ";" 3])
          (newSourceFile false)).2.m_defines = (newSourceFile false).m_defines ++ [v] ∧
      v.kind = EntityKind.kEntityTypeVariable ∧
      v.fullName = (if StartsWith "FOO".toList nsSep then "FOO".toList else nsSep ++ "FOO".toList) ∧
      v.shortName = AfterLast v.fullName '\\' ∧
      HasFlag v.flags kVar_Define = true ∧
      v.line = (mkToken TokType.kPHP_T_DEFINE "define" 3).lineNumber ∧
      v.parent = none ∧
      (OnDefine (mkToken TokType.kPHP_T_DEFINE "define" 3)
          (mkToken TokType.chr_lparen "(" 3 ::
            mkToken TokType.kPHP_T_CONSTANT_ENCAPSED_STRING "'FOO'" 3 ::
            [mkToken TokType.chr_comma "," 3, mkToken (TokType.other 0) "1" 3,
              mkToken TokType.chr_rparen ")" 3, mkToken TokType.chr_semi ";" 3])
          (newSourceFile false)).2.store = (newSourceFile false).store ∧
      (OnDefine (mkToken TokType.kPHP_T_DEFINE "define" 3)
          (mkToken TokType.chr_lparen "(" 3 ::
            mkToken TokType.kPHP_T_CONSTANT_ENCAPSED_STRING "'FOO'" 3 ::
            [mkToken TokType.chr_comma "," 3, mkToken (TokType.other 0) "1" 3,
              mkToken TokType.chr_rparen ")" 3, mkToken TokType.chr_semi ";" 3])
          (newSourceFile false)).2.m_scopes = (newSourceFile false).m_scopes :=
  C5_define_appends_global_constant (newSourceFile false) _ _ _ squote "FOO".toList _
    (by decide) (by decide) (Or.inl rfl) (by decide)

/-! ## Names without whitespace -/

theorem TrimRight_of_no_space (w : WxString) (h : ∀ c ∈ w, wxIsSpace c = false) :
    TrimRight w = w := by
  induction w with
  | nil => rfl
  | cons c r ih =>
    rw [TrimRight_cons c r (h c (List.mem_cons_self _ _)),
      ih (fun x hx => h x (List.mem_cons_of_mem _ hx))]

theorem Trim_of_no_space (w : WxString) (h : ∀ c ∈ w, wxIsSpace c = false) : Trim w = w := by
  cases w with
  | nil => rfl
  | cons c r =>
    rw [Trim_cons c r (h c (List.mem_cons_self _ _)),
      TrimRight_of_no_space r (fun x hx => h x (List.mem_cons_of_mem _ hx))]

theorem isNameText_ne_nil {w : WxString} (h : isNameText w = true) : w ≠ [] := by
  intro hw
  subst hw
  simp [isNameText] at h

theorem isIdentifierChar_not_space {c : Char} (h : isIdentifierChar c = true) :
    wxIsSpace c = false := by
  cases hs : wxIsSpace c with
  | false => rfl
  | true =>
    simp only [wxIsSpace, Bool.or_eq_true, beq_iff_eq] at hs
    rcases hs with ((((hs | hs) | hs) | hs) | hs) | hs <;> subst hs <;> revert h <;> decide

theorem isIdentifierChar_not_sep {c : Char} (h : isIdentifierChar c = true) : c ≠ '\\' := by
  intro hc
  subst hc
  revert h
  decide

theorem isIdentifierChar_not_amp {c : Char} (h : isIdentifierChar c = true) : c ≠ '&' := by
  intro hc
  subst hc
  revert h
  decide

theorem isNameText_chars {w : WxString} (h : isNameText w = true) :
    ∀ c ∈ w, isIdentifierChar c = true := by
  intro c hc
  simp only [isNameText, Bool.and_eq_true, List.all_eq_true] at h
  exact h.2 c hc

theorem isNameText_no_space {w : WxString} (h : isNameText w = true) :
    ∀ c ∈ w, wxIsSpace c = false :=
  fun c hc => isIdentifierChar_not_space (isNameText_chars h c hc)

theorem isNameText_no_sep {w : WxString} (h : isNameText w = true) : ∀ c ∈ w, c ≠ '\\' :=
  fun c hc => isIdentifierChar_not_sep (isNameText_chars h c hc)

theorem isNameText_not_endsWith_amp {w : WxString} (h : isNameText w = true) :
    EndsWith w ['&'] = false := by
  have hne := isNameText_ne_nil h
  have hch := isNameText_chars h
  cases hr : w.reverse with
  | nil => simp at hr; exact absurd hr hne
  | cons c r =>
    have hc : c ∈ w := by
      have : c ∈ w.reverse := by rw [hr]; exact List.mem_cons_self _ _
      simpa using this
    have := isIdentifierChar_not_amp (hch c hc)
    simp only [EndsWith, hr, List.reverse_cons, List.reverse_nil, List.nil_append,
      List.isPrefixOf, Bool.and_true, beq_eq_false_iff_ne, ne_eq]
    exact fun hh => this hh.symm

theorem tokensText_append (a b : Tokens) : tokensText (a ++ b) = tokensText a ++ tokensText b := by
  induction a with
  | nil => rfl
  | cons t ts ih => simp [tokensText, ih]

/-- The text of identifier and separator tokens holds no whitespace. -/
theorem tokensText_no_space (p : Tokens)
    (h : p.all (fun t => isIdentifierToken t || isSeparatorToken t) = true) :
    ∀ c ∈ tokensText p, wxIsSpace c = false := by
  induction p with
  | nil => intro c hc; simp [tokensText] at hc
  | cons t ts ih =>
    simp only [List.all_cons, Bool.and_eq_true, Bool.or_eq_true] at h
    intro c hc
    simp only [tokensText, List.mem_append] at hc
    rcases hc with hc | hc
    · rcases h.1 with ht | ht
      · simp only [isIdentifierToken, Bool.and_eq_true] at ht
        exact isNameText_no_space ht.2 c hc
      · simp only [isSeparatorToken, Bool.and_eq_true, beq_iff_eq] at ht
        rw [ht.2] at hc
        simp only [nsSep, List.mem_singleton] at hc
        subst hc
        decide
    · exact ih h.2 c hc

/-! ## `use` statements -/

theorem readTokens_nil (s : PHPSourceFile) : readTokens s [] = s := rfl

theorem readTokens_cons (s : PHPSourceFile) (t : phpLexerToken) (l : Tokens) :
    readTokens s (t :: l) = readTokens (NextToken_found s t) l := rfl

theorem readTokens_append (s : PHPSourceFile) (a b : Tokens) :
    readTokens s (a ++ b) = readTokens (readTokens s a) b := by
  simp [readTokens, List.foldl_append]

@[simp] theorem readTokens_aliases (s : PHPSourceFile) (l : Tokens) :
    (readTokens s l).m_aliases = s.m_aliases := by
  induction l generalizing s with
  | nil => rfl
  | cons t ts ih => rw [readTokens_cons, ih, NextToken_found_aliases]

@[simp] theorem readTokens_store (s : PHPSourceFile) (l : Tokens) :
    (readTokens s l).store = s.store := by
  induction l generalizing s with
  | nil => rfl
  | cons t ts ih => rw [readTokens_cons, ih, NextToken_found_store]

@[simp] theorem readTokens_scopes (s : PHPSourceFile) (l : Tokens) :
    (readTokens s l).m_scopes = s.m_scopes := by
  induction l generalizing s with
  | nil => rfl
  | cons t ts ih => rw [readTokens_cons, ih, NextToken_found_scopes]

@[simp] theorem readTokens_defines (s : PHPSourceFile) (l : Tokens) :
    (readTokens s l).m_defines = s.m_defines := by
  induction l generalizing s with
  | nil => rfl
  | cons t ts ih => rw [readTokens_cons, ih, NextToken_found_defines]

theorem pathToken_type {t : phpLexerToken}
    (h : (isIdentifierToken t || isSeparatorToken t) = true) :
    t.type = TokType.kPHP_T_IDENTIFIER ∨ t.type = TokType.kPHP_T_NS_SEPARATOR := by
  simp only [Bool.or_eq_true, isIdentifierToken, isSeparatorToken, Bool.and_eq_true,
    beq_iff_eq] at h
  rcases h with h | h
  · exact Or.inl h.1
  · exact Or.inr h.1

theorem isPathTokens_types {p : Tokens} (h : isPathTokens p = true) :
    ∀ t ∈ p, t.type = TokType.kPHP_T_IDENTIFIER ∨ t.type = TokType.kPHP_T_NS_SEPARATOR := by
  intro t ht
  simp only [isPathTokens, Bool.and_eq_true, List.all_eq_true] at h
  exact pathToken_type (h.1 t ht)

theorem isPathTokens_no_space {p : Tokens} (h : isPathTokens p = true) :
    ∀ c ∈ tokensText p, wxIsSpace c = false := by
  simp only [isPathTokens, Bool.and_eq_true] at h
  exact tokensText_no_space p h.1

/-- The tokens of a qualified name end with an identifier. -/
theorem isPathTokens_last {p : Tokens} (h : isPathTokens p = true) :
    ∃ q t, p = q ++ [t] ∧ isIdentifierToken t = true := by
  simp only [isPathTokens, Bool.and_eq_true] at h
  have h2 := h.2
  cases hl : p.getLast? with
  | none => simp [hl] at h2
  | some t =>
    simp only [hl] at h2
    refine ⟨p.dropLast, t, ?_, h2⟩
    have hne : p ≠ [] := by
      intro hp
      subst hp
      simp at hl
    have := List.dropLast_append_getLast hne
    rw [List.getLast?_eq_getLast _ hne] at hl
    simp only [Option.some.injEq] at hl
    rw [← hl]
    exact this.symm

theorem AfterLast_append_name (a w : WxString) (hw : isNameText w = true) :
    AfterLast (a ++ w) '\\' ≠ [] := by
  have hne := isNameText_ne_nil hw
  have hsep := isNameText_no_sep hw
  obtain ⟨c, r, hcr⟩ : ∃ c r, w.reverse = c :: r := by
    cases hr : w.reverse with
    | nil => simp at hr; exact absurd hr hne
    | cons c r => exact ⟨c, r, rfl⟩
  have hc : c ≠ '\\' := hsep c (by
    have : c ∈ w.reverse := by rw [hcr]; exact List.mem_cons_self _ _
    simpa using this)
  simp [AfterLast, hcr, List.takeWhile, hc]

theorem isPathTokens_text_ne_nil {p : Tokens} (h : isPathTokens p = true) :
    tokensText p ≠ [] := by
  obtain ⟨q, t, rfl, ht⟩ := isPathTokens_last h
  simp only [isIdentifierToken, Bool.and_eq_true] at ht
  rw [tokensText_append]
  simp [tokensText, isNameText_ne_nil ht.2]

theorem isPathTokens_key_ne_nil {p : Tokens} (h : isPathTokens p = true) :
    AfterLast (tokensText p) '\\' ≠ [] := by
  obtain ⟨q, t, rfl, ht⟩ := isPathTokens_last h
  simp only [isIdentifierToken, Bool.and_eq_true] at ht
  rw [tokensText_append]
  simpa [tokensText] using AfterLast_append_name (tokensText q) t.text ht.2

theorem withLeadingSep_cons (w : WxString) : ∃ r, withLeadingSep w = '\\' :: r ∧
    (∀ c ∈ r, c ∈ w) := by
  unfold withLeadingSep
  by_cases h : StartsWith w nsSep = true
  · rw [if_pos h]
    cases w with
    | nil => simp [StartsWith, nsSep] at h
    | cons c r =>
      simp [StartsWith, nsSep] at h
      exact ⟨r, by rw [h], fun x hx => List.mem_cons_of_mem _ hx⟩
  · rw [if_neg h]
    exact ⟨w, rfl, fun x hx => hx⟩

/-- A name without whitespace, with the leading separator enforced, resolves
to itself and leaves the parser untouched. -/
theorem MakeIdentifierAbsolute_withLeadingSep (s : PHPSourceFile) (w : WxString)
    (h : ∀ c ∈ w, wxIsSpace c = false) :
    MakeIdentifierAbsolute s (withLeadingSep w) = (withLeadingSep w, s) := by
  obtain ⟨r, hr, hmem⟩ := withLeadingSep_cons w
  rw [hr, MakeIdentifierAbsolute_sep, TrimRight_of_no_space r (fun c hc => h c (hmem c hc))]

theorem withLeadingSep_startsWith (w : WxString) : StartsWith (withLeadingSep w) nsSep = true := by
  obtain ⟨r, hr, _⟩ := withLeadingSep_cons w
  rw [hr]
  simp [StartsWith, nsSep]

/-- The loop of `OnUse` over identifier and separator tokens only appends
their text to `temp`. -/
theorem OnUse_loop_plain (p rest : Tokens) (s : PHPSourceFile) (f a temp : WxString)
    (h : ∀ t ∈ p, t.type = TokType.kPHP_T_IDENTIFIER ∨ t.type = TokType.kPHP_T_NS_SEPARATOR) :
    OnUse_loop (p ++ rest) s f a temp =
      OnUse_loop rest (readTokens s p) f a (temp ++ tokensText p) := by
  induction p generalizing s temp with
  | nil => simp [readTokens, tokensText]
  | cons t ts ih =>
    have ht := h t (List.mem_cons_self _ _)
    have := ih (NextToken_found s t) (temp ++ t.text)
      (fun x hx => h x (List.mem_cons_of_mem _ hx))
    rcases ht with ht | ht <;>
    simp [OnUse_loop, ht, this, readTokens_cons, tokensText]

/-- The loop of `OnUse` over one well-formed item and its delimiter: the
alias table gets the item's key and value (unless the key is there already),
the rest of the parser only sees the tokens go by. -/
theorem OnUse_loop_item (i : UseItem) (hi : i.wellFormed = true) (d : phpLexerToken)
    (hd : d.type = TokType.chr_comma ∨ d.type = TokType.chr_semi) (rest : Tokens)
    (s : PHPSourceFile) :
    OnUse_loop (i.tokens ++ d :: rest) s [] [] [] =
      if d.type = TokType.chr_semi then
        (rest, { readTokens s (i.tokens ++ [d]) with
                  m_aliases := aliasInsert s.m_aliases i.key i.value })
      else
        OnUse_loop rest { readTokens s (i.tokens ++ [d]) with
                  m_aliases := aliasInsert s.m_aliases i.key i.value } [] [] [] := by
  obtain ⟨path, asAlias⟩ := i
  simp only [UseItem.wellFormed, Bool.and_eq_true] at hi
  obtain ⟨hp, ha⟩ := hi
  have hty := isPathTokens_types hp
  have hne := isPathTokens_text_ne_nil hp
  have hkey := isPathTokens_key_ne_nil hp
  have hmia := fun st => MakeIdentifierAbsolute_withLeadingSep st (tokensText path)
    (isPathTokens_no_space hp)
  cases asAlias with
  | none =>
    simp only [UseItem.tokens, List.append_nil, UseItem.key, UseItem.value]
    rw [OnUse_loop_plain path (d :: rest) s [] [] [] hty, readTokens_append]
    rcases hd with hd | hd <;>
    simp [OnUse_loop, OnUse_delimiter, OnUse_insert, hd, hne, hkey, hmia, readTokens_cons,
      readTokens_nil]
  | some an =>
    obtain ⟨a, n⟩ := an
    simp only [Bool.and_eq_true, beq_iff_eq, isIdentifierToken] at ha
    obtain ⟨hat, hnt, hnn⟩ := ha
    have hn := isNameText_ne_nil hnn
    simp only [UseItem.tokens, UseItem.key, UseItem.value]
    rw [List.append_assoc, OnUse_loop_plain path _ s [] [] [] hty, readTokens_append,
      readTokens_append]
    rcases hd with hd | hd <;>
    simp [OnUse_loop, OnUse_delimiter, OnUse_insert, hd, hat, hnt, hne, hn, hmia, readTokens_cons,
      readTokens_nil]

/-! ## The alias table -/

theorem aliasFind_nil (k : WxString) : aliasFind [] k = none := rfl

theorem aliasFind_cons (k k1 v1 : WxString) (m : List (WxString × WxString)) :
    aliasFind ((k1, v1) :: m) k = if k = k1 then some v1 else aliasFind m k := by
  by_cases h : k = k1
  · subst h
    simp [aliasFind, List.lookup]
  · have : (k == k1) = false := by simpa using h
    simp [aliasFind, List.lookup, this, h]

theorem aliasFind_append_single (m : List (WxString × WxString)) (k k1 v1 : WxString) :
    aliasFind (m ++ [(k1, v1)]) k =
      match aliasFind m k with
      | some v => some v
      | none => if k = k1 then some v1 else none := by
  induction m with
  | nil => simp [aliasFind_cons, aliasFind_nil]
  | cons e m ih =>
    obtain ⟨a, b⟩ := e
    simp only [List.cons_append, aliasFind_cons]
    by_cases h : k = a
    · simp [h]
    · simp [h, ih]

theorem aliasFind_none_iff (m : List (WxString × WxString)) (k : WxString) :
    aliasFind m k = none ↔ k ∉ m.map Prod.fst := by
  induction m with
  | nil => simp [aliasFind_nil]
  | cons e m ih =>
    obtain ⟨a, b⟩ := e
    simp only [aliasFind_cons, List.map_cons, List.mem_cons, not_or]
    by_cases h : k = a
    · simp [h]
    · simp [h, ih]

theorem aliasFind_insert_same (m : List (WxString × WxString)) (k v : WxString)
    (h : aliasFind m k = none) : aliasFind (aliasInsert m k v) k = some v := by
  simp [aliasInsert, h, aliasFind_append_single]

theorem aliasFind_insert_keep (m : List (WxString × WxString)) (k v k1 v1 : WxString)
    (h : aliasFind m k = some v) : aliasFind (aliasInsert m k1 v1) k = some v := by
  unfold aliasInsert
  cases h1 : aliasFind m k1 with
  | some _ => simpa using h
  | none => simp [aliasFind_append_single, h]

theorem aliasFind_insert_other (m : List (WxString × WxString)) (k k1 v1 : WxString)
    (h : k ≠ k1) : aliasFind (aliasInsert m k1 v1) k = aliasFind m k := by
  unfold aliasInsert
  cases h1 : aliasFind m k1 with
  | some _ => rfl
  | none =>
    simp only [aliasFind_append_single, h, if_false]
    cases aliasFind m k <;> rfl

theorem aliasInsert_keys_nodup (m : List (WxString × WxString)) (k v : WxString)
    (h : (m.map Prod.fst).Nodup) : ((aliasInsert m k v).map Prod.fst).Nodup := by
  unfold aliasInsert
  cases h1 : aliasFind m k with
  | some _ => exact h
  | none =>
    have hk := (aliasFind_none_iff m k).1 h1
    simp only [List.map_append, List.map_cons, List.map_nil]
    exact List.Nodup.append h (List.nodup_singleton k) (by
      intro x hx hx1
      simp only [List.mem_singleton] at hx1
      subst hx1
      exact hk hx)

theorem aliasInsert_mem (m : List (WxString × WxString)) (k v : WxString)
    (e : WxString × WxString) (h : e ∈ aliasInsert m k v) : e ∈ m ∨ e = (k, v) := by
  unfold aliasInsert at h
  cases h1 : aliasFind m k with
  | some _ => rw [h1] at h; exact Or.inl h
  | none =>
    rw [h1] at h
    simp only [List.mem_append, List.mem_singleton] at h
    exact h

theorem insertItems_nil (m : List (WxString × WxString)) : insertItems m [] = m := rfl

theorem insertItems_cons (m : List (WxString × WxString)) (i : UseItem) (l : List UseItem) :
    insertItems m (i :: l) = insertItems (aliasInsert m i.key i.value) l := rfl

theorem insertItems_keys_nodup (items : List UseItem) (m : List (WxString × WxString))
    (h : (m.map Prod.fst).Nodup) : ((insertItems m items).map Prod.fst).Nodup := by
  induction items generalizing m with
  | nil => exact h
  | cons i l ih => exact ih _ (aliasInsert_keys_nodup m _ _ h)

theorem insertItems_keep (items : List UseItem) (m : List (WxString × WxString))
    (k v : WxString) (h : aliasFind m k = some v) :
    aliasFind (insertItems m items) k = some v := by
  induction items generalizing m with
  | nil => exact h
  | cons i l ih => exact ih _ (aliasFind_insert_keep m k v _ _ h)

/-- The first item with a given key decides the value stored under it. -/
theorem insertItems_first (pre : List UseItem) (i : UseItem) (post : List UseItem)
    (m : List (WxString × WxString)) (hm : aliasFind m i.key = none)
    (hpre : ∀ j ∈ pre, j.key ≠ i.key) :
    aliasFind (insertItems m (pre ++ i :: post)) i.key = some i.value := by
  induction pre generalizing m with
  | nil =>
    simp only [List.nil_append, insertItems_cons]
    exact insertItems_keep post _ _ _ (aliasFind_insert_same m _ _ hm)
  | cons j pre ih =>
    simp only [List.cons_append, insertItems_cons]
    apply ih
    · rw [aliasFind_insert_other _ _ _ _ (fun h => hpre j (List.mem_cons_self _ _) h.symm)]
      exact hm
    · exact fun x hx => hpre x (List.mem_cons_of_mem _ hx)

theorem insertItems_mem (items : List UseItem) (m : List (WxString × WxString))
    (e : WxString × WxString) (h : e ∈ insertItems m items) :
    e ∈ m ∨ ∃ i ∈ items, e = (i.key, i.value) := by
  induction items generalizing m with
  | nil => exact Or.inl h
  | cons i l ih =>
    rcases ih _ h with h1 | ⟨j, hj, hej⟩
    · rcases aliasInsert_mem m _ _ e h1 with h2 | h2
      · exact Or.inl h2
      · exact Or.inr ⟨i, List.mem_cons_self _ _, h2⟩
    · exact Or.inr ⟨j, List.mem_cons_of_mem _ hj, hej⟩

/-- In a table with distinct keys the entries under a key that is found are
that one entry. -/
theorem filter_key_of_find (m : List (WxString × WxString)) (k v : WxString)
    (hn : (m.map Prod.fst).Nodup) (hf : aliasFind m k = some v) :
    m.filter (fun e => e.1 == k) = [(k, v)] := by
  induction m with
  | nil => simp [aliasFind_nil] at hf
  | cons e m ih =>
    obtain ⟨a, b⟩ := e
    simp only [List.map_cons, List.nodup_cons] at hn
    rw [aliasFind_cons] at hf
    by_cases h : k = a
    · subst h
      simp only [if_true, Option.some.injEq] at hf
      subst hf
      have hnone : ∀ x ∈ m, (x.1 == k) = false := by
        intro x hx
        have : x.1 ≠ k := fun hxk => hn.1 (by rw [← hxk]; exact List.mem_map_of_mem _ hx)
        simpa using this
      simp only [List.filter_cons, beq_self_eq_true, if_true, List.cons.injEq, true_and]
      exact List.filter_eq_nil_iff.2 (fun x hx => by simp [hnone x hx])
    · simp only [h, if_false] at hf
      have hak : (a == k) = false := by simpa using fun hak : a = k => h hak.symm
      simp only [List.filter_cons, hak]
      exact ih hn.2 hf

/-- The loop of `OnUse` over a whole statement of well-formed items. -/
theorem OnUse_loop_statement (init : List (UseItem × phpLexerToken)) (last : UseItem)
    (semi : phpLexerToken) (rest : Tokens)
    (hinit : ∀ x ∈ init, x.1.wellFormed = true ∧ x.2.type = TokType.chr_comma)
    (hlast : last.wellFormed = true) (hsemi : semi.type = TokType.chr_semi)
    (s : PHPSourceFile) :
    ∃ s1 : PHPSourceFile,
      OnUse_loop (useStatementTokens init last semi ++ rest) s [] [] [] = (rest, s1) ∧
      s1.m_aliases = insertItems s.m_aliases (useStatementItems init last) ∧
      s1.store = s.store ∧ s1.m_scopes = s.m_scopes ∧ s1.m_defines = s.m_defines := by
  induction init generalizing s with
  | nil =>
    refine ⟨{ readTokens s (last.tokens ++ [semi]) with
              m_aliases := aliasInsert s.m_aliases last.key last.value }, ?_, ?_⟩
    · simp only [useStatementTokens, List.append_assoc, List.singleton_append]
      rw [OnUse_loop_item last hlast semi (Or.inr hsemi) rest s, if_pos hsemi]
    · simp [useStatementItems, insertItems]
  | cons x more ih =>
    obtain ⟨i, c⟩ := x
    have hx := hinit (i, c) (List.mem_cons_self _ _)
    have hc : c.type ≠ TokType.chr_semi := by rw [hx.2]; decide
    obtain ⟨s1, h1, h2, h3, h4, h5⟩ :=
      ih (fun y hy => hinit y (List.mem_cons_of_mem _ hy))
        { readTokens s (i.tokens ++ [c]) with
            m_aliases := aliasInsert s.m_aliases i.key i.value }
    refine ⟨s1, ?_, ?_, ?_, ?_, ?_⟩
    · simp only [useStatementTokens, List.append_assoc, List.cons_append]
      rw [OnUse_loop_item i hx.1 c (Or.inl hx.2) _ s, if_neg hc]
      exact h1
    · rw [h2]
      simp [useStatementItems, insertItems]
    · rw [h3]; simp
    · rw [h4]; simp
    · rw [h5]; simp

/-- C9 (as stated, refuted): on the statement `use A\X, B\X;`, starting from
an empty alias table, `OnUse` leaves the table with the single entry
`X ↦ \A\X`; the second item has the non-empty path `B\X`, its key is `X` and
its value would be `\B\X`, and no such entry is stored. -/
theorem C9_same_key_counterexample :
    (newSourceFile false).m_aliases = [] ∧
    (OnUse tokensUseSameKey (newSourceFile false)).2.m_aliases =
      [("X".toList, "\\A\\X".toList)] ∧
    ("X".toList, "\\B\\X".toList) ∉ (OnUse tokensUseSameKey (newSourceFile false)).2.m_aliases := by
  decide

/-- C9 (amended): for every `use` statement made of comma-separated
well-formed items `P` or `P as A` and ended by `;`, read by `OnUse` in a
parser whose alias table is empty, the statement is consumed through its `;`
and the alias table becomes the result of inserting the items in source order
without overwriting; every item whose key (`A`, or the part of `P` after its
last separator when `as` is absent) differs from the keys of all earlier items
has exactly one entry under its key, and the value of that entry is `P` with a
leading separator enforced; every value stored begins with the separator. -/
theorem C9_use_statement_alias_table (s : PHPSourceFile)
    (init : List (UseItem × phpLexerToken)) (last : UseItem) (semi : phpLexerToken)
    (rest : Tokens) (hs : s.m_aliases = [])
    (hinit : ∀ x ∈ init, x.1.wellFormed = true ∧ x.2.type = TokType.chr_comma)
    (hlast : last.wellFormed = true) (hsemi : semi.type = TokType.chr_semi) :
    ∃ s1 : PHPSourceFile,
      OnUse (useStatementTokens init last semi ++ rest) s = (rest, s1) ∧
      s1.m_aliases = insertItems [] (useStatementItems init last) ∧
      (∀ pre i post, useStatementItems init last = pre ++ i :: post →
        (∀ j ∈ pre, j.key ≠ i.key) →
        s1.m_aliases.filter (fun e => e.1 == i.key) = [(i.key, i.value)]) ∧
      (∀ e ∈ s1.m_aliases, StartsWith e.2 nsSep = true) := by
  obtain ⟨s1, h1, h2, _, _, _⟩ := OnUse_loop_statement init last semi rest hinit hlast hsemi s
  rw [hs] at h2
  refine ⟨s1, h1, h2, ?_, ?_⟩
  · intro pre i post hitems hpre
    rw [h2, hitems]
    apply filter_key_of_find
    · exact insertItems_keys_nodup _ [] List.nodup_nil
    · exact insertItems_first pre i post [] (aliasFind_nil _) hpre
  · intro e he
    rw [h2] at he
    rcases insertItems_mem _ _ e he with h | ⟨i, _, hi⟩
    · simp at h
    · rw [hi]
      exact withLeadingSep_startsWith _

theorem C9_use_statement_alias_table_witness :
    ((newSourceFile false).m_aliases = [] ∧
      (∀ x ∈ useExampleInit, x.1.wellFormed = true ∧ x.2.type = TokType.chr_comma) ∧
      useExampleLast.wellFormed = true ∧
      (mkToken TokType.chr_semi ";" 1).type = TokType.chr_semi) ∧
    ∃ s1 : PHPSourceFile,
      OnUse (useStatementTokens useExampleInit useExampleLast (mkToken TokType.chr_semi ";" 1)
          ++ []) (newSourceFile false) = ([], s1) ∧
      s1.m_aliases = insertItems [] (useStatementItems useExampleInit useExampleLast) ∧
      (∀ pre i post, useStatementItems useExampleInit useExampleLast = pre ++ i :: post →
        (∀ j ∈ pre, j.key ≠ i.key) →
        s1.m_aliases.filter (fun e => e.1 == i.key) = [(i.key, i.value)]) ∧
      (∀ e ∈ s1.m_aliases, StartsWith e.2 nsSep = true) :=
  ⟨⟨by decide, by decide, by decide, by decide⟩,
    C9_use_statement_alias_table (newSourceFile false) useExampleInit useExampleLast
      (mkToken TokType.chr_semi ";" 1) [] (by decide) (by decide) (by decide) (by decide)⟩

/-! ## Reading plain tokens -/

/-- A token whose reading only extends the look-back buffer: an identifier or
a separator. -/
theorem NextToken_found_plain (s : PHPSourceFile) (t : phpLexerToken)
    (h : t.type = TokType.kPHP_T_IDENTIFIER ∨ t.type = TokType.kPHP_T_NS_SEPARATOR) :
    NextToken_found s t = { s with m_lookBackTokens := s.m_lookBackTokens ++ [t] } := by
  rcases h with h | h <;> simp [NextToken_found, h]

theorem readTokens_plain (p : Tokens) (s : PHPSourceFile)
    (h : ∀ t ∈ p, t.type = TokType.kPHP_T_IDENTIFIER ∨ t.type = TokType.kPHP_T_NS_SEPARATOR) :
    readTokens s p = { s with m_lookBackTokens := s.m_lookBackTokens ++ p } := by
  induction p generalizing s with
  | nil => simp [readTokens]
  | cons t ts ih =>
    rw [readTokens_cons, ih _ (fun x hx => h x (List.mem_cons_of_mem _ hx)),
      NextToken_found_plain s t (h t (List.mem_cons_self _ _))]
    simp

theorem NextToken_found_semi (s : PHPSourceFile) (t : phpLexerToken)
    (h : t.type = TokType.chr_semi) :
    NextToken_found s t = { s with m_lookBackTokens := [t] } := by
  simp [NextToken_found, h]

/-! ## `namespace` statements -/

theorem OnNamespace_loop_plain (p rest : Tokens) (s : PHPSourceFile) (path : WxString)
    (hpath : path ≠ [])
    (h : ∀ t ∈ p, t.type = TokType.kPHP_T_IDENTIFIER ∨ t.type = TokType.kPHP_T_NS_SEPARATOR) :
    OnNamespace_loop (p ++ rest) s path =
      OnNamespace_loop rest (readTokens s p) (path ++ tokensText p) := by
  induction p generalizing s path with
  | nil => simp [readTokens, tokensText]
  | cons t ts ih =>
    have ht := h t (List.mem_cons_self _ _)
    have := ih (NextToken_found s t) (path ++ t.text) (by simp [hpath])
      (fun x hx => h x (List.mem_cons_of_mem _ hx))
    rcases ht with ht | ht <;>
    simp [OnNamespace_loop, ht, this, readTokens_cons, tokensText, hpath]

/-- The loop of `OnNamespace` over a qualified name and its `;` collects the
name with a leading separator enforced. -/
theorem OnNamespace_loop_path (p : Tokens) (semi : phpLexerToken) (rest : Tokens)
    (s : PHPSourceFile) (hp : isPathTokens p = true) (hsemi : semi.type = TokType.chr_semi) :
    OnNamespace_loop (p ++ semi :: rest) s [] =
      (withLeadingSep (tokensText p), rest, { s with m_lookBackTokens := [semi] }) := by
  have hty := isPathTokens_types hp
  cases p with
  | nil => simp [isPathTokens] at hp
  | cons t ts =>
    have htail := fun x hx => hty x (List.mem_cons_of_mem _ hx)
    simp only [isPathTokens, List.all_cons, Bool.and_eq_true] at hp
    have ht := hp.1.1
    simp only [Bool.or_eq_true, isIdentifierToken, isSeparatorToken, Bool.and_eq_true,
      beq_iff_eq] at ht
    rcases ht with ⟨ht1, ht2⟩ | ⟨ht1, ht2⟩
    · have hne := isNameText_ne_nil ht2
      have hnosep : StartsWith (t.text ++ tokensText ts) nsSep = false := by
        cases htx : t.text with
        | nil => exact absurd htx hne
        | cons c r =>
          have hc := isNameText_no_sep ht2 c (by rw [htx]; exact List.mem_cons_self _ _)
          simp only [StartsWith, nsSep, List.cons_append, List.isPrefixOf, Bool.and_true,
            beq_eq_false_iff_ne, ne_eq]
          exact fun hh => hc hh.symm
      have step1 : OnNamespace_loop (t :: (ts ++ semi :: rest)) s [] =
          OnNamespace_loop (ts ++ semi :: rest) (NextToken_found s t) (nsSep ++ t.text) := by
        simp [OnNamespace_loop, ht1]
      rw [List.cons_append, step1,
        OnNamespace_loop_plain ts (semi :: rest) _ (nsSep ++ t.text) (by simp [nsSep]) htail,
        readTokens_plain ts _ htail, NextToken_found_plain s t (Or.inl ht1)]
      simp [OnNamespace_loop, hsemi, tokensText, withLeadingSep, hnosep, NextToken_found]
    · have hsep : StartsWith (t.text ++ tokensText ts) nsSep = true := by
        rw [ht2]; simp [StartsWith, nsSep]
      have step1 : OnNamespace_loop (t :: (ts ++ semi :: rest)) s [] =
          OnNamespace_loop (ts ++ semi :: rest) (NextToken_found s t) t.text := by
        simp [OnNamespace_loop, ht1]
      rw [List.cons_append, step1,
        OnNamespace_loop_plain ts (semi :: rest) _ t.text (by simp [ht2, nsSep]) htail,
        readTokens_plain ts _ htail, NextToken_found_plain s t (Or.inr ht1)]
      simp [OnNamespace_loop, hsemi, tokensText, withLeadingSep, hsep, NextToken_found]

/-- Reading a token that is neither a block comment, nor a brace, nor a
semicolon only extends the look-back buffer. -/
theorem NextToken_found_other (s : PHPSourceFile) (t : phpLexerToken)
    (h1 : t.type ≠ TokType.kPHP_T_C_COMMENT) (h2 : t.type ≠ TokType.chr_lbrace)
    (h3 : t.type ≠ TokType.chr_rbrace) (h4 : t.type ≠ TokType.chr_semi) :
    NextToken_found s t = { s with m_lookBackTokens := s.m_lookBackTokens ++ [t] } := by
  simp [NextToken_found, h1, h2, h3, h4]

/-- After a run of tokens without block comment, brace or semicolon, and then
a semicolon, the look-back buffer holds the semicolon and nothing else of the
parser has changed. -/
theorem readTokens_then_semi (l : Tokens) (semi : phpLexerToken) (s : PHPSourceFile)
    (hl : ∀ t ∈ l, t.type ≠ TokType.kPHP_T_C_COMMENT ∧ t.type ≠ TokType.chr_lbrace ∧
      t.type ≠ TokType.chr_rbrace ∧ t.type ≠ TokType.chr_semi)
    (hsemi : semi.type = TokType.chr_semi) :
    readTokens s (l ++ [semi]) = { s with m_lookBackTokens := [semi] } := by
  induction l generalizing s with
  | nil => simp [readTokens, NextToken_found_semi _ _ hsemi]
  | cons t ts ih =>
    have ht := hl t (List.mem_cons_self _ _)
    rw [List.cons_append, readTokens_cons, ih _ (fun x hx => hl x (List.mem_cons_of_mem _ hx)),
      NextToken_found_other s t ht.1 ht.2.1 ht.2.2.1 ht.2.2.2]

theorem UseItem_tokens_plain (i : UseItem) (hi : i.wellFormed = true) :
    ∀ t ∈ i.tokens, t.type ≠ TokType.kPHP_T_C_COMMENT ∧ t.type ≠ TokType.chr_lbrace ∧
      t.type ≠ TokType.chr_rbrace ∧ t.type ≠ TokType.chr_semi := by
  obtain ⟨path, asAlias⟩ := i
  simp only [UseItem.wellFormed, Bool.and_eq_true] at hi
  obtain ⟨hp, ha⟩ := hi
  have hty := isPathTokens_types hp
  intro t ht
  simp only [UseItem.tokens, List.mem_append] at ht
  rcases ht with ht | ht
  · rcases hty t ht with h | h <;> rw [h] <;> decide
  · cases asAlias with
    | none => simp at ht
    | some an =>
      obtain ⟨a, n⟩ := an
      simp only [Bool.and_eq_true, beq_iff_eq, isIdentifierToken] at ha
      simp only [List.mem_cons, List.mem_singleton, List.not_mem_nil, or_false] at ht
      rcases ht with ht | ht <;> subst ht
      · rw [ha.1]; decide
      · rw [ha.2.1]; decide

/-- `OnUse` on a statement of one well-formed item: the item's key and value
are inserted into the alias table, the look-back buffer holds the `;`. -/
theorem OnUse_single (i : UseItem) (hi : i.wellFormed = true) (semi : phpLexerToken)
    (hsemi : semi.type = TokType.chr_semi) (rest : Tokens) (s : PHPSourceFile) :
    OnUse (i.tokens ++ semi :: rest) s =
      (rest, { s with m_lookBackTokens := [semi],
                      m_aliases := aliasInsert s.m_aliases i.key i.value }) := by
  unfold OnUse
  rw [OnUse_loop_item i hi semi (Or.inr hsemi) rest s, if_pos hsemi,
    readTokens_then_semi _ _ _ (UseItem_tokens_plain i hi) hsemi]

/-! ## Name resolution of plain names -/

theorem isNameText_not_contains {w : WxString} (h : isNameText w = true) :
    Contains w '\\' = false := by
  have := isNameText_no_sep h
  simp only [Contains]
  cases hc : w.contains '\\' with
  | false => rfl
  | true =>
    simp only [List.contains_iff_exists_mem_beq, beq_iff_eq] at hc
    obtain ⟨x, hx, hxe⟩ := hc
    exact absurd hxe.symm (this x hx)

theorem isNameText_not_startsWith {w : WxString} (h : isNameText w = true) :
    StartsWith w nsSep = false := by
  have hs := isNameText_no_sep h
  cases w with
  | nil => simp [StartsWith, nsSep]
  | cons c r =>
    have hc := hs c (List.mem_cons_self _ _)
    simp only [StartsWith, nsSep, List.isPrefixOf, Bool.and_true, beq_eq_false_iff_ne, ne_eq]
    exact fun hh => hc hh.symm

/-- A plain name that is a key of the alias table resolves to the stored
value, whatever the namespace. -/
theorem MakeIdentifierAbsolute_alias (s : PHPSourceFile) (w v : WxString)
    (hw : isNameText w = true) (hp : isPrimitiveName w = false)
    (hf : aliasFind s.m_aliases w = some v) : MakeIdentifierAbsolute s w = (v, s) := by
  have h1 := Trim_of_no_space w (isNameText_no_space hw)
  have h2 := isNameText_ne_nil hw
  simp [MakeIdentifierAbsolute, h1, hp, h2, isNameText_not_contains hw,
    isNameText_not_startsWith hw, hf]

/-- A plain name that is not a key of the alias table gets the name of the
namespace at the bottom of the scope stack prepended. -/
theorem MakeIdentifierAbsolute_namespace (s : PHPSourceFile) (w : WxString) (id : Nat)
    (more : List Nat) (hw : isNameText w = true) (hp : isPrimitiveName w = false)
    (hf : aliasFind s.m_aliases w = none) (hs : s.m_scopes = id :: more) :
    MakeIdentifierAbsolute s w =
      ((if EndsWith (entityAt s id).fullName nsSep then (entityAt s id).fullName
        else (entityAt s id).fullName ++ nsSep) ++ w, s) := by
  have h1 := Trim_of_no_space w (isNameText_no_space hw)
  have h2 := isNameText_ne_nil hw
  simp [MakeIdentifierAbsolute, h1, hp, h2, isNameText_not_contains hw,
    isNameText_not_startsWith hw, hf, Namespace, hs]

theorem MakeIdentifierAbsolute_empty (s : PHPSourceFile) :
    MakeIdentifierAbsolute s [] = ([], s) := by
  rfl

/-- A bound of at least `m` rounds is `k + m` rounds for some `k`. -/
theorem exists_fuel (n m : Nat) (h : m ≤ n) : ∃ k, n = k + m :=
  ⟨n - m, (Nat.sub_add_cancel h).symm⟩

/-! ## Class headers -/

/-- A list of names that all begin with the separator does not hold the text
of an identifier. -/
theorem not_contains_name (list : List WxString) (w : WxString)
    (hlist : ∀ x ∈ list, StartsWith x nsSep = true) (hw : isNameText w = true) :
    list.contains w = false := by
  cases hc : list.contains w with
  | false => rfl
  | true =>
    simp only [List.contains_iff_exists_mem_beq, beq_iff_eq] at hc
    obtain ⟨x, hx, hxe⟩ := hc
    have h1 := hlist x hx
    rw [← hxe, isNameText_not_startsWith hw] at h1
    exact absurd h1 (by decide)

/-- `ReadCommaSeparatedIdentifiers` on a comma-separated list of identifiers
closed by an opening brace, when every plain name resolves by prepending
`pre`: the names are appended in source order, each with `pre` prepended, and
the brace is pushed back. -/
theorem ReadCommaSeparatedIdentifiers_idents (pre : WxString)
    (init : List (phpLexerToken × phpLexerToken)) (last lb : phpLexerToken) (rest : Tokens)
    (hinit : ∀ x ∈ init, isIdentifierToken x.1 = true ∧ isPrimitiveName x.1.text = false ∧
      x.2.type = TokType.chr_comma)
    (hlast : isIdentifierToken last = true ∧ isPrimitiveName last.text = false)
    (hlb : lb.type = TokType.chr_lbrace) (hpre : StartsWith pre nsSep = true)
    (s0 s : PHPSourceFile) (list : List WxString)
    (hres : ∀ (s1 : PHPSourceFile) (w : WxString), s1.m_aliases = s0.m_aliases →
      s1.m_scopes = s0.m_scopes → s1.store = s0.store → isNameText w = true →
      isPrimitiveName w = false → MakeIdentifierAbsolute s1 w = (pre ++ w, s1))
    (hs : s.m_aliases = s0.m_aliases ∧ s.m_scopes = s0.m_scopes ∧ s.store = s0.store)
    (hlist : ∀ x ∈ list, StartsWith x nsSep = true) :
    ReadCommaSeparatedIdentifiers TokType.chr_lbrace (implementsTokens init last ++ lb :: rest)
        s list [] =
      (true, list ++ (implementsNames init last).map (fun w => pre ++ w), lb :: rest,
        { s with m_lookBackTokens := s.m_lookBackTokens ++ (implementsTokens init last ++ [lb]) }) := by
  have hstart : ∀ w : WxString, StartsWith (pre ++ w) nsSep = true := by
    intro w
    cases pre with
    | nil => simp [StartsWith, nsSep] at hpre
    | cons c r =>
      simp only [StartsWith, nsSep, List.isPrefixOf, Bool.and_true, beq_iff_eq] at hpre
      simp only [StartsWith, nsSep, List.cons_append, List.isPrefixOf, Bool.and_true,
        beq_iff_eq]
      exact hpre
  induction init generalizing s list with
  | nil =>
    simp only [isIdentifierToken, Bool.and_eq_true, beq_iff_eq] at hlast
    obtain ⟨⟨h1, h2⟩, h3⟩ := hlast
    have hne := isNameText_ne_nil h2
    have hnc : last.text ∉ list := by
      have := not_contains_name list last.text hlist h2
      intro hmem
      simp [List.contains_iff_exists_mem_beq, hmem] at this
    have hr := hres { s with m_depth := s.m_depth + 1,
                             m_lookBackTokens := s.m_lookBackTokens ++ [last, lb] }
      last.text hs.1 hs.2.1 hs.2.2 h2 h3
    simp only [implementsTokens, implementsNames, List.map_nil, List.nil_append,
      List.singleton_append, List.map_cons]
    simp [ReadCommaSeparatedIdentifiers, NextToken_found, phpLexerToken.IsAnyComment, h1, hlb,
      hne, hnc, UngetToken, hr]
  | cons x more ih =>
    obtain ⟨e, c⟩ := x
    have hx := hinit (e, c) (List.mem_cons_self _ _)
    simp only [isIdentifierToken, Bool.and_eq_true, beq_iff_eq] at hx
    obtain ⟨⟨h1, h2⟩, h3, h4⟩ := hx
    have hnc : e.text ∉ list := by
      have := not_contains_name list e.text hlist h2
      intro hmem
      simp [List.contains_iff_exists_mem_beq, hmem] at this
    have hr := hres { s with m_lookBackTokens := s.m_lookBackTokens ++ [e, c] }
      e.text hs.1 hs.2.1 hs.2.2 h2 h3
    have hih := ih (fun y hy => hinit y (List.mem_cons_of_mem _ hy))
      { s with m_lookBackTokens := s.m_lookBackTokens ++ [e, c] } (list ++ [pre ++ e.text])
      hs
      (by
        intro y hy
        simp only [List.mem_append, List.mem_singleton] at hy
        rcases hy with hy | hy
        · exact hlist y hy
        · rw [hy]; exact hstart _)
    simp only [implementsTokens, List.cons_append]
    simp [ReadCommaSeparatedIdentifiers, NextToken_found, phpLexerToken.IsAnyComment, h1, h4, hnc,
      hr]
    rw [hih]
    simp [implementsNames, implementsTokens]

/-- The statement loop on
`class C extends D implements E1, .., En` and the opening brace, at the end of
the input, from a parser with the namespace entity `e` alone in the store and
on the scope stack and an empty alias table: the class is attached to the
namespace and its name, parent class and interfaces are the plain names with
the separator-terminated namespace name `pre` prepended. -/
theorem Parse_class_header (k : Nat) (d : Int) (e : PHPEntity) (pre : WxString)
    (depth : Int) (pfb : Bool) (lbk cm : List phpLexerToken) (df : List PHPEntity) (p2 : Nat)
    (nc : Bool)
    (classTok cTok extTok dTok implTok last lb : phpLexerToken)
    (init : List (phpLexerToken × phpLexerToken))
    (hpre : pre = if EndsWith e.fullName nsSep then e.fullName else e.fullName ++ nsSep)
    (hpres : StartsWith pre nsSep = true)
    (hclass : classTok.type = TokType.kPHP_T_CLASS)
    (hc : isIdentifierToken cTok = true) (hcp : isPrimitiveName cTok.text = false)
    (hext : extTok.type = TokType.kPHP_T_EXTENDS)
    (hd : isIdentifierToken dTok = true) (hdp : isPrimitiveName dTok.text = false)
    (himpl : implTok.type = TokType.kPHP_T_IMPLEMENTS)
    (hinit : ∀ x ∈ init, isIdentifierToken x.1 = true ∧ isPrimitiveName x.1.text = false ∧
      x.2.type = TokType.chr_comma)
    (hlast : isIdentifierToken last = true ∧ isPrimitiveName last.text = false)
    (hlb : lb.type = TokType.chr_lbrace) :
    ∃ st : PHPSourceFile,
      Parse (k + 5) d
        (classTok :: cTok :: extTok :: dTok :: implTok :: (implementsTokens init last ++ [lb]))
        { m_depth := depth, m_reachedEOF := false, m_parseFunctionBody := pfb,
          m_lookBackTokens := lbk, m_comments := cm, m_aliases := [], m_scopes := [0],
          m_defines := df, store := [e], phaseTwoRuns := p2, nullClassCast := nc } =
        some ([], st) ∧
      st.store.length = 2 ∧
      (entityAt st 0).kind = e.kind ∧
      (entityAt st 0).fullName = e.fullName ∧
      (entityAt st 0).children = e.children ++ [1] ∧
      (entityAt st 1).kind = EntityKind.kEntityTypeClass ∧
      (entityAt st 1).parent = some 0 ∧
      (entityAt st 1).fullName = pre ++ cTok.text ∧
      (entityAt st 1).extends_ = pre ++ dTok.text ∧
      (entityAt st 1).implements_ = (implementsNames init last).map (fun w => pre ++ w) := by
  have hres : ∀ (s1 : PHPSourceFile) (w : WxString), s1.m_aliases = [] →
      s1.m_scopes = [0] → s1.store = [e] → isNameText w = true →
      isPrimitiveName w = false → MakeIdentifierAbsolute s1 w = (pre ++ w, s1) := by
    intro s1 w h1 h2 h3 hw hp
    rw [MakeIdentifierAbsolute_namespace s1 w 0 [] hw hp (by rw [h1]; rfl) h2, hpre]
    simp [entityAt, h3]
  have hrc := fun (s : PHPSourceFile) (h1 : s.m_aliases = []) (h2 : s.m_scopes = [0])
      (h3 : s.store = [e]) =>
    ReadCommaSeparatedIdentifiers_idents pre init last lb [] hinit hlast hlb hpres
      { m_aliases := [], m_scopes := [0], store := [e] } s [] hres ⟨h1, h2, h3⟩
      (by intro x hx; simp at hx)
  simp only [isIdentifierToken, Bool.and_eq_true, beq_iff_eq] at hc hd
  obtain ⟨hc1, hc2⟩ := hc
  obtain ⟨hd1, hd2⟩ := hd
  have key : ∀ r, Parse (k + 5) d
        (classTok :: cTok :: extTok :: dTok :: implTok :: (implementsTokens init last ++ [lb]))
        { m_depth := depth, m_reachedEOF := false, m_parseFunctionBody := pfb,
          m_lookBackTokens := lbk, m_comments := cm, m_aliases := [], m_scopes := [0],
          m_defines := df, store := [e], phaseTwoRuns := p2, nullClassCast := nc } = r →
      ∃ st : PHPSourceFile, r = some ([], st) ∧
        st.store.length = 2 ∧
        (entityAt st 0).kind = e.kind ∧
        (entityAt st 0).fullName = e.fullName ∧
        (entityAt st 0).children = e.children ++ [1] ∧
        (entityAt st 1).kind = EntityKind.kEntityTypeClass ∧
        (entityAt st 1).parent = some 0 ∧
        (entityAt st 1).fullName = pre ++ cTok.text ∧
        (entityAt st 1).extends_ = pre ++ dTok.text ∧
        (entityAt st 1).implements_ = (implementsNames init last).map (fun w => pre ++ w) := by
    intro r hr
    simp [Parse, OnClass, OnClass_name, OnClass_loop, NextToken_found, hclass, hc1, hc2, hcp,
      hext, hd1, hd2, hdp, himpl, hlb, phpLexerToken.IsAnyComment, hres, hrc, ReadUntilFound,
      CurrentScope, AddChild, storeModify, PHPEntity.SetFullName, PhaseTwo, Namespace,
      NextToken_eof, popScope] at hr
    subst hr
    refine ⟨_, rfl, ?_⟩
    simp [entityAt]
  exact key _ rfl

theorem EndsWith_append_name (a w : WxString) (hw : isNameText w = true) :
    EndsWith (a ++ w) nsSep = false := by
  have hne := isNameText_ne_nil hw
  have hsep := isNameText_no_sep hw
  cases hr : w.reverse with
  | nil => simp at hr; exact absurd hr hne
  | cons c r =>
    have hc : c ≠ '\\' := hsep c (by
      have : c ∈ w.reverse := by rw [hr]; exact List.mem_cons_self _ _
      simpa using this)
    simp only [EndsWith, nsSep, List.reverse_append, hr, List.reverse_cons, List.reverse_nil,
      List.nil_append, List.cons_append, List.isPrefixOf, Bool.and_true, beq_eq_false_iff_ne,
      ne_eq]
    exact fun hh => hc hh.symm

/-- The name collected from a qualified name does not end with the separator. -/
theorem isPathTokens_not_endsWith_sep {p : Tokens} (h : isPathTokens p = true) :
    EndsWith (withLeadingSep (tokensText p)) nsSep = false := by
  obtain ⟨q, t, rfl, ht⟩ := isPathTokens_last h
  simp only [isIdentifierToken, Bool.and_eq_true] at ht
  have htx : tokensText (q ++ [t]) = tokensText q ++ t.text := by
    simp [tokensText_append, tokensText]
  unfold withLeadingSep
  split
  · rw [htx]; exact EndsWith_append_name _ _ ht.2
  · rw [htx, ← List.append_assoc]; exact EndsWith_append_name _ _ ht.2

/-- C2: for every qualified namespace name `N` and identifiers `C`, `D`,
`E1..En` that are not primitive names, the whole-file parse of
`namespace N; class C extends D implements E1,..,En` followed by the opening
brace (the alias table is empty, no `use` statement having been read) yields a
namespace whose full name is `N` with a leading separator enforced and, as its
only child, a class whose full name, parent class and interfaces are `N\C`,
`N\D` and `[N\E1,..,N\En]` in source order; and on the tokens of
`namespace A\B; class C extends D implements E,F { public $x; function g($p = 1){} }`
these are `\A\B`, `\A\B\C`, `\A\B\D` and `[\A\B\E, \A\B\F]`. -/
theorem C2_namespace_class_names (parseBody : Bool) (exitDepth : Int) (nsPath : Tokens)
    (nsTok nsSemi classTok cTok extTok dTok implTok last lb : phpLexerToken)
    (init : List (phpLexerToken × phpLexerToken))
    (hnt : nsTok.type = TokType.kPHP_T_NAMESPACE) (hnp : isPathTokens nsPath = true)
    (hnsemi : nsSemi.type = TokType.chr_semi)
    (hclass : classTok.type = TokType.kPHP_T_CLASS)
    (hc : isIdentifierToken cTok = true) (hcp : isPrimitiveName cTok.text = false)
    (hext : extTok.type = TokType.kPHP_T_EXTENDS)
    (hd : isIdentifierToken dTok = true) (hdp : isPrimitiveName dTok.text = false)
    (himpl : implTok.type = TokType.kPHP_T_IMPLEMENTS)
    (hinit : ∀ x ∈ init, isIdentifierToken x.1 = true ∧ isPrimitiveName x.1.text = false ∧
      x.2.type = TokType.chr_comma)
    (hlast : isIdentifierToken last = true ∧ isPrimitiveName last.text = false)
    (hlb : lb.type = TokType.chr_lbrace) :
    (∃ st : PHPSourceFile,
      ParseFile parseBody exitDepth
        (nsTok :: (nsPath ++ nsSemi :: classTok :: cTok :: extTok :: dTok :: implTok ::
          (implementsTokens init last ++ [lb]))) = some ([], st) ∧
      st.store.length = 2 ∧
      (entityAt st 0).kind = EntityKind.kEntityTypeNamespace ∧
      (entityAt st 0).fullName = withLeadingSep (tokensText nsPath) ∧
      (entityAt st 0).children = [1] ∧
      (entityAt st 1).kind = EntityKind.kEntityTypeClass ∧
      (entityAt st 1).parent = some 0 ∧
      (entityAt st 1).fullName = withLeadingSep (tokensText nsPath) ++ nsSep ++ cTok.text ∧
      (entityAt st 1).extends_ = withLeadingSep (tokensText nsPath) ++ nsSep ++ dTok.text ∧
      (entityAt st 1).implements_ =
        (implementsNames init last).map
          (fun w => withLeadingSep (tokensText nsPath) ++ nsSep ++ w)) ∧
    ((ParseFile parseBody (-1) tokensSpecExample).map
        (fun r => r.2.store.map (fun e => (e.kind, e.fullName))) =
      some [ (EntityKind.kEntityTypeNamespace, "\\A\\B".toList),
             (EntityKind.kEntityTypeClass, "\\A\\B\\C".toList),
             (EntityKind.kEntityTypeVariable, "$x".toList),
             (EntityKind.kEntityTypeFunction, "g".toList),
             (EntityKind.kEntityTypeVariable, "$p".toList) ] ∧
     (ParseFile parseBody (-1) tokensSpecExample).map (fun r => (entityAt r.2 1).extends_) =
      some "\\A\\B\\D".toList ∧
     (ParseFile parseBody (-1) tokensSpecExample).map (fun r => (entityAt r.2 1).implements_) =
      some ["\\A\\B\\E".toList, "\\A\\B\\F".toList]) := by
  constructor
  · unfold ParseFile
    obtain ⟨k, hk⟩ := exists_fuel ((nsTok :: (nsPath ++ nsSemi :: classTok :: cTok :: extTok ::
        dTok :: implTok :: (implementsTokens init last ++ [lb]))).length + 1) (5 + 1)
      (by simp only [List.length_cons, List.length_append]; omega)
    rw [hk]
    have hstep : Parse (k + (5 + 1)) exitDepth
        (nsTok :: (nsPath ++ nsSemi :: classTok :: cTok :: extTok :: dTok :: implTok ::
          (implementsTokens init last ++ [lb]))) (newSourceFile parseBody) =
        Parse (k + 5) exitDepth
          (classTok :: cTok :: extTok :: dTok :: implTok :: (implementsTokens init last ++ [lb]))
          { m_depth := 0, m_reachedEOF := false, m_parseFunctionBody := parseBody,
            m_lookBackTokens := [], m_comments := [], m_aliases := [], m_scopes := [0],
            m_defines := [],
            store := [({ kind := EntityKind.kEntityTypeNamespace } : PHPEntity).SetFullName
              (withLeadingSep (tokensText nsPath))], phaseTwoRuns := 0, nullClassCast := false } := by
      rw [← Nat.add_assoc, Parse]
      simp only [hnt, OnNamespace]
      rw [OnNamespace_loop_path nsPath nsSemi _ _ hnp hnsemi]
      simp [newSourceFile, NextToken_found, hnt]
    rw [hstep]
    obtain ⟨st, h⟩ := Parse_class_header k exitDepth
      (({ kind := EntityKind.kEntityTypeNamespace } : PHPEntity).SetFullName
        (withLeadingSep (tokensText nsPath)))
      (withLeadingSep (tokensText nsPath) ++ nsSep)
      0 parseBody [] [] [] 0 false classTok cTok extTok dTok implTok last lb init
      (by simp [PHPEntity.SetFullName, isPathTokens_not_endsWith_sep hnp])
      (by
        obtain ⟨r, hr, _⟩ := withLeadingSep_cons (tokensText nsPath)
        rw [hr]
        simp [StartsWith, nsSep])
      hclass hc hcp hext hd hdp himpl hinit hlast hlb
    obtain ⟨h1, h2, h3, h4, h5, h6, h7, h8, h9, h10⟩ := h
    refine ⟨st, h1, h2, ?_, ?_, ?_, h6, h7, ?_, ?_, ?_⟩
    · simpa [PHPEntity.SetFullName] using h3
    · simpa [PHPEntity.SetFullName] using h4
    · simpa [PHPEntity.SetFullName] using h5
    · simpa using h8
    · simpa using h9
    · simpa using h10
  · cases parseBody <;> decide

theorem C2_namespace_class_names_witness :
    ∃ st : PHPSourceFile,
      ParseFile false (-1)
        (mkToken TokType.kPHP_T_NAMESPACE "namespace" 1 ::
          ([mkToken TokType.kPHP_T_IDENTIFIER "A" 1, mkToken TokType.kPHP_T_NS_SEPARATOR "\\" 1,
              mkToken TokType.kPHP_T_IDENTIFIER "B" 1] ++
            mkToken TokType.chr_semi ";" 1 :: mkToken TokType.kPHP_T_CLASS "class" 1 ::
            mkToken TokType.kPHP_T_IDENTIFIER "C" 1 :: mkToken TokType.kPHP_T_EXTENDS "extends" 1 ::
            mkToken TokType.kPHP_T_IDENTIFIER "D" 1 ::
            mkToken TokType.kPHP_T_IMPLEMENTS "implements" 1 ::
            (implementsTokens
                [(mkToken TokType.kPHP_T_IDENTIFIER "E" 1, mkToken TokType.chr_comma "," 1)]
                (mkToken TokType.kPHP_T_IDENTIFIER "F" 1) ++
              [mkToken TokType.chr_lbrace "\x7b" 1]))) = some ([], st) ∧
      st.store.length = 2 ∧
      (entityAt st 0).kind = EntityKind.kEntityTypeNamespace ∧
      (entityAt st 0).fullName =
        withLeadingSep (tokensText [mkToken TokType.kPHP_T_IDENTIFIER "A" 1,
          mkToken TokType.kPHP_T_NS_SEPARATOR "\\" 1, mkToken TokType.kPHP_T_IDENTIFIER "B" 1]) ∧
      (entityAt st 0).children = [1] ∧
      (entityAt st 1).kind = EntityKind.kEntityTypeClass ∧
      (entityAt st 1).parent = some 0 ∧
      (entityAt st 1).fullName =
        withLeadingSep (tokensText [mkToken TokType.kPHP_T_IDENTIFIER "A" 1,
          mkToken TokType.kPHP_T_NS_SEPARATOR "\\" 1, mkToken TokType.kPHP_T_IDENTIFIER "B" 1]) ++
          nsSep ++ (mkToken TokType.kPHP_T_IDENTIFIER "C" 1).text ∧
      (entityAt st 1).extends_ =
        withLeadingSep (tokensText [mkToken TokType.kPHP_T_IDENTIFIER "A" 1,
          mkToken TokType.kPHP_T_NS_SEPARATOR "\\" 1, mkToken TokType.kPHP_T_IDENTIFIER "B" 1]) ++
          nsSep ++ (mkToken TokType.kPHP_T_IDENTIFIER "D" 1).text ∧
      (entityAt st 1).implements_ =
        (implementsNames
            [(mkToken TokType.kPHP_T_IDENTIFIER "E" 1, mkToken TokType.chr_comma "," 1)]
            (mkToken TokType.kPHP_T_IDENTIFIER "F" 1)).map
          (fun w => withLeadingSep (tokensText [mkToken TokType.kPHP_T_IDENTIFIER "A" 1,
            mkToken TokType.kPHP_T_NS_SEPARATOR "\\" 1,
            mkToken TokType.kPHP_T_IDENTIFIER "B" 1]) ++ nsSep ++ w) :=
  (C2_namespace_class_names false (-1) _ _ _ _ _ _ _ _ _ _ _
    (by decide) (by decide) (by decide) (by decide) (by decide) (by decide) (by decide)
    (by decide) (by decide) (by decide) (by decide) (by decide) (by decide)).1

/-! ## The resolver invariant: elementary steps -/

theorem storeModify_length (f : PHPEntity → PHPEntity) (i : Nat) (st : List PHPEntity) :
    (storeModify f i st).length = st.length := by
  induction st generalizing i with
  | nil => cases i <;> rfl
  | cons e es ih =>
    cases i with
    | zero => rfl
    | succ n => simp [storeModify, ih]

theorem storeModify_nameAt (f : PHPEntity → PHPEntity) (hf : ∀ e, (f e).fullName = e.fullName)
    (i j : Nat) (st : List PHPEntity) : nameAt (storeModify f i st) j = nameAt st j := by
  induction st generalizing i j with
  | nil => cases i <;> rfl
  | cons e es ih =>
    cases i with
    | zero =>
      cases j with
      | zero => simp [storeModify, nameAt, hf]
      | succ m => simp [storeModify, nameAt]
    | succ n =>
      cases j with
      | zero => simp [storeModify, nameAt]
      | succ m =>
        have := ih n m
        simpa [storeModify, nameAt] using this

theorem nameAt_append (st : List PHPEntity) (x : PHPEntity) (j : Nat) (h : j < st.length) :
    nameAt (st ++ [x]) j = nameAt st j := by
  simp [nameAt, List.getD_eq_getElem?_getD, List.getElem?_append_left h]

theorem entityAt_fullName (s : PHPSourceFile) (i : Nat) :
    (entityAt s i).fullName = nameAt s.store i := rfl

/-- The invariant depends on the alias table, the scope stack and the names in
the store only; the store may grow. -/
theorem ResolverInv_of_frame (s s1 : PHPSourceFile) (h : ResolverInv s)
    (ha : s1.m_aliases = s.m_aliases) (hsc : s1.m_scopes = s.m_scopes)
    (hlen : s.store.length ≤ s1.store.length)
    (hname : ∀ j, j < s.store.length → nameAt s1.store j = nameAt s.store j) :
    ResolverInv s1 := by
  obtain ⟨h1, h2⟩ := h
  refine ⟨by rw [ha]; exact h1, ?_⟩
  unfold bottomOk at h2 ⊢
  rw [hsc]
  cases hs : s.m_scopes with
  | nil => rfl
  | cons id more =>
    rw [hs] at h2
    simp only [Bool.and_eq_true, decide_eq_true_eq] at h2 ⊢
    refine ⟨Nat.lt_of_lt_of_le h2.1 hlen, ?_⟩
    rw [entityAt_fullName, hname id h2.1, ← entityAt_fullName]
    exact h2.2

theorem ResolverInv_of_same (s s1 : PHPSourceFile) (h : ResolverInv s)
    (ha : s1.m_aliases = s.m_aliases) (hsc : s1.m_scopes = s.m_scopes)
    (hst : s1.store = s.store) : ResolverInv s1 :=
  ResolverInv_of_frame s s1 h ha hsc (by rw [hst]) (by intro j _; rw [hst])

theorem ResolverInv_new (b : Bool) : ResolverInv (newSourceFile b) := by
  constructor <;> rfl

theorem ResolverInv_NextToken_found (s : PHPSourceFile) (t : phpLexerToken)
    (h : ResolverInv s) : ResolverInv (NextToken_found s t) :=
  ResolverInv_of_same s _ h (by simp) (by simp) (by simp)

theorem ResolverInv_NextToken_eof (s : PHPSourceFile) (h : ResolverInv s) :
    ResolverInv (NextToken_eof s) :=
  ResolverInv_of_same s _ h rfl rfl rfl

theorem ResolverInv_lookBack (s : PHPSourceFile) (l : List phpLexerToken) (h : ResolverInv s) :
    ResolverInv { s with m_lookBackTokens := l } :=
  ResolverInv_of_same s _ h rfl rfl rfl

theorem ResolverInv_UngetToken (toks : Tokens) (s : PHPSourceFile) (t : phpLexerToken)
    (h : ResolverInv s) : ResolverInv (UngetToken toks s t).2 := by
  apply ResolverInv_of_same s _ h <;> (unfold UngetToken; simp only; split_ifs <;> rfl)

theorem CurrentScope_scopes_ne_nil (s : PHPSourceFile) : (CurrentScope s).2.m_scopes ≠ [] := by
  unfold CurrentScope
  cases h : s.m_scopes.getLast? with
  | none => simp
  | some id =>
    simp only
    intro hn
    rw [hn] at h
    simp at h

theorem ResolverInv_CurrentScope (s : PHPSourceFile) (h : ResolverInv s) :
    ResolverInv (CurrentScope s).2 := by
  unfold CurrentScope
  cases hl : s.m_scopes.getLast? with
  | some id => exact h
  | none =>
    refine ⟨h.1, ?_⟩
    simp [bottomOk, entityAt, PHPEntity.SetFullName, nameOk, StartsWith, nsSep]

theorem AddChild_scopes (s : PHPSourceFile) (p : Nat) (c : PHPEntity) :
    (AddChild s p c).2.m_scopes = s.m_scopes := rfl

theorem AddChild_aliases (s : PHPSourceFile) (p : Nat) (c : PHPEntity) :
    (AddChild s p c).2.m_aliases = s.m_aliases := rfl

theorem ResolverInv_AddChild (s : PHPSourceFile) (p : Nat) (c : PHPEntity)
    (h : ResolverInv s) : ResolverInv (AddChild s p c).2 := by
  refine ResolverInv_of_frame s _ h rfl rfl ?_ ?_
  · simp [AddChild, storeModify_length]
  · intro j hj
    simp only [AddChild]
    rw [storeModify_nameAt _ (by intro e; rfl), nameAt_append _ _ _ hj]

theorem ResolverInv_storeModify (s : PHPSourceFile) (f : PHPEntity → PHPEntity)
    (hf : ∀ e, (f e).fullName = e.fullName) (i : Nat) (h : ResolverInv s) :
    ResolverInv { s with store := storeModify f i s.store } := by
  refine ResolverInv_of_frame s _ h rfl rfl ?_ ?_
  · simp [storeModify_length]
  · intro j _
    exact storeModify_nameAt f hf i j s.store

theorem ResolverInv_push (s : PHPSourceFile) (x : Nat) (h : ResolverInv s)
    (hne : s.m_scopes ≠ []) : ResolverInv { s with m_scopes := s.m_scopes ++ [x] } := by
  obtain ⟨h1, h2⟩ := h
  refine ⟨h1, ?_⟩
  unfold bottomOk at h2 ⊢
  cases hs : s.m_scopes with
  | nil => exact absurd hs hne
  | cons id more =>
    rw [hs] at h2
    simpa [entityAt] using h2

theorem ResolverInv_popScope (s : PHPSourceFile) (h : ResolverInv s) :
    ResolverInv (popScope s) := by
  obtain ⟨h1, h2⟩ := h
  refine ⟨h1, ?_⟩
  unfold bottomOk at h2 ⊢
  cases hs : s.m_scopes with
  | nil => simp [popScope, hs]
  | cons id more =>
    rw [hs] at h2
    cases more with
    | nil => simp [popScope, hs]
    | cons a b => simpa [popScope, hs, entityAt] using h2

theorem ResolverInv_Namespace (s : PHPSourceFile) (h : ResolverInv s) :
    ResolverInv (Namespace s).2 := by
  unfold Namespace
  cases hs : s.m_scopes with
  | nil => simp only; exact ResolverInv_CurrentScope s h
  | cons id more => exact h

/-- Name resolution changes the parser only by creating the global namespace
when there is no scope yet. -/
theorem MakeIdentifierAbsolute_state (s : PHPSourceFile) (w : WxString) :
    (MakeIdentifierAbsolute s w).2 = s ∨ (MakeIdentifierAbsolute s w).2 = (Namespace s).2 := by
  unfold MakeIdentifierAbsolute
  simp only
  by_cases h1 : isPrimitiveName (Trim w) = true
  · rw [if_pos h1]; exact Or.inl rfl
  · rw [if_neg h1]
    by_cases h2 : (Trim w).isEmpty = true
    · rw [if_pos h2]; exact Or.inl rfl
    · rw [if_neg h2]
      by_cases h3 : Contains (Trim w) '\\' = true
      · rw [if_pos h3]; exact Or.inl rfl
      · rw [if_neg h3]
        by_cases h4 : StartsWith (Trim w) nsSep = true
        · rw [if_pos h4]; exact Or.inl rfl
        · rw [if_neg h4]
          cases aliasFind s.m_aliases w with
          | some v => exact Or.inl rfl
          | none => exact Or.inr rfl

theorem ResolverInv_MakeIdentifierAbsolute (s : PHPSourceFile) (w : WxString)
    (h : ResolverInv s) : ResolverInv (MakeIdentifierAbsolute s w).2 := by
  rcases MakeIdentifierAbsolute_state s w with h1 | h1
  · rw [h1]; exact h
  · rw [h1]; exact ResolverInv_Namespace s h

theorem ResolverInv_aliasInsert (s : PHPSourceFile) (k v : WxString) (h : ResolverInv s)
    (hv : StartsWith v nsSep = true) :
    ResolverInv { s with m_aliases := aliasInsert s.m_aliases k v } := by
  obtain ⟨h1, h2⟩ := h
  refine ⟨?_, h2⟩
  simp only [aliasesOk, List.all_eq_true] at h1 ⊢
  intro e he
  rcases aliasInsert_mem _ _ _ e he with he1 | he1
  · exact h1 e he1
  · rw [he1]; exact hv

theorem lexerOk_cons {t : phpLexerToken} {ts : Tokens} (h : lexerOk (t :: ts) = true) :
    lexerOk ts = true := by
  simp only [lexerOk, List.all_cons, Bool.and_eq_true] at h ⊢
  exact h.2

/-! ## The resolver invariant: token loops -/

theorem lexerOk_nil : lexerOk [] = true := rfl

theorem lexerOk_unget {t : phpLexerToken} {ts : Tokens} (h : lexerOk (t :: ts) = true)
    (s : PHPSourceFile) : lexerOk (UngetToken ts s t).1 = true := h

theorem ConsumeUntil_keeps (delim : TokType) (toks : Tokens) (s : PHPSourceFile) :
    Keeps toks s (ConsumeUntil delim toks s).2.1 (ConsumeUntil delim toks s).2.2 := by
  induction toks generalizing s with
  | nil => intro _ hi; exact ⟨lexerOk_nil, ResolverInv_NextToken_eof s hi⟩
  | cons t ts ih =>
    intro hl hi
    have hl1 := lexerOk_cons hl
    have hi1 := ResolverInv_NextToken_found s t hi
    unfold ConsumeUntil
    split_ifs
    · exact ⟨hl1, hi1⟩
    · exact ih _ hl1 hi1

theorem ReadUntilFound_keeps (delim : TokType) (toks : Tokens) (s : PHPSourceFile) :
    Keeps toks s (ReadUntilFound delim toks s).2.1 (ReadUntilFound delim toks s).2.2 := by
  induction toks generalizing s with
  | nil => intro _ hi; exact ⟨lexerOk_nil, ResolverInv_NextToken_eof s hi⟩
  | cons t ts ih =>
    intro hl hi
    have hl1 := lexerOk_cons hl
    have hi1 := ResolverInv_NextToken_found s t hi
    unfold ReadUntilFound
    split_ifs
    · exact ⟨hl1, hi1⟩
    · exact ih _ hl1 hi1

theorem ReadUntilFoundOneOf_keeps (d1 d2 : TokType) (toks : Tokens) (s : PHPSourceFile) :
    Keeps toks s (ReadUntilFoundOneOf d1 d2 toks s).2.1 (ReadUntilFoundOneOf d1 d2 toks s).2.2 := by
  induction toks generalizing s with
  | nil => intro _ hi; exact ⟨lexerOk_nil, ResolverInv_NextToken_eof s hi⟩
  | cons t ts ih =>
    intro hl hi
    have hl1 := lexerOk_cons hl
    have hi1 := ResolverInv_NextToken_found s t hi
    unfold ReadUntilFoundOneOf
    split_ifs
    · exact ⟨hl1, hi1⟩
    · exact ⟨hl1, hi1⟩
    · exact ih _ hl1 hi1

theorem ParseFunctionSignature_open_keeps (toks : Tokens) (s : PHPSourceFile) :
    Keeps toks s (ParseFunctionSignature_open toks s).2.1
      (ParseFunctionSignature_open toks s).2.2 := by
  induction toks generalizing s with
  | nil => intro _ hi; exact ⟨lexerOk_nil, ResolverInv_NextToken_eof s hi⟩
  | cons t ts ih =>
    intro hl hi
    have hl1 := lexerOk_cons hl
    have hi1 := ResolverInv_NextToken_found s t hi
    unfold ParseFunctionSignature_open
    split_ifs
    · exact ⟨hl1, hi1⟩
    · exact ih _ hl1 hi1

theorem OnClass_name_keeps (toks : Tokens) (s : PHPSourceFile) :
    Keeps toks s (OnClass_name toks s).2.1 (OnClass_name toks s).2.2 := by
  induction toks generalizing s with
  | nil => intro _ hi; exact ⟨lexerOk_nil, ResolverInv_NextToken_eof s hi⟩
  | cons t ts ih =>
    intro hl hi
    have hl1 := lexerOk_cons hl
    have hi1 := ResolverInv_NextToken_found s t hi
    unfold OnClass_name
    simp only
    split_ifs
    · exact ih _ hl1 hi1
    · exact ⟨hl1, hi1⟩
    · exact ⟨hl1, hi1⟩

theorem ConsumeFunctionBody_loop_keeps (depth : Int) (toks : Tokens) (s : PHPSourceFile) :
    Keeps toks s (ConsumeFunctionBody_loop depth toks s).1
      (ConsumeFunctionBody_loop depth toks s).2 := by
  induction toks generalizing s with
  | nil => intro _ hi; exact ⟨lexerOk_nil, ResolverInv_NextToken_eof s hi⟩
  | cons t ts ih =>
    intro hl hi
    have hl1 := lexerOk_cons hl
    have hi1 := ResolverInv_NextToken_found s t hi
    unfold ConsumeFunctionBody_loop
    simp only
    split_ifs
    · exact ⟨hl1, hi1⟩
    · exact ih _ hl1 hi1

theorem ReadExpression_loop_keeps (toks : Tokens) (s : PHPSourceFile) (expression : WxString)
    (depth : Int) :
    Keeps toks s (ReadExpression_loop toks s expression depth).2.2.1
      (ReadExpression_loop toks s expression depth).2.2.2 := by
  induction toks generalizing s expression depth with
  | nil => intro _ hi; exact ⟨lexerOk_nil, ResolverInv_NextToken_eof s hi⟩
  | cons t ts ih =>
    intro hl hi
    have hl1 := lexerOk_cons hl
    have hi1 := ResolverInv_NextToken_found s t hi
    unfold ReadExpression_loop
    simp only
    repeat' split
    all_goals first
      | exact ⟨hl1, hi1⟩
      | exact ⟨lexerOk_unget hl _, ResolverInv_UngetToken _ _ _ hi1⟩
      | exact ih _ _ _ hl1 hi1

theorem ResolverInv_OnUse_insert (s : PHPSourceFile) (f a : WxString) (h : ResolverInv s) :
    ResolverInv (OnUse_insert s f a) := by
  unfold OnUse_insert
  apply ResolverInv_aliasInsert _ _ _ (ResolverInv_MakeIdentifierAbsolute _ _ h)
  obtain ⟨r, hr, _⟩ := withLeadingSep_cons f
  rw [hr, MakeIdentifierAbsolute_sep]
  simp [StartsWith, nsSep]

theorem ResolverInv_OnUse_delimiter (s : PHPSourceFile) (f a temp : WxString)
    (h : ResolverInv s) : ResolverInv (OnUse_delimiter s f a temp) := by
  have hstep : ∀ (c : Bool) (x y : WxString),
      ResolverInv (if c = true then OnUse_insert s x y else s) := by
    intro c x y
    cases c
    · exact h
    · exact ResolverInv_OnUse_insert _ _ _ h
  unfold OnUse_delimiter
  split
  dsimp only
  split <;> exact hstep _ _ _

theorem OnUse_loop_keeps (toks : Tokens) (s : PHPSourceFile) (f a temp : WxString) :
    Keeps toks s (OnUse_loop toks s f a temp).1 (OnUse_loop toks s f a temp).2 := by
  induction toks generalizing s f a temp with
  | nil => intro _ hi; exact ⟨lexerOk_nil, ResolverInv_NextToken_eof s hi⟩
  | cons t ts ih =>
    intro hl hi
    have hl1 := lexerOk_cons hl
    have hi1 := ResolverInv_NextToken_found s t hi
    have hi2 := ResolverInv_OnUse_delimiter _ f a temp hi1
    unfold OnUse_loop
    simp only
    split_ifs
    · exact ⟨hl1, hi2⟩
    · exact ih _ _ _ _ hl1 hi2
    · exact ih _ _ _ _ hl1 hi1
    · exact ih _ _ _ _ hl1 hi1

/-! ## The resolver invariant: declarations -/

theorem StartsWith_append (a b : WxString) (h : StartsWith a nsSep = true) :
    StartsWith (a ++ b) nsSep = true := by
  cases a with
  | nil => simp [StartsWith, nsSep] at h
  | cons c r =>
    simp only [StartsWith, nsSep, List.isPrefixOf, Bool.and_true, beq_iff_eq] at h
    simp only [StartsWith, nsSep, List.cons_append, List.isPrefixOf, Bool.and_true, beq_iff_eq]
    exact h

theorem lexerOk_head {t : phpLexerToken} {ts : Tokens} (h : lexerOk (t :: ts) = true)
    (ht : t.type = TokType.kPHP_T_NS_SEPARATOR) : StartsWith t.text nsSep = true := by
  simp only [lexerOk, List.all_cons, Bool.and_eq_true, Bool.or_eq_true, bne_iff_ne, ne_eq] at h
  rcases h.1 with h1 | h1
  · exact absurd ht h1
  · exact h1

/-- The path the loop of `OnNamespace` collects is empty or begins with the
separator. -/
theorem OnNamespace_loop_keeps (toks : Tokens) (s : PHPSourceFile) (path : WxString)
    (hp : nameOk path = true) (hl : lexerOk toks = true) (hi : ResolverInv s) :
    nameOk (OnNamespace_loop toks s path).1 = true ∧
    lexerOk (OnNamespace_loop toks s path).2.1 = true ∧
    ResolverInv (OnNamespace_loop toks s path).2.2 := by
  induction toks generalizing s path with
  | nil => exact ⟨hp, lexerOk_nil, ResolverInv_NextToken_eof s hi⟩
  | cons t ts ih =>
    have hl1 := lexerOk_cons hl
    have hi1 := ResolverInv_NextToken_found s t hi
    unfold OnNamespace_loop
    dsimp only
    by_cases hsemi : t.type = TokType.chr_semi
    · rw [if_pos hsemi]
      exact ⟨hp, hl1, hi1⟩
    · rw [if_neg hsemi]
      apply ih _ _ _ hl1 hi1
      by_cases hc : path.isEmpty = true ∧ t.type ≠ TokType.kPHP_T_NS_SEPARATOR
      · rw [if_pos hc]
        have : path = [] := by simpa using hc.1
        subst this
        simp [nameOk, StartsWith, nsSep]
      · rw [if_neg hc]
        by_cases hpe : path.isEmpty = true
        · have hpn : path = [] := by simpa using hpe
          have hns : t.type = TokType.kPHP_T_NS_SEPARATOR := by
            by_contra hne
            exact hc ⟨hpe, hne⟩
          subst hpn
          simp only [List.nil_append, nameOk, Bool.or_eq_true]
          exact Or.inr (lexerOk_head hl hns)
        · simp only [nameOk, Bool.or_eq_true] at hp ⊢
          rcases hp with hp | hp
          · exact absurd hp hpe
          · exact Or.inr (StartsWith_append _ _ hp)

theorem OnNamespace_keeps (toks : Tokens) (s : PHPSourceFile) :
    Keeps toks s (OnNamespace toks s).1 (OnNamespace toks s).2 := by
  intro hl hi
  obtain ⟨h1, h2, h3⟩ := OnNamespace_loop_keeps toks s [] rfl hl hi
  unfold OnNamespace
  dsimp only
  split_ifs
  · refine ⟨h2, h3.1, ?_⟩
    simp [bottomOk, entityAt, PHPEntity.SetFullName, h1]
  · exact ⟨h2, h3⟩

theorem ResolverInv_attachParameter (s : PHPSourceFile) (var : Option PHPEntity)
    (dv : WxString) (h : ResolverInv s) : ResolverInv (attachParameter s var dv) := by
  cases var with
  | none => exact h
  | some v => exact ResolverInv_AddChild _ _ _ (ResolverInv_CurrentScope s h)

theorem ParseFunctionSignature_loop_keeps (toks : Tokens) (s : PHPSourceFile) (depth : Int)
    (typeHint defaultValue : WxString) (var : Option PHPEntity) (collecting : Bool) :
    Keeps toks s
      (ParseFunctionSignature_loop toks s depth typeHint defaultValue var collecting).1
      (ParseFunctionSignature_loop toks s depth typeHint defaultValue var collecting).2 := by
  induction toks generalizing s depth typeHint defaultValue var collecting with
  | nil => intro _ hi; exact ⟨lexerOk_nil, ResolverInv_NextToken_eof s hi⟩
  | cons t ts ih =>
    intro hl hi
    have hl1 := lexerOk_cons hl
    have hi1 := ResolverInv_NextToken_found s t hi
    unfold ParseFunctionSignature_loop
    dsimp only
    split
    · exact ih _ _ _ _ _ _ hl1 (ResolverInv_MakeIdentifierAbsolute _ _ hi1)
    · exact ih _ _ _ _ _ _ hl1 hi1
    · split_ifs
      · exact ⟨hl1, ResolverInv_attachParameter _ _ _ hi1⟩
      · exact ih _ _ _ _ _ _ hl1 hi1
      · exact ih _ _ _ _ _ _ hl1 hi1
    · exact ih _ _ _ _ _ _ hl1 hi1
    · exact ih _ _ _ _ _ _ hl1 (ResolverInv_attachParameter _ _ _ hi1)
    · split_ifs
      · exact ih _ _ _ _ _ _ hl1 hi1
      · exact ih _ _ _ _ _ _ hl1 hi1

theorem ParseFunctionSignature_keeps (startingDepth : Int) (toks : Tokens) (s : PHPSourceFile) :
    Keeps toks s (ParseFunctionSignature startingDepth toks s).1
      (ParseFunctionSignature startingDepth toks s).2 := by
  intro hl hi
  unfold ParseFunctionSignature
  split_ifs
  · have h := ParseFunctionSignature_open_keeps toks s hl hi
    split
    · next heq => rw [heq] at h; exact h
    · next heq =>
      rw [heq] at h
      exact ParseFunctionSignature_loop_keeps _ _ _ _ _ _ _ h.1 h.2
  · exact ParseFunctionSignature_loop_keeps _ _ _ _ _ _ _ hl hi

/-! ## The resolver invariant: function bodies -/

theorem GoodResult_none : GoodResult none := by
  intro rest s1 h
  cases h

theorem GoodResult_some {ts : Tokens} {s : PHPSourceFile} (h1 : lexerOk ts = true)
    (h2 : ResolverInv s) : GoodResult (some (ts, s)) := by
  intro rest s1 h
  simp only [Option.some.injEq, Prod.mk.injEq] at h
  rw [← h.1, ← h.2]
  exact ⟨h1, h2⟩

theorem ConsumeFunctionBody_keeps (toks : Tokens) (s : PHPSourceFile) :
    Keeps toks s (ConsumeFunctionBody toks s).1 (ConsumeFunctionBody toks s).2 :=
  ConsumeFunctionBody_loop_keeps _ toks s

theorem ReadExpression_keeps (toks : Tokens) (s : PHPSourceFile) :
    Keeps toks s (ReadExpression toks s).2.2.1 (ReadExpression toks s).2.2.2 :=
  ReadExpression_loop_keeps toks s [] 0

theorem ResolverInv_assignExpressionHint (s : PHPSourceFile) (var : Option Nat)
    (expr : WxString) (h : ResolverInv s) : ResolverInv (assignExpressionHint s var expr) := by
  unfold assignExpressionHint
  split_ifs
  · cases var with
    | some id =>
      exact ResolverInv_storeModify _ _ (by intro e; rfl) _
        (ResolverInv_MakeIdentifierAbsolute _ _ h)
    | none => exact ResolverInv_MakeIdentifierAbsolute _ _ h
  · cases var with
    | some id => exact ResolverInv_storeModify _ _ (by intro e; rfl) _ h
    | none => exact h

theorem ParseFunctionBody_loop_good (fuel : Nat) (exitDepth : Int) (toks : Tokens)
    (s : PHPSourceFile) (hl : lexerOk toks = true) (hi : ResolverInv s) :
    GoodResult (ParseFunctionBody_loop fuel exitDepth toks s) := by
  induction fuel generalizing toks s with
  | zero => unfold ParseFunctionBody_loop; exact GoodResult_none
  | succ n ih =>
    cases toks with
    | nil =>
      unfold ParseFunctionBody_loop
      exact GoodResult_some lexerOk_nil (ResolverInv_NextToken_eof s hi)
    | cons t ts =>
      have hl1 := lexerOk_cons hl
      have hi1 := ResolverInv_NextToken_found s t hi
      unfold ParseFunctionBody_loop
      dsimp only
      split
      · exact ih _ _ hl1 (ResolverInv_lookBack _ _ hi1)
      · split_ifs
        · exact GoodResult_some hl1 (ResolverInv_lookBack _ _ hi1)
        · exact ih _ _ hl1 (ResolverInv_lookBack _ _ hi1)
      · exact ih _ _ hl1 (ResolverInv_lookBack _ _ hi1)
      · have hi2 := ResolverInv_AddChild _
          (CurrentScope (NextToken_found s t)).1
          ({ ({ kind := EntityKind.kEntityTypeVariable } : PHPEntity).SetFullName t.text with
              line := t.lineNumber })
          (ResolverInv_CurrentScope _ hi1)
        cases ts with
        | nil =>
          simp only [NextToken]
          exact GoodResult_some lexerOk_nil (ResolverInv_NextToken_eof _ hi2)
        | cons tk ts1 =>
          have hl2 := lexerOk_cons hl1
          have hi3 := ResolverInv_NextToken_found _ tk hi2
          simp only [NextToken]
          split_ifs
          · exact ih _ _ (lexerOk_unget hl1 _)
              (ResolverInv_UngetToken _ _ _ (ResolverInv_lookBack _ _ hi3))
          · have hre := ReadExpression_keeps ts1 _ hl2 hi3
            split
            · next heq => rw [heq] at hre; exact GoodResult_some hre.1 hre.2
            · next heq =>
              rw [heq] at hre
              exact ih _ _ hre.1 (ResolverInv_assignExpressionHint _ _ _ hre.2)
      · exact ih _ _ hl1 hi1

theorem ParseFunctionBody_good (fuel : Nat) (toks : Tokens) (s : PHPSourceFile)
    (hl : lexerOk toks = true) (hi : ResolverInv s) :
    GoodResult (ParseFunctionBody fuel toks s) :=
  ParseFunctionBody_loop_good fuel _ toks _ hl (ResolverInv_lookBack _ _ hi)

/-! ## The resolver invariant: functions, variables, constants -/

theorem ConsumeUntil_eq_keeps {delim : TokType} {toks ts : Tokens} {s s1 : PHPSourceFile}
    {b : Bool} (h : ConsumeUntil delim toks s = (b, ts, s1)) (hl : lexerOk toks = true)
    (hi : ResolverInv s) : lexerOk ts = true ∧ ResolverInv s1 := by
  have := ConsumeUntil_keeps delim toks s hl hi
  rw [h] at this
  exact this

theorem ReadUntilFound_eq_keeps {delim : TokType} {toks ts : Tokens} {s s1 : PHPSourceFile}
    {b : Option phpLexerToken} (h : ReadUntilFound delim toks s = (b, ts, s1))
    (hl : lexerOk toks = true) (hi : ResolverInv s) : lexerOk ts = true ∧ ResolverInv s1 := by
  have := ReadUntilFound_keeps delim toks s hl hi
  rw [h] at this
  exact this

theorem ReadUntilFoundOneOf_eq_keeps {d1 d2 : TokType} {toks ts : Tokens} {s s1 : PHPSourceFile}
    {b : Option (TokType × phpLexerToken)} (h : ReadUntilFoundOneOf d1 d2 toks s = (b, ts, s1))
    (hl : lexerOk toks = true) (hi : ResolverInv s) : lexerOk ts = true ∧ ResolverInv s1 := by
  have := ReadUntilFoundOneOf_keeps d1 d2 toks s hl hi
  rw [h] at this
  exact this

theorem ReadExpression_eq_keeps {toks ts : Tokens} {s s1 : PHPSourceFile} {b : Bool}
    {e : WxString} (h : ReadExpression toks s = (b, e, ts, s1)) (hl : lexerOk toks = true)
    (hi : ResolverInv s) : lexerOk ts = true ∧ ResolverInv s1 := by
  have := ReadExpression_keeps toks s hl hi
  rw [h] at this
  exact this

theorem GoodResult_ite (c : Prop) [Decidable c] (a b : Option (Tokens × PHPSourceFile))
    (ha : GoodResult a) (hb : GoodResult b) : GoodResult (if c then a else b) := by
  split_ifs
  · exact ha
  · exact hb

theorem OnFunction_body_good (fuel : Nat) (func : PHPEntity) (funcDepth : Int) (toks : Tokens)
    (s : PHPSourceFile) (hl : lexerOk toks = true) (hi : ResolverInv s) :
    GoodResult (OnFunction_body fuel func funcDepth toks s) := by
  unfold OnFunction_body
  dsimp only
  have hi0 := ResolverInv_CurrentScope s hi
  have hne := CurrentScope_scopes_ne_nil s
  generalize CurrentScope s = sc at hi0 hne ⊢
  have hiA := ResolverInv_AddChild sc.2 sc.1 func hi0
  have hneA : (AddChild sc.2 sc.1 func).2.m_scopes ≠ [] := by rw [AddChild_scopes]; exact hne
  generalize AddChild sc.2 sc.1 func = a at hiA hneA ⊢
  have hiP := ResolverInv_push a.2 a.1 hiA hneA
  have hk := ParseFunctionSignature_keeps funcDepth toks _ hl hiP
  generalize ParseFunctionSignature funcDepth toks
    { a.2 with m_scopes := a.2.m_scopes ++ [a.1] } = sig at hk ⊢
  split
  · exact GoodResult_none
  next ts0 s0 heq0 =>
  have hg : lexerOk ts0 = true ∧ ResolverInv s0 := by
    refine (?_ : GoodResult _) ts0 s0 heq0
    apply GoodResult_ite
    · split
      · next heq =>
        have hc := ConsumeUntil_eq_keeps heq hk.1
          (ResolverInv_storeModify _ _ (by intro e; rfl) _ hk.2)
        exact GoodResult_some hc.1 (ResolverInv_popScope _ hc.2)
      · next heq =>
        have hc := ConsumeUntil_eq_keeps heq hk.1
          (ResolverInv_storeModify _ _ (by intro e; rfl) _ hk.2)
        exact GoodResult_some hc.1 hc.2
    · split
      · next heq =>
        have hc := ReadUntilFound_eq_keeps heq hk.1
          (ResolverInv_storeModify _ _ (by intro e; rfl) _ hk.2)
        split_ifs
        · exact ParseFunctionBody_good _ _ _ hc.1 hc.2
        · exact GoodResult_some (ConsumeFunctionBody_keeps _ _ hc.1 hc.2).1
            (ConsumeFunctionBody_keeps _ _ hc.1 hc.2).2
      · next heq =>
        have hc := ReadUntilFound_eq_keeps heq hk.1
          (ResolverInv_storeModify _ _ (by intro e; rfl) _ hk.2)
        exact GoodResult_some hc.1 (ResolverInv_popScope _ hc.2)
  apply GoodResult_some hg.1
  apply ResolverInv_lookBack
  split_ifs
  · exact ResolverInv_popScope _ hg.2
  · exact hg.2

theorem OnFunction_good (fuel : Nat) (toks : Tokens) (s : PHPSourceFile)
    (hl : lexerOk toks = true) (hi : ResolverInv s) : GoodResult (OnFunction fuel toks s) := by
  cases toks with
  | nil => exact GoodResult_some lexerOk_nil (ResolverInv_NextToken_eof s hi)
  | cons t ts =>
    have hl1 := lexerOk_cons hl
    have hi1 := ResolverInv_NextToken_found s t hi
    unfold OnFunction
    dsimp only
    split_ifs
    · exact OnFunction_body_good _ _ _ _ _ hl1 hi1
    · exact OnFunction_body_good _ _ _ _ _ hl1 hi1
    · exact GoodResult_some hl1 hi1

theorem ResolverInv_OnVariable_attach (tok : phpLexerToken) (s : PHPSourceFile)
    (h : ResolverInv s) : ResolverInv (OnVariable_attach tok s).2 := by
  unfold OnVariable_attach
  dsimp only
  split_ifs
  · exact ResolverInv_AddChild _ _ _ (ResolverInv_CurrentScope s h)
  · exact ResolverInv_CurrentScope s h

theorem OnVariable_keeps (tok : phpLexerToken) (toks : Tokens) (s : PHPSourceFile) :
    Keeps toks s (OnVariable tok toks s).1 (OnVariable tok toks s).2 := by
  intro hl hi
  unfold OnVariable
  dsimp only
  have hiA := ResolverInv_OnVariable_attach tok s hi
  generalize OnVariable_attach tok s = a at hiA ⊢
  cases toks with
  | nil =>
    simp only [NextToken]
    exact ⟨lexerOk_nil, ResolverInv_NextToken_eof _ hiA⟩
  | cons t ts =>
    have hl1 := lexerOk_cons hl
    have hi1 := ResolverInv_NextToken_found _ t hiA
    simp only [NextToken]
    split_ifs
    · exact ⟨hl1, ResolverInv_lookBack _ _ hi1⟩
    · split
      · next heq => exact ReadExpression_eq_keeps heq hl1 hi1
      · next heq =>
        have hc := ReadExpression_eq_keeps heq hl1 hi1
        exact ⟨hc.1, ResolverInv_assignExpressionHint _ _ _ hc.2⟩

theorem OnDefine_keeps (tok : phpLexerToken) (toks : Tokens) (s : PHPSourceFile) :
    Keeps toks s (OnDefine tok toks s).1 (OnDefine tok toks s).2 := by
  intro hl hi
  unfold OnDefine
  cases toks with
  | nil =>
    simp only [NextToken]
    exact ⟨lexerOk_nil, ResolverInv_NextToken_eof _ hi⟩
  | cons t ts =>
    have hl1 := lexerOk_cons hl
    have hi1 := ResolverInv_NextToken_found _ t hi
    simp only [NextToken]
    split_ifs
    · exact ConsumeUntil_keeps _ _ _ hl1 hi1
    · cases ts with
      | nil =>
        simp only [NextToken]
        exact ⟨lexerOk_nil, ResolverInv_NextToken_eof _ hi1⟩
      | cons t2 ts2 =>
        have hl2 := lexerOk_cons hl1
        have hi2 := ResolverInv_NextToken_found _ t2 hi1
        simp only [NextToken]
        split_ifs
        · exact ConsumeUntil_keeps _ _ _ hl2 hi2
        · exact ConsumeUntil_keeps _ _ _ hl2 (ResolverInv_of_same _ _ hi2 rfl rfl rfl)
        · exact ConsumeUntil_keeps _ _ _ hl2 hi2

theorem OnUseTrait_loop_keeps (clas : Nat) (toks : Tokens) (s : PHPSourceFile)
    (identifiers : List WxString) (tempname : WxString) :
    Keeps toks s (OnUseTrait_loop clas toks s identifiers tempname).1
      (OnUseTrait_loop clas toks s identifiers tempname).2 := by
  induction toks generalizing s identifiers tempname with
  | nil => intro _ hi; exact ⟨lexerOk_nil, ResolverInv_NextToken_eof s hi⟩
  | cons t ts ih =>
    intro hl hi
    have hl1 := lexerOk_cons hl
    have hi1 := ResolverInv_NextToken_found s t hi
    have hi2 := ResolverInv_MakeIdentifierAbsolute _ tempname hi1
    unfold OnUseTrait_loop
    dsimp only
    split
    · split_ifs
      · exact ih _ _ _ hl1 hi2
      · exact ih _ _ _ hl1 hi1
    · have hr : ResolverInv
          (if (!tempname.isEmpty) = true then
              (identifiers ++ [(MakeIdentifierAbsolute (NextToken_found s t) tempname).1],
                (MakeIdentifierAbsolute (NextToken_found s t) tempname).2)
            else (identifiers, NextToken_found s t)).2 := by
        split_ifs
        · exact hi2
        · exact hi1
      generalize (if (!tempname.isEmpty) = true then
              (identifiers ++ [(MakeIdentifierAbsolute (NextToken_found s t) tempname).1],
                (MakeIdentifierAbsolute (NextToken_found s t) tempname).2)
            else (identifiers, NextToken_found s t)) = r at hr ⊢
      split_ifs
      · exact ⟨hl1, ResolverInv_storeModify _ _ (by intro e; rfl) _ hr⟩
      · exact ⟨hl1, ResolverInv_of_same _ _ hr rfl rfl rfl⟩
    · exact ih _ _ _ hl1 hi1

theorem OnUseTrait_keeps (toks : Tokens) (s : PHPSourceFile) :
    Keeps toks s (OnUseTrait toks s).1 (OnUseTrait toks s).2 := by
  intro hl hi
  exact OnUseTrait_loop_keeps _ toks _ _ _ hl (ResolverInv_CurrentScope s hi)

theorem ResolverInv_Class (s : PHPSourceFile) (h : ResolverInv s) : ResolverInv (Class s).2 :=
  ResolverInv_CurrentScope s h

theorem ResolverInv_PhaseTwo (s : PHPSourceFile) (h : ResolverInv s) :
    ResolverInv (PhaseTwo s) :=
  ResolverInv_of_same _ _ (ResolverInv_Namespace s h) rfl rfl rfl

/-! ## The resolver invariant: classes and the statement loop -/

theorem ReadCommaSeparatedIdentifiers_keeps (delim : TokType) (toks : Tokens)
    (s : PHPSourceFile) (list : List WxString) (temp : WxString) :
    Keeps toks s (ReadCommaSeparatedIdentifiers delim toks s list temp).2.2.1
      (ReadCommaSeparatedIdentifiers delim toks s list temp).2.2.2 := by
  induction toks generalizing s list temp with
  | nil => intro _ hi; exact ⟨lexerOk_nil, ResolverInv_NextToken_eof s hi⟩
  | cons t ts ih =>
    intro hl hi
    have hl1 := lexerOk_cons hl
    have hi1 := ResolverInv_NextToken_found s t hi
    have hi2 := ResolverInv_MakeIdentifierAbsolute _ temp hi1
    unfold ReadCommaSeparatedIdentifiers
    dsimp only
    by_cases hc : t.IsAnyComment = true
    · rw [if_pos hc]
      exact ih _ _ _ hl1 hi1
    · rw [if_neg hc]
      by_cases hd : t.type = delim
      · rw [if_pos hd]
        dsimp only
        refine ⟨lexerOk_unget hl _, ResolverInv_UngetToken _ _ _ ?_⟩
        split_ifs
        · exact hi2
        · exact hi1
      · rw [if_neg hd]
        split
        · split_ifs
          · exact ih _ _ _ hl1 hi2
          · exact ih _ _ _ hl1 hi1
        · exact ih _ _ _ hl1 hi1

theorem ReadCommaSeparatedIdentifiers_eq_keeps {delim : TokType} {toks ts : Tokens}
    {s s1 : PHPSourceFile} {list l : List WxString} {temp : WxString} {b : Bool}
    (h : ReadCommaSeparatedIdentifiers delim toks s list temp = (b, l, ts, s1))
    (hl : lexerOk toks = true) (hi : ResolverInv s) : lexerOk ts = true ∧ ResolverInv s1 := by
  have := ReadCommaSeparatedIdentifiers_keeps delim toks s list temp hl hi
  rw [h] at this
  exact this

theorem OnClass_loop_good
    (parse : Int → Tokens → PHPSourceFile → Option (Tokens × PHPSourceFile))
    (hparse : ∀ d toks s, lexerOk toks = true → ResolverInv s → GoodResult (parse d toks s))
    (fuel : Nat) (klass : PHPEntity) (toks : Tokens) (s : PHPSourceFile)
    (hl : lexerOk toks = true) (hi : ResolverInv s) :
    GoodResult (OnClass_loop parse fuel klass toks s) := by
  induction fuel generalizing klass toks s with
  | zero => unfold OnClass_loop; exact GoodResult_none
  | succ n ih =>
    cases toks with
    | nil =>
      unfold OnClass_loop
      exact GoodResult_some lexerOk_nil (ResolverInv_NextToken_eof s hi)
    | cons t ts =>
      have hl1 := lexerOk_cons hl
      have hi1 := ResolverInv_NextToken_found s t hi
      unfold OnClass_loop
      dsimp only
      by_cases hc : t.IsAnyComment = true
      · rw [if_pos hc]
        exact ih _ _ _ hl1 hi1
      · rw [if_neg hc]
        split
        · split
          · next heq =>
            have h := ReadUntilFound_eq_keeps heq hl1 hi1
            exact GoodResult_some h.1 h.2
          · next heq =>
            have h := ReadUntilFound_eq_keeps heq hl1 hi1
            exact ih _ _ _ h.1 (ResolverInv_MakeIdentifierAbsolute _ _ h.2)
        · split
          · next heq =>
            have h := ReadCommaSeparatedIdentifiers_eq_keeps heq hl1 hi1
            exact GoodResult_some h.1 h.2
          · next heq =>
            have h := ReadCommaSeparatedIdentifiers_eq_keeps heq hl1 hi1
            exact ih _ _ _ h.1 h.2
        · have hi0 := ResolverInv_CurrentScope _ hi1
          have hne := CurrentScope_scopes_ne_nil (NextToken_found s t)
          generalize CurrentScope (NextToken_found s t) = sc at hi0 hne ⊢
          have hiA := ResolverInv_AddChild sc.2 sc.1 klass hi0
          have hneA : (AddChild sc.2 sc.1 klass).2.m_scopes ≠ [] := by
            rw [AddChild_scopes]; exact hne
          generalize AddChild sc.2 sc.1 klass = a at hiA hneA ⊢
          have hiP := ResolverInv_push a.2 a.1 hiA hneA
          split
          · exact GoodResult_none
          · next ts2 s2 heq =>
            have h := hparse _ _ _ hl1 hiP ts2 s2 heq
            apply GoodResult_some h.1
            split_ifs
            · exact ResolverInv_popScope _ h.2
            · exact h.2
        · exact ih _ _ _ hl1 hi1

theorem OnClass_good
    (parse : Int → Tokens → PHPSourceFile → Option (Tokens × PHPSourceFile))
    (hparse : ∀ d toks s, lexerOk toks = true → ResolverInv s → GoodResult (parse d toks s))
    (fuel : Nat) (tok : phpLexerToken) (toks : Tokens) (s : PHPSourceFile)
    (hl : lexerOk toks = true) (hi : ResolverInv s) :
    GoodResult (OnClass parse fuel tok toks s) := by
  unfold OnClass
  split
  · next heq =>
    have h := OnClass_name_keeps toks s hl hi
    rw [heq] at h
    exact GoodResult_some h.1 h.2
  · next heq =>
    have h := OnClass_name_keeps toks s hl hi
    rw [heq] at h
    exact OnClass_loop_good parse hparse _ _ _ _ h.1 (ResolverInv_MakeIdentifierAbsolute _ _ h.2)

/-- The branch of the statement loop for a visibility keyword keeps the
invariant when the rest of the loop does. -/
theorem Parse_visibility_good (fuel : Nat) (retDepth : Int) (t : phpLexerToken) (ts : Tokens)
    (s : PHPSourceFile)
    (ih : ∀ (d : Int) (toks : Tokens) (s : PHPSourceFile), lexerOk toks = true →
      ResolverInv s → GoodResult (Parse fuel d toks s))
    (hl1 : lexerOk ts = true) (hi1 : ResolverInv s) :
    GoodResult
      (if (entityAt (CurrentScope s).2 (CurrentScope s).1).kind = EntityKind.kEntityTypeClass then
        match ReadUntilFoundOneOf TokType.kPHP_T_VARIABLE TokType.kPHP_T_FUNCTION ts
            { (CurrentScope s).2 with
              m_lookBackTokens := (CurrentScope s).2.m_lookBackTokens ++ [t] } with
        | (some (what, tk), ts1, s2) =>
          if what = TokType.kPHP_T_VARIABLE then
            match ConsumeUntil TokType.chr_semi ts1
                (AddChild (CurrentScope s2).2 (CurrentScope s2).1
                  (memberVariable s2 t.type tk)).2 with
            | (false, ts2, s3) => some (ts2, s3)
            | (true, ts2, s3) => Parse fuel retDepth ts2 s3
          else
            match OnFunction fuel ts1 s2 with
            | none => none
            | some (ts2, s3) => Parse fuel retDepth ts2 { s3 with m_lookBackTokens := [] }
        | (none, ts1, s2) => Parse fuel retDepth ts1 s2
      else Parse fuel retDepth ts (CurrentScope s).2) := by
  have hi0 := ResolverInv_CurrentScope _ hi1
  generalize CurrentScope s = sc at hi0 ⊢
  apply GoodResult_ite
  · split
    · next what tk ts1 s2 heq =>
      have h := ReadUntilFoundOneOf_eq_keeps heq hl1 (ResolverInv_lookBack _ _ hi0)
      apply GoodResult_ite
      · split
        · next heq2 =>
          have h2 := ConsumeUntil_eq_keeps heq2 h.1
            (ResolverInv_AddChild _ _ _ (ResolverInv_CurrentScope _ h.2))
          exact GoodResult_some h2.1 h2.2
        · next heq2 =>
          have h2 := ConsumeUntil_eq_keeps heq2 h.1
            (ResolverInv_AddChild _ _ _ (ResolverInv_CurrentScope _ h.2))
          exact ih _ _ _ h2.1 h2.2
      · split
        · exact GoodResult_none
        · next ts2 s3 heq2 =>
          have h2 := OnFunction_good _ _ _ h.1 h.2 ts2 s3 heq2
          exact ih _ _ _ h2.1 (ResolverInv_lookBack _ _ h2.2)
    · next ts1 s2 heq =>
      have h := ReadUntilFoundOneOf_eq_keeps heq hl1 (ResolverInv_lookBack _ _ hi0)
      exact ih _ _ _ h.1 h.2
  · exact ih _ _ _ hl1 hi0

/-- The branch of the statement loop for a class, interface or trait keyword
keeps the invariant when the rest of the loop does. -/
theorem Parse_class_good (fuel : Nat) (retDepth : Int) (t : phpLexerToken) (ts : Tokens)
    (s : PHPSourceFile)
    (ih : ∀ (d : Int) (toks : Tokens) (s : PHPSourceFile), lexerOk toks = true →
      ResolverInv s → GoodResult (Parse fuel d toks s))
    (hl1 : lexerOk ts = true) (hi1 : ResolverInv s) :
    GoodResult
      (match OnClass (Parse fuel) fuel t ts s with
       | none => none
       | some (ts1, s1) => Parse fuel retDepth ts1 { s1 with m_lookBackTokens := [] }) := by
  split
  · exact GoodResult_none
  · next ts1 s1 heq =>
    have h := OnClass_good (Parse fuel) ih fuel t ts s hl1 hi1 ts1 s1 heq
    exact ih _ _ _ h.1 (ResolverInv_lookBack _ _ h.2)

/-- The statement loop keeps the resolver invariant: whatever the bound, the
exit depth and the tokens, a result of `Parse` from a parser that satisfies the
invariant is a parser that satisfies it. -/
theorem Parse_good (fuel : Nat) (retDepth : Int) (toks : Tokens) (s : PHPSourceFile)
    (hl : lexerOk toks = true) (hi : ResolverInv s) :
    GoodResult (Parse fuel retDepth toks s) := by
  induction fuel generalizing retDepth toks s with
  | zero => unfold Parse; exact GoodResult_none
  | succ n ih =>
    cases toks with
    | nil =>
      unfold Parse
      exact GoodResult_some lexerOk_nil (ResolverInv_PhaseTwo _ (ResolverInv_NextToken_eof s hi))
    | cons t ts =>
      have hl1 := lexerOk_cons hl
      have hi1 := ResolverInv_NextToken_found s t hi
      unfold Parse
      dsimp only
      split
      · exact ih _ _ _ hl1 (ResolverInv_lookBack _ _ hi1)
      · exact ih _ _ _ hl1 (ResolverInv_lookBack _ _ hi1)
      · apply GoodResult_ite
        · exact GoodResult_some hl1 (ResolverInv_lookBack _ _ hi1)
        · exact ih _ _ _ hl1 (ResolverInv_lookBack _ _ hi1)
      · exact ih _ _ _ hl1 (ResolverInv_lookBack _ _ hi1)
      · apply GoodResult_ite
        · have h := OnVariable_keeps t ts _ hl1 (ResolverInv_CurrentScope _ hi1)
          exact ih _ _ _ h.1 h.2
        · exact ih _ _ _ hl1 (ResolverInv_CurrentScope _ hi1)
      · exact Parse_visibility_good n retDepth t ts _ ih hl1 hi1
      · exact Parse_visibility_good n retDepth t ts _ ih hl1 hi1
      · exact Parse_visibility_good n retDepth t ts _ ih hl1 hi1
      · have h := OnDefine_keeps t ts _ hl1 hi1
        exact ih _ _ _ h.1 h.2
      · split
        · next tk ts1 s1 heq =>
          have h := ReadUntilFound_eq_keeps heq hl1 hi1
          split
          · next heq2 =>
            have h2 := ConsumeUntil_eq_keeps heq2 h.1
              (ResolverInv_AddChild _ _ _ (ResolverInv_CurrentScope _ h.2))
            exact GoodResult_some h2.1 h2.2
          · next heq2 =>
            have h2 := ConsumeUntil_eq_keeps heq2 h.1
              (ResolverInv_AddChild _ _ _ (ResolverInv_CurrentScope _ h.2))
            exact ih _ _ _ h2.1 h2.2
        · next ts1 s1 heq =>
          have h := ReadUntilFound_eq_keeps heq hl1 hi1
          exact ih _ _ _ h.1 h.2
      · exact ih _ _ _ hl1 (ResolverInv_lookBack _ _ hi1)
      · exact ih _ _ _ hl1 (ResolverInv_lookBack _ _ hi1)
      · exact ih _ _ _ hl1 (ResolverInv_lookBack _ _ hi1)
      · exact ih _ _ _ hl1 (ResolverInv_lookBack _ _ hi1)
      · have hc := ResolverInv_Class _ hi1
        have h : lexerOk (if (Class (NextToken_found s t)).1 = true
              then OnUseTrait ts (Class (NextToken_found s t)).2
              else OnUse ts (Class (NextToken_found s t)).2).1 = true ∧
            ResolverInv (if (Class (NextToken_found s t)).1 = true
              then OnUseTrait ts (Class (NextToken_found s t)).2
              else OnUse ts (Class (NextToken_found s t)).2).2 := by
          split_ifs
          · exact OnUseTrait_keeps _ _ hl1 hc
          · exact OnUse_loop_keeps _ _ _ _ _ hl1 hc
        exact ih _ _ _ h.1 (ResolverInv_lookBack _ _ h.2)
      · exact Parse_class_good n retDepth t ts _ ih hl1 hi1
      · exact Parse_class_good n retDepth t ts _ ih hl1 hi1
      · exact Parse_class_good n retDepth t ts _ ih hl1 hi1
      · have h := OnNamespace_keeps ts _ hl1 hi1
        exact ih _ _ _ h.1 (ResolverInv_lookBack _ _ h.2)
      · split
        · exact GoodResult_none
        · next ts1 s1 heq =>
          have h := OnFunction_good _ _ _ hl1 hi1 ts1 s1 heq
          exact ih _ _ _ h.1 (ResolverInv_lookBack _ _ h.2)
      · exact ih _ _ _ hl1 hi1

/-! ## Resolved names are absolute -/

theorem aliasFind_mem (m : List (WxString × WxString)) (k v : WxString)
    (h : aliasFind m k = some v) : (k, v) ∈ m := by
  induction m with
  | nil => simp [aliasFind_nil] at h
  | cons e m ih =>
    obtain ⟨a, b⟩ := e
    rw [aliasFind_cons] at h
    by_cases hk : k = a
    · simp only [hk, if_true, Option.some.injEq] at h
      rw [hk, h]
      exact List.mem_cons_self _ _
    · simp only [hk, if_false] at h
      exact List.mem_cons_of_mem _ (ih h)

/-- The entity `Namespace` returns is the bottom of the scope stack it leaves. -/
theorem Namespace_bottom (s : PHPSourceFile) :
    ∃ more, (Namespace s).2.m_scopes = (Namespace s).1 :: more := by
  unfold Namespace
  cases hs : s.m_scopes with
  | nil =>
    simp only [CurrentScope, hs, List.getLast?_nil]
    exact ⟨[], rfl⟩
  | cons id more => exact ⟨more, hs⟩

/-- Under the resolver invariant, a name whose trimmed form is neither empty
nor a primitive name resolves to a name that begins with the separator. -/
theorem MakeIdentifierAbsolute_absolute (s : PHPSourceFile) (w : WxString)
    (hi : ResolverInv s) (hne : Trim w ≠ []) (hp : isPrimitiveName (Trim w) = false) :
    StartsWith (MakeIdentifierAbsolute s w).1 nsSep = true := by
  have hemp : (Trim w).isEmpty = false := by
    cases h : Trim w with
    | nil => exact absurd h hne
    | cons c r => rfl
  unfold MakeIdentifierAbsolute
  simp only [hp, hemp, Bool.false_eq_true, if_false]
  by_cases h3 : Contains (Trim w) '\\' = true
  · rw [if_pos h3]
    by_cases h4 : StartsWith (Trim w) nsSep = true
    · simp only [h4, if_true]
    · simp only [h4, if_false]
      simp [StartsWith, nsSep]
  · rw [if_neg h3]
    by_cases h4 : StartsWith (Trim w) nsSep = true
    · rw [if_pos h4]; exact h4
    · rw [if_neg h4]
      cases hf : aliasFind s.m_aliases w with
      | some v =>
        have hmem := aliasFind_mem _ _ _ hf
        have hal := hi.1
        simp only [aliasesOk, List.all_eq_true] at hal
        exact hal _ hmem
      | none =>
        dsimp only
        obtain ⟨more, hb⟩ := Namespace_bottom s
        have hin := (ResolverInv_Namespace s hi).2
        unfold bottomOk at hin
        rw [hb] at hin
        simp only [Bool.and_eq_true, decide_eq_true_eq, nameOk, Bool.or_eq_true] at hin
        rcases hin.2 with hn | hn
        · have hnil : (entityAt (Namespace s).2 (Namespace s).1).fullName = [] := by
            simpa using hn
          rw [hnil]
          simp [EndsWith, StartsWith, nsSep]
        · split_ifs
          · exact StartsWith_append _ _ hn
          · rw [List.append_assoc]; exact StartsWith_append _ _ hn

/-- C8: in the parser state a run of the statement loop on any token stream
leaves, starting from a fresh parser (so the alias table is filled by `OnUse`
only and the namespace name set by `OnNamespace` or `CurrentScope` only, the
scanner giving every separator token a text that begins with the separator),
every input whose whitespace-trimmed form is non-empty and is not one of the
eight primitive names is resolved by `MakeIdentifierAbsolute` to a name that
begins with the path separator; the state the resolution leaves satisfies the
invariant this rests on again. -/
theorem C8_resolved_names_absolute (parseBody : Bool) (fuel : Nat) (exitDepth : Int)
    (toks rest : Tokens) (st : PHPSourceFile) (hlex : lexerOk toks = true)
    (hrun : Parse fuel exitDepth toks (newSourceFile parseBody) = some (rest, st))
    (w : WxString) (hne : Trim w ≠ []) (hprim : isPrimitiveName (Trim w) = false) :
    StartsWith (MakeIdentifierAbsolute st w).1 nsSep = true ∧
    ResolverInv (MakeIdentifierAbsolute st w).2 := by
  have h := Parse_good fuel exitDepth toks (newSourceFile parseBody) hlex
    (ResolverInv_new parseBody) rest st hrun
  exact ⟨MakeIdentifierAbsolute_absolute st w h.2 hne hprim,
    ResolverInv_MakeIdentifierAbsolute st w h.2⟩

theorem C8_resolved_names_absolute_witness :
    StartsWith (MakeIdentifierAbsolute specExampleState " Foo ".toList).1 nsSep = true ∧
    ResolverInv (MakeIdentifierAbsolute specExampleState " Foo ".toList).2 :=
  C8_resolved_names_absolute false 28 (-1) tokensSpecExample [] specExampleState
    (by decide) (by decide) " Foo ".toList (by decide) (by decide)

/-! ## A `use` statement followed by a function -/

/-- A projection that `f` leaves alone is left alone by `storeModify f`. -/
theorem storeModify_getD_proj {α : Type} (g : PHPEntity → α) (f : PHPEntity → PHPEntity)
    (hf : ∀ e, g (f e) = g e) (i j : Nat) (st : List PHPEntity) (d : PHPEntity) :
    g ((storeModify f i st).getD j d) = g (st.getD j d) := by
  induction st generalizing i j with
  | nil => cases i <;> rfl
  | cons e es ih =>
    cases i with
    | zero =>
      cases j with
      | zero => simp [storeModify, hf]
      | succ m => simp [storeModify]
    | succ n =>
      cases j with
      | zero => simp [storeModify]
      | succ m =>
        have := ih n m
        simpa [storeModify] using this

/-- Lookup in a store after `storeModify`. -/
theorem storeModify_getElem_opt (f : PHPEntity → PHPEntity) (i j : Nat) (st : List PHPEntity) :
    (storeModify f i st)[j]? = if i = j then st[j]?.map f else st[j]? := by
  induction st generalizing i j with
  | nil => cases i <;> simp [storeModify]
  | cons e es ih =>
    cases i with
    | zero =>
      cases j with
      | zero => simp [storeModify]
      | succ m => simp [storeModify]
    | succ n =>
      cases j with
      | zero => simp [storeModify]
      | succ m => simp [storeModify, ih n m]

/-- The statement loop on `use P as A;` followed by `function f(A $x){}` and
the end of input, from a parser whose `use` keyword is found outside a class
with current scope `p`, store `st` and an alias table `al` without the key of
the item: the function and its parameter are appended to the store, the
parameter's type hint is the value stored for the alias. -/
theorem Parse_use_then_function (k : Nat) (d : Int) (s0 : PHPSourceFile)
    (depth : Int) (eof pfb : Bool) (lbk cm : List phpLexerToken)
    (al : List (WxString × WxString)) (sc : List Nat) (df st : List PHPEntity) (p2 : Nat)
    (nc : Bool) (p : Nat)
    (useTok semi funTok fTok lp hintTok varTok rp lb rb : phpLexerToken) (item : UseItem)
    (hC : Class (NextToken_found s0 useTok) = (false,
      { m_depth := depth, m_reachedEOF := eof, m_parseFunctionBody := pfb,
        m_lookBackTokens := lbk, m_comments := cm, m_aliases := al, m_scopes := sc,
        m_defines := df, store := st, phaseTwoRuns := p2, nullClassCast := nc }))
    (hsc : sc.getLast? = some p) (hp : p < st.length)
    (hk : (st.getD p { kind := EntityKind.kEntityTypeNamespace }).kind ≠
      EntityKind.kEntityTypeClass)
    (hal : aliasFind al item.key = none)
    (hitem : item.wellFormed = true)
    (hkey : isNameText item.key = true) (hprim : isPrimitiveName item.key = false)
    (huse : useTok.type = TokType.kPHP_T_USE) (hsemi : semi.type = TokType.chr_semi)
    (hfun : funTok.type = TokType.kPHP_T_FUNCTION) (hf : fTok.type = TokType.kPHP_T_IDENTIFIER)
    (hlp : lp.type = TokType.chr_lparen)
    (hhint : hintTok.type = TokType.kPHP_T_IDENTIFIER) (hhtext : hintTok.text = item.key)
    (hvar : varTok.type = TokType.kPHP_T_VARIABLE) (hrp : rp.type = TokType.chr_rparen)
    (hlb : lb.type = TokType.chr_lbrace) (hrb : rb.type = TokType.chr_rbrace) :
    ∃ st1 : PHPSourceFile,
      Parse (k + 3) d
        (useTok :: (item.tokens ++ semi :: funTok :: fTok :: lp :: hintTok :: varTok :: rp ::
          lb :: rb :: [])) s0 = some ([], st1) ∧
      st1.m_aliases = al ++ [(item.key, item.value)] ∧
      st1.store.length = st.length + 2 ∧
      (entityAt st1 st.length).kind = EntityKind.kEntityTypeFunction ∧
      (entityAt st1 st.length).fullName = fTok.text ∧
      (entityAt st1 st.length).children = [st.length + 1] ∧
      (entityAt st1 (st.length + 1)).kind = EntityKind.kEntityTypeVariable ∧
      (entityAt st1 (st.length + 1)).fullName = varTok.text ∧
      (entityAt st1 (st.length + 1)).parent = some st.length ∧
      HasFlag (entityAt st1 (st.length + 1)).flags kVar_FunctionArg = true ∧
      (entityAt st1 (st.length + 1)).typeHint = item.value := by
  have key : ∀ r, Parse (k + 3) d
        (useTok :: (item.tokens ++ semi :: funTok :: fTok :: lp :: hintTok :: varTok :: rp ::
          lb :: rb :: [])) s0 = r →
      ∃ st1 : PHPSourceFile, r = some ([], st1) ∧
        st1.m_aliases = al ++ [(item.key, item.value)] ∧
        st1.store.length = st.length + 2 ∧
        (entityAt st1 st.length).kind = EntityKind.kEntityTypeFunction ∧
        (entityAt st1 st.length).fullName = fTok.text ∧
        (entityAt st1 st.length).children = [st.length + 1] ∧
        (entityAt st1 (st.length + 1)).kind = EntityKind.kEntityTypeVariable ∧
        (entityAt st1 (st.length + 1)).fullName = varTok.text ∧
        (entityAt st1 (st.length + 1)).parent = some st.length ∧
        HasFlag (entityAt st1 (st.length + 1)).flags kVar_FunctionArg = true ∧
        (entityAt st1 (st.length + 1)).typeHint = item.value := by
    intro r hr
    cases sc with
    | nil => simp at hsc
    | cons q rest =>
    have hlast : ∀ x : Nat, (q :: (rest ++ [x])).getLast? = some x := by
      intro x
      rw [← List.cons_append, List.getLast?_append]
      simp
    have hdrop : ∀ x : Nat, (q :: (rest ++ [x])).dropLast = q :: rest := by
      intro x
      rw [← List.cons_append, List.dropLast_concat]
    rw [Parse] at hr
    simp only [huse] at hr
    rw [hC] at hr
    simp only [if_false, Bool.false_eq_true] at hr
    rw [OnUse_single item hitem semi hsemi] at hr
    have hmia : ∀ s : PHPSourceFile, s.m_aliases = aliasInsert al item.key item.value →
        MakeIdentifierAbsolute s item.key = (item.value, s) := by
      intro s hs
      apply MakeIdentifierAbsolute_alias s _ _ hkey hprim
      rw [hs]
      exact aliasFind_insert_same al _ _ hal
    have hamp := isNameText_not_endsWith_amp hkey
    have hkind : ∀ (f g : PHPEntity → PHPEntity) (x y : PHPEntity) (i j : Nat),
        (∀ e, (f e).kind = e.kind) → (∀ e, (g e).kind = e.kind) →
        ((storeModify f i (storeModify g j (st ++ [x]) ++ [y])).getD p
          { kind := EntityKind.kEntityTypeNamespace }).kind =
        (st.getD p { kind := EntityKind.kEntityTypeNamespace }).kind := by
      intro f g x y i j h1 h2
      rw [storeModify_getD_proj (fun e => e.kind) f h1]
      have hlen : p < (storeModify g j (st ++ [x])).length := by
        rw [storeModify_length]; simp; omega
      rw [List.getD_eq_getElem?_getD, List.getElem?_append_left hlen,
        ← List.getD_eq_getElem?_getD, storeModify_getD_proj (fun e => e.kind) g h2,
        List.getD_eq_getElem?_getD, List.getElem?_append_left hp, ← List.getD_eq_getElem?_getD]
    have hk1 : (st[p]?.getD { kind := EntityKind.kEntityTypeNamespace }).kind ≠
        EntityKind.kEntityTypeClass := by
      simpa [List.getD_eq_getElem?_getD] using hk
    have hkind1 : ∀ (f g : PHPEntity → PHPEntity) (x y : PHPEntity) (i j : Nat),
        (∀ e, (f e).kind = e.kind) → (∀ e, (g e).kind = e.kind) →
        (((storeModify f i (storeModify g j (st ++ [x]) ++ [y]))[p]?).getD
          { kind := EntityKind.kEntityTypeNamespace }).kind =
        (st[p]?.getD { kind := EntityKind.kEntityTypeNamespace }).kind := by
      intro f g x y i j h1 h2
      simpa [List.getD_eq_getElem?_getD] using hkind f g x y i j h1 h2
    cases pfb <;> cases eof <;>
    simp [Parse, OnFunction, OnFunction_body, NextToken_found, hfun, hf, hlp, hhint, hvar,
      hrp, hlb, hrb, CurrentScope, hsc, AddChild, ParseFunctionSignature,
      ParseFunctionSignature_open, ParseFunctionSignature_loop, PHPEntity.SetFullName,
      PHPEntity.SetFlag, hhtext, hamp, hmia, attachParameter, LookBackForFunctionFlags,
      functionFlagStep, LookBackTokensContains, entityAt, hkind1, hk1, hlast, hdrop, HasFlag, ReadUntilFound,
      storeModify_length,
      ConsumeFunctionBody, ConsumeFunctionBody_loop, ParseFunctionBody, ParseFunctionBody_loop,
      popScope, PhaseTwo, Namespace, NextToken_eof, kFunc_Abstract] at hr
    all_goals subst hr
    all_goals refine ⟨_, rfl, ?_⟩
    all_goals simp [-List.getElem?_eq_getElem, entityAt, aliasInsert, hal, storeModify_length, List.getD_eq_getElem?_getD,
      storeModify_getElem_opt, List.getElem?_append, hp, Nat.ne_of_lt hp, HasFlag, kVar_FunctionArg]
    all_goals simp
  exact key _ rfl

/-- The scope returned by `CurrentScope` is the top of the scope stack it
leaves. -/
theorem CurrentScope_last (s : PHPSourceFile) :
    (CurrentScope s).2.m_scopes.getLast? = some (CurrentScope s).1 := by
  unfold CurrentScope
  cases h : s.m_scopes.getLast? with
  | none => simp
  | some id => simpa using h

/-- The scope returned by `CurrentScope` is an index of the store when the
scope stack holds indices of the store. -/
theorem CurrentScope_lt (s : PHPSourceFile) (h : ∀ i ∈ s.m_scopes, i < s.store.length) :
    (CurrentScope s).1 < (CurrentScope s).2.store.length := by
  unfold CurrentScope
  cases h1 : s.m_scopes.getLast? with
  | none => simp
  | some id => exact h id (List.mem_of_mem_getLast? h1)

/-- C4, counterexample: in the file
`use X\Y as Baz; use Foo\Bar as Baz; function f(Baz $x){}` the second `use`
statement is followed by a function whose parameter type hint is its alias
`Baz`, yet the type hint of `$x` is `\X\Y`, the value of the first statement,
and not `\Foo\Bar`. -/
theorem C4_shadowed_alias_counterexample :
    ∃ st : PHPSourceFile,
      ParseFile false (-1) tokensShadowedAlias = some ([], st) ∧
      st.m_aliases = [("Baz".toList, "\\X\\Y".toList)] ∧
      (entityAt st 1).kind = EntityKind.kEntityTypeFunction ∧
      (entityAt st 1).fullName = "f".toList ∧
      (entityAt st 1).children = [2] ∧
      (entityAt st 2).fullName = "$x".toList ∧
      (entityAt st 2).typeHint = "\\X\\Y".toList ∧
      (entityAt st 2).typeHint ≠ "\\Foo\\Bar".toList :=
  ⟨((ParseFile false (-1) tokensShadowedAlias).get (by decide)).2, by decide⟩

/-- C4 (amended): from any parser state whose scope stack holds indices of the
store, for every statement `use P as A;` found outside a class (`P` a qualified
name, `A` an identifier that is not a primitive name and is not yet a key of
the alias table) followed by `function f(A $x){}` and the end of input, the
statement loop ends with the entry `A` to `P` (leading separator enforced)
appended to the alias table and with the function `f` and its only parameter
`$x` appended to the store, the parameter carrying as type hint `P` with a
leading separator enforced, whatever the current namespace is and whether
function bodies are parsed or skipped. -/
theorem C4_alias_resolves_type_hint (fuel : Nat) (exitDepth : Int) (s0 : PHPSourceFile) (path : Tokens)
    (useTok asTok aTok semi funTok fTok lp hintTok varTok rp lb rb : phpLexerToken)
    (hfuel : 3 ≤ fuel)
    (hscopes : ∀ i ∈ s0.m_scopes, i < s0.store.length)
    (hclass : (Class (NextToken_found s0 useTok)).1 = false)
    (hfresh : aliasFind s0.m_aliases aTok.text = none)
    (hpath : isPathTokens path = true)
    (has : asTok.type = TokType.kPHP_T_AS) (ha : isIdentifierToken aTok = true)
    (hprim : isPrimitiveName aTok.text = false)
    (huse : useTok.type = TokType.kPHP_T_USE) (hsemi : semi.type = TokType.chr_semi)
    (hfun : funTok.type = TokType.kPHP_T_FUNCTION) (hf : fTok.type = TokType.kPHP_T_IDENTIFIER)
    (hlp : lp.type = TokType.chr_lparen)
    (hhint : hintTok.type = TokType.kPHP_T_IDENTIFIER) (hhtext : hintTok.text = aTok.text)
    (hvar : varTok.type = TokType.kPHP_T_VARIABLE) (hrp : rp.type = TokType.chr_rparen)
    (hlb : lb.type = TokType.chr_lbrace) (hrb : rb.type = TokType.chr_rbrace) :
    ∃ st : PHPSourceFile,
      Parse fuel exitDepth
        (useTok :: (path ++ asTok :: aTok :: semi :: funTok :: fTok :: lp ::
          hintTok :: varTok :: rp :: lb :: rb :: [])) s0 = some ([], st) ∧
      st.m_aliases = s0.m_aliases ++ [(aTok.text, withLeadingSep (tokensText path))] ∧
      st.store.length = (CurrentScope s0).2.store.length + 2 ∧
      (entityAt st (CurrentScope s0).2.store.length).kind = EntityKind.kEntityTypeFunction ∧
      (entityAt st (CurrentScope s0).2.store.length).fullName = fTok.text ∧
      (entityAt st (CurrentScope s0).2.store.length).children =
        [(CurrentScope s0).2.store.length + 1] ∧
      (entityAt st ((CurrentScope s0).2.store.length + 1)).kind =
        EntityKind.kEntityTypeVariable ∧
      (entityAt st ((CurrentScope s0).2.store.length + 1)).fullName = varTok.text ∧
      (entityAt st ((CurrentScope s0).2.store.length + 1)).parent =
        some (CurrentScope s0).2.store.length ∧
      HasFlag (entityAt st ((CurrentScope s0).2.store.length + 1)).flags kVar_FunctionArg =
        true ∧
      (entityAt st ((CurrentScope s0).2.store.length + 1)).typeHint =
        withLeadingSep (tokensText path) := by
  have hmain : ∀ item : UseItem, item = ⟨path, some (asTok, aTok)⟩ →
      ∃ st : PHPSourceFile,
        Parse fuel exitDepth
          (useTok :: (item.tokens ++ semi :: funTok :: fTok :: lp ::
            hintTok :: varTok :: rp :: lb :: rb :: [])) s0 = some ([], st) ∧
        st.m_aliases = s0.m_aliases ++ [(item.key, item.value)] ∧
        st.store.length = (CurrentScope s0).2.store.length + 2 ∧
        (entityAt st (CurrentScope s0).2.store.length).kind = EntityKind.kEntityTypeFunction ∧
        (entityAt st (CurrentScope s0).2.store.length).fullName = fTok.text ∧
        (entityAt st (CurrentScope s0).2.store.length).children =
          [(CurrentScope s0).2.store.length + 1] ∧
        (entityAt st ((CurrentScope s0).2.store.length + 1)).kind =
          EntityKind.kEntityTypeVariable ∧
        (entityAt st ((CurrentScope s0).2.store.length + 1)).fullName = varTok.text ∧
        (entityAt st ((CurrentScope s0).2.store.length + 1)).parent =
          some (CurrentScope s0).2.store.length ∧
        HasFlag (entityAt st ((CurrentScope s0).2.store.length + 1)).flags kVar_FunctionArg =
          true ∧
        (entityAt st ((CurrentScope s0).2.store.length + 1)).typeHint = item.value := by
    intro item hdef
    have hitem : item.wellFormed = true := by
      simp [hdef, UseItem.wellFormed, hpath, has, ha]
    have hkey : isNameText item.key = true := by
      simp only [isIdentifierToken, Bool.and_eq_true] at ha
      simpa [hdef, UseItem.key] using ha.2
    have hprim1 : isPrimitiveName item.key = false := by
      simpa [hdef, UseItem.key] using hprim
    have hhtext1 : hintTok.text = item.key := by
      simpa [hdef, UseItem.key] using hhtext
    have hnt : NextToken_found s0 useTok =
        { s0 with m_lookBackTokens := s0.m_lookBackTokens ++ [useTok] } := by
      simp [NextToken_found, huse]
    have hst : (CurrentScope (NextToken_found s0 useTok)).2.store = (CurrentScope s0).2.store := by
      rw [hnt]
      unfold CurrentScope
      cases h1 : s0.m_scopes.getLast? <;> simp [h1]
    have hal : (CurrentScope (NextToken_found s0 useTok)).2.m_aliases = s0.m_aliases := by
      rw [hnt]
      unfold CurrentScope
      cases h1 : s0.m_scopes.getLast? <;> simp [h1]
    have hsc1 : ∀ i ∈ (NextToken_found s0 useTok).m_scopes,
        i < (NextToken_found s0 useTok).store.length := by
      rw [hnt]
      exact hscopes
    have hkind : ((CurrentScope (NextToken_found s0 useTok)).2.store.getD
        (CurrentScope (NextToken_found s0 useTok)).1
        { kind := EntityKind.kEntityTypeNamespace }).kind ≠ EntityKind.kEntityTypeClass := by
      intro hc
      have hc1 : (entityAt (CurrentScope (NextToken_found s0 useTok)).2
          (CurrentScope (NextToken_found s0 useTok)).1).kind = EntityKind.kEntityTypeClass := hc
      simp only [Class] at hclass
      rw [Class_walk, if_pos hc1] at hclass
      exact Bool.noConfusion hclass
    obtain ⟨k, hk⟩ := exists_fuel fuel 3 hfuel
    rw [hk]
    obtain ⟨st, h⟩ := Parse_use_then_function k exitDepth s0 _ _ _ _ _ _ _ _ _ _ _
      (CurrentScope (NextToken_found s0 useTok)).1
      useTok semi funTok fTok lp hintTok varTok rp lb rb item
      (Prod.ext hclass (rfl : (Class (NextToken_found s0 useTok)).2 =
        (CurrentScope (NextToken_found s0 useTok)).2))
      (CurrentScope_last _) (CurrentScope_lt _ hsc1) hkind
      (by rw [hal]; simpa [hdef, UseItem.key] using hfresh)
      hitem hkey hprim1 huse hsemi hfun hf hlp hhint hhtext1 hvar hrp hlb hrb
    rw [hst, hal] at h
    exact ⟨st, h⟩
  obtain ⟨st, h⟩ := hmain _ rfl
  refine ⟨st, ?_, ?_⟩
  · rw [← h.1]
    simp [UseItem.tokens]
  · simpa [UseItem.key, UseItem.value] using h.2

theorem C4_alias_resolves_type_hint_witness :
    ∃ st : PHPSourceFile,
      Parse 3 (-1)
        (mkToken TokType.kPHP_T_USE "use" 1 ::
          ([mkToken TokType.kPHP_T_IDENTIFIER "Foo" 1, mkToken TokType.kPHP_T_NS_SEPARATOR "\\" 1,
              mkToken TokType.kPHP_T_IDENTIFIER "Bar" 1] ++
            mkToken TokType.kPHP_T_AS "as" 1 :: mkToken TokType.kPHP_T_IDENTIFIER "Baz" 1 ::
            mkToken TokType.chr_semi ";" 1 :: mkToken TokType.kPHP_T_FUNCTION "function" 1 ::
            mkToken TokType.kPHP_T_IDENTIFIER "f" 1 :: mkToken TokType.chr_lparen "(" 1 ::
            mkToken TokType.kPHP_T_IDENTIFIER "Baz" 1 :: mkToken TokType.kPHP_T_VARIABLE "$x" 1 ::
            mkToken TokType.chr_rparen ")" 1 :: mkToken TokType.chr_lbrace "\x7b" 1 ::
            mkToken TokType.chr_rbrace "\x7d" 1 :: [])) (newSourceFile false) = some ([], st) ∧
      st.m_aliases = (newSourceFile false).m_aliases ++
        [((mkToken TokType.kPHP_T_IDENTIFIER "Baz" 1).text,
          withLeadingSep (tokensText [mkToken TokType.kPHP_T_IDENTIFIER "Foo" 1,
            mkToken TokType.kPHP_T_NS_SEPARATOR "\\" 1,
            mkToken TokType.kPHP_T_IDENTIFIER "Bar" 1]))] ∧
      st.store.length = (CurrentScope (newSourceFile false)).2.store.length + 2 ∧
      (entityAt st (CurrentScope (newSourceFile false)).2.store.length).kind =
        EntityKind.kEntityTypeFunction ∧
      (entityAt st (CurrentScope (newSourceFile false)).2.store.length).fullName =
        (mkToken TokType.kPHP_T_IDENTIFIER "f" 1).text ∧
      (entityAt st (CurrentScope (newSourceFile false)).2.store.length).children =
        [(CurrentScope (newSourceFile false)).2.store.length + 1] ∧
      (entityAt st ((CurrentScope (newSourceFile false)).2.store.length + 1)).kind =
        EntityKind.kEntityTypeVariable ∧
      (entityAt st ((CurrentScope (newSourceFile false)).2.store.length + 1)).fullName =
        (mkToken TokType.kPHP_T_VARIABLE "$x" 1).text ∧
      (entityAt st ((CurrentScope (newSourceFile false)).2.store.length + 1)).parent =
        some (CurrentScope (newSourceFile false)).2.store.length ∧
      HasFlag (entityAt st ((CurrentScope (newSourceFile false)).2.store.length + 1)).flags
        kVar_FunctionArg = true ∧
      (entityAt st ((CurrentScope (newSourceFile false)).2.store.length + 1)).typeHint =
        withLeadingSep (tokensText [mkToken TokType.kPHP_T_IDENTIFIER "Foo" 1,
          mkToken TokType.kPHP_T_NS_SEPARATOR "\\" 1, mkToken TokType.kPHP_T_IDENTIFIER "Bar" 1]) :=
  C4_alias_resolves_type_hint 3 (-1) (newSourceFile false) _ _ _ _ _ _ _ _ _ _ _ _ _
    (by decide) (by decide) (by decide) (by decide) (by decide) (by decide) (by decide)
    (by decide) (by decide) (by decide) (by decide) (by decide) (by decide) (by decide)
    (by decide) (by decide) (by decide) (by decide) (by decide)

/-! ## Brace depth and push-back -/

theorem NextToken_found_depth (s : PHPSourceFile) (t : phpLexerToken) :
    (NextToken_found s t).m_depth = s.m_depth + braceDelta t := by
  unfold NextToken_found braceDelta
  by_cases h1 : t.type = TokType.kPHP_T_C_COMMENT
  · simp [h1]
  · by_cases h2 : t.type = TokType.chr_lbrace
    · simp [h2]
    · by_cases h3 : t.type = TokType.chr_rbrace
      · simp [h3]
        omega
      · by_cases h4 : t.type = TokType.chr_semi <;> simp [h1, h2, h3, h4]

theorem UngetToken_depth (ts : Tokens) (s : PHPSourceFile) (t : phpLexerToken) :
    (UngetToken ts s t).2.m_depth = s.m_depth - braceDelta t := by
  unfold UngetToken braceDelta
  by_cases h2 : t.type = TokType.chr_lbrace
  · simp [h2]
  · by_cases h3 : t.type = TokType.chr_rbrace
    · simp [h3]
    · by_cases h4 : t.type = TokType.kPHP_T_C_COMMENT ∧ s.m_comments ≠ [] <;> simp [h2, h3, h4]

theorem braceBalance_append (p q : Tokens) :
    braceBalance (p ++ q) = braceBalance p + braceBalance q := by
  induction p with
  | nil => simp [braceBalance]
  | cons t ts ih => simp [braceBalance, ih, add_assoc]

theorem readTokens_depth (l : Tokens) (s : PHPSourceFile) :
    (readTokens s l).m_depth = s.m_depth + braceBalance l := by
  induction l generalizing s with
  | nil => simp [readTokens, braceBalance]
  | cons t ts ih =>
    have h := ih (NextToken_found s t)
    simp only [readTokens, List.foldl_cons] at h ⊢
    rw [h, NextToken_found_depth, braceBalance]
    omega

/-- C17 (as stated, refuted): from a fresh parser, whose depth is 0, reading
the single token of a closing brace leaves the brace depth at `-1`. -/
theorem C17_closing_brace_counterexample :
    (newSourceFile false).m_depth = 0 ∧
    (NextToken [mkToken TokType.chr_rbrace "\x7d" 1] (newSourceFile false)).2.2.m_depth = -1 ∧
    ¬ 0 ≤ (NextToken [mkToken TokType.chr_rbrace "\x7d" 1] (newSourceFile false)).2.2.m_depth := by
  decide

/-- C17 (amended): starting from depth 0, after the tokens of any prefix of the
stream were read by `NextToken` the brace depth is the number of opening braces
minus the number of closing braces of that prefix; the depth is therefore
non-negative after every read exactly when no prefix of the stream closes more
braces than it opens; and `UngetToken` of the token read last puts the depth
back to what it was before that read. -/
theorem C17_depth_is_brace_balance (s : PHPSourceFile) (toks : Tokens) (h0 : s.m_depth = 0) :
    (∀ p, p <+: toks → (readTokens s p).m_depth = braceBalance p) ∧
    ((∀ p, p <+: toks → 0 ≤ (readTokens s p).m_depth) ↔
      (∀ p, p <+: toks → 0 ≤ braceBalance p)) ∧
    (∀ p t rest, p ++ [t] <+: toks →
      (UngetToken rest (readTokens s (p ++ [t])) t).2.m_depth = (readTokens s p).m_depth) := by
  have h1 : ∀ p, (readTokens s p).m_depth = braceBalance p := by
    intro p
    rw [readTokens_depth, h0, zero_add]
  refine ⟨fun p _ => h1 p, ?_, ?_⟩
  · constructor
    · intro h p hp
      rw [← h1 p]
      exact h p hp
    · intro h p hp
      rw [h1 p]
      exact h p hp
  · intro p t rest _
    rw [UngetToken_depth, h1, h1, braceBalance_append]
    simp [braceBalance]

theorem C17_depth_is_brace_balance_witness :
    (∀ p, p <+: [mkToken TokType.chr_lbrace "\x7b" 1, mkToken TokType.chr_rbrace "\x7d" 1] →
      (readTokens (newSourceFile false) p).m_depth = braceBalance p) ∧
    ((∀ p, p <+: [mkToken TokType.chr_lbrace "\x7b" 1, mkToken TokType.chr_rbrace "\x7d" 1] →
        0 ≤ (readTokens (newSourceFile false) p).m_depth) ↔
      (∀ p, p <+: [mkToken TokType.chr_lbrace "\x7b" 1, mkToken TokType.chr_rbrace "\x7d" 1] →
        0 ≤ braceBalance p)) ∧
    (∀ p t rest,
      p ++ [t] <+: [mkToken TokType.chr_lbrace "\x7b" 1, mkToken TokType.chr_rbrace "\x7d" 1] →
      (UngetToken rest (readTokens (newSourceFile false) (p ++ [t])) t).2.m_depth =
        (readTokens (newSourceFile false) p).m_depth) :=
  C17_depth_is_brace_balance (newSourceFile false) _ (by decide)

/-- C18: for every parser state and every token stream with a next token,
`NextToken` hands out that token, and `UngetToken` of it leaves the brace depth
and the comment pool exactly as they were before the read and puts the token
back in front of the unread tokens, so that the following `NextToken` returns
the same token. -/
theorem C18_unget_undoes_next (s : PHPSourceFile) (t : phpLexerToken) (ts : Tokens) :
    (NextToken (t :: ts) s).1 = some t ∧
    (UngetToken (NextToken (t :: ts) s).2.1 (NextToken (t :: ts) s).2.2 t).2.m_depth =
      s.m_depth ∧
    (UngetToken (NextToken (t :: ts) s).2.1 (NextToken (t :: ts) s).2.2 t).2.m_comments =
      s.m_comments ∧
    (UngetToken (NextToken (t :: ts) s).2.1 (NextToken (t :: ts) s).2.2 t).1 = t :: ts ∧
    (NextToken (UngetToken (NextToken (t :: ts) s).2.1 (NextToken (t :: ts) s).2.2 t).1
      (UngetToken (NextToken (t :: ts) s).2.1 (NextToken (t :: ts) s).2.2 t).2).1 = some t := by
  refine ⟨rfl, ?_, ?_, rfl, rfl⟩
  · simp only [NextToken]
    rw [UngetToken_depth, NextToken_found_depth]
    omega
  · simp only [NextToken]
    unfold UngetToken NextToken_found
    by_cases h1 : t.type = TokType.kPHP_T_C_COMMENT
    · simp [h1]
    · by_cases h2 : t.type = TokType.chr_lbrace
      · simp [h2]
      · by_cases h3 : t.type = TokType.chr_rbrace
        · simp [h3]
        · by_cases h4 : t.type = TokType.chr_semi <;> simp [h1, h2, h3, h4]

/-! ## Flags recovered from the look-back buffer -/

theorem lastVisibility_concat (l : Tokens) (t : phpLexerToken) :
    lastVisibility (l ++ [t]) = if isVisibilityToken t then some t.type else lastVisibility l := by
  by_cases h : isVisibilityToken t = true
  · simp [lastVisibility, List.find?_cons, h]
  · simp [lastVisibility, List.find?_cons, h]

theorem hasKeyword_concat (l : Tokens) (t : phpLexerToken) (type : TokType) :
    hasKeyword (l ++ [t]) type = (hasKeyword l type || t.type == type) := by
  simp [hasKeyword]

/-- The bits of a function flag word below 128 after each of the six updates
`LookBackForFunctionFlags` makes. -/
theorem functionFlag_bits (f : Nat) (hf : f < 128) :
    (f ||| kFunc_Abstract < 128 ∧
      HasFlag (f ||| kFunc_Abstract) kFunc_Abstract = true ∧
      HasFlag (f ||| kFunc_Abstract) kFunc_Final = HasFlag f kFunc_Final ∧
      HasFlag (f ||| kFunc_Abstract) kFunc_Static = HasFlag f kFunc_Static ∧
      HasFlag (f ||| kFunc_Abstract) kFunc_Public = HasFlag f kFunc_Public ∧
      HasFlag (f ||| kFunc_Abstract) kFunc_Private = HasFlag f kFunc_Private ∧
      HasFlag (f ||| kFunc_Abstract) kFunc_Protected = HasFlag f kFunc_Protected) ∧
    (f ||| kFunc_Final < 128 ∧
      HasFlag (f ||| kFunc_Final) kFunc_Abstract = HasFlag f kFunc_Abstract ∧
      HasFlag (f ||| kFunc_Final) kFunc_Final = true ∧
      HasFlag (f ||| kFunc_Final) kFunc_Static = HasFlag f kFunc_Static ∧
      HasFlag (f ||| kFunc_Final) kFunc_Public = HasFlag f kFunc_Public ∧
      HasFlag (f ||| kFunc_Final) kFunc_Private = HasFlag f kFunc_Private ∧
      HasFlag (f ||| kFunc_Final) kFunc_Protected = HasFlag f kFunc_Protected) ∧
    (f ||| kFunc_Static < 128 ∧
      HasFlag (f ||| kFunc_Static) kFunc_Abstract = HasFlag f kFunc_Abstract ∧
      HasFlag (f ||| kFunc_Static) kFunc_Final = HasFlag f kFunc_Final ∧
      HasFlag (f ||| kFunc_Static) kFunc_Static = true ∧
      HasFlag (f ||| kFunc_Static) kFunc_Public = HasFlag f kFunc_Public ∧
      HasFlag (f ||| kFunc_Static) kFunc_Private = HasFlag f kFunc_Private ∧
      HasFlag (f ||| kFunc_Static) kFunc_Protected = HasFlag f kFunc_Protected) ∧
    (clearFlag (clearFlag (f ||| kFunc_Public) kFunc_Private) kFunc_Protected < 128 ∧
      HasFlag (clearFlag (clearFlag (f ||| kFunc_Public) kFunc_Private) kFunc_Protected)
        kFunc_Abstract = HasFlag f kFunc_Abstract ∧
      HasFlag (clearFlag (clearFlag (f ||| kFunc_Public) kFunc_Private) kFunc_Protected)
        kFunc_Final = HasFlag f kFunc_Final ∧
      HasFlag (clearFlag (clearFlag (f ||| kFunc_Public) kFunc_Private) kFunc_Protected)
        kFunc_Static = HasFlag f kFunc_Static ∧
      HasFlag (clearFlag (clearFlag (f ||| kFunc_Public) kFunc_Private) kFunc_Protected)
        kFunc_Public = true ∧
      HasFlag (clearFlag (clearFlag (f ||| kFunc_Public) kFunc_Private) kFunc_Protected)
        kFunc_Private = false ∧
      HasFlag (clearFlag (clearFlag (f ||| kFunc_Public) kFunc_Private) kFunc_Protected)
        kFunc_Protected = false) ∧
    (clearFlag (clearFlag (f ||| kFunc_Private) kFunc_Public) kFunc_Protected < 128 ∧
      HasFlag (clearFlag (clearFlag (f ||| kFunc_Private) kFunc_Public) kFunc_Protected)
        kFunc_Abstract = HasFlag f kFunc_Abstract ∧
      HasFlag (clearFlag (clearFlag (f ||| kFunc_Private) kFunc_Public) kFunc_Protected)
        kFunc_Final = HasFlag f kFunc_Final ∧
      HasFlag (clearFlag (clearFlag (f ||| kFunc_Private) kFunc_Public) kFunc_Protected)
        kFunc_Static = HasFlag f kFunc_Static ∧
      HasFlag (clearFlag (clearFlag (f ||| kFunc_Private) kFunc_Public) kFunc_Protected)
        kFunc_Public = false ∧
      HasFlag (clearFlag (clearFlag (f ||| kFunc_Private) kFunc_Public) kFunc_Protected)
        kFunc_Private = true ∧
      HasFlag (clearFlag (clearFlag (f ||| kFunc_Private) kFunc_Public) kFunc_Protected)
        kFunc_Protected = false) ∧
    (clearFlag (clearFlag (f ||| kFunc_Protected) kFunc_Public) kFunc_Private < 128 ∧
      HasFlag (clearFlag (clearFlag (f ||| kFunc_Protected) kFunc_Public) kFunc_Private)
        kFunc_Abstract = HasFlag f kFunc_Abstract ∧
      HasFlag (clearFlag (clearFlag (f ||| kFunc_Protected) kFunc_Public) kFunc_Private)
        kFunc_Final = HasFlag f kFunc_Final ∧
      HasFlag (clearFlag (clearFlag (f ||| kFunc_Protected) kFunc_Public) kFunc_Private)
        kFunc_Static = HasFlag f kFunc_Static ∧
      HasFlag (clearFlag (clearFlag (f ||| kFunc_Protected) kFunc_Public) kFunc_Private)
        kFunc_Public = false ∧
      HasFlag (clearFlag (clearFlag (f ||| kFunc_Protected) kFunc_Public) kFunc_Private)
        kFunc_Private = false ∧
      HasFlag (clearFlag (clearFlag (f ||| kFunc_Protected) kFunc_Public) kFunc_Private)
        kFunc_Protected = true) := by
  interval_cases f <;> decide

theorem functionFlagStep_cases (f : Nat) (t : phpLexerToken) :
    (t.type = TokType.kPHP_T_ABSTRACT ∧ functionFlagStep f t = f ||| kFunc_Abstract) ∨
    (t.type = TokType.kPHP_T_FINAL ∧ functionFlagStep f t = f ||| kFunc_Final) ∨
    (t.type = TokType.kPHP_T_STATIC ∧ functionFlagStep f t = f ||| kFunc_Static) ∨
    (t.type = TokType.kPHP_T_PUBLIC ∧
      functionFlagStep f t = clearFlag (clearFlag (f ||| kFunc_Public) kFunc_Private) kFunc_Protected) ∨
    (t.type = TokType.kPHP_T_PRIVATE ∧
      functionFlagStep f t = clearFlag (clearFlag (f ||| kFunc_Private) kFunc_Public) kFunc_Protected) ∨
    (t.type = TokType.kPHP_T_PROTECTED ∧
      functionFlagStep f t = clearFlag (clearFlag (f ||| kFunc_Protected) kFunc_Public) kFunc_Private) ∨
    (t.type ≠ TokType.kPHP_T_ABSTRACT ∧ t.type ≠ TokType.kPHP_T_FINAL ∧
      t.type ≠ TokType.kPHP_T_STATIC ∧ t.type ≠ TokType.kPHP_T_PUBLIC ∧
      t.type ≠ TokType.kPHP_T_PRIVATE ∧ t.type ≠ TokType.kPHP_T_PROTECTED ∧
      functionFlagStep f t = f) := by
  unfold functionFlagStep
  by_cases h1 : t.type = TokType.kPHP_T_ABSTRACT
  · simp [h1]
  by_cases h2 : t.type = TokType.kPHP_T_FINAL
  · simp [h2]
  by_cases h3 : t.type = TokType.kPHP_T_STATIC
  · simp [h3]
  by_cases h4 : t.type = TokType.kPHP_T_PUBLIC
  · simp [h4]
  by_cases h5 : t.type = TokType.kPHP_T_PRIVATE
  · simp [h5]
  by_cases h6 : t.type = TokType.kPHP_T_PROTECTED
  · simp [h6]
  simp [h1, h2, h3, h4, h5, h6]

/-- The flag word `LookBackForFunctionFlags` computes from a buffer `l`, bit by
bit. -/
theorem functionFlags_fold (l : Tokens) :
    l.foldl functionFlagStep 0 < 128 ∧
    HasFlag (l.foldl functionFlagStep 0) kFunc_Abstract = hasKeyword l TokType.kPHP_T_ABSTRACT ∧
    HasFlag (l.foldl functionFlagStep 0) kFunc_Final = hasKeyword l TokType.kPHP_T_FINAL ∧
    HasFlag (l.foldl functionFlagStep 0) kFunc_Static = hasKeyword l TokType.kPHP_T_STATIC ∧
    HasFlag (l.foldl functionFlagStep 0) kFunc_Public =
      decide (lastVisibility l = some TokType.kPHP_T_PUBLIC) ∧
    HasFlag (l.foldl functionFlagStep 0) kFunc_Private =
      decide (lastVisibility l = some TokType.kPHP_T_PRIVATE) ∧
    HasFlag (l.foldl functionFlagStep 0) kFunc_Protected =
      decide (lastVisibility l = some TokType.kPHP_T_PROTECTED) := by
  induction l using List.reverseRecOn with
  | nil => decide
  | append_singleton l t ih =>
    obtain ⟨hlt, ha, hf, hs, hpu, hpr, hpo⟩ := ih
    obtain ⟨b1, b2, b3, b4, b5, b6⟩ := functionFlag_bits _ hlt
    rw [List.foldl_append, List.foldl_cons, List.foldl_nil]
    simp only [hasKeyword_concat, lastVisibility_concat]
    rcases functionFlagStep_cases (l.foldl functionFlagStep 0) t with
      ⟨h, e⟩ | ⟨h, e⟩ | ⟨h, e⟩ | ⟨h, e⟩ | ⟨h, e⟩ | ⟨h, e⟩ | ⟨h1, h2, h3, h4, h5, h6, e⟩
    · rw [e]
      obtain ⟨c0, c1, c2, c3, c4, c5, c6⟩ := b1
      simp [c0, c1, c2, c3, c4, c5, c6, h, isVisibilityToken, ha, hf, hs, hpu, hpr, hpo]
    · rw [e]
      obtain ⟨c0, c1, c2, c3, c4, c5, c6⟩ := b2
      simp [c0, c1, c2, c3, c4, c5, c6, h, isVisibilityToken, ha, hf, hs, hpu, hpr, hpo]
    · rw [e]
      obtain ⟨c0, c1, c2, c3, c4, c5, c6⟩ := b3
      simp [c0, c1, c2, c3, c4, c5, c6, h, isVisibilityToken, ha, hf, hs, hpu, hpr, hpo]
    · rw [e]
      obtain ⟨c0, c1, c2, c3, c4, c5, c6⟩ := b4
      simp [c0, c1, c2, c3, c4, c5, c6, h, isVisibilityToken, ha, hf, hs, hpu, hpr, hpo]
    · rw [e]
      obtain ⟨c0, c1, c2, c3, c4, c5, c6⟩ := b5
      simp [c0, c1, c2, c3, c4, c5, c6, h, isVisibilityToken, ha, hf, hs, hpu, hpr, hpo]
    · rw [e]
      obtain ⟨c0, c1, c2, c3, c4, c5, c6⟩ := b6
      simp [c0, c1, c2, c3, c4, c5, c6, h, isVisibilityToken, ha, hf, hs, hpu, hpr, hpo]
    · rw [e]
      simp [hlt, h1, h2, h3, h4, h5, h6, isVisibilityToken, ha, hf, hs, hpu, hpr, hpo]

/-- A buffer without any visibility keyword has no last visibility keyword. -/
theorem lastVisibility_none (l : Tokens)
    (h1 : hasKeyword l TokType.kPHP_T_PUBLIC = false)
    (h2 : hasKeyword l TokType.kPHP_T_PRIVATE = false)
    (h3 : hasKeyword l TokType.kPHP_T_PROTECTED = false) : lastVisibility l = none := by
  simp only [hasKeyword, List.any_eq_false, beq_iff_eq] at h1 h2 h3
  simp only [lastVisibility, Option.map_eq_none', List.find?_eq_none, List.mem_reverse]
  intro t ht
  simp [isVisibilityToken, h1 t ht, h2 t ht, h3 t ht]

/-- C19: for every look-back buffer, the word `LookBackForFunctionFlags`
returns has the public, private or protected bit set exactly when that keyword
is the last visibility keyword of the buffer, so that at most one of the three
bits is set and none when the buffer holds no visibility keyword; the abstract,
final and static bits are set exactly when the corresponding keyword occurs in
the buffer. -/
theorem C19_function_flags (s : PHPSourceFile) :
    HasFlag (LookBackForFunctionFlags s) kFunc_Public =
      decide (lastVisibility s.m_lookBackTokens = some TokType.kPHP_T_PUBLIC) ∧
    HasFlag (LookBackForFunctionFlags s) kFunc_Private =
      decide (lastVisibility s.m_lookBackTokens = some TokType.kPHP_T_PRIVATE) ∧
    HasFlag (LookBackForFunctionFlags s) kFunc_Protected =
      decide (lastVisibility s.m_lookBackTokens = some TokType.kPHP_T_PROTECTED) ∧
    ¬ (HasFlag (LookBackForFunctionFlags s) kFunc_Public = true ∧
        HasFlag (LookBackForFunctionFlags s) kFunc_Private = true) ∧
    ¬ (HasFlag (LookBackForFunctionFlags s) kFunc_Public = true ∧
        HasFlag (LookBackForFunctionFlags s) kFunc_Protected = true) ∧
    ¬ (HasFlag (LookBackForFunctionFlags s) kFunc_Private = true ∧
        HasFlag (LookBackForFunctionFlags s) kFunc_Protected = true) ∧
    (hasKeyword s.m_lookBackTokens TokType.kPHP_T_PUBLIC = false →
      hasKeyword s.m_lookBackTokens TokType.kPHP_T_PRIVATE = false →
      hasKeyword s.m_lookBackTokens TokType.kPHP_T_PROTECTED = false →
      HasFlag (LookBackForFunctionFlags s) kFunc_Public = false ∧
      HasFlag (LookBackForFunctionFlags s) kFunc_Private = false ∧
      HasFlag (LookBackForFunctionFlags s) kFunc_Protected = false) ∧
    HasFlag (LookBackForFunctionFlags s) kFunc_Abstract =
      hasKeyword s.m_lookBackTokens TokType.kPHP_T_ABSTRACT ∧
    HasFlag (LookBackForFunctionFlags s) kFunc_Final =
      hasKeyword s.m_lookBackTokens TokType.kPHP_T_FINAL ∧
    HasFlag (LookBackForFunctionFlags s) kFunc_Static =
      hasKeyword s.m_lookBackTokens TokType.kPHP_T_STATIC := by
  obtain ⟨_, ha, hf, hs, hpu, hpr, hpo⟩ := functionFlags_fold s.m_lookBackTokens
  unfold LookBackForFunctionFlags
  refine ⟨hpu, hpr, hpo, ?_, ?_, ?_, ?_, ha, hf, hs⟩
  · rw [hpu, hpr]
    intro h
    simp only [decide_eq_true_eq] at h
    rw [h.1] at h
    exact absurd h.2 (by decide)
  · rw [hpu, hpo]
    intro h
    simp only [decide_eq_true_eq] at h
    rw [h.1] at h
    exact absurd h.2 (by decide)
  · rw [hpr, hpo]
    intro h
    simp only [decide_eq_true_eq] at h
    rw [h.1] at h
    exact absurd h.2 (by decide)
  · intro h1 h2 h3
    have hn : lastVisibility s.m_lookBackTokens = none := lastVisibility_none _ h1 h2 h3
    rw [hpu, hpr, hpo, hn]
    decide

theorem C19_function_flags_witness :
    HasFlag (LookBackForFunctionFlags
        { m_lookBackTokens := [mkToken TokType.kPHP_T_PUBLIC "public" 1,
            mkToken TokType.kPHP_T_STATIC "static" 1,
            mkToken TokType.kPHP_T_PRIVATE "private" 1] }) kFunc_Private = true ∧
    HasFlag (LookBackForFunctionFlags
        { m_lookBackTokens := [mkToken TokType.kPHP_T_PUBLIC "public" 1,
            mkToken TokType.kPHP_T_STATIC "static" 1,
            mkToken TokType.kPHP_T_PRIVATE "private" 1] }) kFunc_Public = false ∧
    HasFlag (LookBackForFunctionFlags
        { m_lookBackTokens := [mkToken TokType.kPHP_T_PUBLIC "public" 1,
            mkToken TokType.kPHP_T_STATIC "static" 1,
            mkToken TokType.kPHP_T_PRIVATE "private" 1] }) kFunc_Static = true ∧
    (HasFlag (LookBackForFunctionFlags
          { m_lookBackTokens := [mkToken TokType.kPHP_T_STATIC "static" 1] }) kFunc_Public = false ∧
      HasFlag (LookBackForFunctionFlags
          { m_lookBackTokens := [mkToken TokType.kPHP_T_STATIC "static" 1] }) kFunc_Private = false ∧
      HasFlag (LookBackForFunctionFlags
          { m_lookBackTokens := [mkToken TokType.kPHP_T_STATIC "static" 1] })
        kFunc_Protected = false) :=
  ⟨(C19_function_flags _).2.1.trans (by decide),
    (C19_function_flags _).1.trans (by decide),
    (C19_function_flags _).2.2.2.2.2.2.2.2.2.trans (by decide),
    (C19_function_flags _).2.2.2.2.2.2.1 (by decide) (by decide) (by decide)⟩

/-- The bits of a variable flag word after each of the five updates
`LookBackForVariablesFlags` makes. -/
theorem variableFlag_bits : ∀ f ∈ variableFlagWords,
    (f ||| kVar_Static ∈ variableFlagWords ∧
      HasFlag (f ||| kVar_Static) kVar_Static = true ∧
      HasFlag (f ||| kVar_Static) kVar_Const = HasFlag f kVar_Const ∧
      HasFlag (f ||| kVar_Static) kVar_Public = HasFlag f kVar_Public ∧
      HasFlag (f ||| kVar_Static) kVar_Private = HasFlag f kVar_Private ∧
      HasFlag (f ||| kVar_Static) kVar_Protected = HasFlag f kVar_Protected) ∧
    (f ||| kVar_Const ∈ variableFlagWords ∧
      HasFlag (f ||| kVar_Const) kVar_Static = HasFlag f kVar_Static ∧
      HasFlag (f ||| kVar_Const) kVar_Const = true ∧
      HasFlag (f ||| kVar_Const) kVar_Public = HasFlag f kVar_Public ∧
      HasFlag (f ||| kVar_Const) kVar_Private = HasFlag f kVar_Private ∧
      HasFlag (f ||| kVar_Const) kVar_Protected = HasFlag f kVar_Protected) ∧
    (clearFlag (clearFlag (f ||| kVar_Public) kVar_Private) kVar_Protected ∈ variableFlagWords ∧
      HasFlag (clearFlag (clearFlag (f ||| kVar_Public) kVar_Private) kVar_Protected)
        kVar_Static = HasFlag f kVar_Static ∧
      HasFlag (clearFlag (clearFlag (f ||| kVar_Public) kVar_Private) kVar_Protected)
        kVar_Const = HasFlag f kVar_Const ∧
      HasFlag (clearFlag (clearFlag (f ||| kVar_Public) kVar_Private) kVar_Protected)
        kVar_Public = true ∧
      HasFlag (clearFlag (clearFlag (f ||| kVar_Public) kVar_Private) kVar_Protected)
        kVar_Private = false ∧
      HasFlag (clearFlag (clearFlag (f ||| kVar_Public) kVar_Private) kVar_Protected)
        kVar_Protected = false) ∧
    (clearFlag (clearFlag (f ||| kVar_Private) kVar_Public) kVar_Protected ∈ variableFlagWords ∧
      HasFlag (clearFlag (clearFlag (f ||| kVar_Private) kVar_Public) kVar_Protected)
        kVar_Static = HasFlag f kVar_Static ∧
      HasFlag (clearFlag (clearFlag (f ||| kVar_Private) kVar_Public) kVar_Protected)
        kVar_Const = HasFlag f kVar_Const ∧
      HasFlag (clearFlag (clearFlag (f ||| kVar_Private) kVar_Public) kVar_Protected)
        kVar_Public = false ∧
      HasFlag (clearFlag (clearFlag (f ||| kVar_Private) kVar_Public) kVar_Protected)
        kVar_Private = true ∧
      HasFlag (clearFlag (clearFlag (f ||| kVar_Private) kVar_Public) kVar_Protected)
        kVar_Protected = false) ∧
    (clearFlag (clearFlag (f ||| kVar_Protected) kVar_Private) kVar_Public ∈ variableFlagWords ∧
      HasFlag (clearFlag (clearFlag (f ||| kVar_Protected) kVar_Private) kVar_Public)
        kVar_Static = HasFlag f kVar_Static ∧
      HasFlag (clearFlag (clearFlag (f ||| kVar_Protected) kVar_Private) kVar_Public)
        kVar_Const = HasFlag f kVar_Const ∧
      HasFlag (clearFlag (clearFlag (f ||| kVar_Protected) kVar_Private) kVar_Public)
        kVar_Public = false ∧
      HasFlag (clearFlag (clearFlag (f ||| kVar_Protected) kVar_Private) kVar_Public)
        kVar_Private = false ∧
      HasFlag (clearFlag (clearFlag (f ||| kVar_Protected) kVar_Private) kVar_Public)
        kVar_Protected = true) := by
  decide

theorem variableFlagStep_cases (f : Nat) (t : phpLexerToken) :
    (t.type = TokType.kPHP_T_STATIC ∧ variableFlagStep f t = f ||| kVar_Static) ∨
    (t.type = TokType.kPHP_T_CONST ∧ variableFlagStep f t = f ||| kVar_Const) ∨
    (t.type = TokType.kPHP_T_PUBLIC ∧
      variableFlagStep f t = clearFlag (clearFlag (f ||| kVar_Public) kVar_Private) kVar_Protected) ∨
    (t.type = TokType.kPHP_T_PRIVATE ∧
      variableFlagStep f t = clearFlag (clearFlag (f ||| kVar_Private) kVar_Public) kVar_Protected) ∨
    (t.type = TokType.kPHP_T_PROTECTED ∧
      variableFlagStep f t = clearFlag (clearFlag (f ||| kVar_Protected) kVar_Private) kVar_Public) ∨
    (t.type ≠ TokType.kPHP_T_STATIC ∧ t.type ≠ TokType.kPHP_T_CONST ∧
      t.type ≠ TokType.kPHP_T_PUBLIC ∧ t.type ≠ TokType.kPHP_T_PRIVATE ∧
      t.type ≠ TokType.kPHP_T_PROTECTED ∧ variableFlagStep f t = f) := by
  unfold variableFlagStep
  by_cases h1 : t.type = TokType.kPHP_T_STATIC
  · simp [h1]
  by_cases h2 : t.type = TokType.kPHP_T_CONST
  · simp [h2]
  by_cases h4 : t.type = TokType.kPHP_T_PUBLIC
  · simp [h4]
  by_cases h5 : t.type = TokType.kPHP_T_PRIVATE
  · simp [h5]
  by_cases h6 : t.type = TokType.kPHP_T_PROTECTED
  · simp [h6]
  simp [h1, h2, h4, h5, h6]

/-- The flag word `LookBackForVariablesFlags` computes from a buffer `l`, bit
by bit. -/
theorem variableFlags_fold (l : Tokens) :
    l.foldl variableFlagStep kVar_Public ∈ variableFlagWords ∧
    HasFlag (l.foldl variableFlagStep kVar_Public) kVar_Static =
      hasKeyword l TokType.kPHP_T_STATIC ∧
    HasFlag (l.foldl variableFlagStep kVar_Public) kVar_Const =
      hasKeyword l TokType.kPHP_T_CONST ∧
    HasFlag (l.foldl variableFlagStep kVar_Public) kVar_Public =
      decide (lastVisibility l = none ∨ lastVisibility l = some TokType.kPHP_T_PUBLIC) ∧
    HasFlag (l.foldl variableFlagStep kVar_Public) kVar_Private =
      decide (lastVisibility l = some TokType.kPHP_T_PRIVATE) ∧
    HasFlag (l.foldl variableFlagStep kVar_Public) kVar_Protected =
      decide (lastVisibility l = some TokType.kPHP_T_PROTECTED) := by
  induction l using List.reverseRecOn with
  | nil => decide
  | append_singleton l t ih =>
    obtain ⟨hlt, hs, hc, hpu, hpr, hpo⟩ := ih
    obtain ⟨b1, b2, b4, b5, b6⟩ := variableFlag_bits _ hlt
    rw [List.foldl_append, List.foldl_cons, List.foldl_nil]
    simp only [hasKeyword_concat, lastVisibility_concat]
    rcases variableFlagStep_cases (l.foldl variableFlagStep kVar_Public) t with
      ⟨h, e⟩ | ⟨h, e⟩ | ⟨h, e⟩ | ⟨h, e⟩ | ⟨h, e⟩ | ⟨h1, h2, h4, h5, h6, e⟩
    · rw [e]
      obtain ⟨c0, c1, c2, c3, c4, c5⟩ := b1
      simp [c0, c1, c2, c3, c4, c5, h, isVisibilityToken, hs, hc, hpu, hpr, hpo]
    · rw [e]
      obtain ⟨c0, c1, c2, c3, c4, c5⟩ := b2
      simp [c0, c1, c2, c3, c4, c5, h, isVisibilityToken, hs, hc, hpu, hpr, hpo]
    · rw [e]
      obtain ⟨c0, c1, c2, c3, c4, c5⟩ := b4
      simp [c0, c1, c2, c3, c4, c5, h, isVisibilityToken, hs, hc, hpu, hpr, hpo]
    · rw [e]
      obtain ⟨c0, c1, c2, c3, c4, c5⟩ := b5
      simp [c0, c1, c2, c3, c4, c5, h, isVisibilityToken, hs, hc, hpu, hpr, hpo]
    · rw [e]
      obtain ⟨c0, c1, c2, c3, c4, c5⟩ := b6
      simp [c0, c1, c2, c3, c4, c5, h, isVisibilityToken, hs, hc, hpu, hpr, hpo]
    · rw [e]
      simp [hlt, h1, h2, h4, h5, h6, isVisibilityToken, hs, hc, hpu, hpr, hpo]

/-- Every flag word of `variableFlagWords` has exactly one visibility bit. -/
theorem variableFlagWords_one_visibility : ∀ f ∈ variableFlagWords,
    (HasFlag f kVar_Public).toNat + (HasFlag f kVar_Private).toNat +
      (HasFlag f kVar_Protected).toNat = 1 := by
  decide

/-- A buffer has no last visibility keyword exactly when it holds none of the
three visibility keywords. -/
theorem lastVisibility_eq_none_iff (l : Tokens) :
    lastVisibility l = none ↔
      (hasKeyword l TokType.kPHP_T_PUBLIC = false ∧
        hasKeyword l TokType.kPHP_T_PRIVATE = false ∧
        hasKeyword l TokType.kPHP_T_PROTECTED = false) := by
  constructor
  · intro h
    simp only [lastVisibility, Option.map_eq_none', List.find?_eq_none, List.mem_reverse] at h
    simp only [hasKeyword, List.any_eq_false, beq_iff_eq]
    refine ⟨fun t ht e => ?_, fun t ht e => ?_, fun t ht e => ?_⟩ <;>
    · have := h t ht
      simp [isVisibilityToken, e] at this
  · intro h
    exact lastVisibility_none l h.1 h.2.1 h.2.2

/-- C20: for every look-back buffer, the word `LookBackForVariablesFlags`
returns has exactly one of the public, private and protected bits set: the
public bit when the buffer holds no visibility keyword, otherwise the bit of
the last visibility keyword of the buffer; the static and const bits are set
exactly when the corresponding keyword occurs in the buffer. -/
theorem C20_variable_flags (s : PHPSourceFile) :
    HasFlag (LookBackForVariablesFlags s) kVar_Public =
      decide (lastVisibility s.m_lookBackTokens = none ∨
        lastVisibility s.m_lookBackTokens = some TokType.kPHP_T_PUBLIC) ∧
    HasFlag (LookBackForVariablesFlags s) kVar_Private =
      decide (lastVisibility s.m_lookBackTokens = some TokType.kPHP_T_PRIVATE) ∧
    HasFlag (LookBackForVariablesFlags s) kVar_Protected =
      decide (lastVisibility s.m_lookBackTokens = some TokType.kPHP_T_PROTECTED) ∧
    ((HasFlag (LookBackForVariablesFlags s) kVar_Public).toNat +
      (HasFlag (LookBackForVariablesFlags s) kVar_Private).toNat +
      (HasFlag (LookBackForVariablesFlags s) kVar_Protected).toNat = 1) ∧
    (lastVisibility s.m_lookBackTokens = none ↔
      (hasKeyword s.m_lookBackTokens TokType.kPHP_T_PUBLIC = false ∧
        hasKeyword s.m_lookBackTokens TokType.kPHP_T_PRIVATE = false ∧
        hasKeyword s.m_lookBackTokens TokType.kPHP_T_PROTECTED = false)) ∧
    HasFlag (LookBackForVariablesFlags s) kVar_Static =
      hasKeyword s.m_lookBackTokens TokType.kPHP_T_STATIC ∧
    HasFlag (LookBackForVariablesFlags s) kVar_Const =
      hasKeyword s.m_lookBackTokens TokType.kPHP_T_CONST := by
  obtain ⟨hw, hs, hc, hpu, hpr, hpo⟩ := variableFlags_fold s.m_lookBackTokens
  unfold LookBackForVariablesFlags
  exact ⟨hpu, hpr, hpo, variableFlagWords_one_visibility _ hw,
    lastVisibility_eq_none_iff _, hs, hc⟩

/-! ## The expression scanner -/

/-- Inside one level of parentheses the loop of `ReadExpression` keeps no text:
it reads up to the closing parenthesis, which it appends. -/
theorem ReadExpression_loop_group (inner : Tokens) (rp : phpLexerToken) (more : Tokens)
    (s : PHPSourceFile) (e : WxString)
    (hin : inner.all (fun t => !isExpressionStop t && !isParenToken t) = true)
    (hrp : rp.type = TokType.chr_rparen) :
    ReadExpression_loop (inner ++ rp :: more) s e 1 =
      ReadExpression_loop more (readTokens s (inner ++ [rp])) (e ++ [')']) 0 := by
  induction inner generalizing s with
  | nil =>
    simp [ReadExpression_loop, hrp, readTokens]
  | cons t ts ih =>
    simp only [List.all_cons, Bool.and_eq_true] at hin
    have ht := hin.1
    simp only [isExpressionStop, isParenToken, Bool.not_eq_true', Bool.or_eq_false_iff,
      beq_eq_false_iff_ne, ne_eq] at ht
    obtain ⟨⟨⟨⟨h1, h2⟩, h3⟩, h4⟩, h5, h6⟩ := ht
    rw [List.cons_append, List.cons_append, readTokens_cons, ← ih _ hin.2]
    rw [ReadExpression_loop]
    simp only [h1, h2, if_false]
    split <;> simp_all
/-- One well-formed item read by the loop of `ReadExpression` at depth 0. -/
theorem ReadExpression_loop_item (i : ExprItem) (more : Tokens) (s : PHPSourceFile)
    (e : WxString) (hi : i.wellFormed = true) :
    ReadExpression_loop (i.tokens ++ more) s e 0 =
      ReadExpression_loop more (readTokens s i.tokens) (e ++ i.render) 0 := by
  cases i with
  | plain t =>
    simp only [ExprItem.wellFormed, isExpressionStop, isSkippedToken, isParenToken,
      Bool.and_eq_true, Bool.not_eq_true', Bool.or_eq_false_iff, beq_eq_false_iff_ne,
      ne_eq] at hi
    obtain ⟨⟨⟨⟨⟨h1, h2⟩, h3⟩, h4⟩, ⟨⟨h5, h6⟩, h7⟩, h8⟩, h9, h10⟩ := hi
    simp only [ExprItem.tokens, ExprItem.render, List.singleton_append, readTokens_cons,
      readTokens_nil]
    rw [ReadExpression_loop]
    simp only [h1, h2, if_false]
    by_cases hn : t.type = TokType.kPHP_T_NEW
    · simp [hn]
    · split <;> simp_all
  | group lp inner rp =>
    simp only [ExprItem.wellFormed, Bool.and_eq_true, beq_iff_eq] at hi
    obtain ⟨⟨hlp, hrp⟩, hin⟩ := hi
    simp only [ExprItem.tokens, ExprItem.render, List.cons_append, List.append_assoc,
      List.singleton_append, readTokens_cons]
    rw [ReadExpression_loop]
    simp only [hlp]
    simp only [reduceCtorEq, if_false, zero_add, List.nil_append]
    rw [ReadExpression_loop_group inner rp more _ _ hin hrp]
    simp

/-- The loop of `ReadExpression` at depth 0 on the items of an expression
followed by `;`. -/
theorem ReadExpression_loop_items (items : List ExprItem) (semi : phpLexerToken) (rest : Tokens)
    (s : PHPSourceFile) (e : WxString)
    (hitems : items.all ExprItem.wellFormed = true) (hsemi : semi.type = TokType.chr_semi) :
    ReadExpression_loop (exprTokens items ++ semi :: rest) s e 0 =
      (true, e ++ exprRender items, rest, readTokens s (exprTokens items ++ [semi])) := by
  induction items generalizing s e with
  | nil =>
    simp [exprTokens, exprRender, ReadExpression_loop, hsemi, readTokens]
  | cons i more ih =>
    simp only [List.all_cons, Bool.and_eq_true] at hitems
    simp only [exprTokens, exprRender, List.append_assoc]
    rw [ReadExpression_loop_item i _ s e hitems.1, ih _ _ hitems.2, readTokens_append s i.tokens]
    simp

/-- C14 (as stated, refuted): the tokens of `foo(1,(2+3));` hold no string
literal, comment, `require`, `require_once` or opening brace, and
`ReadExpression` succeeds on them with the text `foo(()`, which is not the
concatenation `foo(1,(2+3))` of the texts of the tokens before the `;`. -/
theorem C14_nested_call_counterexample :
    tokensNestedCall.all (fun t => !isSkippedToken t && t.type != TokType.kPHP_T_REQUIRE &&
      t.type != TokType.kPHP_T_REQUIRE_ONCE && t.type != TokType.chr_lbrace) = true ∧
    tokensText tokensNestedCall.dropLast = "foo(1,(2+3))".toList ∧
    (ReadExpression tokensNestedCall (newSourceFile false)).1 = true ∧
    (ReadExpression tokensNestedCall (newSourceFile false)).2.1 = "foo(()".toList ∧
    (ReadExpression tokensNestedCall (newSourceFile false)).2.1 ≠ "foo(1,(2+3))".toList := by
  decide

/-- C14 (amended): for every expression made of tokens outside parentheses
(none of them `;`, an opening brace, `require`, `require_once`, a string literal
or a comment) and of parenthesised groups that hold neither further
parentheses nor `;`, opening braces, `require` or `require_once`, followed by
`;`, `ReadExpression` returns success, consumes the `;`, and returns the texts
of the tokens outside parentheses in order, a `new` keyword followed by one
space, every group reduced to its bare pair of parentheses: the text inside
parentheses is not part of the result. -/
theorem C14_expression_text_outside_parentheses (items : List ExprItem) (semi : phpLexerToken)
    (rest : Tokens) (s : PHPSourceFile)
    (hitems : items.all ExprItem.wellFormed = true) (hsemi : semi.type = TokType.chr_semi) :
    ReadExpression (exprTokens items ++ semi :: rest) s =
      (true, exprRender items, rest, readTokens s (exprTokens items ++ [semi])) := by
  unfold ReadExpression
  rw [ReadExpression_loop_items items semi rest s [] hitems hsemi]
  simp

theorem C14_expression_text_outside_parentheses_witness :
    ReadExpression
        (exprTokens [ExprItem.plain (mkToken TokType.kPHP_T_NEW "new" 1),
            ExprItem.plain (mkToken TokType.kPHP_T_IDENTIFIER "Foo" 1),
            ExprItem.group (mkToken TokType.chr_lparen "(" 1)
              [mkToken (TokType.other 0) "1" 1, mkToken TokType.chr_comma "," 1,
                mkToken (TokType.other 0) "2" 1]
              (mkToken TokType.chr_rparen ")" 1)] ++
          mkToken TokType.chr_semi ";" 1 :: []) (newSourceFile false) =
      (true,
        exprRender [ExprItem.plain (mkToken TokType.kPHP_T_NEW "new" 1),
          ExprItem.plain (mkToken TokType.kPHP_T_IDENTIFIER "Foo" 1),
          ExprItem.group (mkToken TokType.chr_lparen "(" 1)
            [mkToken (TokType.other 0) "1" 1, mkToken TokType.chr_comma "," 1,
              mkToken (TokType.other 0) "2" 1]
            (mkToken TokType.chr_rparen ")" 1)],
        [],
        readTokens (newSourceFile false)
          (exprTokens [ExprItem.plain (mkToken TokType.kPHP_T_NEW "new" 1),
              ExprItem.plain (mkToken TokType.kPHP_T_IDENTIFIER "Foo" 1),
              ExprItem.group (mkToken TokType.chr_lparen "(" 1)
                [mkToken (TokType.other 0) "1" 1, mkToken TokType.chr_comma "," 1,
                  mkToken (TokType.other 0) "2" 1]
                (mkToken TokType.chr_rparen ")" 1)] ++
            [mkToken TokType.chr_semi ";" 1])) ∧
    exprRender [ExprItem.plain (mkToken TokType.kPHP_T_NEW "new" 1),
        ExprItem.plain (mkToken TokType.kPHP_T_IDENTIFIER "Foo" 1),
        ExprItem.group (mkToken TokType.chr_lparen "(" 1)
          [mkToken (TokType.other 0) "1" 1, mkToken TokType.chr_comma "," 1,
            mkToken (TokType.other 0) "2" 1]
          (mkToken TokType.chr_rparen ")" 1)] = "new Foo()".toList :=
  ⟨C14_expression_text_outside_parentheses _ _ _ _ (by decide) (by decide), by decide⟩

/-- The loop of `ReadExpression` passes the tokens that are not stop tokens. -/
theorem ReadExpression_loop_skip (pre rest : Tokens) (s : PHPSourceFile) (e : WxString) (d : Int)
    (hpre : pre.all (fun t => !isExpressionStop t) = true) :
    ∃ e1 d1, ReadExpression_loop (pre ++ rest) s e d =
      ReadExpression_loop rest (readTokens s pre) e1 d1 := by
  induction pre generalizing s e d with
  | nil => exact ⟨e, d, rfl⟩
  | cons t ts ih =>
    simp only [List.all_cons, Bool.and_eq_true] at hpre
    have ht := hpre.1
    simp only [isExpressionStop, Bool.not_eq_true', Bool.or_eq_false_iff,
      beq_eq_false_iff_ne, ne_eq] at ht
    obtain ⟨⟨⟨h1, h2⟩, h3⟩, h4⟩ := ht
    rw [List.cons_append, readTokens_cons, ReadExpression_loop]
    simp only [h1, h2, if_false]
    split
    · exact absurd ‹_› h3
    · exact absurd ‹_› h4
    all_goals exact ih _ _ _ hpre.2

theorem takeWhile_all_not_stop (toks : Tokens) :
    (toks.takeWhile (fun t => !isExpressionStop t)).all (fun t => !isExpressionStop t) = true := by
  induction toks with
  | nil => rfl
  | cons t ts ih =>
    by_cases h : isExpressionStop t = true
    · simp [List.takeWhile, h]
    · simp only [Bool.not_eq_true] at h
      simp only [List.takeWhile, h, Bool.not_false, List.all_cons, Bool.true_and]
      exact ih

theorem dropWhile_head_stop (toks : Tokens) (t : phpLexerToken) (post : Tokens)
    (h : toks.dropWhile (fun t => !isExpressionStop t) = t :: post) :
    isExpressionStop t = true := by
  have := List.head_dropWhile_not (fun t => !isExpressionStop t) toks
    (by rw [h]; exact List.cons_ne_nil _ _)
  simpa [h] using this

/-- The outcome of `ReadExpression` on the tokens `pre`, none of them a stop
token, followed by nothing or by a first stop token `t`. -/
theorem ReadExpression_outcome (pre : Tokens) (s : PHPSourceFile)
    (hpre : pre.all (fun t => !isExpressionStop t) = true) :
    ((ReadExpression pre s).1 = false ∧ (ReadExpression pre s).2.2.1 = [] ∧
      (ReadExpression pre s).2.2.2.m_reachedEOF = true) ∧
    (∀ t post, t.type = TokType.chr_semi →
      (ReadExpression (pre ++ t :: post) s).1 = true ∧
      (ReadExpression (pre ++ t :: post) s).2.2.1 = post) ∧
    (∀ t post, t.type = TokType.chr_lbrace →
      (ReadExpression (pre ++ t :: post) s).1 = true ∧
      (ReadExpression (pre ++ t :: post) s).2.2.1 = t :: post ∧
      (ReadExpression (pre ++ t :: post) s).2.2.2.m_depth = (readTokens s pre).m_depth) ∧
    (∀ t post, t.type = TokType.kPHP_T_REQUIRE ∨ t.type = TokType.kPHP_T_REQUIRE_ONCE →
      (ReadExpression (pre ++ t :: post) s).1 = false ∧
      (ReadExpression (pre ++ t :: post) s).2.1 = [] ∧
      (ReadExpression (pre ++ t :: post) s).2.2.1 = post) := by
  refine ⟨?_, ?_, ?_, ?_⟩
  · obtain ⟨e1, d1, h⟩ := ReadExpression_loop_skip pre [] s [] 0 hpre
    rw [List.append_nil] at h
    unfold ReadExpression
    rw [h]
    simp [ReadExpression_loop, NextToken_eof]
  · intro t post ht
    obtain ⟨e1, d1, h⟩ := ReadExpression_loop_skip pre (t :: post) s [] 0 hpre
    unfold ReadExpression
    rw [h]
    simp [ReadExpression_loop, ht]
  · intro t post ht
    obtain ⟨e1, d1, h⟩ := ReadExpression_loop_skip pre (t :: post) s [] 0 hpre
    unfold ReadExpression
    rw [h, ReadExpression_loop, if_neg (by rw [ht]; decide), if_pos ht]
    refine ⟨rfl, rfl, ?_⟩
    show (UngetToken post (NextToken_found (readTokens s pre) t) t).2.m_depth = _
    rw [UngetToken_depth, NextToken_found_depth]
    omega
  · intro t post ht
    obtain ⟨e1, d1, h⟩ := ReadExpression_loop_skip pre (t :: post) s [] 0 hpre
    unfold ReadExpression
    rw [h, ReadExpression_loop]
    rcases ht with ht | ht <;> simp [ht]

/-- C15: for every token stream, with `pre` its tokens before the first `;`,
opening brace, `require` or `require_once`: when there is no such token
`ReadExpression` fails at the end of input; when the first one is `;` it
succeeds and the `;` is consumed; when it is an opening brace it succeeds, the
brace is pushed back, so that it is the next token read, and the brace depth is
what it was before the brace was read; when it is `require` or `require_once`
it fails with an empty text.  Failure is reported in exactly these two ways. -/
theorem C15_read_expression_outcome (toks : Tokens) (s : PHPSourceFile) :
    (toks.dropWhile (fun t => !isExpressionStop t) = [] →
      (ReadExpression toks s).1 = false ∧ (ReadExpression toks s).2.2.1 = [] ∧
      (ReadExpression toks s).2.2.2.m_reachedEOF = true) ∧
    (∀ t post, toks.dropWhile (fun t => !isExpressionStop t) = t :: post →
      t.type = TokType.chr_semi →
      (ReadExpression toks s).1 = true ∧ (ReadExpression toks s).2.2.1 = post) ∧
    (∀ t post, toks.dropWhile (fun t => !isExpressionStop t) = t :: post →
      t.type = TokType.chr_lbrace →
      (ReadExpression toks s).1 = true ∧ (ReadExpression toks s).2.2.1 = t :: post ∧
      (NextToken (ReadExpression toks s).2.2.1 (ReadExpression toks s).2.2.2).1 = some t ∧
      (ReadExpression toks s).2.2.2.m_depth =
        (readTokens s (toks.takeWhile (fun t => !isExpressionStop t))).m_depth) ∧
    (∀ t post, toks.dropWhile (fun t => !isExpressionStop t) = t :: post →
      t.type = TokType.kPHP_T_REQUIRE ∨ t.type = TokType.kPHP_T_REQUIRE_ONCE →
      (ReadExpression toks s).1 = false ∧ (ReadExpression toks s).2.1 = [] ∧
      (ReadExpression toks s).2.2.1 = post) ∧
    ((ReadExpression toks s).1 = false ↔
      (toks.dropWhile (fun t => !isExpressionStop t) = [] ∨
        ∃ t post, toks.dropWhile (fun t => !isExpressionStop t) = t :: post ∧
          (t.type = TokType.kPHP_T_REQUIRE ∨ t.type = TokType.kPHP_T_REQUIRE_ONCE))) := by
  have hsplit : toks.takeWhile (fun t => !isExpressionStop t) ++
      toks.dropWhile (fun t => !isExpressionStop t) = toks := List.takeWhile_append_dropWhile _ _
  obtain ⟨o1, o2, o3, o4⟩ := ReadExpression_outcome
    (toks.takeWhile (fun t => !isExpressionStop t)) s (takeWhile_all_not_stop toks)
  have c1 : toks.dropWhile (fun t => !isExpressionStop t) = [] →
      (ReadExpression toks s).1 = false ∧ (ReadExpression toks s).2.2.1 = [] ∧
      (ReadExpression toks s).2.2.2.m_reachedEOF = true := by
    intro h
    rw [h, List.append_nil] at hsplit
    rw [hsplit] at o1
    exact o1
  have c2 : ∀ t post, toks.dropWhile (fun t => !isExpressionStop t) = t :: post →
      t.type = TokType.chr_semi →
      (ReadExpression toks s).1 = true ∧ (ReadExpression toks s).2.2.1 = post := by
    intro t post h ht
    have := o2 t post ht
    rw [← h, hsplit] at this
    exact this
  have c3 : ∀ t post, toks.dropWhile (fun t => !isExpressionStop t) = t :: post →
      t.type = TokType.chr_lbrace →
      (ReadExpression toks s).1 = true ∧ (ReadExpression toks s).2.2.1 = t :: post ∧
      (ReadExpression toks s).2.2.2.m_depth =
        (readTokens s (toks.takeWhile (fun t => !isExpressionStop t))).m_depth := by
    intro t post h ht
    have := o3 t post ht
    rw [← h, hsplit] at this
    rw [h] at this
    exact this
  have c4 : ∀ t post, toks.dropWhile (fun t => !isExpressionStop t) = t :: post →
      t.type = TokType.kPHP_T_REQUIRE ∨ t.type = TokType.kPHP_T_REQUIRE_ONCE →
      (ReadExpression toks s).1 = false ∧ (ReadExpression toks s).2.1 = [] ∧
      (ReadExpression toks s).2.2.1 = post := by
    intro t post h ht
    have := o4 t post ht
    rw [← h, hsplit] at this
    exact this
  refine ⟨c1, c2, ?_, c4, ?_⟩
  · intro t post h ht
    obtain ⟨a, b, c⟩ := c3 t post h ht
    refine ⟨a, b, ?_, c⟩
    rw [b]
    rfl
  · constructor
    · intro hf
      cases hd : toks.dropWhile (fun t => !isExpressionStop t) with
      | nil => exact Or.inl rfl
      | cons t post =>
        right
        refine ⟨t, post, rfl, ?_⟩
        have hstop := dropWhile_head_stop toks t post hd
        simp only [isExpressionStop, Bool.or_eq_true, beq_iff_eq] at hstop
        rcases hstop with ((h | h) | h) | h
        · rw [(c2 t post hd h).1] at hf
          exact absurd hf (by decide)
        · rw [(c3 t post hd h).1] at hf
          exact absurd hf (by decide)
        · exact Or.inl h
        · exact Or.inr h
    · rintro (h | ⟨t, post, h, ht⟩)
      · exact (c1 h).1
      · exact (c4 t post h ht).1
theorem C15_read_expression_outcome_witness :
    (ReadExpression
        [mkToken TokType.kPHP_T_VARIABLE "$a" 1, mkToken TokType.chr_rbrace "\x7d" 1,
          mkToken TokType.chr_lbrace "\x7b" 1, mkToken TokType.chr_semi ";" 1]
        (newSourceFile false)).1 = true ∧
    (ReadExpression
        [mkToken TokType.kPHP_T_VARIABLE "$a" 1, mkToken TokType.chr_rbrace "\x7d" 1,
          mkToken TokType.chr_lbrace "\x7b" 1, mkToken TokType.chr_semi ";" 1]
        (newSourceFile false)).2.2.1 =
      mkToken TokType.chr_lbrace "\x7b" 1 :: [mkToken TokType.chr_semi ";" 1] ∧
    (NextToken
        (ReadExpression
          [mkToken TokType.kPHP_T_VARIABLE "$a" 1, mkToken TokType.chr_rbrace "\x7d" 1,
            mkToken TokType.chr_lbrace "\x7b" 1, mkToken TokType.chr_semi ";" 1]
          (newSourceFile false)).2.2.1
        (ReadExpression
          [mkToken TokType.kPHP_T_VARIABLE "$a" 1, mkToken TokType.chr_rbrace "\x7d" 1,
            mkToken TokType.chr_lbrace "\x7b" 1, mkToken TokType.chr_semi ";" 1]
          (newSourceFile false)).2.2.2).1 = some (mkToken TokType.chr_lbrace "\x7b" 1) ∧
    (ReadExpression
        [mkToken TokType.kPHP_T_VARIABLE "$a" 1, mkToken TokType.chr_rbrace "\x7d" 1,
          mkToken TokType.chr_lbrace "\x7b" 1, mkToken TokType.chr_semi ";" 1]
        (newSourceFile false)).2.2.2.m_depth =
      (readTokens (newSourceFile false)
        (List.takeWhile (fun t => !isExpressionStop t)
          [mkToken TokType.kPHP_T_VARIABLE "$a" 1, mkToken TokType.chr_rbrace "\x7d" 1,
            mkToken TokType.chr_lbrace "\x7b" 1, mkToken TokType.chr_semi ";" 1])).m_depth :=
  (C15_read_expression_outcome _ (newSourceFile false)).2.2.1
    (mkToken TokType.chr_lbrace "\x7b" 1) [mkToken TokType.chr_semi ";" 1] (by decide) (by decide)

/-- C16 (the code departs from the claim): on `$v = newsletter();`, at the top
level and inside the parsed body of `function f()`, the expression does not
start with the `new` keyword token, yet the variable `$v` gets the type hint
`\sletter` and no expression hint: the test for a `new` expression looks at the
first three letters of the scanned text. -/
theorem C16_newsletter_call_gets_type_hint :
    tokensNewsletterAssignment.all (fun t => t.type != TokType.kPHP_T_NEW) = true ∧
    (ReadExpression (tokensNewsletterAssignment.drop 2) (newSourceFile false)).2.1 =
      "newsletter()".toList ∧
    (ParseFile false (-1) tokensNewsletterAssignment).map
        (fun r => r.2.store.map (fun e => (e.kind, e.fullName, e.typeHint, e.expressionHint))) =
      some [ (EntityKind.kEntityTypeNamespace, "\\".toList, [], []),
             (EntityKind.kEntityTypeVariable, "$v".toList, "\\sletter".toList, []) ] ∧
    (ParseFile true (-1) tokensNewsletterInBody).map
        (fun r => r.2.store.map (fun e => (e.kind, e.fullName, e.typeHint, e.expressionHint))) =
      some [ (EntityKind.kEntityTypeNamespace, "\\".toList, [], []),
             (EntityKind.kEntityTypeFunction, "f".toList, [], []),
             (EntityKind.kEntityTypeVariable, "$v".toList, "\\sletter".toList, []) ] :=
  ⟨by decide, by decide, by decide, by decide⟩

/-! ## Every routine is a run -/

theorem Tweak.currentScope (s : PHPSourceFile) : Tweak s (CurrentScope s).2 := by
  unfold CurrentScope
  cases h : s.m_scopes.getLast? with
  | some id => exact Tweak.refl s
  | none =>
    have hs : s.m_scopes = [] := by
      cases hl : s.m_scopes with
      | nil => rfl
      | cons a l => rw [hl] at h; simp at h
    exact Tweak.newNamespace s nsSep hs

theorem Tweak.namespace_ (s : PHPSourceFile) : Tweak s (Namespace s).2 := by
  unfold Namespace
  cases h : s.m_scopes with
  | nil => exact Tweak.currentScope s
  | cons a l => exact Tweak.refl s

theorem Tweak.makeIdentifierAbsolute (s : PHPSourceFile) (w : WxString) :
    Tweak s (MakeIdentifierAbsolute s w).2 := by
  rcases MakeIdentifierAbsolute_state s w with h | h
  · rw [h]; exact Tweak.refl s
  · rw [h]; exact Tweak.namespace_ s

theorem Run.stay (toks : Tokens) (s : PHPSourceFile) : Run toks s toks s :=
  Run.tweak toks (Tweak.refl s)

theorem Run.then_tweak {a b : Tokens} {s s1 s2 : PHPSourceFile} (h : Run a s b s1)
    (t : Tweak s1 s2) : Run a s b s2 :=
  Run.trans h (Run.tweak b t)

theorem ConsumeUntil_run (delim : TokType) (toks : Tokens) (s : PHPSourceFile) :
    Run toks s (ConsumeUntil delim toks s).2.1 (ConsumeUntil delim toks s).2.2 := by
  induction toks generalizing s with
  | nil => exact Run.eof s
  | cons t ts ih =>
    unfold ConsumeUntil
    split_ifs
    · exact Run.read t ts s
    · exact Run.trans (Run.read t ts s) (ih _)

theorem ReadUntilFound_run (delim : TokType) (toks : Tokens) (s : PHPSourceFile) :
    Run toks s (ReadUntilFound delim toks s).2.1 (ReadUntilFound delim toks s).2.2 := by
  induction toks generalizing s with
  | nil => exact Run.eof s
  | cons t ts ih =>
    unfold ReadUntilFound
    split_ifs
    · exact Run.read t ts s
    · exact Run.trans (Run.read t ts s) (ih _)

theorem ReadUntilFoundOneOf_run (d1 d2 : TokType) (toks : Tokens) (s : PHPSourceFile) :
    Run toks s (ReadUntilFoundOneOf d1 d2 toks s).2.1 (ReadUntilFoundOneOf d1 d2 toks s).2.2 := by
  induction toks generalizing s with
  | nil => exact Run.eof s
  | cons t ts ih =>
    unfold ReadUntilFoundOneOf
    split_ifs
    · exact Run.read t ts s
    · exact Run.read t ts s
    · exact Run.trans (Run.read t ts s) (ih _)

theorem ParseFunctionSignature_open_run (toks : Tokens) (s : PHPSourceFile) :
    Run toks s (ParseFunctionSignature_open toks s).2.1 (ParseFunctionSignature_open toks s).2.2 := by
  induction toks generalizing s with
  | nil => exact Run.eof s
  | cons t ts ih =>
    unfold ParseFunctionSignature_open
    split_ifs
    · exact Run.read t ts s
    · exact Run.trans (Run.read t ts s) (ih _)

theorem OnClass_name_run (toks : Tokens) (s : PHPSourceFile) :
    Run toks s (OnClass_name toks s).2.1 (OnClass_name toks s).2.2 := by
  induction toks generalizing s with
  | nil => exact Run.eof s
  | cons t ts ih =>
    unfold OnClass_name
    dsimp only
    split_ifs
    · exact Run.trans (Run.read t ts s) (ih _)
    · exact Run.read t ts s
    · exact Run.read t ts s

theorem ConsumeFunctionBody_loop_run (depth : Int) (toks : Tokens) (s : PHPSourceFile) :
    Run toks s (ConsumeFunctionBody_loop depth toks s).1 (ConsumeFunctionBody_loop depth toks s).2 := by
  induction toks generalizing s with
  | nil => exact Run.eof s
  | cons t ts ih =>
    unfold ConsumeFunctionBody_loop
    dsimp only
    split_ifs
    · exact Run.read t ts s
    · exact Run.trans (Run.read t ts s) (ih _)

theorem ConsumeFunctionBody_run (toks : Tokens) (s : PHPSourceFile) :
    Run toks s (ConsumeFunctionBody toks s).1 (ConsumeFunctionBody toks s).2 :=
  ConsumeFunctionBody_loop_run _ toks s

theorem Tweak.onUse_insert (s : PHPSourceFile) (fullname alias_ : WxString) :
    Tweak s (OnUse_insert s fullname alias_) := by
  unfold OnUse_insert
  exact Tweak.trans (Tweak.makeIdentifierAbsolute s _) (Tweak.alias_ _ _ _)

theorem Tweak.onUse_delimiter (s : PHPSourceFile) (fullname alias_ temp : WxString) :
    Tweak s (OnUse_delimiter s fullname alias_ temp) := by
  unfold OnUse_delimiter
  dsimp only
  split_ifs <;> first | exact Tweak.refl s | exact Tweak.onUse_insert s _ _

theorem OnUse_loop_run (toks : Tokens) (s : PHPSourceFile) (fullname alias_ temp : WxString) :
    Run toks s (OnUse_loop toks s fullname alias_ temp).1 (OnUse_loop toks s fullname alias_ temp).2 := by
  induction toks generalizing s fullname alias_ temp with
  | nil => exact Run.eof s
  | cons t ts ih =>
    unfold OnUse_loop
    dsimp only
    split_ifs
    · exact Run.then_tweak (Run.read t ts s) (Tweak.onUse_delimiter _ _ _ _)
    · exact Run.trans (Run.then_tweak (Run.read t ts s) (Tweak.onUse_delimiter _ _ _ _)) (ih _ _ _ _)
    · exact Run.trans (Run.read t ts s) (ih _ _ _ _)
    · exact Run.trans (Run.read t ts s) (ih _ _ _ _)

theorem OnUse_run (toks : Tokens) (s : PHPSourceFile) :
    Run toks s (OnUse toks s).1 (OnUse toks s).2 :=
  OnUse_loop_run toks s [] [] []

theorem OnNamespace_loop_run (toks : Tokens) (s : PHPSourceFile) (path : WxString) :
    Run toks s (OnNamespace_loop toks s path).2.1 (OnNamespace_loop toks s path).2.2 := by
  induction toks generalizing s path with
  | nil => exact Run.eof s
  | cons t ts ih =>
    unfold OnNamespace_loop
    dsimp only
    split_ifs
    · exact Run.read t ts s
    · exact Run.trans (Run.read t ts s) (ih _ _)
    · exact Run.trans (Run.read t ts s) (ih _ _)

theorem OnNamespace_run (toks : Tokens) (s : PHPSourceFile) :
    Run toks s (OnNamespace toks s).1 (OnNamespace toks s).2 := by
  unfold OnNamespace
  dsimp only
  have h := OnNamespace_loop_run toks s []
  generalize OnNamespace_loop toks s [] = r at h ⊢
  split_ifs with he
  · refine Run.then_tweak h (Tweak.newNamespace _ _ ?_)
    simpa using he
  · exact h

theorem Tweak.attachParameter (s : PHPSourceFile) (var : Option PHPEntity) (dv : WxString)
    (hv : ∀ v, var = some v → v.kind ≠ EntityKind.kEntityTypeNamespace ∧ v.children = []) :
    Tweak s (attachParameter s var dv) := by
  cases var with
  | none => exact Tweak.refl s
  | some v => exact Tweak.addChild s _ (hv v rfl).1 (hv v rfl).2

theorem ParseFunctionSignature_loop_run (toks : Tokens) (s : PHPSourceFile) (depth : Int)
    (typeHint defaultValue : WxString) (var : Option PHPEntity) (c : Bool)
    (hv : ∀ v, var = some v → v.kind ≠ EntityKind.kEntityTypeNamespace ∧ v.children = []) :
    Run toks s (ParseFunctionSignature_loop toks s depth typeHint defaultValue var c).1
      (ParseFunctionSignature_loop toks s depth typeHint defaultValue var c).2 := by
  induction toks generalizing s depth typeHint defaultValue var c with
  | nil => exact Run.eof s
  | cons t ts ih =>
    have hnone : ∀ v : PHPEntity, (none : Option PHPEntity) = some v →
        v.kind ≠ EntityKind.kEntityTypeNamespace ∧ v.children = [] := by
      intro v h; cases h
    unfold ParseFunctionSignature_loop
    dsimp only
    split
    · refine Run.trans (Run.then_tweak (Run.read t ts s) (Tweak.makeIdentifierAbsolute _ _))
        (ih _ _ _ _ _ _ ?_)
      intro v h
      cases h
      split_ifs <;> simp [PHPEntity.SetFlag, PHPEntity.SetFullName]
    · exact Run.trans (Run.read t ts s) (ih _ _ _ _ _ _ hv)
    · split_ifs
      · exact Run.then_tweak (Run.read t ts s) (Tweak.attachParameter _ _ _ hv)
      · exact Run.trans (Run.read t ts s) (ih _ _ _ _ _ _ hv)
      · exact Run.trans (Run.read t ts s) (ih _ _ _ _ _ _ hv)
    · exact Run.trans (Run.read t ts s) (ih _ _ _ _ _ _ hv)
    · exact Run.trans (Run.then_tweak (Run.read t ts s) (Tweak.attachParameter _ _ _ hv))
        (ih _ _ _ _ _ _ hnone)
    · split_ifs
      · exact Run.trans (Run.read t ts s) (ih _ _ _ _ _ _ hv)
      · exact Run.trans (Run.read t ts s) (ih _ _ _ _ _ _ hv)

theorem ParseFunctionSignature_run (startingDepth : Int) (toks : Tokens) (s : PHPSourceFile) :
    Run toks s (ParseFunctionSignature startingDepth toks s).1
      (ParseFunctionSignature startingDepth toks s).2 := by
  have hnone : ∀ v : PHPEntity, (none : Option PHPEntity) = some v →
      v.kind ≠ EntityKind.kEntityTypeNamespace ∧ v.children = [] := by
    intro v h; cases h
  unfold ParseFunctionSignature
  split_ifs
  · have h := ParseFunctionSignature_open_run toks s
    generalize ParseFunctionSignature_open toks s = r at h ⊢
    obtain ⟨b, ts, s1⟩ := r
    cases b
    · exact h
    · exact Run.trans h (ParseFunctionSignature_loop_run _ _ _ _ _ _ _ hnone)
  · exact ParseFunctionSignature_loop_run _ _ _ _ _ _ _ hnone

theorem ReadExpression_loop_run (toks : Tokens) (s : PHPSourceFile) (e : WxString) (d : Int) :
    Run toks s (ReadExpression_loop toks s e d).2.2.1 (ReadExpression_loop toks s e d).2.2.2 := by
  induction toks generalizing s e d with
  | nil => exact Run.eof s
  | cons t ts ih =>
    unfold ReadExpression_loop
    simp only
    repeat' split
    all_goals first
      | exact Run.read t ts s
      | exact Run.peek t ts (Tweak.refl _)
      | exact Run.trans (Run.read t ts s) (ih _ _ _)

theorem ReadExpression_run (toks : Tokens) (s : PHPSourceFile) :
    Run toks s (ReadExpression toks s).2.2.1 (ReadExpression toks s).2.2.2 :=
  ReadExpression_loop_run toks s [] 0

theorem attributeChange_typeHint (w : WxString) :
    attributeChange (fun e => { e with typeHint := w }) := by
  intro e; rfl

theorem attributeChange_expressionHint (w : WxString) :
    attributeChange (fun e => { e with expressionHint := w }) := by
  intro e; rfl

theorem attributeChange_flags (n : Nat) : attributeChange (fun e => { e with flags := n }) := by
  intro e; rfl

theorem attributeChange_traits (l : List WxString) :
    attributeChange (fun e => { e with traits := l }) := by
  intro e; rfl

theorem Tweak.assignHint (s : PHPSourceFile) (var : Option Nat) (expr : WxString) :
    Tweak s (assignExpressionHint s var expr) := by
  unfold assignExpressionHint
  split_ifs
  · cases var with
    | none => exact Tweak.makeIdentifierAbsolute s _
    | some id =>
      exact Tweak.trans (Tweak.makeIdentifierAbsolute s _)
        (Tweak.modify _ _ id (attributeChange_typeHint _))
  · cases var with
    | none => exact Tweak.refl s
    | some id => exact Tweak.modify _ _ id (attributeChange_expressionHint _)

theorem Tweak.variable_attach (tok : phpLexerToken) (s : PHPSourceFile) :
    Tweak s (OnVariable_attach tok s).2 := by
  unfold OnVariable_attach
  dsimp only
  split_ifs
  · exact Tweak.addChild s _ (by simp [PHPEntity.SetFullName]) (by simp [PHPEntity.SetFullName])
  · exact Tweak.currentScope s

theorem OnVariable_run (tok : phpLexerToken) (toks : Tokens) (s : PHPSourceFile) :
    Run toks s (OnVariable tok toks s).1 (OnVariable tok toks s).2 := by
  unfold OnVariable
  dsimp only
  have ha := Tweak.variable_attach tok s
  generalize OnVariable_attach tok s = a at ha ⊢
  cases toks with
  | nil =>
    simp only [NextToken]
    exact Run.trans (Run.tweak _ ha) (Run.eof _)
  | cons t ts =>
    simp only [NextToken]
    split_ifs
    · exact Run.then_tweak (Run.trans (Run.tweak _ ha) (Run.read t ts _)) (Tweak.lookBack _ _)
    · have hr := ReadExpression_run ts (NextToken_found a.2 t)
      generalize ReadExpression ts (NextToken_found a.2 t) = r at hr ⊢
      obtain ⟨b, ex, ts2, s2⟩ := r
      cases b
      · have h1 : Run (t :: ts) s ts2 s2 :=
          Run.trans (Run.trans (Run.tweak _ ha) (Run.read t ts _)) hr
        exact h1
      · have h1 : Run (t :: ts) s ts2 s2 :=
          Run.trans (Run.trans (Run.tweak _ ha) (Run.read t ts _)) hr
        exact Run.then_tweak h1 (Tweak.assignHint s2 a.1 ex)

theorem OnDefine_run (tok : phpLexerToken) (toks : Tokens) (s : PHPSourceFile) :
    Run toks s (OnDefine tok toks s).1 (OnDefine tok toks s).2 := by
  unfold OnDefine
  cases toks with
  | nil =>
    simp only [NextToken]
    exact Run.eof s
  | cons t ts =>
    simp only [NextToken]
    split_ifs
    · exact Run.trans (Run.read t ts s) (ConsumeUntil_run _ _ _)
    · cases ts with
      | nil =>
        simp only [NextToken]
        exact Run.trans (Run.read t [] s) (Run.eof _)
      | cons t2 ts2 =>
        simp only [NextToken]
        split_ifs
        · exact Run.trans (Run.trans (Run.read t _ s) (Run.read t2 ts2 _)) (ConsumeUntil_run _ _ _)
        · exact Run.trans (Run.then_tweak (Run.trans (Run.read t _ s) (Run.read t2 ts2 _))
            (Tweak.define _ _)) (ConsumeUntil_run _ _ _)
        · exact Run.trans (Run.trans (Run.read t _ s) (Run.read t2 ts2 _)) (ConsumeUntil_run _ _ _)

theorem OnUseTrait_loop_run (clas : Nat) (toks : Tokens) (s : PHPSourceFile)
    (ids : List WxString) (temp : WxString) :
    Run toks s (OnUseTrait_loop clas toks s ids temp).1 (OnUseTrait_loop clas toks s ids temp).2 := by
  induction toks generalizing s ids temp with
  | nil => exact Run.eof s
  | cons t ts ih =>
    unfold OnUseTrait_loop
    dsimp only
    split
    · split_ifs
      · exact Run.trans (Run.then_tweak (Run.read t ts s) (Tweak.makeIdentifierAbsolute _ _))
          (ih _ _ _)
      · exact Run.trans (Run.read t ts s) (ih _ _ _)
    · have hr : Tweak (NextToken_found s t)
          (if (!temp.isEmpty) = true then
              (ids ++ [(MakeIdentifierAbsolute (NextToken_found s t) temp).1],
                (MakeIdentifierAbsolute (NextToken_found s t) temp).2)
            else (ids, NextToken_found s t)).2 := by
        split_ifs
        · exact Tweak.makeIdentifierAbsolute _ _
        · exact Tweak.refl _
      generalize (if (!temp.isEmpty) = true then
              (ids ++ [(MakeIdentifierAbsolute (NextToken_found s t) temp).1],
                (MakeIdentifierAbsolute (NextToken_found s t) temp).2)
            else (ids, NextToken_found s t)) = r at hr ⊢
      split_ifs
      · exact Run.then_tweak (Run.then_tweak (Run.read t ts s) hr)
          (Tweak.modify _ _ _ (attributeChange_traits _))
      · exact Run.then_tweak (Run.then_tweak (Run.read t ts s) hr) (Tweak.nullCast _)
    · exact Run.trans (Run.read t ts s) (ih _ _ _)

theorem OnUseTrait_run (toks : Tokens) (s : PHPSourceFile) :
    Run toks s (OnUseTrait toks s).1 (OnUseTrait toks s).2 := by
  unfold OnUseTrait
  exact Run.trans (Run.tweak _ (Tweak.currentScope s)) (OnUseTrait_loop_run _ _ _ _ _)

theorem Tweak.class_ (s : PHPSourceFile) : Tweak s (Class s).2 := Tweak.currentScope s

theorem ReadCommaSeparatedIdentifiers_run (delim : TokType) (toks : Tokens) (s : PHPSourceFile)
    (list : List WxString) (temp : WxString) :
    Run toks s (ReadCommaSeparatedIdentifiers delim toks s list temp).2.2.1
      (ReadCommaSeparatedIdentifiers delim toks s list temp).2.2.2 := by
  induction toks generalizing s list temp with
  | nil => exact Run.eof s
  | cons t ts ih =>
    unfold ReadCommaSeparatedIdentifiers
    dsimp only
    by_cases hc : t.IsAnyComment = true
    · rw [if_pos hc]
      exact Run.trans (Run.read t ts s) (ih _ _ _)
    · rw [if_neg hc]
      by_cases hd : t.type = delim
      · rw [if_pos hd]
        dsimp only
        refine Run.peek t ts ?_
        split_ifs
        · exact Tweak.makeIdentifierAbsolute _ _
        · exact Tweak.refl _
      · rw [if_neg hd]
        split
        · split_ifs
          · exact Run.trans (Run.then_tweak (Run.read t ts s)
              (Tweak.makeIdentifierAbsolute _ _)) (ih _ _ _)
          · exact Run.trans (Run.read t ts s) (ih _ _ _)
        · exact Run.trans (Run.read t ts s) (ih _ _ _)

theorem RunsTo_none (toks : Tokens) (s : PHPSourceFile) : RunsTo toks s none := by
  intro rest s1 h; cases h

theorem RunsTo_some {toks rest : Tokens} {s s1 : PHPSourceFile} (h : Run toks s rest s1) :
    RunsTo toks s (some (rest, s1)) := by
  intro r1 r2 he
  cases he
  exact h

theorem RunsTo_after {a b : Tokens} {s s1 : PHPSourceFile} {r : Option (Tokens × PHPSourceFile)}
    (h : Run a s b s1) (hr : RunsTo b s1 r) : RunsTo a s r := by
  intro rest s2 he
  exact Run.trans h (hr rest s2 he)

theorem ParseFunctionBody_loop_run (fuel : Nat) (exitDepth : Int) (toks : Tokens)
    (s : PHPSourceFile) : RunsTo toks s (ParseFunctionBody_loop fuel exitDepth toks s) := by
  induction fuel generalizing toks s with
  | zero => unfold ParseFunctionBody_loop; exact RunsTo_none _ _
  | succ n ih =>
    cases toks with
    | nil =>
      unfold ParseFunctionBody_loop
      exact RunsTo_some (Run.eof s)
    | cons t ts =>
      have hlb : ∀ l, Run (t :: ts) s ts { NextToken_found s t with m_lookBackTokens := l } :=
        fun l => Run.then_tweak (Run.read t ts s) (Tweak.lookBack _ l)
      unfold ParseFunctionBody_loop
      dsimp only
      split
      · exact RunsTo_after (hlb []) (ih _ _)
      · split_ifs
        · exact RunsTo_some (hlb [])
        · exact RunsTo_after (hlb []) (ih _ _)
      · exact RunsTo_after (hlb []) (ih _ _)
      · have ha : Run (t :: ts) s ts
            (AddChild (CurrentScope (NextToken_found s t)).2 (CurrentScope (NextToken_found s t)).1
              ({ ({ kind := EntityKind.kEntityTypeVariable } : PHPEntity).SetFullName t.text with
                line := t.lineNumber })).2 :=
          Run.then_tweak (Run.read t ts s)
            (Tweak.addChild _ _ (by simp [PHPEntity.SetFullName]) (by simp [PHPEntity.SetFullName]))
        generalize (AddChild (CurrentScope (NextToken_found s t)).2
            (CurrentScope (NextToken_found s t)).1
            ({ ({ kind := EntityKind.kEntityTypeVariable } : PHPEntity).SetFullName t.text with
              line := t.lineNumber })) = a at ha ⊢
        cases ts with
        | nil =>
          simp only [NextToken]
          exact RunsTo_some (Run.trans ha (Run.eof _))
        | cons tk ts1 =>
          simp only [NextToken]
          split_ifs
          · exact RunsTo_after (Run.trans ha (Run.peek tk ts1 (Tweak.lookBack _ []))) (ih _ _)
          · have hre := ReadExpression_run ts1 (NextToken_found a.2 tk)
            split
            · next heq =>
              rw [heq] at hre
              exact RunsTo_some (Run.trans (Run.trans ha (Run.read tk ts1 _)) hre)
            · next heq =>
              rw [heq] at hre
              exact RunsTo_after (Run.then_tweak (Run.trans (Run.trans ha (Run.read tk ts1 _)) hre)
                (Tweak.assignHint _ _ _)) (ih _ _)
      · exact RunsTo_after (Run.read t ts s) (ih _ _)

theorem ParseFunctionBody_run (fuel : Nat) (toks : Tokens) (s : PHPSourceFile) :
    RunsTo toks s (ParseFunctionBody fuel toks s) :=
  RunsTo_after (Run.tweak toks (Tweak.lookBack s [])) (ParseFunctionBody_loop_run fuel _ toks _)

theorem ConsumeUntil_false_eof (delim : TokType) (toks : Tokens) (s : PHPSourceFile)
    (h : (ConsumeUntil delim toks s).1 = false) :
    (ConsumeUntil delim toks s).2.2.m_reachedEOF = true := by
  induction toks generalizing s with
  | nil => rfl
  | cons t ts ih =>
    unfold ConsumeUntil at h ⊢
    by_cases hd : t.type = delim
    · rw [if_pos hd] at h
      cases h
    · rw [if_neg hd] at h ⊢
      exact ih _ h

theorem ReadUntilFound_none_eof (delim : TokType) (toks : Tokens) (s : PHPSourceFile)
    (h : (ReadUntilFound delim toks s).1 = none) :
    (ReadUntilFound delim toks s).2.2.m_reachedEOF = true := by
  induction toks generalizing s with
  | nil => rfl
  | cons t ts ih =>
    unfold ReadUntilFound at h ⊢
    by_cases hd : t.type = delim
    · rw [if_pos hd] at h
      cases h
    · rw [if_neg hd] at h ⊢
      exact ih _ h

/-- The end of `OnFunction` and of `OnClass`: a run inside the scope of the new
entity `e`, popped afterwards unless the input is exhausted. -/
theorem Run.scoped_end (e : PHPEntity) (hk : e.kind ≠ EntityKind.kEntityTypeNamespace)
    (hc : e.children = []) {toks ts : Tokens} {s s1 : PHPSourceFile}
    (h : Run toks
      { (AddChild (CurrentScope s).2 (CurrentScope s).1 e).2 with
        m_scopes := (AddChild (CurrentScope s).2 (CurrentScope s).1 e).2.m_scopes ++
          [(AddChild (CurrentScope s).2 (CurrentScope s).1 e).1] } ts s1) :
    Run toks s ts (if !s1.m_reachedEOF then popScope s1 else s1) := by
  have := Run.inScope e (!s1.m_reachedEOF) hk hc h (by simp)
  exact this

/-- The same when the routine itself pops the scope at the end of input. -/
theorem Run.scoped_end_pop (e : PHPEntity) (hk : e.kind ≠ EntityKind.kEntityTypeNamespace)
    (hc : e.children = []) {toks ts : Tokens} {s s1 : PHPSourceFile}
    (h : Run toks
      { (AddChild (CurrentScope s).2 (CurrentScope s).1 e).2 with
        m_scopes := (AddChild (CurrentScope s).2 (CurrentScope s).1 e).2.m_scopes ++
          [(AddChild (CurrentScope s).2 (CurrentScope s).1 e).1] } ts s1)
    (heof : s1.m_reachedEOF = true) :
    Run toks s ts (if !(popScope s1).m_reachedEOF then popScope (popScope s1) else popScope s1) := by
  have h1 : (popScope s1).m_reachedEOF = true := heof
  rw [h1]
  have := Run.inScope e true hk hc h (by simp)
  simpa using this

theorem ConsumeUntil_eq_run {delim : TokType} {toks ts : Tokens} {s s1 : PHPSourceFile}
    {b : Bool} (h : ConsumeUntil delim toks s = (b, ts, s1)) : Run toks s ts s1 := by
  have := ConsumeUntil_run delim toks s
  rw [h] at this
  exact this

theorem ConsumeUntil_eq_false_eof {delim : TokType} {toks ts : Tokens} {s s1 : PHPSourceFile}
    (h : ConsumeUntil delim toks s = (false, ts, s1)) : s1.m_reachedEOF = true := by
  have := ConsumeUntil_false_eof delim toks s (by rw [h])
  rw [h] at this
  exact this

theorem ReadUntilFound_eq_run {delim : TokType} {toks ts : Tokens} {s s1 : PHPSourceFile}
    {b : Option phpLexerToken} (h : ReadUntilFound delim toks s = (b, ts, s1)) :
    Run toks s ts s1 := by
  have := ReadUntilFound_run delim toks s
  rw [h] at this
  exact this

theorem ReadUntilFound_eq_none_eof {delim : TokType} {toks ts : Tokens} {s s1 : PHPSourceFile}
    (h : ReadUntilFound delim toks s = (none, ts, s1)) : s1.m_reachedEOF = true := by
  have := ReadUntilFound_none_eof delim toks s (by rw [h])
  rw [h] at this
  exact this

theorem ConsumeFunctionBody_eq_run {toks ts : Tokens} {s s1 : PHPSourceFile}
    (h : ConsumeFunctionBody toks s = (ts, s1)) : Run toks s ts s1 := by
  have := ConsumeFunctionBody_run toks s
  rw [h] at this
  exact this

theorem OnFunction_body_run (fuel : Nat) (func : PHPEntity) (funcDepth : Int) (toks : Tokens)
    (s : PHPSourceFile) (hk : func.kind ≠ EntityKind.kEntityTypeNamespace)
    (hc : func.children = []) :
    RunsTo toks s (OnFunction_body fuel func funcDepth toks s) := by
  unfold OnFunction_body
  dsimp only
  have hsig := ParseFunctionSignature_run funcDepth toks
    { (AddChild (CurrentScope s).2 (CurrentScope s).1 func).2 with
      m_scopes := (AddChild (CurrentScope s).2 (CurrentScope s).1 func).2.m_scopes ++
        [(AddChild (CurrentScope s).2 (CurrentScope s).1 func).1] }
  generalize ParseFunctionSignature funcDepth toks
    { (AddChild (CurrentScope s).2 (CurrentScope s).1 func).2 with
      m_scopes := (AddChild (CurrentScope s).2 (CurrentScope s).1 func).2.m_scopes ++
        [(AddChild (CurrentScope s).2 (CurrentScope s).1 func).1] } = sig at hsig ⊢
  have hfl : ∀ n : Nat, Run toks
      { (AddChild (CurrentScope s).2 (CurrentScope s).1 func).2 with
        m_scopes := (AddChild (CurrentScope s).2 (CurrentScope s).1 func).2.m_scopes ++
          [(AddChild (CurrentScope s).2 (CurrentScope s).1 func).1] } sig.1
      { sig.2 with
        store :=
          storeModify (fun e => { e with flags := n })
            (AddChild (CurrentScope s).2 (CurrentScope s).1 func).1 sig.2.store } :=
    fun n => Run.then_tweak hsig (Tweak.modify _ _ _ (attributeChange_flags n))
  generalize (if (LookBackTokensContains sig.2 TokType.kPHP_T_ABSTRACT ||
      ((entityAt sig.2 (CurrentScope s).1).kind == EntityKind.kEntityTypeClass &&
        (entityAt sig.2 (CurrentScope s).1).isInterface)) = true then
    LookBackForFunctionFlags sig.2 ||| kFunc_Abstract else LookBackForFunctionFlags sig.2) = flags
  split
  · exact RunsTo_none _ _
  next ts0 s0 heq0 =>
  apply RunsTo_some
  refine Run.then_tweak ?_ (Tweak.lookBack _ [])
  by_cases hab : HasFlag flags kFunc_Abstract = true
  · rw [if_pos hab] at heq0
    split at heq0
    · next heq =>
      cases heq0
      exact Run.scoped_end_pop func hk hc (Run.trans (hfl _) (ConsumeUntil_eq_run heq))
        (ConsumeUntil_eq_false_eof heq)
    · next heq =>
      cases heq0
      exact Run.scoped_end func hk hc (Run.trans (hfl _) (ConsumeUntil_eq_run heq))
  · rw [if_neg hab] at heq0
    split at heq0
    · next heq =>
      have hcu := ReadUntilFound_eq_run heq
      split at heq0
      · have hb := ParseFunctionBody_run fuel _ _ _ _ heq0
        exact Run.scoped_end func hk hc (Run.trans (Run.trans (hfl _) hcu) hb)
      · exact Run.scoped_end func hk hc (Run.trans (Run.trans (hfl _) hcu)
          (ConsumeFunctionBody_eq_run (Option.some.inj heq0)))
    · next heq =>
      cases heq0
      exact Run.scoped_end_pop func hk hc (Run.trans (hfl _) (ReadUntilFound_eq_run heq))
        (ReadUntilFound_eq_none_eof heq)

theorem OnFunction_run (fuel : Nat) (toks : Tokens) (s : PHPSourceFile) :
    RunsTo toks s (OnFunction fuel toks s) := by
  cases toks with
  | nil => exact RunsTo_some (Run.eof s)
  | cons t ts =>
    unfold OnFunction
    dsimp only
    split_ifs
    · exact RunsTo_after (Run.read t ts s)
        (OnFunction_body_run _ _ _ _ _ (by simp [PHPEntity.SetFullName])
          (by simp [PHPEntity.SetFullName]))
    · exact RunsTo_after (Run.read t ts s) (OnFunction_body_run _ _ _ _ _ (by simp) (by simp))
    · exact RunsTo_some (Run.read t ts s)

theorem ReadCommaSeparatedIdentifiers_eq_run {delim : TokType} {toks ts : Tokens}
    {s s1 : PHPSourceFile} {list l : List WxString} {temp : WxString} {b : Bool}
    (h : ReadCommaSeparatedIdentifiers delim toks s list temp = (b, l, ts, s1)) :
    Run toks s ts s1 := by
  have := ReadCommaSeparatedIdentifiers_run delim toks s list temp
  rw [h] at this
  exact this

theorem OnClass_loop_run
    (parse : Int → Tokens → PHPSourceFile → Option (Tokens × PHPSourceFile))
    (hparse : ∀ d toks s, RunsTo toks s (parse d toks s))
    (fuel : Nat) (klass : PHPEntity) (toks : Tokens) (s : PHPSourceFile)
    (hk : klass.kind ≠ EntityKind.kEntityTypeNamespace) (hc : klass.children = []) :
    RunsTo toks s (OnClass_loop parse fuel klass toks s) := by
  induction fuel generalizing klass toks s with
  | zero => unfold OnClass_loop; exact RunsTo_none _ _
  | succ n ih =>
    cases toks with
    | nil =>
      unfold OnClass_loop
      exact RunsTo_some (Run.eof s)
    | cons t ts =>
      unfold OnClass_loop
      dsimp only
      by_cases hcm : t.IsAnyComment = true
      · rw [if_pos hcm]
        exact RunsTo_after (Run.read t ts s) (ih _ _ _ hk hc)
      · rw [if_neg hcm]
        split
        · split
          · next heq =>
            exact RunsTo_some (Run.trans (Run.read t ts s) (ReadUntilFound_eq_run heq))
          · next heq =>
            exact RunsTo_after (Run.then_tweak (Run.trans (Run.read t ts s)
              (ReadUntilFound_eq_run heq)) (Tweak.makeIdentifierAbsolute _ _)) (ih _ _ _ hk hc)
        · split
          · next heq =>
            exact RunsTo_some (Run.trans (Run.read t ts s)
              (ReadCommaSeparatedIdentifiers_eq_run heq))
          · next heq =>
            exact RunsTo_after (Run.trans (Run.read t ts s)
              (ReadCommaSeparatedIdentifiers_eq_run heq)) (ih _ _ _ hk hc)
        · split
          · exact RunsTo_none _ _
          · next ts2 s2 heq =>
            have h := hparse _ _ _ ts2 s2 heq
            exact RunsTo_some (Run.trans (Run.read t ts s) (Run.scoped_end klass hk hc h))
        · exact RunsTo_after (Run.read t ts s) (ih _ _ _ hk hc)

theorem OnClass_name_eq_run {toks ts : Tokens} {s s1 : PHPSourceFile}
    {b : Option phpLexerToken} (h : OnClass_name toks s = (b, ts, s1)) : Run toks s ts s1 := by
  have := OnClass_name_run toks s
  rw [h] at this
  exact this

theorem OnClass_run
    (parse : Int → Tokens → PHPSourceFile → Option (Tokens × PHPSourceFile))
    (hparse : ∀ d toks s, RunsTo toks s (parse d toks s))
    (fuel : Nat) (tok : phpLexerToken) (toks : Tokens) (s : PHPSourceFile) :
    RunsTo toks s (OnClass parse fuel tok toks s) := by
  unfold OnClass
  split
  · next heq => exact RunsTo_some (OnClass_name_eq_run heq)
  · next heq =>
    exact RunsTo_after (Run.then_tweak (OnClass_name_eq_run heq)
      (Tweak.makeIdentifierAbsolute _ _))
      (OnClass_loop_run parse hparse _ _ _ _ (by simp [PHPEntity.SetFullName])
        (by simp [PHPEntity.SetFullName]))

theorem ParseOutcome_none (d : Int) (toks : Tokens) (s : PHPSourceFile) :
    ParseOutcome d toks s none := by
  intro rest s1 h; cases h

theorem ParseOutcome_after {d : Int} {a b : Tokens} {s s1 : PHPSourceFile}
    {r : Option (Tokens × PHPSourceFile)} (h : Run a s b s1) (hr : ParseOutcome d b s1 r) :
    ParseOutcome d a s r := by
  intro rest s2 he
  obtain ⟨h1, h2⟩ := hr rest s2 he
  refine ⟨Run.trans h h1, ?_⟩
  rcases h2 with h2 | ⟨t, s0, ht, hrun, hs, hd⟩
  · exact Or.inl h2
  · exact Or.inr ⟨t, s0, ht, Run.trans h hrun, hs, hd⟩

theorem ParseOutcome_eof {d : Int} {toks : Tokens} {s s1 : PHPSourceFile}
    (h : Run toks s [] s1) (he : s1.m_reachedEOF = true) (hs : s1.m_scopes ≠ []) :
    ParseOutcome d toks s (some ([], s1)) := by
  intro rest s2 heq
  cases heq
  exact ⟨h, Or.inl ⟨rfl, he, hs⟩⟩

theorem ParseOutcome_ite {d : Int} {toks : Tokens} {s : PHPSourceFile} (c : Prop) [Decidable c]
    (a b : Option (Tokens × PHPSourceFile))
    (ha : ParseOutcome d toks s a) (hb : ParseOutcome d toks s b) :
    ParseOutcome d toks s (if c then a else b) := by
  split_ifs
  · exact ha
  · exact hb

theorem ParseOutcome.runsTo {d : Int} {toks : Tokens} {s : PHPSourceFile}
    {r : Option (Tokens × PHPSourceFile)} (h : ParseOutcome d toks s r) : RunsTo toks s r :=
  fun rest s1 he => (h rest s1 he).1

theorem ConsumeUntil_false_nil (delim : TokType) (toks : Tokens) (s : PHPSourceFile)
    (h : (ConsumeUntil delim toks s).1 = false) : (ConsumeUntil delim toks s).2.1 = [] := by
  induction toks generalizing s with
  | nil => rfl
  | cons t ts ih =>
    unfold ConsumeUntil at h ⊢
    by_cases hd : t.type = delim
    · rw [if_pos hd] at h
      cases h
    · rw [if_neg hd] at h ⊢
      exact ih _ h

/-- The statement loop stopping at the end of input inside `ConsumeUntil`,
after a member was attached. -/
theorem ParseOutcome_consume {d : Int} {toks ts1 ts2 : Tokens} {s s2 s3 : PHPSourceFile}
    (e : PHPEntity) (hk : e.kind ≠ EntityKind.kEntityTypeNamespace) (hc : e.children = [])
    (h : Run toks s ts1 s2)
    (heq : ConsumeUntil TokType.chr_semi ts1
      (AddChild (CurrentScope s2).2 (CurrentScope s2).1 e).2 = (false, ts2, s3)) :
    ParseOutcome d toks s (some (ts2, s3)) := by
  have hrun := Run.trans (Run.then_tweak h (Tweak.addChild s2 e hk hc)) (ConsumeUntil_eq_run heq)
  have hnil : ts2 = [] := by
    have := ConsumeUntil_false_nil TokType.chr_semi ts1 _ (by rw [heq])
    rw [heq] at this
    exact this
  have hsc : s3.m_scopes ≠ [] := by
    have := (ConsumeUntil_frame TokType.chr_semi ts1
      (AddChild (CurrentScope s2).2 (CurrentScope s2).1 e).2).2.1
    rw [heq] at this
    simp only at this
    rw [this, AddChild_scopes]
    exact CurrentScope_scopes_ne_nil s2
  subst hnil
  exact ParseOutcome_eof hrun (ConsumeUntil_eq_false_eof heq) hsc

theorem ReadUntilFoundOneOf_eq_run {d1 d2 : TokType} {toks ts : Tokens} {s s1 : PHPSourceFile}
    {b : Option (TokType × phpLexerToken)} (h : ReadUntilFoundOneOf d1 d2 toks s = (b, ts, s1)) :
    Run toks s ts s1 := by
  have := ReadUntilFoundOneOf_run d1 d2 toks s
  rw [h] at this
  exact this

theorem memberVariable_kind (s : PHPSourceFile) (v : TokType) (t : phpLexerToken) :
    (memberVariable s v t).kind ≠ EntityKind.kEntityTypeNamespace ∧
    (memberVariable s v t).children = [] := by
  unfold memberVariable
  simp only [PHPEntity.SetFlag, PHPEntity.SetFullName, PHPEntity.SetVisibility]
  constructor <;> (repeat' split) <;> simp

theorem constVariable_kind (t : phpLexerToken) :
    (constVariable t).kind ≠ EntityKind.kEntityTypeNamespace ∧
    (constVariable t).children = [] := by
  simp [constVariable, PHPEntity.SetFlag, PHPEntity.SetFullName]

theorem CurrentScope_reachedEOF (s : PHPSourceFile) :
    (CurrentScope s).2.m_reachedEOF = s.m_reachedEOF := by
  unfold CurrentScope
  split <;> rfl

theorem Namespace_reachedEOF (s : PHPSourceFile) :
    (Namespace s).2.m_reachedEOF = s.m_reachedEOF := by
  unfold Namespace
  split
  · exact CurrentScope_reachedEOF s
  · rfl

/-- The branch of the statement loop for a visibility keyword. -/
theorem Parse_visibility_outcome (fuel : Nat) (retDepth : Int) (t : phpLexerToken) (ts : Tokens)
    (s : PHPSourceFile)
    (ih : ∀ (d : Int) (toks : Tokens) (s : PHPSourceFile), ParseOutcome d toks s (Parse fuel d toks s)) :
    ParseOutcome retDepth ts s
      (if (entityAt (CurrentScope s).2 (CurrentScope s).1).kind = EntityKind.kEntityTypeClass then
        match ReadUntilFoundOneOf TokType.kPHP_T_VARIABLE TokType.kPHP_T_FUNCTION ts
            { (CurrentScope s).2 with
              m_lookBackTokens := (CurrentScope s).2.m_lookBackTokens ++ [t] } with
        | (some (what, tk), ts1, s2) =>
          if what = TokType.kPHP_T_VARIABLE then
            match ConsumeUntil TokType.chr_semi ts1
                (AddChild (CurrentScope s2).2 (CurrentScope s2).1
                  (memberVariable s2 t.type tk)).2 with
            | (false, ts2, s3) => some (ts2, s3)
            | (true, ts2, s3) => Parse fuel retDepth ts2 s3
          else
            match OnFunction fuel ts1 s2 with
            | none => none
            | some (ts2, s3) => Parse fuel retDepth ts2 { s3 with m_lookBackTokens := [] }
        | (none, ts1, s2) => Parse fuel retDepth ts1 s2
      else Parse fuel retDepth ts (CurrentScope s).2) := by
  have h0 : Run ts s ts { (CurrentScope s).2 with
      m_lookBackTokens := (CurrentScope s).2.m_lookBackTokens ++ [t] } :=
    Run.tweak ts (Tweak.trans (Tweak.currentScope s) (Tweak.lookBack _ _))
  apply ParseOutcome_ite
  · split
    · next what tk ts1 s2 heq =>
      have h := Run.trans h0 (ReadUntilFoundOneOf_eq_run heq)
      apply ParseOutcome_ite
      · split
        · next heq2 =>
          exact ParseOutcome_consume _ (memberVariable_kind _ _ _).1 (memberVariable_kind _ _ _).2
            h heq2
        · next heq2 =>
          exact ParseOutcome_after (Run.trans (Run.then_tweak h
            (Tweak.addChild s2 _ (memberVariable_kind _ _ _).1 (memberVariable_kind _ _ _).2))
            (ConsumeUntil_eq_run heq2)) (ih _ _ _)
      · split
        · exact ParseOutcome_none _ _ _
        · next ts2 s3 heq2 =>
          have h2 := OnFunction_run _ _ _ ts2 s3 heq2
          exact ParseOutcome_after (Run.then_tweak (Run.trans h h2) (Tweak.lookBack _ [])) (ih _ _ _)
    · next ts1 s2 heq =>
      exact ParseOutcome_after (Run.trans h0 (ReadUntilFoundOneOf_eq_run heq)) (ih _ _ _)
  · exact ParseOutcome_after (Run.tweak ts (Tweak.currentScope s)) (ih _ _ _)

/-- The branch of the statement loop for a class, interface or trait keyword. -/
theorem Parse_class_outcome (fuel : Nat) (retDepth : Int) (t : phpLexerToken) (ts : Tokens)
    (s : PHPSourceFile)
    (ih : ∀ (d : Int) (toks : Tokens) (s : PHPSourceFile), ParseOutcome d toks s (Parse fuel d toks s)) :
    ParseOutcome retDepth ts s
      (match OnClass (Parse fuel) fuel t ts s with
       | none => none
       | some (ts1, s1) => Parse fuel retDepth ts1 { s1 with m_lookBackTokens := [] }) := by
  split
  · exact ParseOutcome_none _ _ _
  · next ts1 s1 heq =>
    have h := OnClass_run (Parse fuel) (fun d toks s => (ih d toks s).runsTo) fuel t ts s ts1 s1 heq
    exact ParseOutcome_after (Run.then_tweak h (Tweak.lookBack _ [])) (ih _ _ _)

/-- Every result of the statement loop is reached by a run, and the loop stops
either at the end of input, with a scope on the stack, or at a closing brace
that brings the depth to the exit depth. -/
theorem Parse_outcome (fuel : Nat) (retDepth : Int) (toks : Tokens) (s : PHPSourceFile) :
    ParseOutcome retDepth toks s (Parse fuel retDepth toks s) := by
  induction fuel generalizing retDepth toks s with
  | zero => unfold Parse; exact ParseOutcome_none _ _ _
  | succ n ih =>
    cases toks with
    | nil =>
      unfold Parse
      refine ParseOutcome_eof (Run.then_tweak (Run.eof s) ?_) ?_ ?_
      · exact Tweak.trans (Tweak.namespace_ _) (Tweak.phaseTwo _)
      · show (Namespace (NextToken_eof s)).2.m_reachedEOF = true
        rw [Namespace_reachedEOF]
        rfl
      · obtain ⟨more, hm⟩ := Namespace_bottom (NextToken_eof s)
        show (Namespace (NextToken_eof s)).2.m_scopes ≠ []
        rw [hm]
        exact List.cons_ne_nil _ _
    | cons t ts =>
      have hlb : Run (t :: ts) s ts { NextToken_found s t with m_lookBackTokens := [] } :=
        Run.then_tweak (Run.read t ts s) (Tweak.lookBack _ [])
      have hrd : Run (t :: ts) s ts (NextToken_found s t) := Run.read t ts s
      unfold Parse
      dsimp only
      split
      · exact ParseOutcome_after hlb (ih _ _ _)
      · exact ParseOutcome_after hlb (ih _ _ _)
      · next hty =>
        split_ifs with hd
        · intro rest s1 he
          cases he
          exact ⟨hlb, Or.inr ⟨t, s, hty, Run.stay _ _, rfl, hd⟩⟩
        · exact ParseOutcome_after hlb (ih _ _ _)
      · exact ParseOutcome_after hlb (ih _ _ _)
      · apply ParseOutcome_ite
        · exact ParseOutcome_after (Run.trans (Run.then_tweak hrd (Tweak.currentScope _))
            (OnVariable_run t ts _)) (ih _ _ _)
        · exact ParseOutcome_after (Run.then_tweak hrd (Tweak.currentScope _)) (ih _ _ _)
      · exact ParseOutcome_after hrd (Parse_visibility_outcome n retDepth t ts _ ih)
      · exact ParseOutcome_after hrd (Parse_visibility_outcome n retDepth t ts _ ih)
      · exact ParseOutcome_after hrd (Parse_visibility_outcome n retDepth t ts _ ih)
      · exact ParseOutcome_after (Run.trans hrd (OnDefine_run t ts _)) (ih _ _ _)
      · split
        · next tk ts1 s1 heq =>
          have h := Run.trans hrd (ReadUntilFound_eq_run heq)
          split
          · next heq2 =>
            exact ParseOutcome_consume _ (constVariable_kind _).1 (constVariable_kind _).2 h heq2
          · next heq2 =>
            exact ParseOutcome_after (Run.trans (Run.then_tweak h
              (Tweak.addChild s1 _ (constVariable_kind _).1 (constVariable_kind _).2))
              (ConsumeUntil_eq_run heq2)) (ih _ _ _)
        · next ts1 s1 heq =>
          exact ParseOutcome_after (Run.trans hrd (ReadUntilFound_eq_run heq)) (ih _ _ _)
      · exact ParseOutcome_after hlb (ih _ _ _)
      · exact ParseOutcome_after hlb (ih _ _ _)
      · exact ParseOutcome_after hlb (ih _ _ _)
      · exact ParseOutcome_after hlb (ih _ _ _)
      · have h : Run ts (NextToken_found s t)
            (if (Class (NextToken_found s t)).1 = true
              then OnUseTrait ts (Class (NextToken_found s t)).2
              else OnUse ts (Class (NextToken_found s t)).2).1
            (if (Class (NextToken_found s t)).1 = true
              then OnUseTrait ts (Class (NextToken_found s t)).2
              else OnUse ts (Class (NextToken_found s t)).2).2 := by
          split_ifs
          · exact Run.trans (Run.tweak ts (Tweak.class_ _)) (OnUseTrait_run _ _)
          · exact Run.trans (Run.tweak ts (Tweak.class_ _)) (OnUse_run _ _)
        exact ParseOutcome_after (Run.then_tweak (Run.trans hrd h) (Tweak.lookBack _ [])) (ih _ _ _)
      · exact ParseOutcome_after hrd (Parse_class_outcome n retDepth t ts _ ih)
      · exact ParseOutcome_after hrd (Parse_class_outcome n retDepth t ts _ ih)
      · exact ParseOutcome_after hrd (Parse_class_outcome n retDepth t ts _ ih)
      · exact ParseOutcome_after (Run.then_tweak (Run.trans hrd (OnNamespace_run ts _))
          (Tweak.lookBack _ [])) (ih _ _ _)
      · split
        · exact ParseOutcome_none _ _ _
        · next ts1 s1 heq =>
          have h := OnFunction_run _ _ _ ts1 s1 heq
          exact ParseOutcome_after (Run.then_tweak (Run.trans hrd h) (Tweak.lookBack _ [])) (ih _ _ _)
      · exact ParseOutcome_after hrd (ih _ _ _)

/-! ## Properties of every run -/

theorem Tweak.depth_kept {s s1 : PHPSourceFile} (h : Tweak s s1) : s1.m_depth = s.m_depth := by
  induction h with
  | refl s => rfl
  | trans _ _ ih1 ih2 => rw [ih2, ih1]
  | lookBack s l => rfl
  | newNamespace s name hs => rfl
  | addChild s e hk hc =>
    show (CurrentScope s).2.m_depth = s.m_depth
    unfold CurrentScope
    split <;> rfl
  | modify s f i hf => rfl
  | alias_ s k v => rfl
  | define s e => rfl
  | nullCast s => rfl
  | phaseTwo s => rfl

theorem Tweak.reachedEOF {s s1 : PHPSourceFile} (h : Tweak s s1) :
    s1.m_reachedEOF = s.m_reachedEOF := by
  induction h with
  | refl s => rfl
  | trans _ _ ih1 ih2 => rw [ih2, ih1]
  | lookBack s l => rfl
  | newNamespace s name hs => rfl
  | addChild s e hk hc => exact CurrentScope_reachedEOF s
  | modify s f i hf => rfl
  | alias_ s k v => rfl
  | define s e => rfl
  | nullCast s => rfl
  | phaseTwo s => rfl

/-- The unread tokens a run leaves are a suffix of the unread tokens it was
given. -/
theorem Run.suffix {toks rest : Tokens} {s s1 : PHPSourceFile} (h : Run toks s rest s1) :
    rest <:+ toks := by
  induction h with
  | tweak toks _ => exact List.suffix_refl _
  | read t ts s => exact List.suffix_cons t ts
  | eof s => exact List.suffix_refl _
  | peek t ts _ => exact List.suffix_refl _
  | trans _ _ ih1 ih2 => exact ih2.trans ih1
  | inScope e pop hk hc _ _ ih => exact ih

/-- The brace depth follows the braces of the tokens a run consumes. -/
theorem Run.depth {toks rest : Tokens} {s s1 : PHPSourceFile} (h : Run toks s rest s1) :
    s1.m_depth + braceBalance rest = s.m_depth + braceBalance toks := by
  induction h with
  | tweak toks ht => rw [ht.depth_kept]
  | read t ts s =>
    rw [NextToken_found_depth, braceBalance]
    omega
  | eof s => rfl
  | peek t ts ht =>
    rw [UngetToken_depth, ht.depth_kept, NextToken_found_depth]
    omega
  | trans _ _ ih1 ih2 => rw [ih2, ih1]
  | @inScope toks rest s s1 e pop hk hc _ _ ih =>
    have h1 : (if pop = true then popScope s1 else s1).m_depth = s1.m_depth := by
      cases pop <;> rfl
    rw [h1, ih]
    show (CurrentScope s).2.m_depth + _ = _
    have : (CurrentScope s).2.m_depth = s.m_depth := by
      unfold CurrentScope
      split <;> rfl
    rw [this]

/-- A run from a parser that has not met the end of input, unless no token is
left, ends in such a parser. -/
theorem Run.eof_tokens {toks rest : Tokens} {s s1 : PHPSourceFile} (h : Run toks s rest s1)
    (h0 : s.m_reachedEOF = true → toks = []) : s1.m_reachedEOF = true → rest = [] := by
  induction h with
  | tweak toks ht =>
    intro h1
    rw [ht.reachedEOF] at h1
    exact h0 h1
  | read t ts s =>
    intro h1
    have : s.m_reachedEOF = true := by
      simpa [NextToken_found_reachedEOF] using h1
    exact absurd (h0 this) (List.cons_ne_nil _ _)
  | eof s => intro _; rfl
  | @peek t ts s s1 ht =>
    intro h1
    have h2 : (NextToken_found s t).m_reachedEOF = true := by
      rw [← ht.reachedEOF]
      revert h1
      unfold UngetToken
      dsimp only
      split_ifs <;> exact id
    rw [NextToken_found_reachedEOF] at h2
    exact h0 h2
  | trans _ _ ih1 ih2 => exact ih2 (ih1 h0)
  | @inScope toks rest s s1 e pop hk hc _ _ ih =>
    intro h1
    have h2 : s1.m_reachedEOF = true := by
      cases pop
      · exact h1
      · exact h1
    refine ih ?_ h2
    intro h3
    apply h0
    have : (CurrentScope s).2.m_reachedEOF = true := h3
    rw [CurrentScope_reachedEOF] at this
    exact this

theorem CurrentScope_scopes_grow (s : PHPSourceFile) :
    s.m_scopes <+: (CurrentScope s).2.m_scopes := by
  unfold CurrentScope
  cases h : s.m_scopes.getLast? with
  | some id => exact List.prefix_refl _
  | none =>
    have hs : s.m_scopes = [] := by
      cases hl : s.m_scopes with
      | nil => rfl
      | cons a l => rw [hl] at h; simp at h
    rw [hs]
    exact List.nil_prefix

theorem UngetToken_scopes (ts : Tokens) (s : PHPSourceFile) (t : phpLexerToken) :
    (UngetToken ts s t).2.m_scopes = s.m_scopes := by
  unfold UngetToken
  dsimp only
  split_ifs <;> rfl

theorem UngetToken_store (ts : Tokens) (s : PHPSourceFile) (t : phpLexerToken) :
    (UngetToken ts s t).2.store = s.store := by
  unfold UngetToken
  dsimp only
  split_ifs <;> rfl

theorem Tweak.scopes_kept {s s1 : PHPSourceFile} (h : Tweak s s1) :
    s.m_scopes <+: s1.m_scopes := by
  induction h with
  | refl s => exact List.prefix_refl _
  | trans _ _ ih1 ih2 => exact ih1.trans ih2
  | lookBack s l => exact List.prefix_refl _
  | newNamespace s name hs =>
    rw [hs]
    exact List.nil_prefix
  | addChild s e hk hc => exact CurrentScope_scopes_grow s
  | modify s f i hf => exact List.prefix_refl _
  | alias_ s k v => exact List.prefix_refl _
  | define s e => exact List.prefix_refl _
  | nullCast s => exact List.prefix_refl _
  | phaseTwo s => exact List.prefix_refl _

theorem dropLast_of_concat_front {α : Type} (p l : List α) (a : α)
    (h : p ++ [a] <+: l) : p <+: l.dropLast := by
  obtain ⟨more, hm⟩ := h
  rw [← hm, List.append_assoc, List.dropLast_append_of_ne_nil _ (by simp)]
  exact List.prefix_append _ _

/-- A run never removes an entry of the scope stack it was given: the stack it
leaves begins with it. -/
theorem Run.scopes_grow {toks rest : Tokens} {s s1 : PHPSourceFile} (h : Run toks s rest s1) :
    s.m_scopes <+: s1.m_scopes := by
  induction h with
  | tweak toks ht => exact ht.scopes_kept
  | read t ts s =>
    rw [NextToken_found_scopes]
  | eof s => exact List.prefix_refl _
  | @peek t ts s s1 ht =>
    rw [UngetToken_scopes]
    have := ht.scopes_kept
    rw [NextToken_found_scopes] at this
    exact this
  | trans _ _ ih1 ih2 => exact ih1.trans ih2
  | @inScope toks rest s s1 e pop hk hc _ _ ih =>
    have h1 : (CurrentScope s).2.m_scopes ++
        [(AddChild (CurrentScope s).2 (CurrentScope s).1 e).1] <+: s1.m_scopes := ih
    cases pop with
    | false =>
      exact (CurrentScope_scopes_grow s).trans ((List.prefix_append _ _).trans h1)
    | true =>
      exact (CurrentScope_scopes_grow s).trans (dropLast_of_concat_front _ _ _ h1)

/-! ## The tree invariant -/

theorem entityAt_eq_getElem_opt (s : PHPSourceFile) (i : Nat) :
    entityAt s i = (s.store[i]?).getD { kind := EntityKind.kEntityTypeNamespace } := by
  simp [entityAt, List.getD_eq_getElem?_getD]

/-- The entities after `AddChild`: the child is the last one, its parent has one
more child, the others are as they were. -/
theorem entityAt_AddChild (s : PHPSourceFile) (p : Nat) (e : PHPEntity) (hp : p < s.store.length)
    (j : Nat) :
    entityAt (AddChild s p e).2 j =
      if j = s.store.length then { e with parent := some p }
      else if j = p then
        { entityAt s p with children := (entityAt s p).children ++ [s.store.length] }
      else entityAt s j := by
  simp only [entityAt_eq_getElem_opt, AddChild, storeModify_getElem_opt]
  by_cases h1 : j = s.store.length
  · subst h1
    have hne : p ≠ s.store.length := Nat.ne_of_lt hp
    simp [hne]
  · by_cases h2 : j = p
    · subst h2
      simp [h1, List.getElem?_append_left hp, List.getElem?_eq_getElem hp]
    · have h3 : p ≠ j := fun h => h2 h.symm
      simp only [h1, h2, h3, if_false]
      by_cases h4 : j < s.store.length
      · rw [List.getElem?_append_left h4]
      · have h5 : s.store.length < j := by omega
        rw [List.getElem?_eq_none (by simp; omega), List.getElem?_eq_none (by omega)]

theorem AddChild_store_length (s : PHPSourceFile) (p : Nat) (e : PHPEntity) :
    (AddChild s p e).2.store.length = s.store.length + 1 := by
  simp [AddChild, storeModify_length]

theorem AddChild_fst (s : PHPSourceFile) (p : Nat) (e : PHPEntity) :
    (AddChild s p e).1 = s.store.length := rfl

/-- A change of attributes leaves kind, parent and children of every entity. -/
theorem entityAt_modify (s : PHPSourceFile) (f : PHPEntity → PHPEntity) (i : Nat)
    (hf : attributeChange f) (j : Nat) :
    (entityAt { s with store := storeModify f i s.store } j).kind = (entityAt s j).kind ∧
    (entityAt { s with store := storeModify f i s.store } j).parent = (entityAt s j).parent ∧
    (entityAt { s with store := storeModify f i s.store } j).children = (entityAt s j).children ∧
    (entityAt { s with store := storeModify f i s.store } j).fullName = (entityAt s j).fullName := by
  have h : ∀ e, (f e).kind = e.kind ∧ (f e).parent = e.parent ∧ (f e).children = e.children ∧
      (f e).fullName = e.fullName := by
    intro e
    rw [hf e]
    exact ⟨rfl, rfl, rfl, rfl⟩
  refine ⟨?_, ?_, ?_, ?_⟩
  · exact storeModify_getD_proj (fun e => e.kind) f (fun e => (h e).1) i j s.store _
  · exact storeModify_getD_proj (fun e => e.parent) f (fun e => (h e).2.1) i j s.store _
  · exact storeModify_getD_proj (fun e => e.children) f (fun e => (h e).2.2.1) i j s.store _
  · exact storeModify_getD_proj (fun e => e.fullName) f (fun e => (h e).2.2.2) i j s.store _

theorem TreeInv_of_same (s s1 : PHPSourceFile) (h : TreeInv s) (h1 : s1.store = s.store)
    (h2 : s1.m_scopes = s.m_scopes) : TreeInv s1 := by
  have he : ∀ i, entityAt s1 i = entityAt s i := by
    intro i
    simp [entityAt, h1]
  constructor
  · rw [h1, h2]; exact h.empty
  · rw [h2]; exact h.bottom
  · rw [h1, h2]; exact h.valid
  · rw [h1, he]; exact h.root
  · intro i hi hl
    rw [h1] at hl
    obtain ⟨a, p, b, c, d⟩ := h.child i hi hl
    rw [he]
    exact ⟨a, p, b, c, by rw [he]; exact d⟩

theorem TreeInv_newNamespace (s : PHPSourceFile) (name : WxString) (h : TreeInv s)
    (hs : s.m_scopes = []) :
    TreeInv { s with
      store := s.store ++
        [({ kind := EntityKind.kEntityTypeNamespace } : PHPEntity).SetFullName name],
      m_scopes := [s.store.length] } := by
  have hst := h.empty hs
  constructor
  · intro h1
    simp at h1
  · intro x more hx
    simp only [List.cons.injEq] at hx
    rw [← hx.1, hst]
    rfl
  · intro x hx
    simp only [List.mem_singleton] at hx
    simp [hx]
  · intro _
    simp [entityAt, hst, PHPEntity.SetFullName]
  · intro i hi hl
    simp [hst] at hl
    omega

theorem TreeInv_CurrentScope (s : PHPSourceFile) (h : TreeInv s) :
    TreeInv (CurrentScope s).2 ∧ (CurrentScope s).1 < (CurrentScope s).2.store.length := by
  unfold CurrentScope
  cases hg : s.m_scopes.getLast? with
  | some id => exact ⟨h, h.valid id (List.mem_of_mem_getLast? hg)⟩
  | none =>
    have hs : s.m_scopes = [] := by
      cases hl : s.m_scopes with
      | nil => rfl
      | cons a l => rw [hl] at hg; simp at hg
    exact ⟨TreeInv_newNamespace s nsSep h hs, by simp⟩

theorem TreeInv_AddChild (s : PHPSourceFile) (p : Nat) (e : PHPEntity) (h : TreeInv s)
    (hp : p < s.store.length) (hs : s.m_scopes ≠ [])
    (hk : e.kind ≠ EntityKind.kEntityTypeNamespace) :
    TreeInv (AddChild s p e).2 := by
  have hlen := AddChild_store_length s p e
  have hne : s.store ≠ [] := by
    intro h0
    rw [h0] at hp
    simp at hp
  constructor
  · intro h1
    exact absurd h1 hs
  · exact h.bottom
  · intro x hx
    rw [hlen]
    exact Nat.lt_succ_of_lt (h.valid x hx)
  · intro _
    rw [entityAt_AddChild s p e hp]
    have h0 : (0 : Nat) ≠ s.store.length := by omega
    rw [if_neg h0]
    by_cases h2 : 0 = p
    · rw [if_pos h2]
      subst h2
      exact ⟨(h.root hne).1, (h.root hne).2⟩
    · rw [if_neg h2]
      exact h.root hne
  · intro i hi hl
    rw [hlen] at hl
    rw [entityAt_AddChild s p e hp]
    by_cases h1 : i = s.store.length
    · rw [if_pos h1]
      refine ⟨hk, p, rfl, by omega, ?_⟩
      rw [entityAt_AddChild s p e hp, if_neg (Nat.ne_of_lt hp), if_pos rfl, h1]
      simp
    · rw [if_neg h1]
      have hl1 : i < s.store.length := by omega
      obtain ⟨a, q, b, c, d⟩ := h.child i hi hl1
      have hq : q < s.store.length := by omega
      have hmem : i ∈ (entityAt (AddChild s p e).2 q).children := by
        rw [entityAt_AddChild s p e hp, if_neg (Nat.ne_of_lt hq)]
        split_ifs with h2
        · rw [← h2]
          simp [d]
        · exact d
      by_cases h2 : i = p
      · rw [if_pos h2]
        subst h2
        exact ⟨a, q, b, c, hmem⟩
      · rw [if_neg h2]
        exact ⟨a, q, b, c, hmem⟩

theorem TreeInv_modify (s : PHPSourceFile) (f : PHPEntity → PHPEntity) (i : Nat)
    (hf : attributeChange f) (h : TreeInv s) :
    TreeInv { s with store := storeModify f i s.store } := by
  have hlen : (storeModify f i s.store).length = s.store.length := storeModify_length f i s.store
  constructor
  · intro h1
    have := h.empty h1
    show storeModify f i s.store = []
    rw [this]
    cases i <;> rfl
  · exact h.bottom
  · intro x hx
    show x < (storeModify f i s.store).length
    rw [hlen]
    exact h.valid x hx
  · intro h1
    have hne : s.store ≠ [] := by
      intro h0
      apply h1
      show storeModify f i s.store = []
      rw [h0]
      cases i <;> rfl
    rw [(entityAt_modify s f i hf 0).1, (entityAt_modify s f i hf 0).2.1]
    exact h.root hne
  · intro j hj hl
    have hl1 : j < s.store.length := by
      have : j < (storeModify f i s.store).length := hl
      rw [hlen] at this
      exact this
    obtain ⟨a, p, b, c, d⟩ := h.child j hj hl1
    rw [(entityAt_modify s f i hf j).1, (entityAt_modify s f i hf j).2.1]
    refine ⟨a, p, b, c, ?_⟩
    rw [(entityAt_modify s f i hf p).2.2.1]
    exact d

theorem Tweak.tree_kept {s s1 : PHPSourceFile} (h : Tweak s s1) (hi : TreeInv s) : TreeInv s1 := by
  induction h with
  | refl s => exact hi
  | trans _ _ ih1 ih2 => exact ih2 (ih1 hi)
  | lookBack s l => exact TreeInv_of_same s _ hi rfl rfl
  | newNamespace s name hs => exact TreeInv_newNamespace s name hi hs
  | addChild s e hk hc =>
    obtain ⟨h1, h2⟩ := TreeInv_CurrentScope s hi
    exact TreeInv_AddChild _ _ e h1 h2 (CurrentScope_scopes_ne_nil s) hk
  | modify s f i hf => exact TreeInv_modify s f i hf hi
  | alias_ s k v => exact TreeInv_of_same s _ hi rfl rfl
  | define s e => exact TreeInv_of_same s _ hi rfl rfl
  | nullCast s => exact TreeInv_of_same s _ hi rfl rfl
  | phaseTwo s => exact TreeInv_of_same s _ hi rfl rfl

theorem TreeInv_push (s : PHPSourceFile) (x : Nat) (h : TreeInv s) (hx : x < s.store.length)
    (hs : s.m_scopes ≠ []) : TreeInv { s with m_scopes := s.m_scopes ++ [x] } := by
  constructor
  · intro h1
    simp at h1
  · intro y more hy
    cases hm : s.m_scopes with
    | nil => exact absurd hm hs
    | cons a l =>
      have hy1 : a :: (l ++ [x]) = y :: more := by
        have : s.m_scopes ++ [x] = y :: more := hy
        rw [hm] at this
        exact this
      simp only [List.cons.injEq] at hy1
      rw [← hy1.1]
      exact h.bottom a l hm
  · intro y hy
    have : y ∈ s.m_scopes ++ [x] := hy
    rw [List.mem_append, List.mem_singleton] at this
    rcases this with h1 | h1
    · exact h.valid y h1
    · rw [h1]; exact hx
  · exact h.root
  · exact h.child

theorem TreeInv_popScope (s : PHPSourceFile) (h : TreeInv s) (hs : s.m_scopes.dropLast ≠ []) :
    TreeInv (popScope s) := by
  constructor
  · intro h1
    exact absurd h1 hs
  · intro y more hy
    cases hm : s.m_scopes with
    | nil =>
      have : s.m_scopes.dropLast = y :: more := hy
      rw [hm] at this
      simp at this
    | cons a l =>
      have hy1 : (a :: l).dropLast = y :: more := by
        have : s.m_scopes.dropLast = y :: more := hy
        rw [hm] at this
        exact this
      cases l with
      | nil => simp at hy1
      | cons b l2 =>
        simp only [List.dropLast_cons₂, List.cons.injEq] at hy1
        rw [← hy1.1]
        exact h.bottom a _ hm
  · intro y hy
    exact h.valid y (List.dropLast_subset _ hy)
  · exact h.root
  · exact h.child

/-- A run keeps the tree invariant. -/
theorem Run.treeInv {toks rest : Tokens} {s s1 : PHPSourceFile} (h : Run toks s rest s1)
    (hi : TreeInv s) : TreeInv s1 := by
  induction h with
  | tweak toks ht => exact ht.tree_kept hi
  | read t ts s =>
    exact TreeInv_of_same s _ hi (NextToken_found_store s t) (NextToken_found_scopes s t)
  | eof s => exact TreeInv_of_same s _ hi rfl rfl
  | @peek t ts s s1 ht =>
    exact TreeInv_of_same s1 _
      (ht.tree_kept (TreeInv_of_same s _ hi (NextToken_found_store s t) (NextToken_found_scopes s t)))
      (UngetToken_store ts s1 t) (UngetToken_scopes ts s1 t)
  | trans _ _ ih1 ih2 => exact ih2 (ih1 hi)
  | @inScope toks rest s s1 e pop hk hc hrun _ ih =>
    obtain ⟨h1, h2⟩ := TreeInv_CurrentScope s hi
    have hne := CurrentScope_scopes_ne_nil s
    have hA := TreeInv_AddChild _ _ e h1 h2 hne hk
    have hP := TreeInv_push _ (AddChild (CurrentScope s).2 (CurrentScope s).1 e).1 hA
      (by rw [AddChild_fst, AddChild_store_length]; omega) hne
    have h3 := ih hP
    cases pop with
    | false => exact h3
    | true =>
      apply TreeInv_popScope s1 h3
      have hpre : (CurrentScope s).2.m_scopes <+: s1.m_scopes.dropLast :=
        dropLast_of_concat_front _ _ _ hrun.scopes_grow
      intro h0
      rw [h0] at hpre
      exact hne (List.prefix_nil.mp hpre)

/-! ## Termination -/

theorem Run.length_le {toks rest : Tokens} {s s1 : PHPSourceFile} (h : Run toks s rest s1) :
    rest.length ≤ toks.length :=
  h.suffix.length_le

theorem ReadExpression_eq_run {toks ts : Tokens} {s s1 : PHPSourceFile} {b : Bool}
    {e : WxString} (h : ReadExpression toks s = (b, e, ts, s1)) : Run toks s ts s1 := by
  have := ReadExpression_run toks s
  rw [h] at this
  exact this

/-- The loop of `ParseFunctionBody` returns when it is allowed more rounds than
there are unread tokens. -/
theorem ParseFunctionBody_loop_total (fuel : Nat) (exitDepth : Int) (toks : Tokens)
    (s : PHPSourceFile) (h : toks.length < fuel) :
    ∃ r, ParseFunctionBody_loop fuel exitDepth toks s = some r := by
  induction fuel generalizing toks s with
  | zero => exact absurd h (Nat.not_lt_zero _)
  | succ n ih =>
    cases toks with
    | nil =>
      unfold ParseFunctionBody_loop
      exact ⟨_, rfl⟩
    | cons t ts =>
      have hts : ts.length < n := by
        simp only [List.length_cons] at h
        omega
      unfold ParseFunctionBody_loop
      dsimp only
      split
      · exact ih _ _ hts
      · split_ifs
        · exact ⟨_, rfl⟩
        · exact ih _ _ hts
      · exact ih _ _ hts
      · cases ts with
        | nil =>
          simp only [NextToken]
          exact ⟨_, rfl⟩
        | cons tk ts1 =>
          simp only [NextToken]
          split_ifs
          · exact ih _ _ hts
          · split
            · exact ⟨_, rfl⟩
            · next heq =>
              have hl := (ReadExpression_eq_run heq).length_le
              exact ih _ _ (by simp only [List.length_cons] at hts; omega)
      · exact ih _ _ hts

theorem ParseFunctionBody_total (fuel : Nat) (toks : Tokens) (s : PHPSourceFile)
    (h : toks.length < fuel) : ∃ r, ParseFunctionBody fuel toks s = some r :=
  ParseFunctionBody_loop_total fuel _ toks _ h

theorem OnFunction_body_total (fuel : Nat) (func : PHPEntity) (funcDepth : Int) (toks : Tokens)
    (s : PHPSourceFile) (h : toks.length < fuel) :
    ∃ r, OnFunction_body fuel func funcDepth toks s = some r := by
  unfold OnFunction_body
  dsimp only
  have hsig := (ParseFunctionSignature_run funcDepth toks
    { (AddChild (CurrentScope s).2 (CurrentScope s).1 func).2 with
      m_scopes := (AddChild (CurrentScope s).2 (CurrentScope s).1 func).2.m_scopes ++
        [(AddChild (CurrentScope s).2 (CurrentScope s).1 func).1] }).length_le
  generalize ParseFunctionSignature funcDepth toks
    { (AddChild (CurrentScope s).2 (CurrentScope s).1 func).2 with
      m_scopes := (AddChild (CurrentScope s).2 (CurrentScope s).1 func).2.m_scopes ++
        [(AddChild (CurrentScope s).2 (CurrentScope s).1 func).1] } = sig at hsig ⊢
  generalize (if (LookBackTokensContains sig.2 TokType.kPHP_T_ABSTRACT ||
      ((entityAt sig.2 (CurrentScope s).1).kind == EntityKind.kEntityTypeClass &&
        (entityAt sig.2 (CurrentScope s).1).isInterface)) = true then
    LookBackForFunctionFlags sig.2 ||| kFunc_Abstract else LookBackForFunctionFlags sig.2) = flags
  split
  · next heq0 =>
    exfalso
    by_cases hab : HasFlag flags kFunc_Abstract = true
    · rw [if_pos hab] at heq0
      split at heq0 <;> cases heq0
    · rw [if_neg hab] at heq0
      split at heq0
      · next tk ts1 s1 heq =>
        have hl := (ReadUntilFound_eq_run heq).length_le
        split at heq0
        · obtain ⟨r, hr⟩ := ParseFunctionBody_total fuel ts1 s1 (by omega)
          rw [hr] at heq0
          cases heq0
        · cases heq0
      · cases heq0
  · exact ⟨_, rfl⟩

theorem OnFunction_total (fuel : Nat) (toks : Tokens) (s : PHPSourceFile)
    (h : toks.length < fuel) : ∃ r, OnFunction fuel toks s = some r := by
  cases toks with
  | nil => exact ⟨_, rfl⟩
  | cons t ts =>
    have hts : ts.length < fuel := by
      simp only [List.length_cons] at h
      omega
    unfold OnFunction
    dsimp only
    split_ifs
    · exact OnFunction_body_total _ _ _ _ _ hts
    · exact OnFunction_body_total _ _ _ _ _ hts
    · exact ⟨_, rfl⟩
theorem OnClass_loop_total
    (parse : Int → Tokens → PHPSourceFile → Option (Tokens × PHPSourceFile)) (bound : Nat)
    (hparse : ∀ d toks s, toks.length < bound → ∃ r, parse d toks s = some r)
    (fuel : Nat) (klass : PHPEntity) (toks : Tokens) (s : PHPSourceFile)
    (h : toks.length < fuel) (hb : toks.length ≤ bound) :
    ∃ r, OnClass_loop parse fuel klass toks s = some r := by
  induction fuel generalizing klass toks s with
  | zero => exact absurd h (Nat.not_lt_zero _)
  | succ n ih =>
    cases toks with
    | nil =>
      unfold OnClass_loop
      exact ⟨_, rfl⟩
    | cons t ts =>
      have hts : ts.length < n := by
        simp only [List.length_cons] at h
        omega
      have htb : ts.length < bound := by
        simp only [List.length_cons] at hb
        omega
      unfold OnClass_loop
      dsimp only
      by_cases hcm : t.IsAnyComment = true
      · rw [if_pos hcm]
        exact ih _ _ _ hts (Nat.le_of_lt htb)
      · rw [if_neg hcm]
        split
        · split
          · exact ⟨_, rfl⟩
          · next heq =>
            have hl := (ReadUntilFound_eq_run heq).length_le
            exact ih _ _ _ (by omega) (by omega)
        · split
          · exact ⟨_, rfl⟩
          · next heq =>
            have hl := (ReadCommaSeparatedIdentifiers_eq_run heq).length_le
            exact ih _ _ _ (by omega) (by omega)
        · split
          · next heq =>
            obtain ⟨r, hr⟩ := hparse _ ts _ htb
            rw [hr] at heq
            cases heq
          · exact ⟨_, rfl⟩
        · exact ih _ _ _ hts (Nat.le_of_lt htb)

theorem OnClass_total
    (parse : Int → Tokens → PHPSourceFile → Option (Tokens × PHPSourceFile)) (bound : Nat)
    (hparse : ∀ d toks s, toks.length < bound → ∃ r, parse d toks s = some r)
    (fuel : Nat) (tok : phpLexerToken) (toks : Tokens) (s : PHPSourceFile)
    (h : toks.length < fuel) (hb : toks.length ≤ bound) :
    ∃ r, OnClass parse fuel tok toks s = some r := by
  unfold OnClass
  split
  · exact ⟨_, rfl⟩
  · next heq =>
    have hl := (OnClass_name_eq_run heq).length_le
    exact OnClass_loop_total parse bound hparse _ _ _ _ (by omega) (by omega)

/-- The statement loop returns when it is allowed more rounds than there are
unread tokens. -/
theorem Parse_total (fuel : Nat) (retDepth : Int) (toks : Tokens) (s : PHPSourceFile)
    (h : toks.length < fuel) : ∃ r, Parse fuel retDepth toks s = some r := by
  induction fuel generalizing retDepth toks s with
  | zero => exact absurd h (Nat.not_lt_zero _)
  | succ n ih =>
    cases toks with
    | nil =>
      unfold Parse
      exact ⟨_, rfl⟩
    | cons t ts =>
      have hts : ts.length < n := by
        simp only [List.length_cons] at h
        omega
      have hvis : ∀ s0 : PHPSourceFile, ∃ r,
          (if (entityAt (CurrentScope s0).2 (CurrentScope s0).1).kind =
              EntityKind.kEntityTypeClass then
            match ReadUntilFoundOneOf TokType.kPHP_T_VARIABLE TokType.kPHP_T_FUNCTION ts
                { (CurrentScope s0).2 with
                  m_lookBackTokens := (CurrentScope s0).2.m_lookBackTokens ++ [t] } with
            | (some (what, tk), ts1, s2) =>
              if what = TokType.kPHP_T_VARIABLE then
                match ConsumeUntil TokType.chr_semi ts1
                    (AddChild (CurrentScope s2).2 (CurrentScope s2).1
                      (memberVariable s2 t.type tk)).2 with
                | (false, ts2, s3) => some (ts2, s3)
                | (true, ts2, s3) => Parse n retDepth ts2 s3
              else
                match OnFunction n ts1 s2 with
                | none => none
                | some (ts2, s3) => Parse n retDepth ts2 { s3 with m_lookBackTokens := [] }
            | (none, ts1, s2) => Parse n retDepth ts1 s2
          else Parse n retDepth ts (CurrentScope s0).2) = some r := by
        intro s0
        split_ifs
        · split
          · next what tk ts1 s2 heq =>
            have hl := (ReadUntilFoundOneOf_eq_run heq).length_le
            split_ifs
            · split
              · exact ⟨_, rfl⟩
              · next heq2 =>
                have hl2 := (ConsumeUntil_eq_run heq2).length_le
                exact ih _ _ _ (by omega)
            · split
              · next heq2 =>
                obtain ⟨r, hr⟩ := OnFunction_total n ts1 s2 (by omega)
                rw [hr] at heq2
                cases heq2
              · next ts2 s3 heq2 =>
                have hl2 := (OnFunction_run _ _ _ ts2 s3 heq2).length_le
                exact ih _ _ _ (by omega)
          · next ts1 s2 heq =>
            have hl := (ReadUntilFoundOneOf_eq_run heq).length_le
            exact ih _ _ _ (by omega)
        · exact ih _ _ _ hts
      have hcls : ∀ s0 : PHPSourceFile, ∃ r,
          (match OnClass (Parse n) n t ts s0 with
           | none => none
           | some (ts1, s1) => Parse n retDepth ts1 { s1 with m_lookBackTokens := [] }) =
            some r := by
        intro s0
        split
        · next heq =>
          obtain ⟨r, hr⟩ := OnClass_total (Parse n) n (fun d toks s h => ih d toks s h) n t ts s0
            hts (Nat.le_of_lt hts)
          rw [hr] at heq
          cases heq
        · next ts1 s1 heq =>
          have hl := (OnClass_run (Parse n) (fun d toks s => (Parse_outcome n d toks s).runsTo)
            n t ts s0 ts1 s1 heq).length_le
          exact ih _ _ _ (by omega)
      unfold Parse
      dsimp only
      split
      · exact ih _ _ _ hts
      · exact ih _ _ _ hts
      · split_ifs
        · exact ⟨_, rfl⟩
        · exact ih _ _ _ hts
      · exact ih _ _ _ hts
      · split_ifs
        · have hl := (OnVariable_run t ts (CurrentScope (NextToken_found s t)).2).length_le
          exact ih _ _ _ (by omega)
        · exact ih _ _ _ hts
      · exact hvis _
      · exact hvis _
      · exact hvis _
      · have hl := (OnDefine_run t ts (NextToken_found s t)).length_le
        exact ih _ _ _ (by omega)
      · split
        · next tk ts1 s1 heq =>
          have hl := (ReadUntilFound_eq_run heq).length_le
          split
          · exact ⟨_, rfl⟩
          · next heq2 =>
            have hl2 := (ConsumeUntil_eq_run heq2).length_le
            exact ih _ _ _ (by omega)
        · next ts1 s1 heq =>
          have hl := (ReadUntilFound_eq_run heq).length_le
          exact ih _ _ _ (by omega)
      · exact ih _ _ _ hts
      · exact ih _ _ _ hts
      · exact ih _ _ _ hts
      · exact ih _ _ _ hts
      · have hl : (if (Class (NextToken_found s t)).1 = true
              then OnUseTrait ts (Class (NextToken_found s t)).2
              else OnUse ts (Class (NextToken_found s t)).2).1.length ≤ ts.length := by
          split_ifs
          · exact (OnUseTrait_run _ _).length_le
          · exact (OnUse_run _ _).length_le
        exact ih _ _ _ (by omega)
      · exact hcls _
      · exact hcls _
      · exact hcls _
      · have hl := (OnNamespace_run ts (NextToken_found s t)).length_le
        exact ih _ _ _ (by omega)
      · split
        · next heq =>
          obtain ⟨r, hr⟩ := OnFunction_total n ts (NextToken_found s t) hts
          rw [hr] at heq
          cases heq
        · next ts1 s1 heq =>
          have hl := (OnFunction_run _ _ _ ts1 s1 heq).length_le
          exact ih _ _ _ (by omega)
      · exact ih _ _ _ hts

/-- C11: for every finite token stream, every parser state and every exit
depth, the statement loop `Parse` returns as soon as it is allowed more rounds
than there are unread tokens (every round of the loops of the driver and of its
sub-parsers takes a token off the unread tokens, a pushed-back token being read
again only once), and the unread tokens it leaves are a suffix of the ones it
was given; in particular the parse of a whole file, `ParseFile`, always returns. -/
theorem C11_parse_terminates (fuel : Nat) (exitDepth : Int) (toks : Tokens) (s : PHPSourceFile)
    (h : toks.length < fuel) :
    (∃ rest s1, Parse fuel exitDepth toks s = some (rest, s1) ∧ rest <:+ toks) ∧
    (∃ r, ParseFunctionBody fuel toks s = some r) ∧
    (∃ r, OnFunction fuel toks s = some r) ∧
    (∀ parseBody, ∃ rest s1, ParseFile parseBody exitDepth toks = some (rest, s1)) := by
  refine ⟨?_, ParseFunctionBody_total fuel toks s h, OnFunction_total fuel toks s h, ?_⟩
  · obtain ⟨⟨rest, s1⟩, hr⟩ := Parse_total fuel exitDepth toks s h
    exact ⟨rest, s1, hr, ((Parse_outcome fuel exitDepth toks s) rest s1 hr).1.suffix⟩
  · intro parseBody
    obtain ⟨⟨rest, s1⟩, hr⟩ := Parse_total (toks.length + 1) exitDepth toks
      (newSourceFile parseBody) (Nat.lt_succ_self _)
    exact ⟨rest, s1, hr⟩

theorem C11_parse_terminates_witness :
    (∃ rest s1, Parse (tokensSpecExample.length + 1) (-1) tokensSpecExample
        (newSourceFile true) = some (rest, s1) ∧ rest <:+ tokensSpecExample) ∧
    (∃ r, ParseFunctionBody (tokensSpecExample.length + 1) tokensSpecExample
        (newSourceFile true) = some r) ∧
    (∃ r, OnFunction (tokensSpecExample.length + 1) tokensSpecExample
        (newSourceFile true) = some r) ∧
    (∀ parseBody, ∃ rest s1, ParseFile parseBody (-1) tokensSpecExample = some (rest, s1)) :=
  C11_parse_terminates (tokensSpecExample.length + 1) (-1) tokensSpecExample
    (newSourceFile true) (by decide)

theorem TreeInv.ancestor_root {s : PHPSourceFile} (h : TreeInv s) (i : Nat)
    (hi : i < s.store.length) : ∃ n, n ≤ i ∧ ancestor s n i = some 0 := by
  induction i using Nat.strong_induction_on with
  | _ i ih =>
    by_cases h0 : i = 0
    · subst h0
      exact ⟨0, Nat.le_refl _, rfl⟩
    · obtain ⟨_, p, hp, hlt, _⟩ := h.child i (Nat.pos_of_ne_zero h0) hi
      obtain ⟨n, hn, ha⟩ := ih p hlt (Nat.lt_trans hlt hi)
      refine ⟨n + 1, by omega, ?_⟩
      simp only [ancestor, hp]
      exact ha

theorem TreeInv.descendsFrom_root {s : PHPSourceFile} (h : TreeInv s) (i : Nat)
    (hi : i < s.store.length) : descendsFrom s i 0 = true := by
  obtain ⟨n, hn, ha⟩ := h.ancestor_root i hi
  unfold descendsFrom
  rw [List.any_eq_true]
  exact ⟨n, List.mem_range.mpr (by omega), by simp [ha]⟩

theorem TreeInv_newSourceFile (b : Bool) : TreeInv (newSourceFile b) := by
  constructor
  · intro _
    rfl
  · intro x more h
    cases h
  · intro x hx
    cases hx
  · intro h
    exact absurd rfl h
  · intro i _ hi
    exact absurd hi (Nat.not_lt_zero _)

/-- C12: when the statement loop `Parse`, started on any token stream (the
empty one included) in a parser state whose tree is well formed (the state the
constructor leaves is), has run to the end of input, the scope stack is not
empty, its bottom element is entity 0, a namespace without a parent, the scope
stack the run started with is still the lower part of the stack (nothing of it
was popped or replaced), and every other entity of the tree is no namespace, is
listed among the children of its parent, and descends from that namespace. -/
theorem C12_tree_rooted_at_namespace (fuel : Nat) (exitDepth : Int) (toks rest : Tokens)
    (s s1 : PHPSourceFile) (hinv : TreeInv s) (hnew : s.m_reachedEOF = false)
    (hrun : Parse fuel exitDepth toks s = some (rest, s1)) (heof : s1.m_reachedEOF = true) :
    (∃ more, s1.m_scopes = 0 :: more) ∧
    (entityAt s1 0).kind = EntityKind.kEntityTypeNamespace ∧
    (entityAt s1 0).parent = none ∧
    s.m_scopes <+: s1.m_scopes ∧
    (∀ i, 0 < i → i < s1.store.length →
      (entityAt s1 i).kind ≠ EntityKind.kEntityTypeNamespace ∧
      (∃ p, (entityAt s1 i).parent = some p ∧ i ∈ (entityAt s1 p).children) ∧
      descendsFrom s1 i 0 = true) := by
  obtain ⟨hr, hout⟩ := Parse_outcome fuel exitDepth toks s rest s1 hrun
  have hi1 : TreeInv s1 := hr.treeInv hinv
  have hne : s1.m_scopes ≠ [] := by
    rcases hout with ⟨_, _, h⟩ | ⟨t, s0, _, hr0, hs1, _⟩
    · exact h
    · have h0 : s0.m_reachedEOF = true → t :: rest = [] :=
        hr0.eof_tokens (fun h => by rw [hnew] at h; cases h)
      have h1 : s0.m_reachedEOF = true := by
        rw [hs1] at heof
        exact (NextToken_found_reachedEOF s0 t).symm.trans heof
      cases h0 h1
  have hbot : ∃ more, s1.m_scopes = 0 :: more := by
    cases hm : s1.m_scopes with
    | nil => exact absurd hm hne
    | cons x more =>
      rw [hi1.bottom x more hm]
      exact ⟨more, rfl⟩
  have hst : s1.store ≠ [] := by
    intro h
    obtain ⟨more, hm⟩ := hbot
    have := hi1.valid 0 (by rw [hm]; exact List.mem_cons_self _ _)
    rw [h] at this
    exact absurd this (Nat.not_lt_zero _)
  refine ⟨hbot, (hi1.root hst).1, (hi1.root hst).2, hr.scopes_grow, ?_⟩
  intro i h0 hi
  obtain ⟨hk, p, hp, _, hc⟩ := hi1.child i h0 hi
  exact ⟨hk, ⟨p, hp, hc⟩, hi1.descendsFrom_root i hi⟩

theorem C12_tree_rooted_at_namespace_witness :
    (∃ more, ((ParseFile true (-1) tokensSpecExample).getD ([], newSourceFile true)).2.m_scopes =
      0 :: more) ∧
    (entityAt ((ParseFile true (-1) tokensSpecExample).getD ([], newSourceFile true)).2 0).kind =
      EntityKind.kEntityTypeNamespace ∧
    (entityAt ((ParseFile true (-1) tokensSpecExample).getD ([], newSourceFile true)).2 0).parent =
      none ∧
    (newSourceFile true).m_scopes <+:
      ((ParseFile true (-1) tokensSpecExample).getD ([], newSourceFile true)).2.m_scopes ∧
    (∀ i, 0 < i →
      i < ((ParseFile true (-1) tokensSpecExample).getD ([], newSourceFile true)).2.store.length →
      (entityAt ((ParseFile true (-1) tokensSpecExample).getD ([], newSourceFile true)).2 i).kind ≠
        EntityKind.kEntityTypeNamespace ∧
      (∃ p,
        (entityAt ((ParseFile true (-1) tokensSpecExample).getD
          ([], newSourceFile true)).2 i).parent = some p ∧
        i ∈ (entityAt ((ParseFile true (-1) tokensSpecExample).getD
          ([], newSourceFile true)).2 p).children) ∧
      descendsFrom ((ParseFile true (-1) tokensSpecExample).getD ([], newSourceFile true)).2 i
        0 = true) :=
  C12_tree_rooted_at_namespace (tokensSpecExample.length + 1) (-1) tokensSpecExample []
    (newSourceFile true) ((ParseFile true (-1) tokensSpecExample).getD ([], newSourceFile true)).2
    (TreeInv_newSourceFile true) (by decide) (by decide) (by decide)

theorem StoreGrows.same (s : PHPSourceFile) : StoreGrows s s :=
  ⟨Nat.le_refl _, fun _ _ => ⟨rfl, rfl, rfl⟩⟩

theorem StoreGrows.trans {a b c : PHPSourceFile} (h1 : StoreGrows a b) (h2 : StoreGrows b c) :
    StoreGrows a c := by
  refine ⟨Nat.le_trans h1.1 h2.1, ?_⟩
  intro i hi
  obtain ⟨k1, p1, f1⟩ := h1.2 i hi
  obtain ⟨k2, p2, f2⟩ := h2.2 i (Nat.lt_of_lt_of_le hi h1.1)
  exact ⟨k2.trans k1, p2.trans p1, f2.trans f1⟩

theorem StoreGrows_of_same (s s1 : PHPSourceFile) (h : s1.store = s.store) : StoreGrows s s1 := by
  have he : ∀ i, entityAt s1 i = entityAt s i := by
    intro i
    simp [entityAt, h]
  refine ⟨by rw [h], ?_⟩
  intro i _
  rw [he i]
  exact ⟨rfl, rfl, rfl⟩

theorem entityAt_append_left (s : PHPSourceFile) (l : List PHPEntity) (i : Nat)
    (hi : i < s.store.length) :
    entityAt { s with store := s.store ++ l } i = entityAt s i := by
  simp only [entityAt_eq_getElem_opt]
  rw [List.getElem?_append_left hi]

theorem CurrentScope_storeGrows (s : PHPSourceFile) : StoreGrows s (CurrentScope s).2 := by
  unfold CurrentScope
  cases h : s.m_scopes.getLast? with
  | some id => exact StoreGrows.same s
  | none =>
    refine ⟨by simp, ?_⟩
    intro i hi
    have := entityAt_append_left s
      [({ kind := EntityKind.kEntityTypeNamespace } : PHPEntity).SetFullName nsSep] i hi
    have he : entityAt { s with
        store := s.store ++
          [({ kind := EntityKind.kEntityTypeNamespace } : PHPEntity).SetFullName nsSep],
        m_scopes := [s.store.length] } i = entityAt s i := this
    simp only
    rw [he]
    exact ⟨rfl, rfl, rfl⟩

theorem AddChild_storeGrows (s : PHPSourceFile) (p : Nat) (e : PHPEntity)
    (hp : p < s.store.length) : StoreGrows s (AddChild s p e).2 := by
  refine ⟨by rw [AddChild_store_length]; omega, ?_⟩
  intro i hi
  rw [entityAt_AddChild s p e hp i, if_neg (Nat.ne_of_lt hi)]
  by_cases h2 : i = p
  · rw [if_pos h2]
    subst h2
    exact ⟨rfl, rfl, rfl⟩
  · rw [if_neg h2]
    exact ⟨rfl, rfl, rfl⟩

theorem Tweak.store_kept {s s1 : PHPSourceFile} (h : Tweak s s1) (hi : TreeInv s) :
    StoreGrows s s1 := by
  induction h with
  | refl s => exact StoreGrows.same s
  | trans h1 _ ih1 ih2 => exact (ih1 hi).trans (ih2 (h1.tree_kept hi))
  | lookBack s l => exact StoreGrows_of_same s _ rfl
  | newNamespace s name hs =>
    refine ⟨by simp, ?_⟩
    intro i hi1
    have he : entityAt { s with
        store := s.store ++
          [({ kind := EntityKind.kEntityTypeNamespace } : PHPEntity).SetFullName name],
        m_scopes := [s.store.length] } i = entityAt s i :=
      entityAt_append_left s _ i hi1
    rw [he]
    exact ⟨rfl, rfl, rfl⟩
  | addChild s e hk hc =>
    obtain ⟨_, h2⟩ := TreeInv_CurrentScope s hi
    exact (CurrentScope_storeGrows s).trans (AddChild_storeGrows _ _ e h2)
  | modify s f i hf =>
    refine ⟨by simp [storeModify_length], ?_⟩
    intro j _
    obtain ⟨h1, h2, _, h4⟩ := entityAt_modify s f i hf j
    exact ⟨h1, h2, h4⟩
  | alias_ s k v => exact StoreGrows_of_same s _ rfl
  | define s e => exact StoreGrows_of_same s _ rfl
  | nullCast s => exact StoreGrows_of_same s _ rfl
  | phaseTwo s => exact StoreGrows_of_same s _ rfl

theorem TreeInv_pushed (s : PHPSourceFile) (e : PHPEntity) (hi : TreeInv s)
    (hk : e.kind ≠ EntityKind.kEntityTypeNamespace) :
    TreeInv { (AddChild (CurrentScope s).2 (CurrentScope s).1 e).2 with
      m_scopes := (AddChild (CurrentScope s).2 (CurrentScope s).1 e).2.m_scopes ++
        [(AddChild (CurrentScope s).2 (CurrentScope s).1 e).1] } := by
  obtain ⟨h1, h2⟩ := TreeInv_CurrentScope s hi
  have h3 := TreeInv_AddChild _ _ e h1 h2 (CurrentScope_scopes_ne_nil s) hk
  refine TreeInv_push _ _ h3 ?_ ?_
  · rw [AddChild_fst, AddChild_store_length]
    exact Nat.lt_succ_self _
  · exact CurrentScope_scopes_ne_nil s

/-- A run only adds entities to the store; the entities that were there keep
their kind, their parent and their name. -/
theorem Run.storeGrows {toks rest : Tokens} {s s1 : PHPSourceFile} (h : Run toks s rest s1)
    (hi : TreeInv s) : StoreGrows s s1 := by
  induction h with
  | tweak toks ht => exact ht.store_kept hi
  | read t ts s => exact StoreGrows_of_same s _ (NextToken_found_store s t)
  | eof s => exact StoreGrows_of_same s _ rfl
  | @peek t ts s s1 ht =>
    have h0 : TreeInv (NextToken_found s t) :=
      TreeInv_of_same s _ hi (NextToken_found_store s t) (NextToken_found_scopes s t)
    exact ((StoreGrows_of_same s _ (NextToken_found_store s t)).trans (ht.store_kept h0)).trans
      (StoreGrows_of_same s1 _ (UngetToken_store ts s1 t))
  | trans h1 _ ih1 ih2 => exact (ih1 hi).trans (ih2 (h1.treeInv hi))
  | @inScope toks rest s s1 e pop hk hc _ _ ih =>
    obtain ⟨_, h2⟩ := TreeInv_CurrentScope s hi
    have hstart : StoreGrows s
        { (AddChild (CurrentScope s).2 (CurrentScope s).1 e).2 with
          m_scopes := (AddChild (CurrentScope s).2 (CurrentScope s).1 e).2.m_scopes ++
            [(AddChild (CurrentScope s).2 (CurrentScope s).1 e).1] } :=
      ((CurrentScope_storeGrows s).trans (AddChild_storeGrows _ _ e h2)).trans
        (StoreGrows_of_same _ _ rfl)
    have hend := hstart.trans (ih (TreeInv_pushed s e hi hk))
    cases pop with
    | false => exact hend
    | true => exact hend.trans (StoreGrows_of_same s1 _ rfl)
theorem Inside_of_same (outer : List Nat) (c : Nat) (s s1 : PHPSourceFile)
    (h : Inside outer c s) (h1 : s1.store = s.store) (h2 : s1.m_scopes = s.m_scopes) :
    Inside outer c s1 := by
  have he : ∀ i, entityAt s1 i = entityAt s i := by
    intro i
    simp [entityAt, h1]
  refine ⟨by rw [h2]; exact h.1, by rw [h1]; exact h.2.1, ?_⟩
  intro i hc hi
  rw [he i]
  rw [h1] at hi
  exact h.2.2 i hc hi

/-- Inside the scope of `c` the current scope is `c` or was created after it. -/
theorem CurrentScope_inside (outer : List Nat) (c : Nat) (s : PHPSourceFile)
    (h : Inside outer c s) : (CurrentScope s).2 = s ∧ c ≤ (CurrentScope s).1 := by
  obtain ⟨⟨up, hup, hgt⟩, _, _⟩ := h
  have hlast : ∃ x, s.m_scopes.getLast? = some x ∧ c ≤ x := by
    rcases List.eq_nil_or_concat up with h0 | ⟨l, x, h0⟩
    · subst h0
      refine ⟨c, ?_, Nat.le_refl _⟩
      rw [hup]
      exact List.getLast?_concat _
    · rw [List.concat_eq_append] at h0
      refine ⟨x, ?_, Nat.le_of_lt (hgt x (by rw [h0]; simp))⟩
      rw [hup, h0]
      have : outer ++ c :: (l ++ [x]) = (outer ++ c :: l) ++ [x] := by simp
      rw [this]
      exact List.getLast?_concat _
  obtain ⟨x, hx, hcx⟩ := hlast
  unfold CurrentScope
  rw [hx]
  exact ⟨rfl, hcx⟩

theorem Inside_AddChild (outer : List Nat) (c : Nat) (s : PHPSourceFile) (e : PHPEntity)
    (hi : TreeInv s) (h : Inside outer c s) :
    Inside outer c (AddChild (CurrentScope s).2 (CurrentScope s).1 e).2 := by
  obtain ⟨h1, h2⟩ := CurrentScope_inside outer c s h
  obtain ⟨_, hlt⟩ := TreeInv_CurrentScope s hi
  rw [h1] at hlt ⊢
  refine ⟨h.1, ?_, ?_⟩
  · rw [AddChild_store_length]
    exact Nat.lt_succ_of_lt h.2.1
  · intro i hc hlen
    rw [AddChild_store_length] at hlen
    rw [entityAt_AddChild s _ e hlt i]
    by_cases h3 : i = s.store.length
    · rw [if_pos h3]
      exact ⟨_, rfl, h2⟩
    · rw [if_neg h3]
      have hp := h.2.2 i hc (by omega)
      by_cases h4 : i = (CurrentScope s).1
      · rw [if_pos h4]
        rw [h4] at hp
        exact hp
      · rw [if_neg h4]
        exact hp

theorem Tweak.inside_kept {s s1 : PHPSourceFile} (h : Tweak s s1) (outer : List Nat) (c : Nat)
    (hi : TreeInv s) (hin : Inside outer c s) : Inside outer c s1 := by
  induction h with
  | refl s => exact hin
  | trans h1 _ ih1 ih2 => exact ih2 (h1.tree_kept hi) (ih1 hi hin)
  | lookBack s l => exact Inside_of_same outer c s _ hin rfl rfl
  | newNamespace s name hs =>
    obtain ⟨⟨up, hup, _⟩, _, _⟩ := hin
    rw [hs] at hup
    simp at hup
  | addChild s e hk hc => exact Inside_AddChild outer c s e hi hin
  | modify s f i hf =>
    refine ⟨hin.1, ?_, ?_⟩
    · show c < (storeModify f i s.store).length
      rw [storeModify_length]
      exact hin.2.1
    · intro j hc hlen
      have hlen1 : j < s.store.length := by
        have : j < (storeModify f i s.store).length := hlen
        rw [storeModify_length] at this
        exact this
      rw [(entityAt_modify s f i hf j).2.1]
      exact hin.2.2 j hc hlen1
  | alias_ s k v => exact Inside_of_same outer c s _ hin rfl rfl
  | define s e => exact Inside_of_same outer c s _ hin rfl rfl
  | nullCast s => exact Inside_of_same outer c s _ hin rfl rfl
  | phaseTwo s => exact Inside_of_same outer c s _ hin rfl rfl

/-- Whatever runs while the entity `c` is on the scope stack leaves it there and
attaches every new entity to `c` or below it. -/
theorem Run.inside {toks rest : Tokens} {s s1 : PHPSourceFile} (h : Run toks s rest s1)
    (outer : List Nat) (c : Nat) (hi : TreeInv s) (hin : Inside outer c s) :
    Inside outer c s1 := by
  induction h with
  | tweak toks ht => exact ht.inside_kept outer c hi hin
  | read t ts s =>
    exact Inside_of_same outer c s _ hin (NextToken_found_store s t) (NextToken_found_scopes s t)
  | eof s => exact Inside_of_same outer c s _ hin rfl rfl
  | @peek t ts s s1 ht =>
    have h0 : TreeInv (NextToken_found s t) :=
      TreeInv_of_same s _ hi (NextToken_found_store s t) (NextToken_found_scopes s t)
    have h1 : Inside outer c (NextToken_found s t) :=
      Inside_of_same outer c s _ hin (NextToken_found_store s t) (NextToken_found_scopes s t)
    exact Inside_of_same outer c s1 _ (ht.inside_kept outer c h0 h1) (UngetToken_store ts s1 t)
      (UngetToken_scopes ts s1 t)
  | trans h1 _ ih1 ih2 => exact ih2 (h1.treeInv hi) (ih1 hi hin)
  | @inScope toks rest s s1 e pop hk hc hsub _ ih =>
    have ha := Inside_AddChild outer c s e hi hin
    obtain ⟨⟨up, hup, hgt⟩, hlen, hpar⟩ := ha
    have hnew : c < (AddChild (CurrentScope s).2 (CurrentScope s).1 e).1 := by
      rw [AddChild_fst]
      obtain ⟨h1, _⟩ := CurrentScope_inside outer c s hin
      rw [h1]
      exact hin.2.1
    have hstart : Inside outer c
        { (AddChild (CurrentScope s).2 (CurrentScope s).1 e).2 with
          m_scopes := (AddChild (CurrentScope s).2 (CurrentScope s).1 e).2.m_scopes ++
            [(AddChild (CurrentScope s).2 (CurrentScope s).1 e).1] } := by
      refine ⟨⟨up ++ [(AddChild (CurrentScope s).2 (CurrentScope s).1 e).1], ?_, ?_⟩, hlen, hpar⟩
      · show (AddChild (CurrentScope s).2 (CurrentScope s).1 e).2.m_scopes ++ _ = _
        rw [hup]
        simp
      · intro x hx
        rw [List.mem_append, List.mem_singleton] at hx
        rcases hx with hx | hx
        · exact hgt x hx
        · rw [hx]; exact hnew
    have hend := ih (TreeInv_pushed s e hi hk) hstart
    cases pop with
    | false => exact hend
    | true =>
      obtain ⟨⟨up1, hup1, hgt1⟩, hlen1, hpar1⟩ := hend
      have hpre := hsub.scopes_grow
      obtain ⟨more, hmore⟩ := hpre
      have hne : up1 ≠ [] := by
        intro h0
        rw [h0] at hup1
        have h5 : (AddChild (CurrentScope s).2 (CurrentScope s).1 e).2.m_scopes ++
            [(AddChild (CurrentScope s).2 (CurrentScope s).1 e).1] ++ more = outer ++ [c] := by
          rw [← hup1]
          exact hmore
        rw [hup] at h5
        have h6 := congrArg List.length h5
        simp at h6
      refine ⟨⟨up1.dropLast, ?_, ?_⟩, hlen1, hpar1⟩
      · show s1.m_scopes.dropLast = _
        rw [hup1]
        have : outer ++ c :: up1 = (outer ++ [c]) ++ up1 := by simp
        rw [this, List.dropLast_append_of_ne_nil _ hne]
        simp
      · intro x hx
        exact hgt1 x (List.mem_of_mem_dropLast hx)

theorem CurrentScope_congr (s s1 : PHPSourceFile) (h1 : s1.store = s.store)
    (h2 : s1.m_scopes = s.m_scopes) :
    (CurrentScope s1).1 = (CurrentScope s).1 ∧
    (CurrentScope s1).2.store = (CurrentScope s).2.store ∧
    (CurrentScope s1).2.m_scopes = (CurrentScope s).2.m_scopes := by
  unfold CurrentScope
  rw [h2]
  cases s.m_scopes.getLast? with
  | some id => exact ⟨rfl, h1, h2⟩
  | none => simp [h1]

/-- The statement loop run with the exit depth one below the depth does not stop
at a closing brace when no prefix of the tokens closes more braces than it
opens: it stops at the end of input. -/
theorem Parse_no_brace_exit (fuel : Nat) (toks rest : Tokens) (s s1 : PHPSourceFile)
    (hbody : ∀ p, p <+: toks → 0 ≤ braceBalance p)
    (hrun : Parse fuel (s.m_depth - 1) toks s = some (rest, s1)) :
    Run toks s rest s1 ∧ EofExit rest s1 := by
  obtain ⟨hr, hout⟩ := Parse_outcome fuel _ toks s rest s1 hrun
  refine ⟨hr, ?_⟩
  rcases hout with h | ⟨t, s0, ht, hr0, hs1, hd⟩
  · exact h
  · exfalso
    have hdep := hr0.depth
    obtain ⟨p, hp⟩ := hr0.suffix
    have h1 : s1.m_depth = s0.m_depth + braceDelta t := by
      rw [hs1]
      exact NextToken_found_depth s0 t
    have hbd : braceDelta t = -1 := by simp [braceDelta, ht]
    have hpre : p ++ [t] <+: toks := ⟨rest, by rw [← hp]; simp⟩
    have h2 := hbody _ hpre
    rw [braceBalance_append] at h2
    have h3 : braceBalance toks = braceBalance p + braceBalance (t :: rest) := by
      rw [← hp, braceBalance_append]
    have h4 : braceBalance [t] = braceDelta t := by simp [braceBalance]
    have h5 : braceBalance (t :: rest) = braceDelta t + braceBalance rest := rfl
    omega

/-- Below an entity `c` that is on the scope stack, every later entity descends
from `c`. -/
theorem Inside.ancestor_top {outer : List Nat} {c : Nat} {s : PHPSourceFile}
    (h : Inside outer c s) (hi : TreeInv s) (i : Nat) (hc : c ≤ i) (hlen : i < s.store.length) :
    ∃ n, n ≤ i ∧ ancestor s n i = some c := by
  induction i using Nat.strong_induction_on with
  | _ i ih =>
    by_cases h0 : i = c
    · subst h0
      exact ⟨0, Nat.zero_le _, rfl⟩
    · have hci : c < i := by omega
      obtain ⟨p, hp, hcp⟩ := h.2.2 i hci hlen
      obtain ⟨_, q, hq, hlt, _⟩ := hi.child i (by omega) hlen
      have hpq : q = p := by
        rw [hq] at hp
        exact Option.some.inj hp
      subst hpq
      obtain ⟨n, hn, ha⟩ := ih q hlt hcp (Nat.lt_trans hlt hlen)
      refine ⟨n + 1, by omega, ?_⟩
      simp only [PHP.ancestor, hq]
      exact ha

theorem Inside.descends {outer : List Nat} {c : Nat} {s : PHPSourceFile}
    (h : Inside outer c s) (hi : TreeInv s) (i : Nat) (hc : c ≤ i) (hlen : i < s.store.length) :
    descendsFrom s i c = true := by
  obtain ⟨n, hn, ha⟩ := h.ancestor_top hi i hc hlen
  unfold PHP.descendsFrom
  rw [List.any_eq_true]
  exact ⟨n, List.mem_range.mpr (by omega), by simp [ha]⟩

/-- The branch of the loop of `OnClass` for the brace that opens the class body,
when the input ends before the brace is closed. -/
theorem OnClass_loop_open (bound n : Nat) (klass : PHPEntity) (lb : phpLexerToken)
    (body : Tokens) (s : PHPSourceFile) (hlb : lb.type = TokType.chr_lbrace)
    (hk : klass.kind = EntityKind.kEntityTypeClass)
    (hbody : ∀ p, p <+: body → 0 ≤ braceBalance p) (hb : body.length < bound)
    (hinv : TreeInv s) (heof : s.m_reachedEOF = false) :
    ∃ s2, OnClass_loop (Parse bound) (n + 1) klass (lb :: body) s = some ([], s2) ∧
      s2.m_reachedEOF = true ∧ TreeInv s2 ∧
      Inside (CurrentScope s).2.m_scopes (CurrentScope s).2.store.length s2 ∧
      (entityAt s2 (CurrentScope s).2.store.length).kind = EntityKind.kEntityTypeClass ∧
      (entityAt s2 (CurrentScope s).2.store.length).parent = some (CurrentScope s).1 ∧
      (entityAt s2 (CurrentScope s).2.store.length).fullName = klass.fullName := by
  obtain ⟨hc1, hc2, hc3⟩ := CurrentScope_congr s (NextToken_found s lb)
    (NextToken_found_store s lb) (NextToken_found_scopes s lb)
  have hinv0 : TreeInv (NextToken_found s lb) :=
    TreeInv_of_same s _ hinv (NextToken_found_store s lb) (NextToken_found_scopes s lb)
  have hkn : klass.kind ≠ EntityKind.kEntityTypeNamespace := by
    rw [hk]
    decide
  obtain ⟨hinv1, hlt⟩ := TreeInv_CurrentScope _ hinv0
  have hinvP := TreeInv_pushed (NextToken_found s lb) klass hinv0 hkn
  have hcm : lb.IsAnyComment = false := by
    simp [phpLexerToken.IsAnyComment, hlb]
  have hstep : OnClass_loop (Parse bound) (n + 1) klass (lb :: body) s =
      (match Parse bound (({ (AddChild (CurrentScope (NextToken_found s lb)).2
          (CurrentScope (NextToken_found s lb)).1 klass).2 with
          m_scopes := (AddChild (CurrentScope (NextToken_found s lb)).2
            (CurrentScope (NextToken_found s lb)).1 klass).2.m_scopes ++
            [(AddChild (CurrentScope (NextToken_found s lb)).2
              (CurrentScope (NextToken_found s lb)).1 klass).1] } : PHPSourceFile).m_depth - 1)
          body
          ({ (AddChild (CurrentScope (NextToken_found s lb)).2
          (CurrentScope (NextToken_found s lb)).1 klass).2 with
          m_scopes := (AddChild (CurrentScope (NextToken_found s lb)).2
            (CurrentScope (NextToken_found s lb)).1 klass).2.m_scopes ++
            [(AddChild (CurrentScope (NextToken_found s lb)).2
              (CurrentScope (NextToken_found s lb)).1 klass).1] } : PHPSourceFile) with
        | none => none
        | some (ts2, s2) => some (ts2, if !s2.m_reachedEOF then popScope s2 else s2)) := by
    rw [OnClass_loop]
    simp only [hcm, hlb, Bool.false_eq_true, if_false]
  generalize hP : ({ (AddChild (CurrentScope (NextToken_found s lb)).2
      (CurrentScope (NextToken_found s lb)).1 klass).2 with
      m_scopes := (AddChild (CurrentScope (NextToken_found s lb)).2
        (CurrentScope (NextToken_found s lb)).1 klass).2.m_scopes ++
        [(AddChild (CurrentScope (NextToken_found s lb)).2
          (CurrentScope (NextToken_found s lb)).1 klass).1] } : PHPSourceFile) = P at hinvP hstep
  have hPstore : P.store = (AddChild (CurrentScope (NextToken_found s lb)).2
      (CurrentScope (NextToken_found s lb)).1 klass).2.store := by
    rw [← hP]
  have hPscopes : P.m_scopes = (CurrentScope s).2.m_scopes ++ [(CurrentScope s).2.store.length] := by
    rw [← hP]
    show (CurrentScope (NextToken_found s lb)).2.m_scopes ++
      [(CurrentScope (NextToken_found s lb)).2.store.length] = _
    rw [hc2, hc3]
  have hPlen : P.store.length = (CurrentScope s).2.store.length + 1 := by
    rw [hPstore, AddChild_store_length, hc2]
  have hPeof : P.m_reachedEOF = false := by
    rw [← hP]
    show (CurrentScope (NextToken_found s lb)).2.m_reachedEOF = false
    rw [CurrentScope_reachedEOF, NextToken_found_reachedEOF]
    exact heof
  have hPent : entityAt P (CurrentScope s).2.store.length =
      { klass with parent := some (CurrentScope s).1 } := by
    have : entityAt P (CurrentScope s).2.store.length =
        entityAt (AddChild (CurrentScope (NextToken_found s lb)).2
          (CurrentScope (NextToken_found s lb)).1 klass).2 (CurrentScope s).2.store.length := by
      simp only [entityAt, hPstore]
    rw [this, entityAt_AddChild _ _ klass hlt, hc2, if_pos rfl, hc1]
  have hPin : Inside (CurrentScope s).2.m_scopes (CurrentScope s).2.store.length P := by
    refine ⟨⟨[], hPscopes, fun x hx => by cases hx⟩, by rw [hPlen]; exact Nat.lt_succ_self _, ?_⟩
    intro i h1 h2
    rw [hPlen] at h2
    omega
  obtain ⟨⟨rest, s2⟩, hr⟩ := Parse_total bound (P.m_depth - 1) body P hb
  obtain ⟨hrun, hrest, he2, _⟩ := Parse_no_brace_exit bound body rest P s2 hbody hr
  subst hrest
  have hgrow := hrun.storeGrows hinvP
  obtain ⟨hg1, hg2, hg3⟩ := hgrow.2 (CurrentScope s).2.store.length
    (by rw [hPlen]; exact Nat.lt_succ_self _)
  rw [hPent] at hg1 hg2 hg3
  refine ⟨s2, ?_, he2, hrun.treeInv hinvP, hrun.inside _ _ hinvP hPin, hg1.trans hk, hg2, hg3⟩
  rw [hstep, hr]
  simp [he2]

theorem CurrentScope_of_last (s : PHPSourceFile) (id : Nat)
    (h : s.m_scopes.getLast? = some id) : CurrentScope s = (id, s) := by
  unfold CurrentScope
  rw [h]

theorem CurrentScope_idem (s : PHPSourceFile) :
    CurrentScope (CurrentScope s).2 = ((CurrentScope s).1, (CurrentScope s).2) :=
  CurrentScope_of_last _ _ (CurrentScope_last s)

/-- Resolving a name does not change what the current scope is. -/
theorem CurrentScope_MakeIdentifierAbsolute (s : PHPSourceFile) (w : WxString) :
    (CurrentScope (MakeIdentifierAbsolute s w).2).1 = (CurrentScope s).1 ∧
    (CurrentScope (MakeIdentifierAbsolute s w).2).2.store = (CurrentScope s).2.store ∧
    (CurrentScope (MakeIdentifierAbsolute s w).2).2.m_scopes = (CurrentScope s).2.m_scopes := by
  rcases MakeIdentifierAbsolute_state s w with h | h
  · rw [h]
    exact ⟨rfl, rfl, rfl⟩
  · rw [h]
    unfold Namespace
    cases hs : s.m_scopes with
    | nil =>
      simp only
      rw [CurrentScope_idem]
      exact ⟨rfl, rfl, rfl⟩
    | cons a l => exact ⟨rfl, rfl, rfl⟩

theorem PhaseTwo_same (s : PHPSourceFile) (h : s.m_scopes ≠ []) :
    (PhaseTwo s).store = s.store ∧ (PhaseTwo s).m_scopes = s.m_scopes ∧
    (PhaseTwo s).m_reachedEOF = s.m_reachedEOF := by
  have hN : (Namespace s).2 = s := by
    unfold Namespace
    cases hs : s.m_scopes with
    | nil => exact absurd hs h
    | cons a l => rfl
  unfold PhaseTwo
  dsimp only
  rw [hN]
  exact ⟨rfl, rfl, rfl⟩

theorem LeftOpen_intro (outer : List Nat) (sc c : Nat) (s : PHPSourceFile)
    (he : s.m_reachedEOF = true) (hi : TreeInv s) (hin : Inside outer c s)
    (hk : (entityAt s c).kind = EntityKind.kEntityTypeClass)
    (hp : (entityAt s c).parent = some sc) : LeftOpen outer sc c s := by
  obtain ⟨⟨up, hup, _⟩, hlen, hpar⟩ := hin
  have hne : s.store ≠ [] := by
    intro h0
    rw [h0] at hlen
    exact absurd hlen (Nat.not_lt_zero _)
  have hc0 : 0 < c := by
    rcases Nat.eq_zero_or_pos c with h0 | h0
    · rw [h0, (hi.root hne).2] at hp
      cases hp
    · exact h0
  refine ⟨he, ⟨up, hup⟩, hk, hp, ?_, ?_⟩
  · obtain ⟨_, p, hp1, _, hmem⟩ := hi.child c hc0 hlen
    rw [hp] at hp1
    rw [Option.some.inj hp1]
    exact hmem
  · intro i hci hil
    obtain ⟨p, hp1, hcp⟩ := hpar i hci hil
    obtain ⟨_, q, hq, _, hmem⟩ := hi.child i (by omega) hil
    rw [hp1] at hq
    have hqp : p = q := Option.some.inj hq
    refine ⟨⟨p, hp1, hcp, ?_⟩, ?_⟩
    · rw [hqp]
      exact hmem
    · exact Inside.descends ⟨⟨up, hup, by assumption⟩, hlen, hpar⟩ hi i (Nat.le_of_lt hci) hil

theorem LeftOpen_of_same (outer : List Nat) (sc c : Nat) (s s1 : PHPSourceFile)
    (h : LeftOpen outer sc c s) (h1 : s1.store = s.store) (h2 : s1.m_scopes = s.m_scopes)
    (h3 : s1.m_reachedEOF = s.m_reachedEOF) : LeftOpen outer sc c s1 := by
  have he : ∀ i, entityAt s1 i = entityAt s i := by
    intro i
    simp [entityAt, h1]
  have hanc : ∀ n i, ancestor s1 n i = ancestor s n i := by
    intro n
    induction n with
    | zero => intro i; rfl
    | succ n ih =>
      intro i
      simp only [ancestor, he i]
      cases (entityAt s i).parent with
      | none => rfl
      | some p => exact ih p
  have hd : ∀ i a, descendsFrom s1 i a = descendsFrom s i a := by
    intro i a
    simp only [descendsFrom, h1, hanc]
  obtain ⟨a1, a2, a3, a4, a5, a6⟩ := h
  refine ⟨by rw [h3]; exact a1, by rw [h2]; exact a2, by rw [he]; exact a3,
    by rw [he]; exact a4, by rw [he]; exact a5, ?_⟩
  intro i hci hil
  rw [h1] at hil
  obtain ⟨⟨p, b1, b2, b3⟩, b4⟩ := a6 i hci hil
  exact ⟨⟨p, by rw [he]; exact b1, b2, by rw [he]; exact b3⟩, by rw [hd]; exact b4⟩

/-- C13, counterexample: in the truncated file `class A { class B {` the
declaration of `B` has its body opened by a brace and the input ends before the
matching brace; its class entity (entity 2) is a child of the class `A` (entity
1), the scope that was current at the declaration, and not a child of the
namespace (entity 0), whose only child is `A`.  Both classes are left on the
scope stack. -/
theorem C13_nested_class_counterexample :
    ∃ st : PHPSourceFile,
      ParseFile true (-1) tokensNestedClass = some ([], st) ∧
      (entityAt st 0).kind = EntityKind.kEntityTypeNamespace ∧
      (entityAt st 0).children = [1] ∧
      (entityAt st 1).kind = EntityKind.kEntityTypeClass ∧
      (entityAt st 1).fullName = "\\A".toList ∧
      (entityAt st 1).children = [2] ∧
      (entityAt st 2).kind = EntityKind.kEntityTypeClass ∧
      (entityAt st 2).fullName = "\\B".toList ∧
      (entityAt st 2).parent = some 1 ∧
      (entityAt st 2).parent ≠ some 0 ∧
      ¬ 2 ∈ (entityAt st 0).children ∧
      st.store.length = 3 ∧
      st.m_scopes = [0, 1, 2] ∧
      st.m_reachedEOF = true :=
  ⟨((ParseFile true (-1) tokensNestedClass).get (by decide)).2, by decide⟩

/-- The routine `OnClass` on `Name {` followed by tokens that do not close the
brace. -/
theorem OnClass_open (bound n : Nat) (classTok nameTok lb : phpLexerToken) (body : Tokens)
    (s : PHPSourceFile) (hname : nameTok.type = TokType.kPHP_T_IDENTIFIER)
    (hlb : lb.type = TokType.chr_lbrace)
    (hbody : ∀ p, p <+: body → 0 ≤ braceBalance p) (hb : body.length < bound)
    (hinv : TreeInv s) (heof : s.m_reachedEOF = false) :
    ∃ s2, OnClass (Parse bound) (n + 1) classTok (nameTok :: lb :: body) s = some ([], s2) ∧
      s2.m_reachedEOF = true ∧ TreeInv s2 ∧
      Inside (CurrentScope s).2.m_scopes (CurrentScope s).2.store.length s2 ∧
      (entityAt s2 (CurrentScope s).2.store.length).kind = EntityKind.kEntityTypeClass ∧
      (entityAt s2 (CurrentScope s).2.store.length).parent = some (CurrentScope s).1 := by
  have hcm : nameTok.IsAnyComment = false := by
    simp [phpLexerToken.IsAnyComment, hname]
  have h1 : OnClass_name (nameTok :: lb :: body) s =
      (some nameTok, lb :: body, NextToken_found s nameTok) := by
    unfold OnClass_name
    simp [hcm, hname]
  have hinv0 : TreeInv (NextToken_found s nameTok) :=
    TreeInv_of_same s _ hinv (NextToken_found_store s nameTok) (NextToken_found_scopes s nameTok)
  have hinvm : TreeInv (MakeIdentifierAbsolute (NextToken_found s nameTok) nameTok.text).2 :=
    (Tweak.makeIdentifierAbsolute _ _).tree_kept hinv0
  have heofm : (MakeIdentifierAbsolute (NextToken_found s nameTok) nameTok.text).2.m_reachedEOF =
      false := by
    rw [(Tweak.makeIdentifierAbsolute _ _).reachedEOF, NextToken_found_reachedEOF]
    exact heof
  obtain ⟨c1, c2, c3⟩ := CurrentScope_MakeIdentifierAbsolute (NextToken_found s nameTok)
    nameTok.text
  obtain ⟨d1, d2, d3⟩ := CurrentScope_congr s (NextToken_found s nameTok)
    (NextToken_found_store s nameTok) (NextToken_found_scopes s nameTok)
  obtain ⟨s2, hloop, he2, hi2, hin2, hk2, hp2, _⟩ := OnClass_loop_open bound n
    { ({ ({ kind := EntityKind.kEntityTypeClass } : PHPEntity) with
          isInterface := classTok.type == TokType.kPHP_T_INTERFACE,
          isTrait := classTok.type == TokType.kPHP_T_TRAIT } : PHPEntity).SetFullName
        (MakeIdentifierAbsolute (NextToken_found s nameTok) nameTok.text).1 with
      line := nameTok.lineNumber }
    lb body (MakeIdentifierAbsolute (NextToken_found s nameTok) nameTok.text).2 hlb rfl hbody hb
    hinvm heofm
  rw [c1, d1] at hp2
  rw [c2, d2] at hin2 hk2 hp2
  rw [c3, d3] at hin2
  refine ⟨s2, ?_, he2, hi2, hin2, hk2, hp2⟩
  unfold OnClass
  rw [h1]
  exact hloop

theorem CurrentScope_bottom (s : PHPSourceFile) (hinv : TreeInv s)
    (h : s.m_scopes.length ≤ 1) : (CurrentScope s).1 = 0 := by
  cases hs : s.m_scopes with
  | nil =>
    have h0 := hinv.empty hs
    unfold CurrentScope
    rw [hs]
    simp [h0]
  | cons x l =>
    cases l with
    | nil =>
      have hx := hinv.bottom x [] hs
      rw [CurrentScope_of_last s x (by rw [hs]; rfl)]
      exact hx
    | cons y l =>
      rw [hs] at h
      simp at h

/-- C13 (amended): for every class declaration `class Name`, `interface Name`
or `trait Name` whose body is opened by a brace and whose input ends before that
brace is closed (no prefix of the tokens after it closes more braces than it
opens; `class C` with the open brace alone is the case of an empty rest), met by
the statement loop in any well-formed parser state: the loop returns at the end
of input; the class entity is a child of the scope that was current at the
declaration, which is the namespace whenever the scope stack held at most the
namespace; every entity created after the class is listed among the children of
the class or of an entity created after the class, and so descends from the
class; and the class is left on the scope stack, right above the stack as it was,
rather than popped.  The same holds from the point where the loop of `OnClass`
meets the opening brace, whatever header came before it. -/
theorem C13_truncated_class_left_open (fuel : Nat) (exitDepth : Int)
    (classTok nameTok lb : phpLexerToken) (body : Tokens) (s : PHPSourceFile)
    (hclass : classTok.type = TokType.kPHP_T_CLASS ∨
      classTok.type = TokType.kPHP_T_INTERFACE ∨ classTok.type = TokType.kPHP_T_TRAIT)
    (hname : nameTok.type = TokType.kPHP_T_IDENTIFIER) (hlb : lb.type = TokType.chr_lbrace)
    (hbody : ∀ p, p <+: body → 0 ≤ braceBalance p) (hfuel : body.length + 1 < fuel)
    (hinv : TreeInv s) (heof : s.m_reachedEOF = false) :
    (∃ s2, Parse fuel exitDepth (classTok :: nameTok :: lb :: body) s = some ([], s2) ∧
      LeftOpen (CurrentScope s).2.m_scopes (CurrentScope s).1 (CurrentScope s).2.store.length
        s2 ∧
      (s.m_scopes.length ≤ 1 → (CurrentScope s).1 = 0 ∧
        (entityAt s2 0).kind = EntityKind.kEntityTypeNamespace)) ∧
    (∀ n klass, klass.kind = EntityKind.kEntityTypeClass →
      ∃ s2, OnClass_loop (Parse fuel) (n + 1) klass (lb :: body) s = some ([], s2) ∧
        LeftOpen (CurrentScope s).2.m_scopes (CurrentScope s).1
          (CurrentScope s).2.store.length s2) := by
  obtain ⟨f, rfl⟩ : ∃ f, fuel = f + 2 := ⟨fuel - 2, by omega⟩
  constructor
  · obtain ⟨d1, d2, d3⟩ := CurrentScope_congr s (NextToken_found s classTok)
      (NextToken_found_store s classTok) (NextToken_found_scopes s classTok)
    obtain ⟨s2, hon, he2, hi2, hin2, hk2, hp2⟩ := OnClass_open (f + 1) f classTok nameTok lb body
      (NextToken_found s classTok) hname hlb hbody (by omega)
      (TreeInv_of_same s _ hinv (NextToken_found_store s classTok)
        (NextToken_found_scopes s classTok))
      (by rw [NextToken_found_reachedEOF]; exact heof)
    rw [d1] at hp2
    rw [d2] at hin2 hk2 hp2
    rw [d3] at hin2
    have hopen := LeftOpen_intro _ _ _ s2 he2 hi2 hin2 hk2 hp2
    have hne : s2.m_scopes ≠ [] := by
      obtain ⟨⟨up, hup, _⟩, _, _⟩ := hin2
      rw [hup]
      simp
    obtain ⟨p1, p2, p3⟩ := PhaseTwo_same (NextToken_eof { s2 with m_lookBackTokens := [] }) hne
    have hparse : Parse (f + 2) exitDepth (classTok :: nameTok :: lb :: body) s =
        some ([], PhaseTwo (NextToken_eof { s2 with m_lookBackTokens := [] })) := by
      have hlast : Parse (f + 1) exitDepth [] { s2 with m_lookBackTokens := [] } =
          some ([], PhaseTwo (NextToken_eof { s2 with m_lookBackTokens := [] })) := by
        rw [Parse]
      have hstep : Parse (f + 2) exitDepth (classTok :: nameTok :: lb :: body) s =
          (match OnClass (Parse (f + 1)) (f + 1) classTok (nameTok :: lb :: body)
              (NextToken_found s classTok) with
            | none => none
            | some (ts1, s1) => Parse (f + 1) exitDepth ts1 { s1 with m_lookBackTokens := [] }) := by
        rcases hclass with h | h | h <;>
        · rw [Parse]
          simp only [h]
      rw [hstep, hon]
      exact hlast
    refine ⟨_, hparse, LeftOpen_of_same _ _ _ s2 _ hopen p1 p2 (p3.trans ?_), ?_⟩
    · show true = s2.m_reachedEOF
      exact he2.symm
    · intro hlen
      have hi3 : TreeInv (PhaseTwo (NextToken_eof { s2 with m_lookBackTokens := [] })) :=
        TreeInv_of_same s2 _ hi2 p1 p2
      have hst : (PhaseTwo (NextToken_eof { s2 with m_lookBackTokens := [] })).store ≠ [] := by
        rw [p1]
        intro h0
        have h1 : (CurrentScope s).2.store.length < s2.store.length := hin2.2.1
        have h2 : s2.store = [] := h0
        rw [h2] at h1
        exact absurd h1 (Nat.not_lt_zero _)
      exact ⟨CurrentScope_bottom s hinv hlen, (hi3.root hst).1⟩
  · intro n klass hk
    obtain ⟨s2, hloop, he2, hi2, hin2, hk2, hp2, _⟩ := OnClass_loop_open (f + 2) n klass lb body s
      hlb hk hbody (by omega) hinv heof
    exact ⟨s2, hloop, LeftOpen_intro _ _ _ s2 he2 hi2 hin2 hk2 hp2⟩

theorem C13_truncated_class_left_open_witness :
    (∃ s2, ParseFile true (-1) tokensTruncatedClass = some ([], s2) ∧
      LeftOpen [0] 0 1 s2 ∧
      ((newSourceFile true).m_scopes.length ≤ 1 → (CurrentScope (newSourceFile true)).1 = 0 ∧
        (entityAt s2 0).kind = EntityKind.kEntityTypeNamespace)) ∧
    (∀ n klass, klass.kind = EntityKind.kEntityTypeClass →
      ∃ s2, OnClass_loop (Parse 13) (n + 1) klass (tokensTruncatedClass.drop 2)
          (newSourceFile true) = some ([], s2) ∧
        LeftOpen [0] 0 1 s2) :=
  C13_truncated_class_left_open 13 (-1) (mkToken TokType.kPHP_T_CLASS "class" 1)
    (mkToken TokType.kPHP_T_IDENTIFIER "C" 1) (mkToken TokType.chr_lbrace "\x7b" 1)
    (tokensTruncatedClass.drop 3) (newSourceFile true) (Or.inl rfl) rfl rfl
    (fun p hp => (by decide : ∀ q ∈ (tokensTruncatedClass.drop 3).inits, 0 ≤ braceBalance q) p
      ((List.mem_inits _ _).mpr hp))
    (by decide) (TreeInv_newSourceFile true) rfl

/-- C22: the doc-association pass is not run exactly once on every input.  On
the truncated file `class C` with an open brace, the statement loop run by
`OnClass` on the class body meets the end of input and runs `PhaseTwo`, and the
outermost loop then meets the end of input and runs it again: two runs.  On
`const X` without its `;` the loop returns when `ConsumeUntil` fails and
`PhaseTwo` is not run at all.  On the empty input and on `class C` with a
closed body it runs once. -/
theorem C22_phase_two_runs_twice :
    (∃ st, ParseFile false (-1) tokensOpenClass = some ([], st) ∧ st.phaseTwoRuns = 2 ∧
      st.m_reachedEOF = true) ∧
    (∃ st, ParseFile false (-1) tokensConstCut = some ([], st) ∧ st.phaseTwoRuns = 0 ∧
      st.m_reachedEOF = true) ∧
    (∃ st, ParseFile false (-1) [] = some ([], st) ∧ st.phaseTwoRuns = 1) ∧
    (∃ st, ParseFile false (-1) tokensClosedClass = some ([], st) ∧ st.phaseTwoRuns = 1) :=
  ⟨⟨((ParseFile false (-1) tokensOpenClass).get (by decide)).2, by decide⟩,
    ⟨((ParseFile false (-1) tokensConstCut).get (by decide)).2, by decide⟩,
    ⟨((ParseFile false (-1) []).get (by decide)).2, by decide⟩,
    ⟨((ParseFile false (-1) tokensClosedClass).get (by decide)).2, by decide⟩⟩

/-- C28: `MakeIdentifierAbsolute` does not give the same result for a name and
for the name with its surrounding whitespace removed.  With the alias table
holding `Baz` to `\Foo\Bar`, the name `Baz` resolves to `\Foo\Bar`, but `Baz`
with a space before or after it, whose trimmed form is the key `Baz`, resolves
to `\Baz`: the alias table is searched for the text as given, not for the
trimmed copy used everywhere else in the routine. -/
theorem C28_untrimmed_alias_lookup :
    (MakeIdentifierAbsolute aliasBazState "Baz".toList).1 = "\\Foo\\Bar".toList ∧
    Trim "Baz ".toList = "Baz".toList ∧
    (MakeIdentifierAbsolute aliasBazState "Baz ".toList).1 = "\\Baz".toList ∧
    Trim " Baz".toList = "Baz".toList ∧
    (MakeIdentifierAbsolute aliasBazState " Baz".toList).1 = "\\Baz".toList ∧
    (MakeIdentifierAbsolute aliasBazState "Baz ".toList).1 ≠
      (MakeIdentifierAbsolute aliasBazState (Trim "Baz ".toList)).1 := by
  decide
/-- The characters of a qualified name are identifier characters and
separators. -/
theorem tokensText_path_chars (p : Tokens)
    (h : p.all (fun t => isIdentifierToken t || isSeparatorToken t) = true) :
    ∀ c ∈ tokensText p, isIdentifierChar c = true ∨ c = '\\' := by
  induction p with
  | nil =>
    intro c hc
    cases hc
  | cons t ts ih =>
    simp only [List.all_cons, Bool.and_eq_true] at h
    intro c hc
    simp only [tokensText, List.mem_append] at hc
    rcases hc with hc | hc
    · rcases Bool.or_eq_true _ _ ▸ h.1 with ht | ht
      · simp only [isIdentifierToken, Bool.and_eq_true] at ht
        exact Or.inl (isNameText_chars ht.2 c hc)
      · simp only [isSeparatorToken, Bool.and_eq_true, beq_iff_eq] at ht
        rw [ht.2] at hc
        simp only [nsSep, List.mem_singleton] at hc
        exact Or.inr hc
    · exact ih h.2 c hc

/-- The key of a well-formed `use` item is the text of an identifier. -/
theorem UseItem.key_isNameText (i : UseItem) (hi : i.wellFormed = true) :
    isNameText i.key = true := by
  obtain ⟨path, asAlias⟩ := i
  simp only [UseItem.wellFormed, Bool.and_eq_true] at hi
  obtain ⟨hp, ha⟩ := hi
  cases asAlias with
  | some an =>
    obtain ⟨a, n⟩ := an
    simp only [Bool.and_eq_true, isIdentifierToken] at ha
    exact ha.2.2
  | none =>
    have hne := isPathTokens_key_ne_nil hp
    have hch : ∀ c ∈ AfterLast (tokensText path) '\\', isIdentifierChar c = true := by
      intro c hc
      simp only [AfterLast, List.mem_reverse] at hc
      have h1 := List.mem_takeWhile_imp hc
      have h2 : c ∈ tokensText path := by
        have := (List.takeWhile_sublist _).subset hc
        simpa using this
      simp only [isPathTokens, Bool.and_eq_true] at hp
      rcases tokensText_path_chars path hp.1 c h2 with h3 | h3
      · exact h3
      · simp [h3] at h1
    simp only [UseItem.key, isNameText, Bool.and_eq_true, List.all_eq_true]
    refine ⟨?_, hch⟩
    cases hk : AfterLast (tokensText path) '\\' with
    | nil => exact absurd hk hne
    | cons c r => rfl

/-- C29, counterexample: after `use A\string; use B\string;` the alias table
holds the single entry `string` to `\A\string`, the first imported name, yet the
resolution of the alias `string` returns `string` and not `\A\string`: the test
for the eight primitive type names comes before the alias table is read. -/
theorem C29_primitive_alias_counterexample :
    ∃ st : PHPSourceFile,
      ParseFile false (-1) tokensPrimitiveAlias = some ([], st) ∧
      st.m_aliases = [("string".toList, "\\A\\string".toList)] ∧
      (MakeIdentifierAbsolute st "string".toList).1 = "string".toList ∧
      (MakeIdentifierAbsolute st "string".toList).1 ≠ "\\A\\string".toList :=
  ⟨((ParseFile false (-1) tokensPrimitiveAlias).get (by decide)).2, by decide⟩

/-- C29 (amended): when a `use` statement imports a name under an alias that is
not yet a key of the alias table, the alias table gets the entry of that alias
with the imported name (leading separator enforced) appended.  From every later
parser state whose alias table still maps the alias to that first name, any
further `use` statement (in particular one that imports a different name under
the same alias) is consumed through its `;` and leaves that entry as it is; a
statement all of whose items have that alias as their key leaves the whole
table unchanged; and afterwards the resolution of the alias by
`MakeIdentifierAbsolute` returns the first name, provided the alias is not one
of the eight primitive type names. -/
theorem C29_first_import_wins (s : PHPSourceFile) (first : UseItem) (semi1 : phpLexerToken)
    (rest1 : Tokens) (init : List (UseItem × phpLexerToken)) (last : UseItem)
    (semi2 : phpLexerToken) (rest2 : Tokens)
    (hfirst : first.wellFormed = true) (hsemi1 : semi1.type = TokType.chr_semi)
    (hnew : aliasFind s.m_aliases first.key = none)
    (hinit : ∀ x ∈ init, x.1.wellFormed = true ∧ x.2.type = TokType.chr_comma)
    (hlast : last.wellFormed = true) (hsemi2 : semi2.type = TokType.chr_semi) :
    ∃ s1 : PHPSourceFile,
      OnUse (first.tokens ++ semi1 :: rest1) s = (rest1, s1) ∧
      s1.m_aliases = s.m_aliases ++ [(first.key, first.value)] ∧
      aliasFind s1.m_aliases first.key = some first.value ∧
      ∀ s2 : PHPSourceFile, aliasFind s2.m_aliases first.key = some first.value →
        ∃ s3 : PHPSourceFile,
          OnUse (useStatementTokens init last semi2 ++ rest2) s2 = (rest2, s3) ∧
          aliasFind s3.m_aliases first.key = some first.value ∧
          ((∀ j ∈ useStatementItems init last, j.key = first.key) →
            s3.m_aliases = s2.m_aliases) ∧
          (isPrimitiveName first.key = false →
            MakeIdentifierAbsolute s3 first.key = (first.value, s3)) := by
  refine ⟨_, OnUse_single first hfirst semi1 hsemi1 rest1 s, ?_, ?_, ?_⟩
  · show aliasInsert s.m_aliases first.key first.value = _
    simp only [aliasInsert, hnew]
  · show aliasFind (aliasInsert s.m_aliases first.key first.value) first.key = _
    exact aliasFind_insert_same _ _ _ hnew
  · intro s2 h2
    obtain ⟨s3, h3, h4, _, _, _⟩ :=
      OnUse_loop_statement init last semi2 rest2 hinit hlast hsemi2 s2
    have hkeep : aliasFind s3.m_aliases first.key = some first.value := by
      rw [h4]
      exact insertItems_keep _ _ _ _ h2
    refine ⟨s3, h3, hkeep, ?_, ?_⟩
    · intro hall
      rw [h4]
      generalize useStatementItems init last = items at hall
      induction items with
      | nil => rfl
      | cons j l ih =>
        rw [insertItems_cons]
        have hj : aliasInsert s2.m_aliases j.key j.value = s2.m_aliases := by
          simp only [aliasInsert, hall j (List.mem_cons_self _ _), h2]
        rw [hj]
        exact ih (fun x hx => hall x (List.mem_cons_of_mem _ hx))
    · intro hp
      exact MakeIdentifierAbsolute_alias s3 first.key first.value
        (UseItem.key_isNameText first hfirst) hp hkeep

theorem C29_first_import_wins_witness :
    (useItemFirstBaz.wellFormed = true ∧
      aliasFind (newSourceFile false).m_aliases useItemFirstBaz.key = none ∧
      useItemSecondBaz.wellFormed = true ∧
      useItemFirstBaz.value = "\\X\\Y".toList ∧
      useItemSecondBaz.value = "\\Foo\\Bar".toList ∧
      useItemSecondBaz.key = useItemFirstBaz.key) ∧
    ∃ s1 : PHPSourceFile,
      OnUse (useItemFirstBaz.tokens ++ mkToken TokType.chr_semi ";" 1 :: [])
        (newSourceFile false) = ([], s1) ∧
      s1.m_aliases = (newSourceFile false).m_aliases ++
        [(useItemFirstBaz.key, useItemFirstBaz.value)] ∧
      aliasFind s1.m_aliases useItemFirstBaz.key = some useItemFirstBaz.value ∧
      ∀ s2 : PHPSourceFile, aliasFind s2.m_aliases useItemFirstBaz.key =
          some useItemFirstBaz.value →
        ∃ s3 : PHPSourceFile,
          OnUse (useStatementTokens [] useItemSecondBaz (mkToken TokType.chr_semi ";" 2) ++ [])
            s2 = ([], s3) ∧
          aliasFind s3.m_aliases useItemFirstBaz.key = some useItemFirstBaz.value ∧
          ((∀ j ∈ useStatementItems [] useItemSecondBaz, j.key = useItemFirstBaz.key) →
            s3.m_aliases = s2.m_aliases) ∧
          (isPrimitiveName useItemFirstBaz.key = false →
            MakeIdentifierAbsolute s3 useItemFirstBaz.key = (useItemFirstBaz.value, s3)) :=
  ⟨⟨by decide, by decide, by decide, by decide, by decide, by decide⟩,
    C29_first_import_wins (newSourceFile false) useItemFirstBaz (mkToken TokType.chr_semi ";" 1)
      [] [] useItemSecondBaz (mkToken TokType.chr_semi ";" 2) [] (by decide) (by decide)
      (by decide) (by decide) (by decide) (by decide)⟩
theorem tokensBefore_cons (delim : TokType) (t : phpLexerToken) (ts : Tokens) :
    tokensBefore delim (t :: ts) = if t.type = delim then [] else t :: tokensBefore delim ts := by
  unfold tokensBefore
  by_cases h : t.type = delim
  · have hb : (t.type != delim) = false := by simpa using h
    simp [List.takeWhile, hb, h]
  · have hb : (t.type != delim) = true := by simpa using h
    simp [List.takeWhile, hb, h]

theorem tokensAfter_cons (delim : TokType) (t : phpLexerToken) (ts : Tokens) :
    tokensAfter delim (t :: ts) = if t.type = delim then ts else tokensAfter delim ts := by
  unfold tokensAfter
  by_cases h : t.type = delim
  · have hb : (t.type != delim) = false := by simpa using h
    simp [List.dropWhile, hb, h]
  · have hb : (t.type != delim) = true := by simpa using h
    simp [List.dropWhile, hb, h]

/-- The loop of `OnNamespace` stops after the first `;` and touches neither the
entities nor the scope stack nor the alias table. -/
theorem OnNamespace_loop_frame (toks : Tokens) (s : PHPSourceFile) (path : WxString) :
    (OnNamespace_loop toks s path).2.1 = tokensAfter TokType.chr_semi toks ∧
    (OnNamespace_loop toks s path).2.2.store = s.store ∧
    (OnNamespace_loop toks s path).2.2.m_scopes = s.m_scopes ∧
    (OnNamespace_loop toks s path).2.2.m_aliases = s.m_aliases ∧
    (OnNamespace_loop toks s path).2.2.m_defines = s.m_defines := by
  induction toks generalizing s path with
  | nil => exact ⟨rfl, rfl, rfl, rfl, rfl⟩
  | cons t ts ih =>
    rw [tokensAfter_cons]
    unfold OnNamespace_loop
    dsimp only
    by_cases h : t.type = TokType.chr_semi
    · rw [if_pos h, if_pos h]
      simp
    · rw [if_neg h, if_neg h]
      obtain ⟨h1, h2, h3, h4, h5⟩ := ih (NextToken_found s t)
        ((if path.isEmpty = true ∧ t.type ≠ TokType.kPHP_T_NS_SEPARATOR then path ++ nsSep
          else path) ++ t.text)
      refine ⟨h1, ?_, ?_, ?_, ?_⟩
      · rw [h2]; simp
      · rw [h3]; simp
      · rw [h4]; simp
      · rw [h5]; simp

/-- Once the path is not empty the loop of `OnNamespace` appends the texts of
the tokens before the `;`. -/
theorem OnNamespace_loop_text (toks : Tokens) (s : PHPSourceFile) (path : WxString)
    (hp : path ≠ []) :
    (OnNamespace_loop toks s path).1 = path ++ tokensText (tokensBefore TokType.chr_semi toks) := by
  induction toks generalizing s path with
  | nil => simp [OnNamespace_loop, tokensBefore, tokensText]
  | cons t ts ih =>
    rw [tokensBefore_cons]
    unfold OnNamespace_loop
    dsimp only
    by_cases h : t.type = TokType.chr_semi
    · rw [if_pos h, if_pos h]
      simp [tokensText]
    · rw [if_neg h, if_neg h]
      have he : path.isEmpty = false := by
        cases path with
        | nil => exact absurd rfl hp
        | cons c r => rfl
      have hne : path ++ t.text ≠ [] := by
        cases path with
        | nil => exact absurd rfl hp
        | cons c r => simp
      simp only [he, Bool.false_eq_true, false_and, if_false]
      rw [ih _ _ hne]
      simp [tokensText]

/-- The path collected by `OnNamespace`, for separator tokens whose text begins
with the separator. -/
theorem OnNamespace_loop_name (toks : Tokens) (s : PHPSourceFile) (hl : lexerOk toks = true) :
    (OnNamespace_loop toks s []).1 = namespacePath (tokensBefore TokType.chr_semi toks) := by
  cases toks with
  | nil => rfl
  | cons t ts =>
    rw [tokensBefore_cons]
    unfold OnNamespace_loop
    dsimp only
    by_cases h : t.type = TokType.chr_semi
    · rw [if_pos h, if_pos h]
      rfl
    · rw [if_neg h, if_neg h]
      by_cases hs : t.type = TokType.kPHP_T_NS_SEPARATOR
      · have htext : t.text ≠ [] := by
          simp only [lexerOk, List.all_cons, Bool.and_eq_true, Bool.or_eq_true, bne_iff_ne] at hl
          rcases hl.1 with h1 | h1
          · exact absurd hs h1
          · intro h0
            rw [h0] at h1
            simp [StartsWith, nsSep] at h1
        have h2 : ¬ (([] : WxString).isEmpty = true ∧ t.type ≠ TokType.kPHP_T_NS_SEPARATOR) :=
          fun hc => hc.2 hs
        rw [if_neg h2, OnNamespace_loop_text _ _ _ (by simpa using htext)]
        simp [namespacePath, hs, tokensText]
      · have h2 : ([] : WxString).isEmpty = true ∧ t.type ≠ TokType.kPHP_T_NS_SEPARATOR :=
          ⟨rfl, hs⟩
        rw [if_pos h2, OnNamespace_loop_text _ _ _ (by simp [nsSep])]
        simp [namespacePath, hs, tokensText]

/-- C23: for every token sequence (separator tokens carrying a text that begins
with the separator), `OnNamespace` consumes the tokens through the first `;`, or
all of them when there is none.  When the scope stack is not empty it leaves the
scope stack, every entity (the name of the namespace included), the alias table
and the list of defines unchanged.  When the scope stack is empty it appends one
namespace entity and pushes it as the only scope; the name of that entity is the
concatenation of the texts of the tokens before the `;`, with a leading
separator added if the first token is not a separator token; the alias table is
unchanged. -/
theorem C23_namespace_statement (toks : Tokens) (s : PHPSourceFile)
    (hl : lexerOk toks = true) :
    (OnNamespace toks s).1 = tokensAfter TokType.chr_semi toks ∧
    (s.m_scopes ≠ [] →
      (OnNamespace toks s).2.m_scopes = s.m_scopes ∧
      (OnNamespace toks s).2.store = s.store ∧
      (OnNamespace toks s).2.m_aliases = s.m_aliases ∧
      (OnNamespace toks s).2.m_defines = s.m_defines) ∧
    (s.m_scopes = [] →
      (OnNamespace toks s).2.store = s.store ++
        [({ kind := EntityKind.kEntityTypeNamespace } : PHPEntity).SetFullName
          (namespacePath (tokensBefore TokType.chr_semi toks))] ∧
      (OnNamespace toks s).2.m_scopes = [s.store.length] ∧
      (entityAt (OnNamespace toks s).2 s.store.length).kind = EntityKind.kEntityTypeNamespace ∧
      (entityAt (OnNamespace toks s).2 s.store.length).fullName =
        namespacePath (tokensBefore TokType.chr_semi toks) ∧
      (OnNamespace toks s).2.m_aliases = s.m_aliases) := by
  obtain ⟨h1, h2, h3, h4, h5⟩ := OnNamespace_loop_frame toks s []
  have h6 := OnNamespace_loop_name toks s hl
  refine ⟨?_, ?_, ?_⟩
  · unfold OnNamespace
    dsimp only
    split_ifs <;> exact h1
  · intro hne
    have he : (OnNamespace_loop toks s []).2.2.m_scopes.isEmpty = false := by
      rw [h3]
      cases hs : s.m_scopes with
      | nil => exact absurd hs hne
      | cons a l => rfl
    unfold OnNamespace
    dsimp only
    rw [if_neg (by rw [he]; decide)]
    exact ⟨h3, h2, h4, h5⟩
  · intro hse
    have he : (OnNamespace_loop toks s []).2.2.m_scopes.isEmpty = true := by
      rw [h3, hse]
      rfl
    unfold OnNamespace
    dsimp only
    rw [if_pos he]
    simp only [h2, h4, h6]
    refine ⟨trivial, trivial, ?_, ?_, trivial⟩
    · simp [entityAt, PHPEntity.SetFullName]
    · simp [entityAt, PHPEntity.SetFullName]

theorem C23_namespace_statement_witness :
    (lexerOk tokensNamespaceName = true ∧
      namespacePath (tokensBefore TokType.chr_semi tokensNamespaceName) = "\\A\\B".toList ∧
      tokensAfter TokType.chr_semi tokensNamespaceName =
        [mkToken TokType.kPHP_T_CLASS "class" 2]) ∧
    (OnNamespace tokensNamespaceName (newSourceFile false)).1 =
      tokensAfter TokType.chr_semi tokensNamespaceName ∧
    ((newSourceFile false).m_scopes ≠ [] →
      (OnNamespace tokensNamespaceName (newSourceFile false)).2.m_scopes =
        (newSourceFile false).m_scopes ∧
      (OnNamespace tokensNamespaceName (newSourceFile false)).2.store =
        (newSourceFile false).store ∧
      (OnNamespace tokensNamespaceName (newSourceFile false)).2.m_aliases =
        (newSourceFile false).m_aliases ∧
      (OnNamespace tokensNamespaceName (newSourceFile false)).2.m_defines =
        (newSourceFile false).m_defines) ∧
    ((newSourceFile false).m_scopes = [] →
      (OnNamespace tokensNamespaceName (newSourceFile false)).2.store =
        (newSourceFile false).store ++
          [({ kind := EntityKind.kEntityTypeNamespace } : PHPEntity).SetFullName
            (namespacePath (tokensBefore TokType.chr_semi tokensNamespaceName))] ∧
      (OnNamespace tokensNamespaceName (newSourceFile false)).2.m_scopes =
        [(newSourceFile false).store.length] ∧
      (entityAt (OnNamespace tokensNamespaceName (newSourceFile false)).2
        (newSourceFile false).store.length).kind = EntityKind.kEntityTypeNamespace ∧
      (entityAt (OnNamespace tokensNamespaceName (newSourceFile false)).2
        (newSourceFile false).store.length).fullName =
        namespacePath (tokensBefore TokType.chr_semi tokensNamespaceName) ∧
      (OnNamespace tokensNamespaceName (newSourceFile false)).2.m_aliases =
        (newSourceFile false).m_aliases) :=
  ⟨⟨by decide, by decide, by decide⟩,
    C23_namespace_statement tokensNamespaceName (newSourceFile false) (by decide)⟩

theorem Namespace_of_scopes (s : PHPSourceFile) (h : s.m_scopes ≠ []) : (Namespace s).2 = s := by
  unfold Namespace
  cases hs : s.m_scopes with
  | nil => exact absurd hs h
  | cons a l => rfl

/-- With a scope on the stack, resolving a name leaves the parser as it is. -/
theorem MakeIdentifierAbsolute_snd (s : PHPSourceFile) (w : WxString) (h : s.m_scopes ≠ []) :
    (MakeIdentifierAbsolute s w).2 = s := by
  rcases MakeIdentifierAbsolute_state s w with h1 | h1
  · exact h1
  · rw [h1, Namespace_of_scopes s h]

/-- The resolution of a name depends on the alias table, the scope stack and
the entities only. -/
theorem MakeIdentifierAbsolute_congr (s s1 : PHPSourceFile) (w : WxString)
    (h1 : s1.m_aliases = s.m_aliases) (h2 : s1.m_scopes = s.m_scopes) (h3 : s1.store = s.store) :
    (MakeIdentifierAbsolute s1 w).1 = (MakeIdentifierAbsolute s w).1 := by
  have hn : (entityAt (Namespace s1).2 (Namespace s1).1).fullName =
      (entityAt (Namespace s).2 (Namespace s).1).fullName := by
    unfold Namespace
    rw [h2]
    cases hs : s.m_scopes with
    | nil =>
      simp only [CurrentScope, h2, hs, List.getLast?_nil, entityAt, h3]
    | cons a l =>
      simp only [entityAt, h3]
  simp only [MakeIdentifierAbsolute, h1]
  by_cases c1 : isPrimitiveName (Trim w) = true
  · simp [c1]
  · by_cases c2 : (Trim w).isEmpty = true
    · simp [c1, c2]
    · by_cases c3 : Contains (Trim w) '\\' = true
      · simp [c1, c2, c3]
      · by_cases c4 : StartsWith (Trim w) nsSep = true
        · simp [c1, c2, c3, c4]
        · simp only [c1, c2, c3, c4, Bool.false_eq_true, if_false]
          cases aliasFind s.m_aliases w with
          | some v => rfl
          | none =>
            simp only
            rw [hn]

theorem readTokens_frame (l : Tokens) (s : PHPSourceFile) :
    (readTokens s l).store = s.store ∧ (readTokens s l).m_scopes = s.m_scopes ∧
    (readTokens s l).m_aliases = s.m_aliases := by
  induction l generalizing s with
  | nil => exact ⟨rfl, rfl, rfl⟩
  | cons t ts ih =>
    rw [readTokens_cons]
    obtain ⟨a, b, c⟩ := ih (NextToken_found s t)
    exact ⟨by rw [a]; simp, by rw [b]; simp, by rw [c]; simp⟩

theorem NextToken_found_cast (s : PHPSourceFile) (t : phpLexerToken) :
    (NextToken_found s t).nullClassCast = s.nullClassCast := by
  unfold NextToken_found; split_ifs <;> rfl

theorem OnUseTrait_loop_comma (clas : Nat) (t : phpLexerToken) (ts : Tokens) (s : PHPSourceFile)
    (identifiers : List WxString) (tempname : WxString) (hc : t.type = TokType.chr_comma) :
    OnUseTrait_loop clas (t :: ts) s identifiers tempname =
      if !tempname.isEmpty then
        OnUseTrait_loop clas ts (MakeIdentifierAbsolute (NextToken_found s t) tempname).2
          (identifiers ++ [(MakeIdentifierAbsolute (NextToken_found s t) tempname).1]) []
      else OnUseTrait_loop clas ts (NextToken_found s t) identifiers [] := by
  obtain ⟨ty, text, line⟩ := t
  simp only at hc
  subst hc
  rfl

theorem OnUseTrait_loop_semi (clas : Nat) (t : phpLexerToken) (ts : Tokens) (s : PHPSourceFile)
    (identifiers : List WxString) (tempname : WxString) (hc : t.type = TokType.chr_semi)
    (hk : (entityAt s clas).kind = EntityKind.kEntityTypeClass) (hs : s.m_scopes ≠ []) :
    OnUseTrait_loop clas (t :: ts) s identifiers tempname =
      (ts, { NextToken_found s t with
        store := storeModify
          (fun e =>
            { e with
              traits :=
                if !tempname.isEmpty then
                  identifiers ++ [(MakeIdentifierAbsolute (NextToken_found s t) tempname).1]
                else identifiers })
          clas s.store }) := by
  have hs1 : (NextToken_found s t).m_scopes ≠ [] := by
    rw [NextToken_found_scopes]; exact hs
  have hk1 : (entityAt (NextToken_found s t) clas).kind = EntityKind.kEntityTypeClass := by
    simp only [entityAt, NextToken_found_store]
    exact hk
  have hm := MakeIdentifierAbsolute_snd (NextToken_found s t) tempname hs1
  obtain ⟨ty, text, line⟩ := t
  simp only at hc
  subst hc
  rw [OnUseTrait_loop]
  dsimp only
  by_cases he : tempname.isEmpty = true
  · simp only [he, Bool.not_true, Bool.false_eq_true, if_false]
    rw [if_pos hk1]
    simp
  · have he1 : tempname.isEmpty = false := by simpa using he
    simp only [he1, Bool.not_false, if_true]
    rw [hm, if_pos hk1]
    simp

theorem OnUseTrait_loop_other (clas : Nat) (t : phpLexerToken) (ts : Tokens) (s : PHPSourceFile)
    (identifiers : List WxString) (tempname : WxString) (hc : t.type ≠ TokType.chr_comma)
    (hs : t.type ≠ TokType.chr_semi) :
    OnUseTrait_loop clas (t :: ts) s identifiers tempname =
      OnUseTrait_loop clas ts (NextToken_found s t) identifiers (tempname ++ t.text) := by
  obtain ⟨ty, text, line⟩ := t
  cases ty <;> first | exact absurd rfl hc | exact absurd rfl hs | rfl

/-- The loop of `OnUseTrait` inside a class: what it leaves when the statement
has its `;` and when the input ends first. -/
theorem OnUseTrait_loop_spec (clas : Nat) (toks : Tokens) (s s0 : PHPSourceFile)
    (identifiers : List WxString) (tempname : WxString)
    (hs : s.m_scopes ≠ []) (hk : (entityAt s clas).kind = EntityKind.kEntityTypeClass)
    (h1 : s.m_aliases = s0.m_aliases) (h2 : s.m_scopes = s0.m_scopes) (h3 : s.store = s0.store) :
    (OnUseTrait_loop clas toks s identifiers tempname).1 = tokensAfter TokType.chr_semi toks ∧
    (OnUseTrait_loop clas toks s identifiers tempname).2.m_scopes = s.m_scopes ∧
    (OnUseTrait_loop clas toks s identifiers tempname).2.m_aliases = s.m_aliases ∧
    (OnUseTrait_loop clas toks s identifiers tempname).2.nullClassCast = s.nullClassCast ∧
    (OnUseTrait_loop clas toks s identifiers tempname).2.store =
      if hasKeyword toks TokType.chr_semi then
        storeModify
          (fun e =>
            { e with
              traits :=
                identifiers ++
                  ((commaSeparatedTexts tempname (tokensBefore TokType.chr_semi toks)).filter
                    (fun w => !w.isEmpty)).map (fun w => (MakeIdentifierAbsolute s0 w).1) })
          clas s.store
      else s.store := by
  induction toks generalizing s identifiers tempname with
  | nil => exact ⟨rfl, rfl, rfl, rfl, rfl⟩
  | cons t ts ih =>
    have hs1 : (NextToken_found s t).m_scopes ≠ [] := by
      rw [NextToken_found_scopes]; exact hs
    have hk1 : (entityAt (NextToken_found s t) clas).kind = EntityKind.kEntityTypeClass := by
      simp only [entityAt, NextToken_found_store]
      exact hk
    have hr : ∀ w, (MakeIdentifierAbsolute (NextToken_found s t) w).1 =
        (MakeIdentifierAbsolute s0 w).1 := fun w =>
      MakeIdentifierAbsolute_congr s0 _ w (by rw [NextToken_found_aliases, h1])
        (by rw [NextToken_found_scopes, h2]) (by rw [NextToken_found_store, h3])
    have hm : ∀ w, (MakeIdentifierAbsolute (NextToken_found s t) w).2 = NextToken_found s t :=
      fun w => MakeIdentifierAbsolute_snd _ w hs1
    have ih1 := fun ids tmp => ih (NextToken_found s t) ids tmp hs1 hk1
      (by rw [NextToken_found_aliases, h1]) (by rw [NextToken_found_scopes, h2])
      (by rw [NextToken_found_store, h3])
    rw [tokensAfter_cons, tokensBefore_cons]
    by_cases hc : t.type = TokType.chr_comma
    · have hne : t.type ≠ TokType.chr_semi := by rw [hc]; decide
      have hkw : hasKeyword (t :: ts) TokType.chr_semi = hasKeyword ts TokType.chr_semi := by
        simp [hasKeyword, hne]
      rw [if_neg hne, if_neg hne, hkw, OnUseTrait_loop_comma clas t ts s _ _ hc]
      simp only [commaSeparatedTexts, hc, if_true]
      by_cases he : tempname.isEmpty = true
      · simp only [he, Bool.not_true, Bool.false_eq_true, if_false]
        obtain ⟨a, b, c, d, e⟩ := ih1 identifiers []
        refine ⟨a, ?_, ?_, ?_, ?_⟩
        · rw [b, NextToken_found_scopes]
        · rw [c, NextToken_found_aliases]
        · rw [d, NextToken_found_cast]
        · rw [e, NextToken_found_store]
          simp [List.filter_cons, he]
      · have he1 : tempname.isEmpty = false := by simpa using he
        simp only [he1, Bool.not_false, if_true]
        rw [hm, hr]
        obtain ⟨a, b, c, d, e⟩ := ih1 (identifiers ++ [(MakeIdentifierAbsolute s0 tempname).1]) []
        refine ⟨a, ?_, ?_, ?_, ?_⟩
        · rw [b, NextToken_found_scopes]
        · rw [c, NextToken_found_aliases]
        · rw [d, NextToken_found_cast]
        · rw [e, NextToken_found_store]
          simp [List.filter_cons, he1]
    · by_cases hsm : t.type = TokType.chr_semi
      · have hkw : hasKeyword (t :: ts) TokType.chr_semi = true := by
          simp [hasKeyword, hsm]
        rw [if_pos hsm, if_pos hsm, hkw, OnUseTrait_loop_semi clas t ts s _ _ hsm hk hs]
        refine ⟨rfl, ?_, ?_, ?_, ?_⟩
        · exact NextToken_found_scopes s t
        · exact NextToken_found_aliases s t
        · exact NextToken_found_cast s t
        · simp only [commaSeparatedTexts, if_true]
          by_cases he : tempname.isEmpty = true
          · simp [List.filter_cons, he]
          · have he1 : tempname.isEmpty = false := by simpa using he
            simp [List.filter_cons, he1, hr]
      · have hkw : hasKeyword (t :: ts) TokType.chr_semi = hasKeyword ts TokType.chr_semi := by
          simp [hasKeyword, hsm]
        rw [if_neg hsm, if_neg hsm, hkw, OnUseTrait_loop_other clas t ts s _ _ hc hsm]
        simp only [commaSeparatedTexts, hc, if_false]
        obtain ⟨a, b, c, d, e⟩ := ih1 identifiers (tempname ++ t.text)
        refine ⟨a, ?_, ?_, ?_, ?_⟩
        · rw [b, NextToken_found_scopes]
        · rw [c, NextToken_found_aliases]
        · rw [d, NextToken_found_cast]
        · rw [e, NextToken_found_store]
/-- C26: for every token sequence read by `OnUseTrait` while the current scope
is a class: the tokens are consumed through the first `;` (all of them when
there is none); when there is a `;`, the traits list of the class becomes the
list of the comma-separated items before the `;`, in source order, empty items
skipped, each resolved by `MakeIdentifierAbsolute`, and nothing else of the
class and no other entity changes; when the input ends before a `;`, the
entities, the traits list of the class included, are left unchanged.  The scope
stack and the alias table are unchanged, and the class cast is never null. -/
theorem C26_use_trait_list (toks : Tokens) (s : PHPSourceFile) (c : Nat)
    (hc : s.m_scopes.getLast? = some c)
    (hk : (entityAt s c).kind = EntityKind.kEntityTypeClass) :
    (OnUseTrait toks s).1 = tokensAfter TokType.chr_semi toks ∧
    (OnUseTrait toks s).2.m_scopes = s.m_scopes ∧
    (OnUseTrait toks s).2.m_aliases = s.m_aliases ∧
    (OnUseTrait toks s).2.nullClassCast = s.nullClassCast ∧
    (hasKeyword toks TokType.chr_semi = true →
      entityAt (OnUseTrait toks s).2 c =
        { entityAt s c with traits := traitNames s (tokensBefore TokType.chr_semi toks) } ∧
      ∀ j, j ≠ c → entityAt (OnUseTrait toks s).2 j = entityAt s j) ∧
    (hasKeyword toks TokType.chr_semi = false → (OnUseTrait toks s).2.store = s.store) := by
  have hne : s.m_scopes ≠ [] := by
    intro h0
    rw [h0] at hc
    cases hc
  have hcs : CurrentScope s = (c, s) := CurrentScope_of_last s c hc
  obtain ⟨a, b, d, e, f⟩ := OnUseTrait_loop_spec c toks s s [] [] hne hk rfl rfl rfl
  have hlt : c < s.store.length := by
    by_contra hge
    have : entityAt s c = { kind := EntityKind.kEntityTypeNamespace } := by
      simp only [entityAt]
      exact List.getD_eq_default _ _ (by omega)
    rw [this] at hk
    cases hk
  unfold OnUseTrait
  rw [hcs]
  dsimp only
  refine ⟨a, b, d, e, ?_, ?_⟩
  · intro hsemi
    rw [hsemi, if_pos rfl] at f
    constructor
    · simp only [entityAt_eq_getElem_opt, f, storeModify_getElem_opt, if_true,
        List.getElem?_eq_getElem hlt, Option.map_some', Option.getD_some, List.nil_append,
        traitNames]
    · intro j hj
      have hcj : ¬ c = j := fun h => hj h.symm
      simp only [entityAt_eq_getElem_opt, f, storeModify_getElem_opt, hcj, if_false]
  · intro hsemi
    rw [hsemi] at f
    exact f

theorem C26_use_trait_list_witness :
    (insideClassState.m_scopes.getLast? = some 1 ∧
      (entityAt insideClassState 1).kind = EntityKind.kEntityTypeClass ∧
      traitNames insideClassState (tokensBefore TokType.chr_semi tokensTraitUse) =
        ["\\A".toList, "\\B\\C".toList] ∧
      hasKeyword tokensTraitUse TokType.chr_semi = true) ∧
    (OnUseTrait tokensTraitUse insideClassState).1 = tokensAfter TokType.chr_semi tokensTraitUse ∧
    (OnUseTrait tokensTraitUse insideClassState).2.m_scopes = insideClassState.m_scopes ∧
    (OnUseTrait tokensTraitUse insideClassState).2.m_aliases = insideClassState.m_aliases ∧
    (OnUseTrait tokensTraitUse insideClassState).2.nullClassCast =
      insideClassState.nullClassCast ∧
    (hasKeyword tokensTraitUse TokType.chr_semi = true →
      entityAt (OnUseTrait tokensTraitUse insideClassState).2 1 =
        { entityAt insideClassState 1 with
          traits := traitNames insideClassState
            (tokensBefore TokType.chr_semi tokensTraitUse) } ∧
      ∀ j, j ≠ 1 → entityAt (OnUseTrait tokensTraitUse insideClassState).2 j =
        entityAt insideClassState j) ∧
    (hasKeyword tokensTraitUse TokType.chr_semi = false →
      (OnUseTrait tokensTraitUse insideClassState).2.store = insideClassState.store) :=
  ⟨⟨by decide, by decide, by decide, by decide⟩,
    C26_use_trait_list tokensTraitUse insideClassState 1 (by decide) (by decide)⟩

theorem parenBalance_append (p q : Tokens) :
    parenBalance (p ++ q) = parenBalance p + parenBalance q := by
  induction p with
  | nil => simp [parenBalance]
  | cons t ts ih => simp [parenBalance, ih, add_assoc]

theorem ParseFunctionSignature_loop_lparen (t : phpLexerToken) (ts : Tokens) (s : PHPSourceFile)
    (depth : Int) (typeHint defaultValue : WxString) (var : Option PHPEntity) (c : Bool)
    (h : t.type = TokType.chr_lparen) :
    ParseFunctionSignature_loop (t :: ts) s depth typeHint defaultValue var c =
      ParseFunctionSignature_loop ts (NextToken_found s t) (depth + 1) typeHint
        (if c then defaultValue ++ ['('] else defaultValue) var c := by
  obtain ⟨ty, text, line⟩ := t
  simp only at h
  subst h
  rfl

theorem ParseFunctionSignature_loop_rparen (t : phpLexerToken) (ts : Tokens) (s : PHPSourceFile)
    (depth : Int) (typeHint defaultValue : WxString) (var : Option PHPEntity) (c : Bool)
    (h : t.type = TokType.chr_rparen) :
    ParseFunctionSignature_loop (t :: ts) s depth typeHint defaultValue var c =
      if depth - 1 < 1 then (ts, attachParameter (NextToken_found s t) var defaultValue)
      else if depth - 1 ≠ 0 then
        ParseFunctionSignature_loop ts (NextToken_found s t) (depth - 1) typeHint
          (defaultValue ++ t.text) var c
      else
        ParseFunctionSignature_loop ts (NextToken_found s t) (depth - 1) typeHint defaultValue
          var c := by
  obtain ⟨ty, text, line⟩ := t
  simp only at h
  subst h
  rfl

theorem ParseFunctionSignature_loop_assign (t : phpLexerToken) (ts : Tokens) (s : PHPSourceFile)
    (depth : Int) (typeHint defaultValue : WxString) (var : Option PHPEntity) (c : Bool)
    (h : t.type = TokType.chr_assign) :
    ParseFunctionSignature_loop (t :: ts) s depth typeHint defaultValue var c =
      ParseFunctionSignature_loop ts (NextToken_found s t) depth typeHint defaultValue var
        true := by
  obtain ⟨ty, text, line⟩ := t
  simp only at h
  subst h
  rfl

theorem ParseFunctionSignature_loop_variable (t : phpLexerToken) (ts : Tokens)
    (s : PHPSourceFile) (depth : Int) (typeHint defaultValue : WxString)
    (var : Option PHPEntity) (c : Bool) (h : t.type = TokType.kPHP_T_VARIABLE) :
    ParseFunctionSignature_loop (t :: ts) s depth typeHint defaultValue var c =
      ParseFunctionSignature_loop ts
        (MakeIdentifierAbsolute (NextToken_found s t)
          (if EndsWith typeHint ['&'] then RemoveLast typeHint else typeHint)).2
        depth (if EndsWith typeHint ['&'] then RemoveLast typeHint else typeHint) defaultValue
        (some
          { (if EndsWith typeHint ['&'] then
              { ({ ({ kind := EntityKind.kEntityTypeVariable } : PHPEntity).SetFullName t.text with
                    line := t.lineNumber } : PHPEntity).SetFlag kVar_FunctionArg true with
                isReference := true }
            else
              ({ ({ kind := EntityKind.kEntityTypeVariable } : PHPEntity).SetFullName t.text with
                line := t.lineNumber } : PHPEntity).SetFlag kVar_FunctionArg true) with
            typeHint := (MakeIdentifierAbsolute (NextToken_found s t)
              (if EndsWith typeHint ['&'] then RemoveLast typeHint else typeHint)).1 })
        c := by
  obtain ⟨ty, text, line⟩ := t
  simp only at h
  subst h
  rfl

theorem ParseFunctionSignature_loop_other (t : phpLexerToken) (ts : Tokens) (s : PHPSourceFile)
    (depth : Int) (typeHint defaultValue : WxString) (var : Option PHPEntity) (c : Bool)
    (h1 : t.type ≠ TokType.kPHP_T_VARIABLE) (h2 : t.type ≠ TokType.chr_lparen)
    (h3 : t.type ≠ TokType.chr_rparen) (h4 : t.type ≠ TokType.chr_assign)
    (h5 : t.type ≠ TokType.chr_comma) :
    ParseFunctionSignature_loop (t :: ts) s depth typeHint defaultValue var c =
      if c then
        ParseFunctionSignature_loop ts (NextToken_found s t) depth typeHint
          (defaultValue ++ t.text) var c
      else
        ParseFunctionSignature_loop ts (NextToken_found s t) depth (typeHint ++ t.text)
          defaultValue var c := by
  obtain ⟨ty, text, line⟩ := t
  cases ty <;>
    first
    | exact absurd rfl h1
    | exact absurd rfl h2
    | exact absurd rfl h3
    | exact absurd rfl h4
    | exact absurd rfl h5
    | rfl

/-- While a default value is collected, tokens other than variables, commas and
`=` are appended verbatim as long as the parenthesis depth stays above zero. -/
theorem ParseFunctionSignature_loop_collect (expr more : Tokens) (s : PHPSourceFile)
    (depth : Int) (typeHint defaultValue : WxString) (var : Option PHPEntity)
    (hexpr : ∀ t ∈ expr, t.type ≠ TokType.kPHP_T_VARIABLE ∧ t.type ≠ TokType.chr_comma ∧
      t.type ≠ TokType.chr_assign)
    (hlp : ∀ t ∈ expr, t.type = TokType.chr_lparen → t.text = ['('])
    (hpre : ∀ p, p <+: expr → 1 ≤ depth + parenBalance p) :
    ParseFunctionSignature_loop (expr ++ more) s depth typeHint defaultValue var true =
      ParseFunctionSignature_loop more (readTokens s expr) (depth + parenBalance expr) typeHint
        (defaultValue ++ tokensText expr) var true := by
  induction expr generalizing s depth defaultValue with
  | nil => simp [parenBalance, tokensText, readTokens]
  | cons t ts ih =>
    obtain ⟨h1, h5, h4⟩ := hexpr t (List.mem_cons_self _ _)
    have hexpr1 : ∀ x ∈ ts, x.type ≠ TokType.kPHP_T_VARIABLE ∧ x.type ≠ TokType.chr_comma ∧
        x.type ≠ TokType.chr_assign := fun x hx => hexpr x (List.mem_cons_of_mem _ hx)
    have hlp1 : ∀ x ∈ ts, x.type = TokType.chr_lparen → x.text = ['('] :=
      fun x hx => hlp x (List.mem_cons_of_mem _ hx)
    have hpre1 : ∀ p, p <+: ts → 1 ≤ depth + parenDelta t + parenBalance p := by
      intro p hp
      have := hpre (t :: p) (List.prefix_cons_inj t |>.mpr hp)
      simp only [parenBalance] at this
      omega
    have hone : 1 ≤ depth + parenDelta t := by
      have := hpre [t] (by simp [List.prefix_cons_inj])
      simp only [parenBalance] at this
      omega
    rw [List.cons_append, readTokens_cons]
    simp only [parenBalance, tokensText]
    by_cases h2 : t.type = TokType.chr_lparen
    · have hd : parenDelta t = 1 := by simp [parenDelta, h2]
      rw [ParseFunctionSignature_loop_lparen t _ s _ _ _ _ _ h2, if_pos rfl]
      rw [hd] at hpre1
      rw [ih _ _ _ hexpr1 hlp1 hpre1, hd, hlp t (List.mem_cons_self _ _) h2]
      simp [add_assoc]
    · by_cases h3 : t.type = TokType.chr_rparen
      · have hd : parenDelta t = -1 := by simp [parenDelta, h3]
        rw [hd] at hone hpre1
        have hA : ¬ depth - 1 < 1 := by omega
        have hB : depth - 1 ≠ 0 := by omega
        rw [ParseFunctionSignature_loop_rparen t _ s _ _ _ _ _ h3, if_neg hA, if_pos hB]
        have hpre2 : ∀ p, p <+: ts → 1 ≤ depth - 1 + parenBalance p := by
          intro p hp
          have := hpre1 p hp
          omega
        rw [ih _ _ _ hexpr1 hlp1 hpre2, hd]
        have : depth - 1 + parenBalance ts = depth + (-1 + parenBalance ts) := by omega
        rw [this]
        simp
      · have hd : parenDelta t = 0 := by simp [parenDelta, h2, h3]
        rw [ParseFunctionSignature_loop_other t _ s _ _ _ _ _ h1 h2 h3 h4 h5, if_pos rfl]
        have hpre2 : ∀ p, p <+: ts → 1 ≤ depth + parenBalance p := by
          intro p hp
          have := hpre1 p hp
          omega
        rw [ih _ _ _ hexpr1 hlp1 hpre2, hd]
        simp
/-- The entity `AddChild` appends, seen through a field other than the list of
children. -/
theorem entityAt_AddChild_new {α : Type} (g : PHPEntity → α)
    (hg : ∀ (e : PHPEntity) (l : List Nat), g { e with children := l } = g e)
    (s : PHPSourceFile) (p : Nat) (e : PHPEntity) :
    g (entityAt (AddChild s p e).2 s.store.length) = g { e with parent := some p } := by
  simp only [entityAt, AddChild]
  rw [storeModify_getD_proj g _ (fun x => hg x _)]
  simp [List.getD_eq_getElem?_getD]

/-- C24: for every parameter `$a = E` that ends a parameter list, where the
default-value expression `E` holds no variable token, no `,` and no `=`, its
parentheses are balanced (nested to any depth) and its opening parentheses carry
the text `(`: the signature loop, taken at the start of the parameter (after the
opening parenthesis of the list or after a comma, with any type hint read so
far), stops right after the `)` that closes the parameter list and attaches one
parameter named `$a` whose default value is the verbatim concatenation of the
texts of the tokens of `E`, every parenthesis included.  The same is stated for
`ParseFunctionSignature` on a list whose only parameter is `$a = E`. -/
theorem C24_default_value_verbatim (lp varTok eqTok rp : phpLexerToken) (expr rest : Tokens)
    (s : PHPSourceFile) (typeHint : WxString) (var0 : Option PHPEntity)
    (hlparen : lp.type = TokType.chr_lparen)
    (hvar : varTok.type = TokType.kPHP_T_VARIABLE) (heq : eqTok.type = TokType.chr_assign)
    (hrp : rp.type = TokType.chr_rparen)
    (hexpr : ∀ t ∈ expr, t.type ≠ TokType.kPHP_T_VARIABLE ∧ t.type ≠ TokType.chr_comma ∧
      t.type ≠ TokType.chr_assign)
    (hlp : ∀ t ∈ expr, t.type = TokType.chr_lparen → t.text = ['('])
    (hbal : parenBalance expr = 0) (hpre : ∀ p, p <+: expr → 0 ≤ parenBalance p) :
    (∃ (v : PHPEntity) (st : PHPSourceFile),
      ParseFunctionSignature_loop (varTok :: eqTok :: (expr ++ rp :: rest)) s 1 typeHint [] var0
        false = (rest, attachParameter st (some v) (tokensText expr)) ∧
      v.kind = EntityKind.kEntityTypeVariable ∧ v.fullName = varTok.text ∧
      (attachParameter st (some v) (tokensText expr)).store.length =
        (CurrentScope st).2.store.length + 1 ∧
      (entityAt (attachParameter st (some v) (tokensText expr))
        (CurrentScope st).2.store.length).fullName = varTok.text ∧
      (entityAt (attachParameter st (some v) (tokensText expr))
        (CurrentScope st).2.store.length).defaultValue = tokensText expr) ∧
    (∃ (v : PHPEntity) (st : PHPSourceFile),
      ParseFunctionSignature 0 (lp :: varTok :: eqTok :: (expr ++ rp :: rest)) s =
        (rest, attachParameter st (some v) (tokensText expr)) ∧
      v.fullName = varTok.text ∧
      (entityAt (attachParameter st (some v) (tokensText expr))
        (CurrentScope st).2.store.length).defaultValue = tokensText expr) := by
  have key : ∀ (s0 : PHPSourceFile) (th : WxString) (v0 : Option PHPEntity),
      ∃ (v : PHPEntity) (st : PHPSourceFile),
        ParseFunctionSignature_loop (varTok :: eqTok :: (expr ++ rp :: rest)) s0 1 th [] v0
          false = (rest, attachParameter st (some v) (tokensText expr)) ∧
        v.kind = EntityKind.kEntityTypeVariable ∧ v.fullName = varTok.text ∧
        (attachParameter st (some v) (tokensText expr)).store.length =
          (CurrentScope st).2.store.length + 1 ∧
        (entityAt (attachParameter st (some v) (tokensText expr))
          (CurrentScope st).2.store.length).fullName = varTok.text ∧
        (entityAt (attachParameter st (some v) (tokensText expr))
          (CurrentScope st).2.store.length).defaultValue = tokensText expr := by
    intro s0 th v0
    have hpre1 : ∀ p, p <+: expr → 1 ≤ (1 : Int) + parenBalance p := by
      intro p hp
      have := hpre p hp
      omega
    rw [ParseFunctionSignature_loop_variable varTok _ s0 _ _ _ _ _ hvar,
      ParseFunctionSignature_loop_assign eqTok _ _ _ _ _ _ _ heq,
      ParseFunctionSignature_loop_collect expr (rp :: rest) _ 1 _ [] _ hexpr hlp hpre1,
      ParseFunctionSignature_loop_rparen rp _ _ _ _ _ _ _ hrp, hbal,
      if_pos (by decide), List.nil_append]
    refine ⟨_, _, rfl, ?_, ?_, ?_, ?_, ?_⟩
    · by_cases hr : EndsWith th ['&'] = true
      · simp only [hr, if_true]
        simp [PHPEntity.SetFlag, PHPEntity.SetFullName]
      · simp only [hr, if_false]
        simp [PHPEntity.SetFlag, PHPEntity.SetFullName]
    · by_cases hr : EndsWith th ['&'] = true
      · simp only [hr, if_true]
        simp [PHPEntity.SetFlag, PHPEntity.SetFullName]
      · simp only [hr, if_false]
        simp [PHPEntity.SetFlag, PHPEntity.SetFullName]
    · simp only [attachParameter]
      rw [AddChild_store_length]
    · simp only [attachParameter]
      rw [entityAt_AddChild_new PHPEntity.fullName (fun _ _ => rfl)]
      by_cases hr : EndsWith th ['&'] = true
      · simp only [hr, if_true]
        simp [PHPEntity.SetFlag, PHPEntity.SetFullName]
      · simp only [hr, if_false]
        simp [PHPEntity.SetFlag, PHPEntity.SetFullName]
    · simp only [attachParameter]
      rw [entityAt_AddChild_new PHPEntity.defaultValue (fun _ _ => rfl)]
  refine ⟨key s typeHint var0, ?_⟩
  obtain ⟨v, st, h1, _, h3, _, _, h6⟩ := key (NextToken_found s lp) [] none
  refine ⟨v, st, ?_, h3, h6⟩
  rw [← h1]
  unfold ParseFunctionSignature
  rw [if_pos rfl]
  unfold ParseFunctionSignature_open
  rw [if_pos hlparen]
theorem C24_default_value_verbatim_witness :
    (tokensText tokensNestedCallDefault = "foo((2+3))".toList ∧
      parenBalance tokensNestedCallDefault = 0 ∧
      (∀ p ∈ tokensNestedCallDefault.inits, 0 ≤ parenBalance p)) ∧
    (∃ (v : PHPEntity) (st : PHPSourceFile),
      ParseFunctionSignature_loop
          (mkToken TokType.kPHP_T_VARIABLE "$a" 1 :: mkToken TokType.chr_assign "=" 1 ::
            (tokensNestedCallDefault ++ mkToken TokType.chr_rparen ")" 1 ::
              [mkToken TokType.chr_lbrace "\x7b" 1]))
          (newSourceFile false) 1 [] [] none false =
        ([mkToken TokType.chr_lbrace "\x7b" 1],
          attachParameter st (some v) (tokensText tokensNestedCallDefault)) ∧
      v.kind = EntityKind.kEntityTypeVariable ∧
      v.fullName = (mkToken TokType.kPHP_T_VARIABLE "$a" 1).text ∧
      (attachParameter st (some v) (tokensText tokensNestedCallDefault)).store.length =
        (CurrentScope st).2.store.length + 1 ∧
      (entityAt (attachParameter st (some v) (tokensText tokensNestedCallDefault))
        (CurrentScope st).2.store.length).fullName =
          (mkToken TokType.kPHP_T_VARIABLE "$a" 1).text ∧
      (entityAt (attachParameter st (some v) (tokensText tokensNestedCallDefault))
        (CurrentScope st).2.store.length).defaultValue = tokensText tokensNestedCallDefault) ∧
    (∃ (v : PHPEntity) (st : PHPSourceFile),
      ParseFunctionSignature 0
          (mkToken TokType.chr_lparen "(" 1 :: mkToken TokType.kPHP_T_VARIABLE "$a" 1 ::
            mkToken TokType.chr_assign "=" 1 ::
            (tokensNestedCallDefault ++ mkToken TokType.chr_rparen ")" 1 ::
              [mkToken TokType.chr_lbrace "\x7b" 1]))
          (newSourceFile false) =
        ([mkToken TokType.chr_lbrace "\x7b" 1],
          attachParameter st (some v) (tokensText tokensNestedCallDefault)) ∧
      v.fullName = (mkToken TokType.kPHP_T_VARIABLE "$a" 1).text ∧
      (entityAt (attachParameter st (some v) (tokensText tokensNestedCallDefault))
        (CurrentScope st).2.store.length).defaultValue = tokensText tokensNestedCallDefault) :=
  ⟨⟨by decide, by decide, by decide⟩,
    C24_default_value_verbatim (mkToken TokType.chr_lparen "(" 1)
      (mkToken TokType.kPHP_T_VARIABLE "$a" 1) (mkToken TokType.chr_assign "=" 1)
      (mkToken TokType.chr_rparen ")" 1) tokensNestedCallDefault
      [mkToken TokType.chr_lbrace "\x7b" 1] (newSourceFile false) [] none rfl rfl rfl rfl
      (by decide) (by decide) (by decide)
      (fun p hp => (by decide : ∀ q ∈ tokensNestedCallDefault.inits, 0 ≤ parenBalance q) p
        ((List.mem_inits _ _).mpr hp))⟩

theorem ConsumeUntil_rest (delim : TokType) (toks : Tokens) (s : PHPSourceFile) :
    (ConsumeUntil delim toks s).2.1 = tokensAfter delim toks := by
  induction toks generalizing s with
  | nil => rfl
  | cons t ts ih =>
    rw [tokensAfter_cons]
    unfold ConsumeUntil
    split_ifs
    · rfl
    · exact ih _

theorem ConsumeUntil_found (delim : TokType) (toks : Tokens) (s : PHPSourceFile) :
    (ConsumeUntil delim toks s).1 = hasKeyword toks delim := by
  induction toks generalizing s with
  | nil => rfl
  | cons t ts ih =>
    unfold ConsumeUntil
    by_cases h : t.type = delim
    · rw [if_pos h]
      simp [hasKeyword, h]
    · rw [if_neg h, ih]
      simp [hasKeyword, h]

theorem CurrentScope_store_le (s : PHPSourceFile) :
    s.store.length ≤ (CurrentScope s).2.store.length := by
  unfold CurrentScope
  cases s.m_scopes.getLast? with
  | some id => exact Nat.le_refl _
  | none => simp

theorem MakeIdentifierAbsolute_store_le (s : PHPSourceFile) (w : WxString) :
    s.store.length ≤ (MakeIdentifierAbsolute s w).2.store.length := by
  rcases MakeIdentifierAbsolute_state s w with h | h
  · rw [h]
  · rw [h]
    unfold Namespace
    cases s.m_scopes with
    | nil => exact CurrentScope_store_le s
    | cons a l => exact Nat.le_refl _

theorem attachParameter_store_le (s : PHPSourceFile) (var : Option PHPEntity) (dv : WxString) :
    s.store.length ≤ (attachParameter s var dv).store.length := by
  cases var with
  | none => exact Nat.le_refl _
  | some v =>
    simp only [attachParameter]
    rw [AddChild_store_length]
    exact Nat.le_succ_of_le (CurrentScope_store_le s)

theorem ParseFunctionSignature_loop_store_le (toks : Tokens) (s : PHPSourceFile) (depth : Int)
    (typeHint defaultValue : WxString) (var : Option PHPEntity) (c : Bool) :
    s.store.length ≤
      (ParseFunctionSignature_loop toks s depth typeHint defaultValue var c).2.store.length := by
  induction toks generalizing s depth typeHint defaultValue var c with
  | nil => exact Nat.le_refl _
  | cons t ts ih =>
    have h0 : s.store.length = (NextToken_found s t).store.length := by
      rw [NextToken_found_store]
    by_cases h1 : t.type = TokType.kPHP_T_VARIABLE
    · rw [ParseFunctionSignature_loop_variable t ts s _ _ _ _ _ h1]
      exact Nat.le_trans (h0 ▸ MakeIdentifierAbsolute_store_le _ _) (ih _ _ _ _ _ _)
    · by_cases h2 : t.type = TokType.chr_lparen
      · rw [ParseFunctionSignature_loop_lparen t ts s _ _ _ _ _ h2]
        exact h0 ▸ ih _ _ _ _ _ _
      · by_cases h3 : t.type = TokType.chr_rparen
        · rw [ParseFunctionSignature_loop_rparen t ts s _ _ _ _ _ h3]
          split_ifs
          · exact h0 ▸ attachParameter_store_le _ _ _
          · exact h0 ▸ ih _ _ _ _ _ _
          · exact h0 ▸ ih _ _ _ _ _ _
        · by_cases h4 : t.type = TokType.chr_assign
          · rw [ParseFunctionSignature_loop_assign t ts s _ _ _ _ _ h4]
            exact h0 ▸ ih _ _ _ _ _ _
          · by_cases h5 : t.type = TokType.chr_comma
            · have hstep : ParseFunctionSignature_loop (t :: ts) s depth typeHint defaultValue
                  var c =
                  ParseFunctionSignature_loop ts
                    (attachParameter (NextToken_found s t) var defaultValue) depth [] [] none
                    false := by
                obtain ⟨ty, text, line⟩ := t
                simp only at h5
                subst h5
                rfl
              rw [hstep]
              exact Nat.le_trans (h0 ▸ attachParameter_store_le _ _ _) (ih _ _ _ _ _ _)
            · rw [ParseFunctionSignature_loop_other t ts s _ _ _ _ _ h1 h2 h3 h4 h5]
              split_ifs
              · exact h0 ▸ ih _ _ _ _ _ _
              · exact h0 ▸ ih _ _ _ _ _ _

theorem ParseFunctionSignature_open_store (toks : Tokens) (s : PHPSourceFile) :
    (ParseFunctionSignature_open toks s).2.2.store = s.store := by
  induction toks generalizing s with
  | nil => rfl
  | cons t ts ih =>
    unfold ParseFunctionSignature_open
    split_ifs
    · exact NextToken_found_store s t
    · rw [ih, NextToken_found_store]

theorem ParseFunctionSignature_store_le (d : Int) (toks : Tokens) (s : PHPSourceFile) :
    s.store.length ≤ (ParseFunctionSignature d toks s).2.store.length := by
  unfold ParseFunctionSignature
  split_ifs
  · have h := ParseFunctionSignature_open_store toks s
    split
    · next b ts s1 heq =>
      rw [heq] at h
      simp only at h
      rw [h]
    · next b ts s1 heq =>
      rw [heq] at h
      simp only at h
      rw [← h]
      exact ParseFunctionSignature_loop_store_le _ _ _ _ _ _ _
  · exact ParseFunctionSignature_loop_store_le _ _ _ _ _ _ _

theorem entityAt_storeModify_self (s : PHPSourceFile) (f : PHPEntity → PHPEntity) (i : Nat)
    (h : i < s.store.length) :
    entityAt { s with store := storeModify f i s.store } i = f (entityAt s i) := by
  simp only [entityAt_eq_getElem_opt, storeModify_getElem_opt, if_true,
    List.getElem?_eq_getElem h, Option.map_some', Option.getD_some]

theorem NextToken_found_lookBack (s : PHPSourceFile) (t : phpLexerToken) :
    (NextToken_found s t).m_lookBackTokens =
      (if t.type = TokType.chr_semi then [] else s.m_lookBackTokens) ++ [t] := by
  unfold NextToken_found
  by_cases h1 : t.type = TokType.kPHP_T_C_COMMENT
  · have : t.type ≠ TokType.chr_semi := by rw [h1]; decide
    simp [h1]
  · by_cases h2 : t.type = TokType.chr_lbrace
    · simp [h2]
    · by_cases h3 : t.type = TokType.chr_rbrace
      · simp [h3]
      · by_cases h4 : t.type = TokType.chr_semi
        · simp [h4]
        · simp [h1, h2, h3, h4]

theorem CurrentScope_lookBack (s : PHPSourceFile) :
    (CurrentScope s).2.m_lookBackTokens = s.m_lookBackTokens := by
  unfold CurrentScope
  cases s.m_scopes.getLast? <;> rfl

theorem MakeIdentifierAbsolute_lookBack (s : PHPSourceFile) (w : WxString) :
    (MakeIdentifierAbsolute s w).2.m_lookBackTokens = s.m_lookBackTokens := by
  rcases MakeIdentifierAbsolute_state s w with h | h
  · rw [h]
  · rw [h]
    unfold Namespace
    cases s.m_scopes with
    | nil => exact CurrentScope_lookBack s
    | cons a l => rfl

theorem attachParameter_lookBack (s : PHPSourceFile) (var : Option PHPEntity) (dv : WxString) :
    (attachParameter s var dv).m_lookBackTokens = s.m_lookBackTokens := by
  cases var with
  | none => rfl
  | some v => exact CurrentScope_lookBack s

theorem readTokens_lookBack (l : Tokens) (s : PHPSourceFile)
    (h : hasKeyword l TokType.chr_semi = false) :
    (readTokens s l).m_lookBackTokens = s.m_lookBackTokens ++ l := by
  induction l generalizing s with
  | nil => simp [readTokens]
  | cons t ts ih =>
    simp only [hasKeyword, List.any_cons, Bool.or_eq_false_iff, beq_eq_false_iff_ne] at h
    rw [readTokens_cons, ih _ (by simpa [hasKeyword] using h.2), NextToken_found_lookBack,
      if_neg h.1]
    simp

/-- The look-back buffer the signature loop leaves is the one left by reading
the tokens it consumed. -/
theorem ParseFunctionSignature_loop_lookBack (toks : Tokens) (s sh : PHPSourceFile)
    (depth : Int) (typeHint defaultValue : WxString) (var : Option PHPEntity) (c : Bool)
    (h : s.m_lookBackTokens = sh.m_lookBackTokens) :
    ∃ consumed,
      consumed ++ (ParseFunctionSignature_loop toks s depth typeHint defaultValue var c).1 =
        toks ∧
      (ParseFunctionSignature_loop toks s depth typeHint defaultValue var c).2.m_lookBackTokens =
        (readTokens sh consumed).m_lookBackTokens := by
  induction toks generalizing s sh depth typeHint defaultValue var c with
  | nil => exact ⟨[], rfl, h⟩
  | cons t ts ih =>
    have h0 : (NextToken_found s t).m_lookBackTokens =
        (NextToken_found sh t).m_lookBackTokens := by
      rw [NextToken_found_lookBack, NextToken_found_lookBack, h]
    have next : ∀ (s1 : PHPSourceFile) (d : Int) (th dv : WxString) (v : Option PHPEntity)
        (b : Bool), s1.m_lookBackTokens = (NextToken_found s t).m_lookBackTokens →
        ∃ consumed, consumed ++ (ParseFunctionSignature_loop ts s1 d th dv v b).1 = t :: ts ∧
          (ParseFunctionSignature_loop ts s1 d th dv v b).2.m_lookBackTokens =
            (readTokens sh consumed).m_lookBackTokens := by
      intro s1 d th dv v b h1
      obtain ⟨cs, hc1, hc2⟩ := ih s1 (NextToken_found sh t) d th dv v b (h1.trans h0)
      exact ⟨t :: cs, by rw [List.cons_append, hc1], by rw [readTokens_cons]; exact hc2⟩
    by_cases h1 : t.type = TokType.kPHP_T_VARIABLE
    · rw [ParseFunctionSignature_loop_variable t ts s _ _ _ _ _ h1]
      exact next _ _ _ _ _ _ (MakeIdentifierAbsolute_lookBack _ _)
    · by_cases h2 : t.type = TokType.chr_lparen
      · rw [ParseFunctionSignature_loop_lparen t ts s _ _ _ _ _ h2]
        exact next _ _ _ _ _ _ rfl
      · by_cases h3 : t.type = TokType.chr_rparen
        · rw [ParseFunctionSignature_loop_rparen t ts s _ _ _ _ _ h3]
          split_ifs
          · refine ⟨[t], rfl, ?_⟩
            rw [readTokens_cons, readTokens_nil]
            exact (attachParameter_lookBack _ _ _).trans h0
          · exact next _ _ _ _ _ _ rfl
          · exact next _ _ _ _ _ _ rfl
        · by_cases h4 : t.type = TokType.chr_assign
          · rw [ParseFunctionSignature_loop_assign t ts s _ _ _ _ _ h4]
            exact next _ _ _ _ _ _ rfl
          · by_cases h5 : t.type = TokType.chr_comma
            · have hstep : ParseFunctionSignature_loop (t :: ts) s depth typeHint defaultValue
                  var c =
                  ParseFunctionSignature_loop ts
                    (attachParameter (NextToken_found s t) var defaultValue) depth [] [] none
                    false := by
                obtain ⟨ty, text, line⟩ := t
                simp only at h5
                subst h5
                rfl
              rw [hstep]
              exact next _ _ _ _ _ _ (attachParameter_lookBack _ _ _)
            · rw [ParseFunctionSignature_loop_other t ts s _ _ _ _ _ h1 h2 h3 h4 h5]
              split_ifs
              · exact next _ _ _ _ _ _ rfl
              · exact next _ _ _ _ _ _ rfl

theorem ParseFunctionSignature_open_lookBack (toks : Tokens) (s sh : PHPSourceFile)
    (h : s.m_lookBackTokens = sh.m_lookBackTokens) :
    ∃ consumed, consumed ++ (ParseFunctionSignature_open toks s).2.1 = toks ∧
      (ParseFunctionSignature_open toks s).2.2.m_lookBackTokens =
        (readTokens sh consumed).m_lookBackTokens := by
  induction toks generalizing s sh with
  | nil => exact ⟨[], rfl, h⟩
  | cons t ts ih =>
    have h0 : (NextToken_found s t).m_lookBackTokens =
        (NextToken_found sh t).m_lookBackTokens := by
      rw [NextToken_found_lookBack, NextToken_found_lookBack, h]
    unfold ParseFunctionSignature_open
    split_ifs
    · refine ⟨[t], rfl, ?_⟩
      rw [readTokens_cons, readTokens_nil]
      exact h0
    · obtain ⟨cs, hc1, hc2⟩ := ih (NextToken_found s t) (NextToken_found sh t) h0
      exact ⟨t :: cs, by rw [List.cons_append, hc1], by rw [readTokens_cons]; exact hc2⟩

theorem ParseFunctionSignature_lookBack (d : Int) (toks : Tokens) (s : PHPSourceFile) :
    ∃ consumed, consumed ++ (ParseFunctionSignature d toks s).1 = toks ∧
      (ParseFunctionSignature d toks s).2.m_lookBackTokens =
        (readTokens s consumed).m_lookBackTokens := by
  unfold ParseFunctionSignature
  split_ifs
  · obtain ⟨cs, hc1, hc2⟩ := ParseFunctionSignature_open_lookBack toks s s rfl
    split
    · next b ts s1 heq =>
      rw [heq] at hc1 hc2
      exact ⟨cs, hc1, hc2⟩
    · next b ts s1 heq =>
      rw [heq] at hc1 hc2
      simp only at hc1 hc2
      obtain ⟨cs2, hd1, hd2⟩ := ParseFunctionSignature_loop_lookBack ts s1 (readTokens s cs) 1
        [] [] none false hc2
      refine ⟨cs ++ cs2, ?_, ?_⟩
      · rw [List.append_assoc, hd1, hc1]
      · rw [hd2, readTokens_append]
  · exact ParseFunctionSignature_loop_lookBack toks s s 1 [] [] none false rfl

/-- A keyword that is in the look-back buffer when the signature is entered is
still there afterwards, unless the signature holds a `;`. -/
theorem OnFunction_signature_keeps_keyword (func : PHPEntity) (funcDepth : Int) (toks : Tokens)
    (s : PHPSourceFile) (type : TokType) (consumed : Tokens)
    (hc : consumed ++ (OnFunction_signature func funcDepth toks s).1 = toks)
    (hsemi : hasKeyword consumed TokType.chr_semi = false)
    (hk : LookBackTokensContains s type = true) :
    LookBackTokensContains (OnFunction_signature func funcDepth toks s).2 type = true := by
  obtain ⟨cs, h1, h2⟩ := ParseFunctionSignature_lookBack funcDepth toks (OnFunction_pushed func s)
  have hcs : cs = consumed := by
    have : cs ++ (OnFunction_signature func funcDepth toks s).1 =
        consumed ++ (OnFunction_signature func funcDepth toks s).1 := by
      rw [hc]
      exact h1
    exact List.append_cancel_right this
  subst hcs
  have h3 : (OnFunction_pushed func s).m_lookBackTokens = s.m_lookBackTokens :=
    CurrentScope_lookBack s
  unfold LookBackTokensContains OnFunction_signature
  rw [h2, readTokens_lookBack _ _ hsemi, h3, List.any_append]
  unfold LookBackTokensContains at hk
  rw [hk]
  rfl

/-- The routine `OnFunction_body` in terms of its parts. -/
theorem OnFunction_body_eq (fuel : Nat) (func : PHPEntity) (funcDepth : Int) (toks : Tokens)
    (s : PHPSourceFile) :
    OnFunction_body fuel func funcDepth toks s =
      match
        (if HasFlag (OnFunction_flags func funcDepth toks s) kFunc_Abstract then
          match ConsumeUntil TokType.chr_semi (OnFunction_signature func funcDepth toks s).1
              { (OnFunction_signature func funcDepth toks s).2 with
                store := storeModify
                  (fun e => { e with flags := OnFunction_flags func funcDepth toks s })
                  (CurrentScope s).2.store.length
                  (OnFunction_signature func funcDepth toks s).2.store } with
          | (false, ts, s1) => some (ts, popScope s1)
          | (true, ts, s1) => some (ts, s1)
        else
          match ReadUntilFound TokType.chr_lbrace (OnFunction_signature func funcDepth toks s).1
              { (OnFunction_signature func funcDepth toks s).2 with
                store := storeModify
                  (fun e => { e with flags := OnFunction_flags func funcDepth toks s })
                  (CurrentScope s).2.store.length
                  (OnFunction_signature func funcDepth toks s).2.store } with
          | (some _, ts, s1) =>
            if s1.m_parseFunctionBody then ParseFunctionBody fuel ts s1
            else some (ConsumeFunctionBody ts s1)
          | (none, ts, s1) => some (ts, popScope s1) :
          Option (Tokens × PHPSourceFile)) with
      | none => none
      | some (ts, s1) =>
        some (ts, { (if !s1.m_reachedEOF then popScope s1 else s1) with
          m_lookBackTokens := [] }) := rfl

theorem OnFunction_signature_store_lt (func : PHPEntity) (funcDepth : Int) (toks : Tokens)
    (s : PHPSourceFile) :
    (CurrentScope s).2.store.length <
      (OnFunction_signature func funcDepth toks s).2.store.length := by
  have h := ParseFunctionSignature_store_le funcDepth toks (OnFunction_pushed func s)
  have h1 : (OnFunction_pushed func s).store.length = (CurrentScope s).2.store.length + 1 :=
    AddChild_store_length _ _ _
  unfold OnFunction_signature
  omega

/-- C21: for every function entity handled by `OnFunction` (the part of the
routine after the entity was created, for a named and for an anonymous
function): the flags stored in the entity have the abstract bit exactly when,
after the signature was read, the look-back buffer holds the keyword `abstract`
or the parent of the function is a class marked as interface; so a function
directly inside an interface is abstract whatever its modifiers, and so is one
whose look-back buffer held `abstract` when the signature was entered, the
signature holding no `;`.  An abstract
function is consumed through the next `;` after its signature and no further:
the unread tokens are those after that `;`, no body is entered, so that the
entities are those present after the signature with the flags of the function
written, and the function entity carries the abstract bit on return. -/
theorem C21_abstract_functions (fuel : Nat) (func : PHPEntity) (funcDepth : Int)
    (toks : Tokens) (s : PHPSourceFile) :
    HasFlag (OnFunction_flags func funcDepth toks s) kFunc_Abstract =
      OnFunction_isAbstract func funcDepth toks s ∧
    (LookBackTokensContains (OnFunction_signature func funcDepth toks s).2
        TokType.kPHP_T_ABSTRACT = true → OnFunction_isAbstract func funcDepth toks s = true) ∧
    (OnFunction_inInterface func funcDepth toks s = true →
      OnFunction_isAbstract func funcDepth toks s = true) ∧
    (∀ consumed : Tokens,
      consumed ++ (OnFunction_signature func funcDepth toks s).1 = toks →
      hasKeyword consumed TokType.chr_semi = false →
      LookBackTokensContains s TokType.kPHP_T_ABSTRACT = true →
      OnFunction_isAbstract func funcDepth toks s = true) ∧
    (OnFunction_isAbstract func funcDepth toks s = true →
      ∃ s1 : PHPSourceFile,
        OnFunction_body fuel func funcDepth toks s =
          some (tokensAfter TokType.chr_semi (OnFunction_signature func funcDepth toks s).1,
            s1) ∧
        s1.store = storeModify
          (fun e => { e with flags := OnFunction_flags func funcDepth toks s })
          (CurrentScope s).2.store.length
          (OnFunction_signature func funcDepth toks s).2.store ∧
        s1.store.length = (OnFunction_signature func funcDepth toks s).2.store.length ∧
        (entityAt s1 (CurrentScope s).2.store.length).flags =
          OnFunction_flags func funcDepth toks s ∧
        HasFlag (entityAt s1 (CurrentScope s).2.store.length).flags kFunc_Abstract = true) ∧
    (∀ tok : phpLexerToken, tok.type = TokType.kPHP_T_IDENTIFIER →
      OnFunction fuel (tok :: toks) s =
        OnFunction_body fuel
          { ({ kind := EntityKind.kEntityTypeFunction } : PHPEntity).SetFullName tok.text with
            line := tok.lineNumber } 0 toks (NextToken_found s tok)) ∧
    (∀ tok : phpLexerToken, tok.type = TokType.chr_lparen →
      OnFunction fuel (tok :: toks) s =
        OnFunction_body fuel
          { ({ kind := EntityKind.kEntityTypeFunction } : PHPEntity) with
            line := tok.lineNumber } 1 toks (NextToken_found s tok)) := by
  have hbit : HasFlag (OnFunction_flags func funcDepth toks s) kFunc_Abstract =
      OnFunction_isAbstract func funcDepth toks s := by
    obtain ⟨hlt, ha, _⟩ :=
      functionFlags_fold (OnFunction_signature func funcDepth toks s).2.m_lookBackTokens
    unfold OnFunction_flags
    cases hab : OnFunction_isAbstract func funcDepth toks s with
    | true =>
      rw [if_pos rfl]
      exact (functionFlag_bits _ hlt).1.2.1
    | false =>
      rw [if_neg (by decide)]
      simp only [OnFunction_isAbstract, Bool.or_eq_false_iff] at hab
      unfold LookBackForFunctionFlags
      rw [ha]
      exact hab.1
  refine ⟨hbit, ?_, ?_, ?_, ?_, ?_, ?_⟩
  · intro h
    simp only [OnFunction_isAbstract, h, Bool.true_or]
  · intro h
    simp only [OnFunction_isAbstract, h, Bool.or_true]
  · intro consumed hc hsemi hk
    simp only [OnFunction_isAbstract,
      OnFunction_signature_keeps_keyword func funcDepth toks s _ consumed hc hsemi hk,
      Bool.true_or]
  · intro hab
    have hflag : HasFlag (OnFunction_flags func funcDepth toks s) kFunc_Abstract = true := by
      rw [hbit]; exact hab
    have hfr := ConsumeUntil_frame TokType.chr_semi
      (OnFunction_signature func funcDepth toks s).1
      { (OnFunction_signature func funcDepth toks s).2 with
        store := storeModify
          (fun e => { e with flags := OnFunction_flags func funcDepth toks s })
          (CurrentScope s).2.store.length
          (OnFunction_signature func funcDepth toks s).2.store }
    have hrest := ConsumeUntil_rest TokType.chr_semi
      (OnFunction_signature func funcDepth toks s).1
      { (OnFunction_signature func funcDepth toks s).2 with
        store := storeModify
          (fun e => { e with flags := OnFunction_flags func funcDepth toks s })
          (CurrentScope s).2.store.length
          (OnFunction_signature func funcDepth toks s).2.store }
    have hlt := OnFunction_signature_store_lt func funcDepth toks s
    have hent : ∀ s1 : PHPSourceFile,
        s1.store = storeModify
          (fun e => { e with flags := OnFunction_flags func funcDepth toks s })
          (CurrentScope s).2.store.length
          (OnFunction_signature func funcDepth toks s).2.store →
        (entityAt s1 (CurrentScope s).2.store.length).flags =
          OnFunction_flags func funcDepth toks s := by
      intro s1 h1
      have := entityAt_storeModify_self (OnFunction_signature func funcDepth toks s).2
        (fun e => { e with flags := OnFunction_flags func funcDepth toks s }) _ hlt
      have h2 : entityAt s1 (CurrentScope s).2.store.length =
          entityAt { (OnFunction_signature func funcDepth toks s).2 with
            store := storeModify
              (fun e => { e with flags := OnFunction_flags func funcDepth toks s })
              (CurrentScope s).2.store.length
              (OnFunction_signature func funcDepth toks s).2.store }
            (CurrentScope s).2.store.length := by
        simp only [entityAt, h1]
      rw [h2, this]
    rw [OnFunction_body_eq, if_pos hflag]
    generalize ConsumeUntil TokType.chr_semi (OnFunction_signature func funcDepth toks s).1
      { (OnFunction_signature func funcDepth toks s).2 with
        store := storeModify
          (fun e => { e with flags := OnFunction_flags func funcDepth toks s })
          (CurrentScope s).2.store.length
          (OnFunction_signature func funcDepth toks s).2.store } = r at hfr hrest
    obtain ⟨b, ts, s1⟩ := r
    simp only at hfr hrest
    have hst := hfr.1
    subst hrest
    have hfin : ∀ s2 : PHPSourceFile, s2.store = s1.store →
        ({ (if !s2.m_reachedEOF then popScope s2 else s2) with
          m_lookBackTokens := [] } : PHPSourceFile).store = storeModify
          (fun e => { e with flags := OnFunction_flags func funcDepth toks s })
          (CurrentScope s).2.store.length
          (OnFunction_signature func funcDepth toks s).2.store := by
      intro s2 h2
      rw [← hst, ← h2]
      cases s2.m_reachedEOF <;> rfl
    cases b with
    | false =>
      refine ⟨_, rfl, hfin (popScope s1) rfl, ?_, hent _ (hfin (popScope s1) rfl), ?_⟩
      · rw [hfin (popScope s1) rfl, storeModify_length]
      · rw [hent _ (hfin (popScope s1) rfl)]
        exact hflag
    | true =>
      refine ⟨_, rfl, hfin s1 rfl, ?_, hent _ (hfin s1 rfl), ?_⟩
      · rw [hfin s1 rfl, storeModify_length]
      · rw [hent _ (hfin s1 rfl)]
        exact hflag
  · intro tok h
    unfold OnFunction
    dsimp only
    rw [if_pos h]
  · intro tok h
    have hne : tok.type ≠ TokType.kPHP_T_IDENTIFIER := by rw [h]; decide
    unfold OnFunction
    dsimp only
    rw [if_neg hne, if_pos h]

theorem C21_abstract_functions_witness :
    OnFunction_inInterface interfaceMethod 0 tokensInterfaceMethod insideInterfaceState = true ∧
    OnFunction_isAbstract interfaceMethod 0 tokensInterfaceMethod insideInterfaceState = true ∧
    (([] : Tokens) ++ tokensInterfaceMethod = tokensInterfaceMethod ∧
      LookBackTokensContains abstractMethodState TokType.kPHP_T_ABSTRACT = true) ∧
    OnFunction_isAbstract interfaceMethod 0 tokensInterfaceMethod abstractMethodState = true ∧
    ∃ s1 : PHPSourceFile,
      OnFunction_body 1 interfaceMethod 0 tokensInterfaceMethod insideInterfaceState =
        some (tokensAfter TokType.chr_semi
          (OnFunction_signature interfaceMethod 0 tokensInterfaceMethod insideInterfaceState).1,
          s1) ∧
      s1.store = storeModify
        (fun e =>
          { e with
            flags :=
              OnFunction_flags interfaceMethod 0 tokensInterfaceMethod insideInterfaceState })
        (CurrentScope insideInterfaceState).2.store.length
        (OnFunction_signature interfaceMethod 0 tokensInterfaceMethod
          insideInterfaceState).2.store ∧
      s1.store.length =
        (OnFunction_signature interfaceMethod 0 tokensInterfaceMethod
          insideInterfaceState).2.store.length ∧
      (entityAt s1 (CurrentScope insideInterfaceState).2.store.length).flags =
        OnFunction_flags interfaceMethod 0 tokensInterfaceMethod insideInterfaceState ∧
      HasFlag (entityAt s1 (CurrentScope insideInterfaceState).2.store.length).flags
        kFunc_Abstract = true :=
  ⟨by decide,
    (C21_abstract_functions 1 interfaceMethod 0 tokensInterfaceMethod
      insideInterfaceState).2.2.1 (by decide),
    ⟨rfl, by decide⟩,
    (C21_abstract_functions 1 interfaceMethod 0 tokensInterfaceMethod
      abstractMethodState).2.2.2.1 [mkToken TokType.chr_lparen "(" 4,
        mkToken TokType.chr_rparen ")" 4] (by decide) (by decide) (by decide),
    (C21_abstract_functions 1 interfaceMethod 0 tokensInterfaceMethod
      insideInterfaceState).2.2.2.2.1 (by decide)⟩

set_option maxHeartbeats 4000000 in
/-- The loop of `Parse` is its rounds, one after the other. -/
theorem Parse_unfold (fuel : Nat) (retDepth : Int) (t : phpLexerToken) (ts : Tokens)
    (s : PHPSourceFile) :
    Parse (fuel + 1) retDepth (t :: ts) s =
      (Parse_round fuel retDepth t ts s).continue_ fuel retDepth := by
  have hvis : ∀ (v : TokType) (s0 : PHPSourceFile),
      (if (entityAt (CurrentScope s0).2 (CurrentScope s0).1).kind =
          EntityKind.kEntityTypeClass then
        match ReadUntilFoundOneOf TokType.kPHP_T_VARIABLE TokType.kPHP_T_FUNCTION ts
            { (CurrentScope s0).2 with
              m_lookBackTokens := (CurrentScope s0).2.m_lookBackTokens ++ [t] } with
        | (some (what, tk), ts1, s2) =>
          if what = TokType.kPHP_T_VARIABLE then
            match ConsumeUntil TokType.chr_semi ts1
                (AddChild (CurrentScope s2).2 (CurrentScope s2).1 (memberVariable s2 v tk)).2 with
            | (false, ts2, s3) => some (ts2, s3)
            | (true, ts2, s3) => Parse fuel retDepth ts2 s3
          else
            match OnFunction fuel ts1 s2 with
            | none => none
            | some (ts2, s3) => Parse fuel retDepth ts2 { s3 with m_lookBackTokens := [] }
        | (none, ts1, s2) => Parse fuel retDepth ts1 s2
      else Parse fuel retDepth ts (CurrentScope s0).2) =
      Round.continue_ fuel retDepth
        (if (entityAt (CurrentScope s0).2 (CurrentScope s0).1).kind =
            EntityKind.kEntityTypeClass then
          match ReadUntilFoundOneOf TokType.kPHP_T_VARIABLE TokType.kPHP_T_FUNCTION ts
              { (CurrentScope s0).2 with
                m_lookBackTokens := (CurrentScope s0).2.m_lookBackTokens ++ [t] } with
          | (some (what, tk), ts1, s2) =>
            if what = TokType.kPHP_T_VARIABLE then
              match ConsumeUntil TokType.chr_semi ts1
                  (AddChild (CurrentScope s2).2 (CurrentScope s2).1 (memberVariable s2 v tk)).2 with
              | (false, ts2, s3) => Round.stop (some (ts2, s3))
              | (true, ts2, s3) => Round.next ts2 s3
            else
              match OnFunction fuel ts1 s2 with
              | none => Round.stop none
              | some (ts2, s3) => Round.next ts2 { s3 with m_lookBackTokens := [] }
          | (none, ts1, s2) => Round.next ts1 s2
        else Round.next ts (CurrentScope s0).2) := by
    intro v s0
    split_ifs
    · generalize ReadUntilFoundOneOf _ _ _ _ = r
      obtain ⟨_ | ⟨what, tk⟩, ts1, s2⟩ := r
      · rfl
      · dsimp only
        split_ifs
        · generalize ConsumeUntil _ _ _ = r2
          obtain ⟨_ | _, ts2, s3⟩ := r2 <;> rfl
        · generalize OnFunction _ _ _ = r2
          obtain _ | ⟨ts2, s3⟩ := r2 <;> rfl
    · rfl
  have hcls : ∀ s0 : PHPSourceFile,
      (match OnClass (Parse fuel) fuel t ts s0 with
        | none => none
        | some (ts1, s1) => Parse fuel retDepth ts1 { s1 with m_lookBackTokens := [] }) =
      Round.continue_ fuel retDepth
        (match OnClass (Parse fuel) fuel t ts s0 with
          | none => Round.stop none
          | some (ts1, s1) => Round.next ts1 { s1 with m_lookBackTokens := [] }) := by
    intro s0
    generalize OnClass _ _ _ _ _ = r
    obtain _ | ⟨ts2, s3⟩ := r <;> rfl
  unfold Parse Parse_round
  dsimp only
  split
  case h_21 => rfl
  case h_1 heq =>
    try simp only [heq]
    rfl
  case h_2 heq =>
    try simp only [heq]
    rfl
  case h_3 heq =>
    try simp only [heq]
    split_ifs <;> rfl
  case h_4 heq =>
    try simp only [heq]
    rfl
  case h_5 heq =>
    try simp only [heq]
    split_ifs <;> rfl
  case h_6 heq =>
    try simp only [heq]
    exact hvis _ _
  case h_7 heq =>
    try simp only [heq]
    exact hvis _ _
  case h_8 heq =>
    try simp only [heq]
    exact hvis _ _
  case h_9 heq =>
    try simp only [heq]
    rfl
  case h_10 heq =>
    try simp only [heq]
    generalize ReadUntilFound _ _ _ = r
    obtain ⟨_ | tk, ts1, s1⟩ := r
    · rfl
    · dsimp only
      generalize ConsumeUntil _ _ _ = r2
      obtain ⟨_ | _, ts2, s3⟩ := r2 <;> rfl
  case h_11 heq =>
    try simp only [heq]
    rfl
  case h_12 heq =>
    try simp only [heq]
    rfl
  case h_13 heq =>
    try simp only [heq]
    rfl
  case h_14 heq =>
    try simp only [heq]
    rfl
  case h_15 heq =>
    try simp only [heq]
    rfl
  case h_16 heq =>
    try simp only [heq]
    exact hcls _
  case h_17 heq =>
    try simp only [heq]
    exact hcls _
  case h_18 heq =>
    try simp only [heq]
    exact hcls _
  case h_19 heq =>
    try simp only [heq]
    rfl
  case h_20 heq =>
    try simp only [heq]
    generalize OnFunction _ _ _ = r
    obtain _ | ⟨ts2, s3⟩ := r <;> rfl

theorem RoundOutcome_consume {d : Int} {t : phpLexerToken} {ts ts1 ts2 : Tokens}
    {s s2 s3 : PHPSourceFile}
    (e : PHPEntity) (hk : e.kind ≠ EntityKind.kEntityTypeNamespace) (hc : e.children = [])
    (h : Run ts (NextToken_found s t) ts1 s2)
    (heq : ConsumeUntil TokType.chr_semi ts1
      (AddChild (CurrentScope s2).2 (CurrentScope s2).1 e).2 = (false, ts2, s3)) :
    RoundOutcome d t ts s (Round.stop (some (ts2, s3))) := by
  have hrun := Run.trans (Run.then_tweak h (Tweak.addChild s2 e hk hc)) (ConsumeUntil_eq_run heq)
  have hnil : ts2 = [] := by
    have := ConsumeUntil_false_nil TokType.chr_semi ts1 _ (by rw [heq])
    rw [heq] at this
    exact this
  have hsc : s3.m_scopes ≠ [] := by
    have := (ConsumeUntil_frame TokType.chr_semi ts1
      (AddChild (CurrentScope s2).2 (CurrentScope s2).1 e).2).2.1
    rw [heq] at this
    simp only at this
    rw [this, AddChild_scopes]
    exact CurrentScope_scopes_ne_nil s2
  exact ⟨hrun, Or.inr ⟨hnil, ConsumeUntil_eq_false_eof heq, hsc⟩⟩

/-- The branch of a round for a visibility keyword. -/
theorem Parse_round_visibility (fuel : Nat) (retDepth : Int) (t : phpLexerToken) (ts : Tokens)
    (s : PHPSourceFile) (v : TokType) :
    RoundOutcome retDepth t ts s
      (if (entityAt (CurrentScope (NextToken_found s t)).2
          (CurrentScope (NextToken_found s t)).1).kind = EntityKind.kEntityTypeClass then
        match ReadUntilFoundOneOf TokType.kPHP_T_VARIABLE TokType.kPHP_T_FUNCTION ts
            { (CurrentScope (NextToken_found s t)).2 with
              m_lookBackTokens :=
                (CurrentScope (NextToken_found s t)).2.m_lookBackTokens ++ [t] } with
        | (some (what, tk), ts1, s2) =>
          if what = TokType.kPHP_T_VARIABLE then
            match ConsumeUntil TokType.chr_semi ts1
                (AddChild (CurrentScope s2).2 (CurrentScope s2).1 (memberVariable s2 v tk)).2 with
            | (false, ts2, s3) => Round.stop (some (ts2, s3))
            | (true, ts2, s3) => Round.next ts2 s3
          else
            match OnFunction fuel ts1 s2 with
            | none => Round.stop none
            | some (ts2, s3) => Round.next ts2 { s3 with m_lookBackTokens := [] }
        | (none, ts1, s2) => Round.next ts1 s2
      else Round.next ts (CurrentScope (NextToken_found s t)).2) := by
  have h0 : Run ts (NextToken_found s t) ts { (CurrentScope (NextToken_found s t)).2 with
      m_lookBackTokens := (CurrentScope (NextToken_found s t)).2.m_lookBackTokens ++ [t] } :=
    Run.tweak ts (Tweak.trans (Tweak.currentScope _) (Tweak.lookBack _ _))
  split_ifs
  · split
    · next what tk ts1 s2 heq =>
      have h := Run.trans h0 (ReadUntilFoundOneOf_eq_run heq)
      split_ifs
      · split
        · next heq2 =>
          exact RoundOutcome_consume _ (memberVariable_kind _ _ _).1 (memberVariable_kind _ _ _).2
            h heq2
        · next heq2 =>
          exact Run.trans (Run.then_tweak h
            (Tweak.addChild s2 _ (memberVariable_kind _ _ _).1 (memberVariable_kind _ _ _).2))
            (ConsumeUntil_eq_run heq2)
      · split
        · exact True.intro
        · next ts2 s3 heq2 =>
          have h2 := OnFunction_run _ _ _ ts2 s3 heq2
          exact Run.then_tweak (Run.trans h h2) (Tweak.lookBack _ [])
    · next ts1 s2 heq =>
      exact Run.trans h0 (ReadUntilFoundOneOf_eq_run heq)
  · exact Run.tweak ts (Tweak.currentScope _)

/-- The branch of a round for a class, interface or trait keyword. -/
theorem Parse_round_class (fuel : Nat) (retDepth : Int) (t : phpLexerToken) (ts : Tokens)
    (s : PHPSourceFile) :
    RoundOutcome retDepth t ts s
      (match OnClass (Parse fuel) fuel t ts (NextToken_found s t) with
       | none => Round.stop none
       | some (ts1, s1) => Round.next ts1 { s1 with m_lookBackTokens := [] }) := by
  split
  · exact True.intro
  · next ts1 s1 heq =>
    have h := OnClass_run (Parse fuel) (fun d toks s => (Parse_outcome fuel d toks s).runsTo)
      fuel t ts _ ts1 s1 heq
    exact Run.then_tweak h (Tweak.lookBack _ [])

/-- Every round of the statement loop is a run; a round that returns does so
right after a closing brace that brought the depth to the exit depth, or at the
end of input. -/
theorem Parse_round_outcome (fuel : Nat) (retDepth : Int) (t : phpLexerToken) (ts : Tokens)
    (s : PHPSourceFile) : RoundOutcome retDepth t ts s (Parse_round fuel retDepth t ts s) := by
  have hlb : Run ts (NextToken_found s t) ts
      { NextToken_found s t with m_lookBackTokens := [] } :=
    Run.tweak ts (Tweak.lookBack _ [])
  have hrd : Run ts (NextToken_found s t) ts (NextToken_found s t) := Run.stay _ _
  unfold Parse_round
  dsimp only
  split
  · exact hlb
  · exact hlb
  · next hty =>
    split_ifs with hd
    · exact ⟨hlb, Or.inl ⟨hty, rfl, rfl, hd⟩⟩
    · exact hlb
  · exact hlb
  · split_ifs
    · exact Run.trans (Run.then_tweak hrd (Tweak.currentScope _)) (OnVariable_run t ts _)
    · exact Run.then_tweak hrd (Tweak.currentScope _)
  · exact Parse_round_visibility fuel retDepth t ts s _
  · exact Parse_round_visibility fuel retDepth t ts s _
  · exact Parse_round_visibility fuel retDepth t ts s _
  · exact Run.trans hrd (OnDefine_run t ts _)
  · split
    · next tk ts1 s1 heq =>
      have h := Run.trans hrd (ReadUntilFound_eq_run heq)
      split
      · next heq2 =>
        exact RoundOutcome_consume _ (constVariable_kind _).1 (constVariable_kind _).2 h heq2
      · next heq2 =>
        exact Run.trans (Run.then_tweak h
          (Tweak.addChild s1 _ (constVariable_kind _).1 (constVariable_kind _).2))
          (ConsumeUntil_eq_run heq2)
    · next ts1 s1 heq =>
      exact Run.trans hrd (ReadUntilFound_eq_run heq)
  · exact hlb
  · exact hlb
  · exact hlb
  · exact hlb
  · have h : Run ts (NextToken_found s t)
        (if (Class (NextToken_found s t)).1 = true
          then OnUseTrait ts (Class (NextToken_found s t)).2
          else OnUse ts (Class (NextToken_found s t)).2).1
        (if (Class (NextToken_found s t)).1 = true
          then OnUseTrait ts (Class (NextToken_found s t)).2
          else OnUse ts (Class (NextToken_found s t)).2).2 := by
      split_ifs
      · exact Run.trans (Run.tweak ts (Tweak.class_ _)) (OnUseTrait_run _ _)
      · exact Run.trans (Run.tweak ts (Tweak.class_ _)) (OnUse_run _ _)
    exact Run.then_tweak (Run.trans hrd h) (Tweak.lookBack _ [])
  · exact Parse_round_class fuel retDepth t ts s
  · exact Parse_round_class fuel retDepth t ts s
  · exact Parse_round_class fuel retDepth t ts s
  · exact Run.then_tweak (Run.trans hrd (OnNamespace_run ts _)) (Tweak.lookBack _ [])
  · split
    · exact True.intro
    · next ts1 s1 heq =>
      have h := OnFunction_run _ _ _ ts1 s1 heq
      exact Run.then_tweak (Run.trans hrd h) (Tweak.lookBack _ [])
  · exact hrd

/-- A round never runs out of rounds of a nested loop when it is allowed more
of them than there are unread tokens. -/
theorem Parse_round_total (fuel : Nat) (retDepth : Int) (t : phpLexerToken) (ts : Tokens)
    (s : PHPSourceFile) (h : ts.length < fuel) :
    Parse_round fuel retDepth t ts s ≠ Round.stop none := by
  have hvis : ∀ (v : TokType) (s0 : PHPSourceFile),
      (if (entityAt (CurrentScope s0).2 (CurrentScope s0).1).kind =
          EntityKind.kEntityTypeClass then
        match ReadUntilFoundOneOf TokType.kPHP_T_VARIABLE TokType.kPHP_T_FUNCTION ts
            { (CurrentScope s0).2 with
              m_lookBackTokens := (CurrentScope s0).2.m_lookBackTokens ++ [t] } with
        | (some (what, tk), ts1, s2) =>
          if what = TokType.kPHP_T_VARIABLE then
            match ConsumeUntil TokType.chr_semi ts1
                (AddChild (CurrentScope s2).2 (CurrentScope s2).1 (memberVariable s2 v tk)).2 with
            | (false, ts2, s3) => Round.stop (some (ts2, s3))
            | (true, ts2, s3) => Round.next ts2 s3
          else
            match OnFunction fuel ts1 s2 with
            | none => Round.stop none
            | some (ts2, s3) => Round.next ts2 { s3 with m_lookBackTokens := [] }
        | (none, ts1, s2) => Round.next ts1 s2
      else Round.next ts (CurrentScope s0).2) ≠ Round.stop none := by
    intro v s0
    split_ifs
    · split
      · next what tk ts1 s2 heq =>
        have hl := (ReadUntilFoundOneOf_eq_run heq).length_le
        split_ifs
        · split <;> simp
        · split
          · next heq2 =>
            obtain ⟨r, hr⟩ := OnFunction_total fuel ts1 s2 (by omega)
            rw [hr] at heq2
            cases heq2
          · simp
      · simp
    · simp
  have hcls : ∀ s0 : PHPSourceFile,
      (match OnClass (Parse fuel) fuel t ts s0 with
        | none => Round.stop none
        | some (ts1, s1) => Round.next ts1 { s1 with m_lookBackTokens := [] }) ≠
        Round.stop none := by
    intro s0
    split
    · next heq =>
      obtain ⟨r, hr⟩ := OnClass_total (Parse fuel) fuel
        (fun d toks s h => Parse_total fuel d toks s h) fuel t ts s0 h (Nat.le_of_lt h)
      rw [hr] at heq
      cases heq
    · simp
  unfold Parse_round
  dsimp only
  split
  case h_6 => exact hvis _ _
  case h_7 => exact hvis _ _
  case h_8 => exact hvis _ _
  case h_16 => exact hcls _
  case h_17 => exact hcls _
  case h_18 => exact hcls _
  case h_20 =>
    split
    · next heq =>
      obtain ⟨r, hr⟩ := OnFunction_total fuel ts (NextToken_found s t) h
      rw [hr] at heq
      cases heq
    · simp
  case h_3 => split_ifs <;> simp
  case h_5 => split_ifs <;> simp
  case h_10 =>
    split
    · split <;> simp
    · simp
  all_goals simp

theorem braceBalanced_iff (l : Tokens) :
    braceBalanced l = true ↔ (∀ p, p <+: l → 0 ≤ braceBalance p) ∧ braceBalance l = 0 := by
  unfold braceBalanced
  simp only [Bool.and_eq_true, List.all_eq_true, decide_eq_true_eq, List.mem_inits]

theorem consumedTokens_append (c rest : Tokens) : consumedTokens (c ++ rest) rest = c := by
  unfold consumedTokens
  simp

/-- The loop of `ConsumeFunctionBody` reads a stretch of tokens that keeps the
depth at `depth` or above and stops right after the closing brace that brings it
below. -/
theorem ConsumeFunctionBody_loop_balanced (depth : Int) (q : Tokens) (rb : phpLexerToken)
    (rest : Tokens) (s : PHPSourceFile) (hrb : rb.type = TokType.chr_rbrace)
    (hq : ∀ p, p <+: q → depth ≤ s.m_depth + braceBalance p)
    (hz : s.m_depth + braceBalance q = depth) :
    ConsumeFunctionBody_loop depth (q ++ rb :: rest) s = (rest, readTokens s (q ++ [rb])) := by
  induction q generalizing s with
  | nil =>
    have hd : (NextToken_found s rb).m_depth < depth := by
      rw [NextToken_found_depth]
      simp only [braceBalance, add_zero] at hz
      simp only [braceDelta, hrb]
      simp
      omega
    simp only [List.nil_append, ConsumeFunctionBody_loop, hrb, hd, and_self, if_true,
      readTokens_cons, readTokens_nil]
  | cons t q ih =>
    have h1 := hq [t] (by simp)
    have hd : ¬ (t.type = TokType.chr_rbrace ∧ (NextToken_found s t).m_depth < depth) := by
      rintro ⟨_, h2⟩
      rw [NextToken_found_depth] at h2
      simp only [braceBalance, add_zero] at h1
      omega
    have hstep : ConsumeFunctionBody_loop depth ((t :: q) ++ rb :: rest) s =
        ConsumeFunctionBody_loop depth (q ++ rb :: rest) (NextToken_found s t) := by
      rw [List.cons_append, ConsumeFunctionBody_loop]
      simp only [hd, if_false]
    rw [hstep, ih (NextToken_found s t), List.cons_append, readTokens_cons]
    · intro p hp
      have := hq (t :: p) (by simpa using hp)
      rw [NextToken_found_depth]
      simp only [braceBalance] at this
      omega
    · rw [NextToken_found_depth]
      simp only [braceBalance] at hz
      omega

theorem Parse_round_rbrace (fuel : Nat) (retDepth : Int) (t : phpLexerToken) (ts : Tokens)
    (s : PHPSourceFile) (h : t.type = TokType.chr_rbrace) :
    Parse_round fuel retDepth t ts s =
      if (NextToken_found s t).m_depth = retDepth then
        Round.stop (some (ts, { NextToken_found s t with m_lookBackTokens := [] }))
      else Round.next ts { NextToken_found s t with m_lookBackTokens := [] } := by
  obtain ⟨ty, text, line⟩ := t
  simp only at h
  subst h
  rfl

/-- The statement loop started inside a body, at a depth above the exit depth:
when the rest of the body keeps the depth above the exit depth, its closing
brace `rb` brings the depth to the exit depth, and every nested construct is
balanced, the loop returns right after `rb`. -/
theorem Parse_balanced_body (fuel : Nat) (retDepth : Int) (q : Tokens) (rb : phpLexerToken)
    (rest : Tokens) (s : PHPSourceFile) (hrb : rb.type = TokType.chr_rbrace)
    (hq : ∀ p, p <+: q → retDepth < s.m_depth + braceBalance p)
    (hz : s.m_depth + braceBalance q = retDepth + 1)
    (hfuel : (q ++ rb :: rest).length < fuel)
    (hc : constructsBalanced (rest.length + 1) fuel retDepth (q ++ rb :: rest) s = true) :
    ∃ s1 : PHPSourceFile,
      Parse fuel retDepth (q ++ rb :: rest) s = some (rest, s1) ∧ s1.m_depth = retDepth := by
  induction fuel generalizing q s with
  | zero => exact absurd hfuel (Nat.not_lt_zero _)
  | succ n ih =>
    cases q with
    | nil =>
      have hd : (NextToken_found s rb).m_depth = retDepth := by
        rw [NextToken_found_depth]
        simp only [braceBalance, add_zero] at hz
        simp only [braceDelta, hrb]
        simp
        omega
      refine ⟨{ NextToken_found s rb with m_lookBackTokens := [] }, ?_, hd⟩
      rw [List.nil_append, Parse_unfold, Parse_round_rbrace _ _ _ _ _ hrb, if_pos hd]
      rfl
    | cons t q =>
      have hlen : ¬ (q ++ rb :: rest).length < rest.length + 1 := by
        simp only [List.length_append, List.length_cons]
        omega
      have hts : (q ++ rb :: rest).length < n := by
        simp only [List.cons_append, List.length_cons] at hfuel
        omega
      have hdt : retDepth < s.m_depth := by
        have := hq [] List.nil_prefix
        simpa [braceBalance] using this
      have hout := Parse_round_outcome n retDepth t (q ++ rb :: rest) s
      have htot := Parse_round_total n retDepth t (q ++ rb :: rest) s hts
      -- a balanced stretch of consumed tokens lies inside the body
      have hinside : ∀ (ts1 : Tokens) (s1 : PHPSourceFile),
          Run (q ++ rb :: rest) (NextToken_found s t) ts1 s1 →
          ((q ++ rb :: rest).length ≤ ts1.length ∨
            braceBalanced (consumedTokens (t :: (q ++ rb :: rest)) ts1) = true) →
          ∃ c q1, q = c ++ q1 ∧ ts1 = q1 ++ rb :: rest := by
        intro ts1 s1 hrun hcond
        obtain ⟨c, hcq⟩ := hrun.suffix
        have hcons : consumedTokens (t :: (q ++ rb :: rest)) ts1 = t :: c := by
          rw [← hcq, ← List.cons_append]
          exact consumedTokens_append _ _
        rcases hcond with hle | hbal
        · have hc0 : c = [] := by
            have := congrArg List.length hcq
            rw [List.length_append] at this
            exact List.eq_nil_of_length_eq_zero (by omega)
          subst hc0
          exact ⟨[], q, rfl, by simpa using hcq⟩
        · rw [hcons, braceBalanced_iff] at hbal
          by_cases hcl : c.length ≤ q.length
          · refine ⟨c, q.drop c.length, ?_, ?_⟩
            · have h1 : c = q.take c.length := by
                have := congrArg (List.take c.length) hcq
                rw [List.take_left, List.take_append_of_le_length hcl] at this
                exact this
              conv_lhs => rw [← List.take_append_drop c.length q]
              rw [← h1]
            · have := congrArg (List.drop c.length) hcq
              rw [List.drop_left, List.drop_append_of_le_length hcl] at this
              exact this
          · exfalso
            have hpre : (t :: q) ++ [rb] <+: t :: c := by
              have h2 : q ++ [rb] <+: c := by
                have h3 : (q ++ [rb]) ++ rest = c ++ ts1 := by
                  rw [hcq]
                  simp
                have h4 : (q ++ [rb]).length ≤ c.length := by
                  simp only [List.length_append, List.length_singleton]
                  omega
                exact List.prefix_of_prefix_length_le (List.prefix_append _ _)
                  (by rw [h3]; exact List.prefix_append _ _) h4
              rw [List.cons_append]
              exact (List.prefix_cons_inj t).mpr h2
            have h5 := hbal.1 _ hpre
            rw [braceBalance_append] at h5
            have h6 : braceBalance [rb] = -1 := by
              simp [braceBalance, braceDelta, hrb]
            omega
      rw [List.cons_append, Parse_unfold]
      rw [List.cons_append] at hc
      unfold constructsBalanced at hc
      rw [if_neg hlen] at hc
      generalize Parse_round n retDepth t (q ++ rb :: rest) s = r at hc hout htot
      cases r with
      | stop o =>
        cases o with
        | none => exact absurd rfl htot
        | some x =>
          obtain ⟨ts1, s1⟩ := x
          exfalso
          simp only [Bool.or_eq_true, decide_eq_true_eq] at hc
          obtain ⟨hrun, hway⟩ := hout
          rcases hway with ⟨hty, _, hs1, hd1⟩ | ⟨hnil, _, _⟩
          · have h1 := hq [t] (by simp)
            rw [hs1] at hd1
            simp only at hd1
            rw [NextToken_found_depth] at hd1
            simp only [braceBalance, add_zero] at h1
            omega
          · obtain ⟨c, q1, _, h2⟩ := hinside ts1 s1 hrun hc
            rw [hnil] at h2
            exact absurd h2 (by simp)
      | next ts1 s1 =>
        simp only [Bool.and_eq_true, Bool.or_eq_true, decide_eq_true_eq] at hc
        have hrun : Run (q ++ rb :: rest) (NextToken_found s t) ts1 s1 := hout
        obtain ⟨c, q1, hcq, hts1⟩ := hinside ts1 s1 hrun hc.1
        subst hcq hts1
        have hdep := hrun.depth
        rw [NextToken_found_depth] at hdep
        simp only [braceBalance_append] at hdep
        have hz1 : s.m_depth + (braceDelta t + (braceBalance c + braceBalance q1)) =
            retDepth + 1 := by
          simpa [braceBalance, braceBalance_append] using hz
        exact ih q1 s1
          (by
            intro p hp
            have := hq (t :: (c ++ p)) (by
              rw [List.prefix_cons_inj]
              exact (List.prefix_append_right_inj c).mpr hp)
            simp only [braceBalance, braceBalance_append] at this
            omega)
          (by omega)
          (by
            simp only [List.length_append, List.length_cons] at hts ⊢
            omega)
          hc.2

/-- C25: for every body whose braces are balanced (no prefix of `body` closes
more braces than it opens and all of them are closed, so that the closing brace
`rb` after it matches the opening brace before it) and every parser `s` as it is
just after that opening brace was read, the depth being one more than before
it: `ConsumeFunctionBody` returns with exactly the tokens after `rb` unread,
having read the body and `rb` and nothing else, and the depth is the one before
the opening brace; and `Parse(m_depth - 1)`, allowed a round per token, does the
same when every nested construct is brace-balanced, that is when each round of
its loop inside the body consumes the token it dispatches on alone or a balanced
stretch of tokens. -/
theorem C25_body_ends_at_matching_brace (body : Tokens) (rb : phpLexerToken) (rest : Tokens)
    (s : PHPSourceFile) (hrb : rb.type = TokType.chr_rbrace)
    (hbody : braceBalanced body = true) :
    (ConsumeFunctionBody (body ++ rb :: rest) s = (rest, readTokens s (body ++ [rb])) ∧
      (readTokens s (body ++ [rb])).m_depth = s.m_depth - 1) ∧
    (∀ fuel : Nat, (body ++ rb :: rest).length < fuel →
      constructsBalanced (rest.length + 1) fuel (s.m_depth - 1) (body ++ rb :: rest) s = true →
      ∃ s1 : PHPSourceFile,
        Parse fuel (s.m_depth - 1) (body ++ rb :: rest) s = some (rest, s1) ∧
        s1.m_depth = s.m_depth - 1) ∧
    (∀ (s0 : PHPSourceFile) (lb : phpLexerToken), lb.type = TokType.chr_lbrace →
      s.m_depth = (NextToken_found s0 lb).m_depth → s.m_depth - 1 = s0.m_depth) := by
  obtain ⟨hp, hz⟩ := (braceBalanced_iff body).mp hbody
  have hrbd : braceBalance [rb] = -1 := by
    simp [braceBalance, braceDelta, hrb]
  refine ⟨⟨?_, ?_⟩, ?_, ?_⟩
  · unfold ConsumeFunctionBody
    exact ConsumeFunctionBody_loop_balanced _ body rb rest s hrb
      (fun p h => by have := hp p h; omega) (by omega)
  · rw [readTokens_depth, braceBalance_append, hrbd, hz]
    omega
  · intro fuel hfuel hc
    exact Parse_balanced_body fuel (s.m_depth - 1) body rb rest s hrb
      (fun p h => by have := hp p h; omega) (by omega) hfuel hc
  · intro s0 lb hlb hs
    rw [hs, NextToken_found_depth]
    simp [braceDelta, hlb]

theorem C25_body_ends_at_matching_brace_witness :
    ((mkToken TokType.chr_rbrace "\x7d" 4).type = TokType.chr_rbrace ∧
      braceBalanced tokensBalancedClassBody = true ∧
      (tokensBalancedClassBody ++
        mkToken TokType.chr_rbrace "\x7d" 4 :: tokensAfterClassBody).length < 17 ∧
      constructsBalanced (tokensAfterClassBody.length + 1) 17 (insideClassState.m_depth - 1)
        (tokensBalancedClassBody ++ mkToken TokType.chr_rbrace "\x7d" 4 :: tokensAfterClassBody)
        insideClassState = true) ∧
    ∃ s1 : PHPSourceFile,
      Parse 17 (insideClassState.m_depth - 1)
        (tokensBalancedClassBody ++ mkToken TokType.chr_rbrace "\x7d" 4 :: tokensAfterClassBody)
        insideClassState = some (tokensAfterClassBody, s1) ∧
      s1.m_depth = insideClassState.m_depth - 1 :=
  ⟨⟨by decide, by decide, by decide, by decide⟩,
    (C25_body_ends_at_matching_brace tokensBalancedClassBody (mkToken TokType.chr_rbrace "\x7d" 4)
      tokensAfterClassBody insideClassState (by decide) (by decide)).2.1 17 (by decide)
      (by decide)⟩

/-! ## The flag of the failed class cast -/

theorem UngetToken_cast (ts : Tokens) (s : PHPSourceFile) (t : phpLexerToken) :
    (UngetToken ts s t).2.nullClassCast = s.nullClassCast := by
  unfold UngetToken
  dsimp only
  split_ifs <;> rfl

theorem CurrentScope_cast (s : PHPSourceFile) :
    (CurrentScope s).2.nullClassCast = s.nullClassCast := by
  unfold CurrentScope
  split <;> rfl

theorem Namespace_cast (s : PHPSourceFile) :
    (Namespace s).2.nullClassCast = s.nullClassCast := by
  unfold Namespace
  split
  · exact CurrentScope_cast s
  · rfl

theorem MakeIdentifierAbsolute_cast (s : PHPSourceFile) (w : WxString) :
    (MakeIdentifierAbsolute s w).2.nullClassCast = s.nullClassCast := by
  rcases MakeIdentifierAbsolute_state s w with h | h
  · rw [h]
  · rw [h]
    exact Namespace_cast s

theorem AddChild_cast (s : PHPSourceFile) (p : Nat) (e : PHPEntity) :
    (AddChild s p e).2.nullClassCast = s.nullClassCast := rfl

theorem attachParameter_cast (s : PHPSourceFile) (var : Option PHPEntity) (dv : WxString) :
    (attachParameter s var dv).nullClassCast = s.nullClassCast := by
  cases var with
  | none => rfl
  | some v => exact CurrentScope_cast s

theorem ConsumeUntil_cast (delim : TokType) (toks : Tokens) (s : PHPSourceFile) :
    (ConsumeUntil delim toks s).2.2.nullClassCast = s.nullClassCast := by
  induction toks generalizing s with
  | nil => rfl
  | cons t ts ih =>
    unfold ConsumeUntil
    split_ifs
    · exact NextToken_found_cast s t
    · rw [ih]
      exact NextToken_found_cast s t

theorem ReadUntilFound_cast (delim : TokType) (toks : Tokens) (s : PHPSourceFile) :
    (ReadUntilFound delim toks s).2.2.nullClassCast = s.nullClassCast := by
  induction toks generalizing s with
  | nil => rfl
  | cons t ts ih =>
    unfold ReadUntilFound
    split_ifs
    · exact NextToken_found_cast s t
    · rw [ih]
      exact NextToken_found_cast s t

theorem ReadUntilFoundOneOf_cast (d1 d2 : TokType) (toks : Tokens) (s : PHPSourceFile) :
    (ReadUntilFoundOneOf d1 d2 toks s).2.2.nullClassCast = s.nullClassCast := by
  induction toks generalizing s with
  | nil => rfl
  | cons t ts ih =>
    unfold ReadUntilFoundOneOf
    split_ifs
    · exact NextToken_found_cast s t
    · exact NextToken_found_cast s t
    · rw [ih]
      exact NextToken_found_cast s t

theorem ParseFunctionSignature_open_cast (toks : Tokens) (s : PHPSourceFile) :
    (ParseFunctionSignature_open toks s).2.2.nullClassCast = s.nullClassCast := by
  induction toks generalizing s with
  | nil => rfl
  | cons t ts ih =>
    unfold ParseFunctionSignature_open
    split_ifs
    · exact NextToken_found_cast s t
    · rw [ih]
      exact NextToken_found_cast s t

theorem ParseFunctionSignature_loop_cast (toks : Tokens) (s : PHPSourceFile)
    (depth : Int) (typeHint defaultValue : WxString) (var : Option PHPEntity) (c : Bool) :
    (ParseFunctionSignature_loop toks s depth typeHint defaultValue var c).2.nullClassCast =
      s.nullClassCast := by
  induction toks generalizing s depth typeHint defaultValue var c with
  | nil => rfl
  | cons t ts ih =>
    have h0 := NextToken_found_cast s t
    by_cases h1 : t.type = TokType.kPHP_T_VARIABLE
    · rw [ParseFunctionSignature_loop_variable t ts s _ _ _ _ _ h1, ih,
        MakeIdentifierAbsolute_cast, h0]
    · by_cases h2 : t.type = TokType.chr_lparen
      · rw [ParseFunctionSignature_loop_lparen t ts s _ _ _ _ _ h2, ih, h0]
      · by_cases h3 : t.type = TokType.chr_rparen
        · rw [ParseFunctionSignature_loop_rparen t ts s _ _ _ _ _ h3]
          split_ifs
          · rw [attachParameter_cast, h0]
          · rw [ih, h0]
          · rw [ih, h0]
        · by_cases h4 : t.type = TokType.chr_assign
          · rw [ParseFunctionSignature_loop_assign t ts s _ _ _ _ _ h4, ih, h0]
          · by_cases h5 : t.type = TokType.chr_comma
            · have hstep : ParseFunctionSignature_loop (t :: ts) s depth typeHint defaultValue
                  var c =
                  ParseFunctionSignature_loop ts
                    (attachParameter (NextToken_found s t) var defaultValue) depth [] [] none
                    false := by
                obtain ⟨ty, text, line⟩ := t
                simp only at h5
                subst h5
                rfl
              rw [hstep, ih, attachParameter_cast, h0]
            · rw [ParseFunctionSignature_loop_other t ts s _ _ _ _ _ h1 h2 h3 h4 h5]
              split_ifs
              · rw [ih, h0]
              · rw [ih, h0]

theorem ParseFunctionSignature_cast (d : Int) (toks : Tokens) (s : PHPSourceFile) :
    (ParseFunctionSignature d toks s).2.nullClassCast = s.nullClassCast := by
  unfold ParseFunctionSignature
  split_ifs
  · have h := ParseFunctionSignature_open_cast toks s
    generalize ParseFunctionSignature_open toks s = r at h
    obtain ⟨b, ts, s1⟩ := r
    cases b
    · exact h
    · exact (ParseFunctionSignature_loop_cast _ _ _ _ _ _ _).trans h
  · exact ParseFunctionSignature_loop_cast _ _ _ _ _ _ _

theorem ConsumeFunctionBody_loop_cast (depth : Int) (toks : Tokens) (s : PHPSourceFile) :
    (ConsumeFunctionBody_loop depth toks s).2.nullClassCast = s.nullClassCast := by
  induction toks generalizing s with
  | nil => rfl
  | cons t ts ih =>
    unfold ConsumeFunctionBody_loop
    dsimp only
    split_ifs
    · exact NextToken_found_cast s t
    · rw [ih]
      exact NextToken_found_cast s t

theorem ConsumeFunctionBody_cast (toks : Tokens) (s : PHPSourceFile) :
    (ConsumeFunctionBody toks s).2.nullClassCast = s.nullClassCast :=
  ConsumeFunctionBody_loop_cast _ _ _

theorem ReadExpression_loop_cast (toks : Tokens) (s : PHPSourceFile) (e : WxString)
    (d : Int) :
    (ReadExpression_loop toks s e d).2.2.2.nullClassCast = s.nullClassCast := by
  induction toks generalizing s e d with
  | nil => rfl
  | cons t ts ih =>
    have h0 := NextToken_found_cast s t
    unfold ReadExpression_loop
    dsimp only
    by_cases hs : t.type = TokType.chr_semi
    · rw [if_pos hs]
      exact h0
    · rw [if_neg hs]
      by_cases hl : t.type = TokType.chr_lbrace
      · rw [if_pos hl]
        exact (UngetToken_cast _ _ _).trans h0
      · rw [if_neg hl]
        split <;> first | exact h0 | exact (ih _ _ _).trans h0

theorem ReadExpression_cast (toks : Tokens) (s : PHPSourceFile) :
    (ReadExpression toks s).2.2.2.nullClassCast = s.nullClassCast :=
  ReadExpression_loop_cast _ _ _ _

theorem assignExpressionHint_cast (s : PHPSourceFile) (var : Option Nat) (expr : WxString) :
    (assignExpressionHint s var expr).nullClassCast = s.nullClassCast := by
  unfold assignExpressionHint
  split_ifs
  · cases var with
    | none => exact MakeIdentifierAbsolute_cast s (Trim (BeforeFirst (Trim (Mid expr 3)) '('))
    | some id => exact MakeIdentifierAbsolute_cast s (Trim (BeforeFirst (Trim (Mid expr 3)) '('))
  · cases var <;> rfl

theorem CastKept_none (s : PHPSourceFile) : CastKept s none := by
  intro x h; cases h

theorem CastKept_some {s s1 : PHPSourceFile} (ts : Tokens)
    (h : s1.nullClassCast = s.nullClassCast) : CastKept s (some (ts, s1)) := by
  intro x hx
  cases hx
  exact h

theorem CastKept_after {s s1 : PHPSourceFile} {r : Option (Tokens × PHPSourceFile)}
    (h : s1.nullClassCast = s.nullClassCast) (hr : CastKept s1 r) : CastKept s r := by
  intro x hx
  exact (hr x hx).trans h

theorem ParseFunctionBody_loop_cast (fuel : Nat) (exitDepth : Int) (toks : Tokens)
    (s : PHPSourceFile) : CastKept s (ParseFunctionBody_loop fuel exitDepth toks s) := by
  induction fuel generalizing toks s with
  | zero => unfold ParseFunctionBody_loop; exact CastKept_none _
  | succ n ih =>
    cases toks with
    | nil =>
      unfold ParseFunctionBody_loop
      exact CastKept_some _ rfl
    | cons t ts =>
      have h0 := NextToken_found_cast s t
      have hlb : ({ NextToken_found s t with m_lookBackTokens := [] } :
          PHPSourceFile).nullClassCast = s.nullClassCast := h0
      unfold ParseFunctionBody_loop
      dsimp only
      split
      · exact CastKept_after hlb (ih _ _)
      · split_ifs
        · exact CastKept_some _ hlb
        · exact CastKept_after hlb (ih _ _)
      · exact CastKept_after hlb (ih _ _)
      · have hc : (AddChild (CurrentScope (NextToken_found s t)).2
            (CurrentScope (NextToken_found s t)).1
            ({ ({ kind := EntityKind.kEntityTypeVariable } : PHPEntity).SetFullName t.text with
              line := t.lineNumber })).2.nullClassCast = s.nullClassCast :=
          (CurrentScope_cast _).trans h0
        generalize (AddChild (CurrentScope (NextToken_found s t)).2
            (CurrentScope (NextToken_found s t)).1
            ({ ({ kind := EntityKind.kEntityTypeVariable } : PHPEntity).SetFullName t.text with
              line := t.lineNumber })) = a at hc ⊢
        cases ts with
        | nil =>
          simp only [NextToken]
          exact CastKept_some _ hc
        | cons tk ts1 =>
          have h1 := NextToken_found_cast a.2 tk
          simp only [NextToken]
          split_ifs
          · exact CastKept_after
              ((UngetToken_cast ts1 { NextToken_found a.2 tk with m_lookBackTokens := [] }
                tk).trans (h1.trans hc)) (ih _ _)
          · have hre := ReadExpression_cast ts1 (NextToken_found a.2 tk)
            split
            · next heq =>
              rw [heq] at hre
              exact CastKept_some _ (hre.trans (h1.trans hc))
            · next heq =>
              rw [heq] at hre
              exact CastKept_after ((assignExpressionHint_cast _ _ _).trans
                (hre.trans (h1.trans hc))) (ih _ _)
      · exact CastKept_after h0 (ih _ _)

theorem ParseFunctionBody_cast (fuel : Nat) (toks : Tokens) (s : PHPSourceFile) :
    CastKept s (ParseFunctionBody fuel toks s) :=
  ParseFunctionBody_loop_cast fuel (s.m_depth - 1) toks { s with m_lookBackTokens := [] }

theorem popScope_cast (s : PHPSourceFile) : (popScope s).nullClassCast = s.nullClassCast := rfl

theorem OnFunction_body_cast (fuel : Nat) (func : PHPEntity) (funcDepth : Int) (toks : Tokens)
    (s : PHPSourceFile) : CastKept s (OnFunction_body fuel func funcDepth toks s) := by
  have hsig : (OnFunction_signature func funcDepth toks s).2.nullClassCast = s.nullClassCast :=
    (ParseFunctionSignature_cast _ _ _).trans (CurrentScope_cast s)
  rw [OnFunction_body_eq]
  generalize hst : ({ (OnFunction_signature func funcDepth toks s).2 with
      store := storeModify
        (fun e => { e with flags := OnFunction_flags func funcDepth toks s })
        (CurrentScope s).2.store.length
        (OnFunction_signature func funcDepth toks s).2.store } : PHPSourceFile) = st
  have hst1 : st.nullClassCast = s.nullClassCast := by
    rw [← hst]
    exact hsig
  have hfin : ∀ (o : Option (Tokens × PHPSourceFile)), CastKept s o →
      CastKept s
        (match o with
        | none => none
        | some (ts, s1) =>
          some (ts, { (if !s1.m_reachedEOF then popScope s1 else s1) with
            m_lookBackTokens := [] })) := by
    intro o ho
    cases o with
    | none => exact CastKept_none _
    | some x =>
      obtain ⟨ts, s1⟩ := x
      have h1 := ho _ rfl
      refine CastKept_some _ ?_
      cases s1.m_reachedEOF <;> exact h1
  apply hfin
  split_ifs
  · have hc := ConsumeUntil_cast TokType.chr_semi (OnFunction_signature func funcDepth toks s).1 st
    generalize ConsumeUntil TokType.chr_semi (OnFunction_signature func funcDepth toks s).1 st =
      c at hc
    obtain ⟨b, ts, s1⟩ := c
    cases b
    · exact CastKept_some _ (hc.trans hst1)
    · exact CastKept_some _ (hc.trans hst1)
  · have hc := ReadUntilFound_cast TokType.chr_lbrace
      (OnFunction_signature func funcDepth toks s).1 st
    generalize ReadUntilFound TokType.chr_lbrace (OnFunction_signature func funcDepth toks s).1
      st = c at hc
    obtain ⟨o, ts, s1⟩ := c
    cases o with
    | none => exact CastKept_some _ (hc.trans hst1)
    | some tk =>
      dsimp only
      split_ifs
      · exact CastKept_after (hc.trans hst1) (ParseFunctionBody_cast fuel ts s1)
      · exact CastKept_some _ ((ConsumeFunctionBody_cast ts s1).trans (hc.trans hst1))

theorem OnFunction_cast (fuel : Nat) (toks : Tokens) (s : PHPSourceFile) :
    CastKept s (OnFunction fuel toks s) := by
  cases toks with
  | nil => exact CastKept_some _ rfl
  | cons t ts =>
    have h0 := NextToken_found_cast s t
    unfold OnFunction
    dsimp only
    split_ifs
    · exact CastKept_after h0 (OnFunction_body_cast _ _ _ _ _)
    · exact CastKept_after h0 (OnFunction_body_cast _ _ _ _ _)
    · exact CastKept_some _ h0

theorem OnVariable_cast (tok : phpLexerToken) (toks : Tokens) (s : PHPSourceFile) :
    (OnVariable tok toks s).2.nullClassCast = s.nullClassCast := by
  have ha : (OnVariable_attach tok s).2.nullClassCast = s.nullClassCast := by
    unfold OnVariable_attach
    dsimp only
    split_ifs
    · exact CurrentScope_cast s
    · exact CurrentScope_cast s
  unfold OnVariable
  dsimp only
  generalize OnVariable_attach tok s = a at ha
  cases toks with
  | nil => exact ha
  | cons t ts =>
    have h1 := NextToken_found_cast a.2 t
    simp only [NextToken]
    split_ifs
    · exact h1.trans ha
    · have h2 := ReadExpression_cast ts (NextToken_found a.2 t)
      generalize ReadExpression ts (NextToken_found a.2 t) = re at h2
      obtain ⟨b, expr, ts2, s2⟩ := re
      cases b
      · exact h2.trans (h1.trans ha)
      · exact (assignExpressionHint_cast _ _ _).trans (h2.trans (h1.trans ha))

theorem OnDefine_cast (tok : phpLexerToken) (toks : Tokens) (s : PHPSourceFile) :
    (OnDefine tok toks s).2.nullClassCast = s.nullClassCast := by
  unfold OnDefine
  cases toks with
  | nil => rfl
  | cons t ts =>
    have h0 := NextToken_found_cast s t
    simp only [NextToken]
    split_ifs
    · exact (ConsumeUntil_cast _ _ _).trans h0
    · cases ts with
      | nil => exact h0
      | cons t2 ts2 =>
        have h1 := NextToken_found_cast (NextToken_found s t) t2
        simp only
        split_ifs
        · exact (ConsumeUntil_cast _ _ _).trans (h1.trans h0)
        · exact (ConsumeUntil_cast _ _ _).trans (h1.trans h0)
        · exact (ConsumeUntil_cast _ _ _).trans (h1.trans h0)

theorem OnUse_delimiter_cast (s : PHPSourceFile) (f a temp : WxString) :
    (OnUse_delimiter s f a temp).nullClassCast = s.nullClassCast := by
  unfold OnUse_delimiter OnUse_insert
  dsimp only
  split_ifs <;> first | rfl | exact MakeIdentifierAbsolute_cast _ _

theorem OnUse_loop_cast (toks : Tokens) (s : PHPSourceFile) (f a temp : WxString) :
    (OnUse_loop toks s f a temp).2.nullClassCast = s.nullClassCast := by
  induction toks generalizing s f a temp with
  | nil => rfl
  | cons t ts ih =>
    have h0 := NextToken_found_cast s t
    unfold OnUse_loop
    dsimp only
    split_ifs
    · exact (OnUse_delimiter_cast _ _ _ _).trans h0
    · exact (ih _ _ _ _).trans ((OnUse_delimiter_cast _ _ _ _).trans h0)
    · exact (ih _ _ _ _).trans h0
    · exact (ih _ _ _ _).trans h0

theorem OnUse_cast (toks : Tokens) (s : PHPSourceFile) :
    (OnUse toks s).2.nullClassCast = s.nullClassCast :=
  OnUse_loop_cast _ _ _ _ _

theorem OnNamespace_loop_cast (toks : Tokens) (s : PHPSourceFile) (path : WxString) :
    (OnNamespace_loop toks s path).2.2.nullClassCast = s.nullClassCast := by
  induction toks generalizing s path with
  | nil => rfl
  | cons t ts ih =>
    have h0 := NextToken_found_cast s t
    unfold OnNamespace_loop
    dsimp only
    split_ifs
    · exact h0
    · exact (ih _ _).trans h0
    · exact (ih _ _).trans h0

theorem OnNamespace_cast (toks : Tokens) (s : PHPSourceFile) :
    (OnNamespace toks s).2.nullClassCast = s.nullClassCast := by
  unfold OnNamespace
  dsimp only
  split_ifs
  · exact OnNamespace_loop_cast _ _ _
  · exact OnNamespace_loop_cast _ _ _

theorem ReadCommaSeparatedIdentifiers_cast (delim : TokType) (toks : Tokens)
    (s : PHPSourceFile) (list : List WxString) (temp : WxString) :
    (ReadCommaSeparatedIdentifiers delim toks s list temp).2.2.2.nullClassCast =
      s.nullClassCast := by
  induction toks generalizing s list temp with
  | nil => rfl
  | cons t ts ih =>
    have h0 := NextToken_found_cast s t
    unfold ReadCommaSeparatedIdentifiers
    dsimp only
    by_cases hc : t.IsAnyComment = true
    · rw [if_pos hc]
      exact (ih _ _ _).trans h0
    · rw [if_neg hc]
      by_cases hd : t.type = delim
      · rw [if_pos hd, UngetToken_cast]
        split_ifs
        · exact (MakeIdentifierAbsolute_cast _ _).trans h0
        · exact h0
      · rw [if_neg hd]
        split
        · split_ifs
          · exact (ih _ _ _).trans ((MakeIdentifierAbsolute_cast _ _).trans h0)
          · exact (ih _ _ _).trans h0
        · exact (ih _ _ _).trans h0

theorem OnClass_name_cast (toks : Tokens) (s : PHPSourceFile) :
    (OnClass_name toks s).2.2.nullClassCast = s.nullClassCast := by
  induction toks generalizing s with
  | nil => rfl
  | cons t ts ih =>
    have h0 := NextToken_found_cast s t
    unfold OnClass_name
    dsimp only
    split_ifs
    · exact (ih _).trans h0
    · exact h0
    · exact h0

theorem PhaseTwo_cast (s : PHPSourceFile) : (PhaseTwo s).nullClassCast = s.nullClassCast :=
  Namespace_cast s

theorem Class_cast (s : PHPSourceFile) : (Class s).2.nullClassCast = s.nullClassCast :=
  CurrentScope_cast s

/-! ## The scope stack along a run -/

theorem ScopesRestored.of_same (s s1 : PHPSourceFile) (h1 : s1.m_scopes = s.m_scopes)
    (h2 : s1.store.length = s.store.length) : ScopesRestored s s1 :=
  Or.inl ⟨h1, fun _ => h2⟩

theorem ScopesRestored.chain {a b c : PHPSourceFile} (h1 : ScopesRestored a b)
    (h2 : ScopesRestored b c) : ScopesRestored a c := by
  rcases h1 with ⟨h1, h1l⟩ | ⟨h1, h1s⟩
  · rcases h2 with ⟨h2, h2l⟩ | ⟨h2, h2s⟩
    · refine Or.inl ⟨h2.trans h1, ?_⟩
      intro ha
      rw [h2l (h1.trans ha), h1l ha]
    · have ha : a.m_scopes = [] := h1.symm.trans h2
      exact Or.inr ⟨ha, by rw [h2s, h1l ha]⟩
  · rcases h2 with ⟨h2, _⟩ | ⟨h2, _⟩
    · exact Or.inr ⟨h1, h2.trans h1s⟩
    · rw [h1s] at h2
      cases h2

theorem ScopesRestored.of_ne_nil {s s1 : PHPSourceFile} (h : ScopesRestored s s1)
    (hs : s.m_scopes ≠ []) : s1.m_scopes = s.m_scopes := by
  rcases h with ⟨h, _⟩ | ⟨h, _⟩
  · exact h
  · exact absurd h hs

theorem CurrentScope_restores (s : PHPSourceFile) : ScopesRestored s (CurrentScope s).2 := by
  unfold CurrentScope
  cases h : s.m_scopes.getLast? with
  | some id => exact ScopesRestored.of_same s s rfl rfl
  | none =>
    have hs : s.m_scopes = [] := by
      cases hl : s.m_scopes with
      | nil => rfl
      | cons a l => rw [hl] at h; simp at h
    exact Or.inr ⟨hs, rfl⟩

theorem Tweak.scopes_restored {s s1 : PHPSourceFile} (h : Tweak s s1) : ScopesRestored s s1 := by
  induction h with
  | refl s => exact ScopesRestored.of_same s s rfl rfl
  | trans _ _ ih1 ih2 => exact ih1.chain ih2
  | lookBack s l => exact ScopesRestored.of_same s _ rfl rfl
  | newNamespace s name hs => exact Or.inr ⟨hs, rfl⟩
  | addChild s e hk hc =>
    rcases CurrentScope_restores s with ⟨h1, _⟩ | ⟨h1, h2⟩
    · refine Or.inl ⟨h1, ?_⟩
      intro hs
      exact absurd (h1.trans hs) (CurrentScope_scopes_ne_nil s)
    · exact Or.inr ⟨h1, h2⟩
  | modify s f i hf => exact ScopesRestored.of_same s _ rfl (storeModify_length f i s.store)
  | alias_ s k v => exact ScopesRestored.of_same s _ rfl rfl
  | define s e => exact ScopesRestored.of_same s _ rfl rfl
  | nullCast s => exact ScopesRestored.of_same s _ rfl rfl
  | phaseTwo s => exact ScopesRestored.of_same s _ rfl rfl

theorem UngetToken_reachedEOF (ts : Tokens) (s : PHPSourceFile) (t : phpLexerToken) :
    (UngetToken ts s t).2.m_reachedEOF = s.m_reachedEOF := by
  unfold UngetToken
  dsimp only
  split_ifs <;> rfl

/-- Once the end of input was met, it stays met. -/
theorem Run.eof_kept {toks rest : Tokens} {s s1 : PHPSourceFile} (h : Run toks s rest s1)
    (h0 : s.m_reachedEOF = true) : s1.m_reachedEOF = true := by
  induction h with
  | tweak toks ht => rw [ht.reachedEOF]; exact h0
  | read t ts s => rw [NextToken_found_reachedEOF]; exact h0
  | eof s => rfl
  | @peek t ts s s1 ht =>
    rw [UngetToken_reachedEOF, ht.reachedEOF, NextToken_found_reachedEOF]
    exact h0
  | trans _ _ ih1 ih2 => exact ih2 (ih1 h0)
  | @inScope toks rest s s1 e pop hk hc _ _ ih =>
    have h1 : s1.m_reachedEOF = true := ih ((CurrentScope_reachedEOF s).trans h0)
    cases pop
    · exact h1
    · exact h1

/-- A run that ends before the end of input leaves the scope stack as it found
it, up to the global namespace pushed on an empty stack: every scope pushed by
the run was popped again. -/
theorem Run.restores {toks rest : Tokens} {s s1 : PHPSourceFile} (h : Run toks s rest s1)
    (he : s1.m_reachedEOF = false) : ScopesRestored s s1 := by
  induction h with
  | tweak toks ht => exact ht.scopes_restored
  | read t ts s =>
    exact ScopesRestored.of_same s _ (NextToken_found_scopes s t)
      (by rw [NextToken_found_store])
  | eof s => cases he
  | @peek t ts s s1 ht =>
    have h1 := ht.scopes_restored
    have h2 : ScopesRestored s (NextToken_found s t) :=
      ScopesRestored.of_same s _ (NextToken_found_scopes s t) (by rw [NextToken_found_store])
    have h3 : ScopesRestored s1 (UngetToken ts s1 t).2 :=
      ScopesRestored.of_same s1 _ (UngetToken_scopes ts s1 t) (by rw [UngetToken_store])
    exact (h2.chain h1).chain h3
  | @trans a b c s s1 s2 _ h2 ih1 ih2 =>
    have hm : s1.m_reachedEOF = false := by
      cases hb : s1.m_reachedEOF with
      | false => rfl
      | true =>
        rw [h2.eof_kept hb] at he
        cases he
    exact (ih1 hm).chain (ih2 he)
  | @inScope toks rest s s1 e pop hk hc _ hpop ih =>
    cases pop with
    | false =>
      have he0 : s1.m_reachedEOF = false := he
      rw [hpop rfl] at he0
      cases he0
    | true =>
      have he1 : s1.m_reachedEOF = false := he
      have h1 := (ih he1).of_ne_nil (by simp)
      have h2 : (popScope s1).m_scopes = (CurrentScope s).2.m_scopes := by
        show s1.m_scopes.dropLast = _
        rw [h1]
        simp [AddChild_scopes]
      rcases CurrentScope_restores s with ⟨h3, _⟩ | ⟨h3, h4⟩
      · refine Or.inl ⟨h2.trans h3, ?_⟩
        intro hs
        exact absurd (h3.trans hs) (CurrentScope_scopes_ne_nil s)
      · exact Or.inr ⟨h3, h2.trans h4⟩

theorem ScopesRestored.current {s s1 : PHPSourceFile} (h : ScopesRestored s s1)
    (hl : s.store.length < s1.store.length) : s1.m_scopes = (CurrentScope s).2.m_scopes := by
  rcases CurrentScope_restores s with ⟨h3, _⟩ | ⟨h3, h4⟩
  · rcases h with ⟨h1, h2⟩ | ⟨h1, h2⟩
    · exact h1.trans h3.symm
    · rw [h1] at h3
      exact absurd h3 (CurrentScope_scopes_ne_nil s)
  · rcases h with ⟨h1, h2⟩ | ⟨h1, h2⟩
    · have := h2 h3
      omega
    · rw [h2, h4]

/-! ## The invariant of the statement loop -/

theorem scopesOk_restored {s s1 : PHPSourceFile} (hi : TreeInv s) (hi1 : TreeInv s1)
    (hg : StoreGrows s s1) (hr : ScopesRestored s s1) (ho : scopesOk s) : scopesOk s1 := by
  intro x hx
  rcases hr with ⟨h1, _⟩ | ⟨h1, h2⟩
  · rw [h1] at hx
    rw [(hg.2 x (hi.valid x hx)).1]
    exact ho x hx
  · have hst : s.store = [] := hi.empty h1
    rw [h2, hst] at hx
    simp only [List.length_nil, List.mem_singleton] at hx
    subst hx
    have hne : s1.store ≠ [] := by
      have := hi1.valid 0 (by rw [h2, hst]; simp)
      intro hn
      rw [hn] at this
      simp at this
    exact Or.inl (hi1.root hne).1

theorem LoopInv_run {toks rest : Tokens} {s s1 : PHPSourceFile} (h : Run toks s rest s1)
    (hi : LoopInv toks s) : LoopInv rest s1 := by
  obtain ⟨h1, h2, h3⟩ := hi
  refine ⟨h.treeInv h1, h.eof_tokens h2, ?_⟩
  intro he
  have hs : s.m_reachedEOF = false := by
    cases hb : s.m_reachedEOF with
    | false => rfl
    | true =>
      rw [h.eof_kept hb] at he
      cases he
  exact scopesOk_restored h1 (h.treeInv h1) (h.storeGrows h1) (h.restores he) (h3 hs)

theorem LoopInv.eof_false {t : phpLexerToken} {ts : Tokens} {s : PHPSourceFile}
    (hi : LoopInv (t :: ts) s) : s.m_reachedEOF = false := by
  cases hb : s.m_reachedEOF with
  | false => rfl
  | true => exact absurd (hi.2.1 hb) (List.cons_ne_nil _ _)

theorem LoopInv_pushed {toks : Tokens} {s : PHPSourceFile} (e : PHPEntity)
    (hi : LoopInv toks s) (he : s.m_reachedEOF = false)
    (hk : e.kind = EntityKind.kEntityTypeClass) : LoopInv toks (OnFunction_pushed e s) := by
  obtain ⟨h1, h2, h3⟩ := hi
  have hkn : e.kind ≠ EntityKind.kEntityTypeNamespace := by
    rw [hk]
    decide
  have hp : (OnFunction_pushed e s).m_reachedEOF = false :=
    (CurrentScope_reachedEOF s).trans he
  obtain ⟨hc1, hc2⟩ := TreeInv_CurrentScope s h1
  refine ⟨TreeInv_pushed s e h1 hkn, ?_, ?_⟩
  · intro h
    rw [hp] at h
    cases h
  · intro _
    have hoc : scopesOk (CurrentScope s).2 :=
      scopesOk_restored h1 hc1 (CurrentScope_storeGrows s) (CurrentScope_restores s) (h3 he)
    intro x hx
    have hx1 : x ∈ (CurrentScope s).2.m_scopes ++ [(CurrentScope s).2.store.length] := hx
    have hent : ∀ j, entityAt (OnFunction_pushed e s) j =
        entityAt (AddChild (CurrentScope s).2 (CurrentScope s).1 e).2 j := fun _ => rfl
    rw [hent]
    rcases List.mem_append.mp hx1 with hm | hm
    · rw [((AddChild_storeGrows _ _ e hc2).2 x (hc1.valid x hm)).1]
      exact hoc x hm
    · simp only [List.mem_singleton] at hm
      subst hm
      right
      rw [entityAt_AddChild_new (fun e => e.kind) (fun _ _ => rfl)]
      exact hk

/-- The current scope of a parser whose scope stack holds namespaces and
classes only is a namespace or a class. -/
theorem scopesOk_current {s : PHPSourceFile} (hi : TreeInv s) (ho : scopesOk s) :
    (entityAt (CurrentScope s).2 (CurrentScope s).1).kind = EntityKind.kEntityTypeNamespace ∨
    (entityAt (CurrentScope s).2 (CurrentScope s).1).kind = EntityKind.kEntityTypeClass := by
  obtain ⟨hc1, _⟩ := TreeInv_CurrentScope s hi
  have hoc : scopesOk (CurrentScope s).2 :=
    scopesOk_restored hi hc1 (CurrentScope_storeGrows s) (CurrentScope_restores s) ho
  exact hoc _ (List.mem_of_mem_getLast? (CurrentScope_last s))

/-- In the statement loop `Class()` holds only when the current scope is a
class. -/
theorem Class_true_kind {s : PHPSourceFile} (hi : TreeInv s) (ho : scopesOk s)
    (hc : (Class s).1 = true) :
    (entityAt (CurrentScope s).2 (CurrentScope s).1).kind = EntityKind.kEntityTypeClass := by
  obtain ⟨hc1, hc2⟩ := TreeInv_CurrentScope s hi
  rcases scopesOk_current hi ho with hn | hk
  · exfalso
    have hne : (CurrentScope s).2.store ≠ [] := by
      intro h
      rw [h] at hc2
      simp at hc2
    have h0 : (CurrentScope s).1 = 0 := by
      by_contra hpos
      exact (hc1.child _ (Nat.pos_of_ne_zero hpos) hc2).1 hn
    have hpar := (hc1.root hne).2
    have hkind := (hc1.root hne).1
    unfold Class at hc
    simp only at hc
    rw [h0] at hc
    unfold Class_walk at hc
    rw [if_neg (by rw [hkind]; decide), hpar] at hc
    cases hc
  · exact hk

/-! ## The header of a class declaration -/

/-- The second loop of `OnClass` is its header followed by the statement loop on
the body. -/
theorem OnClass_loop_eq
    (parse : Int → Tokens → PHPSourceFile → Option (Tokens × PHPSourceFile))
    (fuel : Nat) (klass : PHPEntity) (toks : Tokens) (s : PHPSourceFile) :
    OnClass_loop parse fuel klass toks s = (OnClass_loop_head fuel klass toks s).finish parse := by
  induction fuel generalizing klass toks s with
  | zero =>
    unfold OnClass_loop OnClass_loop_head
    rfl
  | succ n ih =>
    cases toks with
    | nil =>
      unfold OnClass_loop OnClass_loop_head
      rfl
    | cons t ts =>
      rw [OnClass_loop, OnClass_loop_head]
      dsimp only
      by_cases hc : t.IsAnyComment = true
      · rw [if_pos hc, if_pos hc]
        exact ih _ _ _
      · rw [if_neg hc, if_neg hc]
        by_cases h1 : t.type = TokType.kPHP_T_EXTENDS
        · simp only [h1]
          generalize ReadUntilFound TokType.kPHP_T_IDENTIFIER ts (NextToken_found s t) = r
          obtain ⟨_ | tk, ts1, s1⟩ := r
          · rfl
          · exact ih _ _ _
        · by_cases h2 : t.type = TokType.kPHP_T_IMPLEMENTS
          · simp only [h2]
            generalize ReadCommaSeparatedIdentifiers TokType.chr_lbrace ts (NextToken_found s t)
              [] [] = r
            obtain ⟨_ | _, l, ts1, s1⟩ := r
            · rfl
            · exact ih _ _ _
          · by_cases h3 : t.type = TokType.chr_lbrace
            · simp only [h3]
              rfl
            · split
              · next h => exact absurd h h1
              · next h => exact absurd h h2
              · next h => exact absurd h h3
              · exact ih _ _ _

/-- The routine `OnClass` is its header followed by the statement loop on the
body. -/
theorem OnClass_eq
    (parse : Int → Tokens → PHPSourceFile → Option (Tokens × PHPSourceFile))
    (fuel : Nat) (tok : phpLexerToken) (toks : Tokens) (s : PHPSourceFile) :
    OnClass parse fuel tok toks s = (OnClass_head fuel tok toks s).finish parse := by
  unfold OnClass OnClass_head
  generalize OnClass_name toks s = r
  obtain ⟨_ | token, ts, s1⟩ := r
  · rfl
  · exact OnClass_loop_eq parse fuel _ ts _

theorem ClassHeadOutcome_after {a b : Tokens} {s s1 : PHPSourceFile} {r : ClassHead}
    (h : Run a s b s1) (hcast : s1.nullClassCast = s.nullClassCast)
    (hr : ClassHeadOutcome b s1 r) : ClassHeadOutcome a s r := by
  cases r with
  | done o =>
    cases o with
    | none => exact True.intro
    | some x =>
      obtain ⟨ts, s2⟩ := x
      exact ⟨Run.trans h hr.1, hr.2.trans hcast⟩
  | body d ts s2 =>
    obtain ⟨lb, s0, k, hk, hc, hrun, hcst, hs, hd⟩ := hr
    exact ⟨lb, s0, k, hk, hc, Run.trans h hrun, hcst.trans hcast, hs, hd⟩

theorem OnClass_loop_head_outcome (fuel : Nat) (klass : PHPEntity) (toks : Tokens)
    (s : PHPSourceFile) (hk : klass.kind = EntityKind.kEntityTypeClass)
    (hc : klass.children = []) :
    ClassHeadOutcome toks s (OnClass_loop_head fuel klass toks s) := by
  induction fuel generalizing klass toks s with
  | zero =>
    unfold OnClass_loop_head
    exact True.intro
  | succ n ih =>
    cases toks with
    | nil =>
      unfold OnClass_loop_head
      exact ⟨Run.eof s, rfl⟩
    | cons t ts =>
      have hrd : Run (t :: ts) s ts (NextToken_found s t) := Run.read t ts s
      have h0 := NextToken_found_cast s t
      unfold OnClass_loop_head
      dsimp only
      split_ifs
      · exact ClassHeadOutcome_after hrd h0 (ih _ _ _ hk hc)
      · split
        · split
          · next ts1 s1 heq =>
            have hcst := ReadUntilFound_cast TokType.kPHP_T_IDENTIFIER ts (NextToken_found s t)
            rw [heq] at hcst
            exact ⟨Run.trans hrd (ReadUntilFound_eq_run heq), hcst.trans h0⟩
          · next tk ts1 s1 heq =>
            have hcst := ReadUntilFound_cast TokType.kPHP_T_IDENTIFIER ts (NextToken_found s t)
            rw [heq] at hcst
            exact ClassHeadOutcome_after
              (Run.then_tweak (Run.trans hrd (ReadUntilFound_eq_run heq))
                (Tweak.makeIdentifierAbsolute _ _))
              ((MakeIdentifierAbsolute_cast _ _).trans (hcst.trans h0)) (ih _ _ _ hk hc)
        · split
          · next l ts1 s1 heq =>
            have hcst := ReadCommaSeparatedIdentifiers_cast TokType.chr_lbrace ts
              (NextToken_found s t) [] []
            rw [heq] at hcst
            exact ⟨Run.trans hrd (ReadCommaSeparatedIdentifiers_eq_run heq), hcst.trans h0⟩
          · next l ts1 s1 heq =>
            have hcst := ReadCommaSeparatedIdentifiers_cast TokType.chr_lbrace ts
              (NextToken_found s t) [] []
            rw [heq] at hcst
            exact ClassHeadOutcome_after (Run.trans hrd (ReadCommaSeparatedIdentifiers_eq_run heq))
              (hcst.trans h0) (ih _ _ _ hk hc)
        · exact ⟨t, s, klass, hk, hc, Run.stay _ _, rfl, rfl, rfl⟩
        · exact ClassHeadOutcome_after hrd h0 (ih _ _ _ hk hc)

theorem OnClass_head_outcome (fuel : Nat) (tok : phpLexerToken) (toks : Tokens)
    (s : PHPSourceFile) : ClassHeadOutcome toks s (OnClass_head fuel tok toks s) := by
  unfold OnClass_head
  have hcst := OnClass_name_cast toks s
  split
  · next ts s1 heq =>
    rw [heq] at hcst
    exact ⟨OnClass_name_eq_run heq, hcst⟩
  · next token ts s1 heq =>
    rw [heq] at hcst
    exact ClassHeadOutcome_after
      (Run.then_tweak (OnClass_name_eq_run heq) (Tweak.makeIdentifierAbsolute _ _))
      ((MakeIdentifierAbsolute_cast _ _).trans hcst)
      (OnClass_loop_head_outcome fuel _ ts _ (by simp [PHPEntity.SetFullName])
        (by simp [PHPEntity.SetFullName]))

/-- The statement loop that `OnClass` runs on a class body starts with the
invariant of the loop, and with the flag of the failed class cast as it was. -/
theorem ClassHead_body_inv {toks ts : Tokens} {s s1 : PHPSourceFile} {d : Int}
    (hi : LoopInv toks s) (h : ClassHeadOutcome toks s (ClassHead.body d ts s1)) :
    LoopInv ts s1 ∧ s1.nullClassCast = s.nullClassCast ∧ s1.m_scopes ≠ [] := by
  obtain ⟨lb, s0, k, hk, hc, hrun, hcst, hs, hd⟩ := h
  have h0 := LoopInv_run hrun hi
  have he := h0.eof_false
  have h1 : LoopInv ts (NextToken_found s0 lb) := LoopInv_run (Run.read lb ts s0) h0
  subst hs
  refine ⟨LoopInv_pushed k h1 ((NextToken_found_reachedEOF s0 lb).trans he) hk, ?_, ?_⟩
  · exact (CurrentScope_cast _).trans ((NextToken_found_cast s0 lb).trans hcst)
  · show (AddChild _ _ _).2.m_scopes ++ [_] ≠ []
    simp

/-! ## The class cast of `OnUseTrait` -/

theorem OnUseTrait_cast_class (ts : Tokens) (s : PHPSourceFile)
    (hk : (entityAt (CurrentScope s).2 (CurrentScope s).1).kind =
      EntityKind.kEntityTypeClass) :
    (OnUseTrait ts (CurrentScope s).2).2.nullClassCast = s.nullClassCast := by
  unfold OnUseTrait
  dsimp only
  rw [CurrentScope_idem]
  exact ((OnUseTrait_loop_spec _ ts _ (CurrentScope s).2 [] [] (CurrentScope_scopes_ne_nil s) hk
    rfl rfl rfl).2.2.2.1).trans (CurrentScope_cast s)

/-- The branch of a round for a visibility keyword leaves the flag alone. -/
theorem Parse_round_visibility_cast (fuel : Nat) (t : phpLexerToken) (ts : Tokens)
    (s s0 : PHPSourceFile) (v : TokType) (h0 : s0.nullClassCast = s.nullClassCast) :
    RoundCast s
      (if (entityAt (CurrentScope s0).2 (CurrentScope s0).1).kind =
          EntityKind.kEntityTypeClass then
        match ReadUntilFoundOneOf TokType.kPHP_T_VARIABLE TokType.kPHP_T_FUNCTION ts
            { (CurrentScope s0).2 with
              m_lookBackTokens := (CurrentScope s0).2.m_lookBackTokens ++ [t] } with
        | (some (what, tk), ts1, s2) =>
          if what = TokType.kPHP_T_VARIABLE then
            match ConsumeUntil TokType.chr_semi ts1
                (AddChild (CurrentScope s2).2 (CurrentScope s2).1 (memberVariable s2 v tk)).2 with
            | (false, ts2, s3) => Round.stop (some (ts2, s3))
            | (true, ts2, s3) => Round.next ts2 s3
          else
            match OnFunction fuel ts1 s2 with
            | none => Round.stop none
            | some (ts2, s3) => Round.next ts2 { s3 with m_lookBackTokens := [] }
        | (none, ts1, s2) => Round.next ts1 s2
      else Round.next ts (CurrentScope s0).2) := by
  have hcs : (CurrentScope s0).2.nullClassCast = s.nullClassCast :=
    (CurrentScope_cast s0).trans h0
  split_ifs
  · have hr := ReadUntilFoundOneOf_cast TokType.kPHP_T_VARIABLE TokType.kPHP_T_FUNCTION ts
      { (CurrentScope s0).2 with
        m_lookBackTokens := (CurrentScope s0).2.m_lookBackTokens ++ [t] }
    split
    · next what tk ts1 s2 heq =>
      rw [heq] at hr
      have h2 : s2.nullClassCast = s.nullClassCast := hr.trans hcs
      split_ifs
      · have hc := ConsumeUntil_cast TokType.chr_semi ts1
          (AddChild (CurrentScope s2).2 (CurrentScope s2).1 (memberVariable s2 v tk)).2
        split
        · next heq2 =>
          rw [heq2] at hc
          exact hc.trans ((CurrentScope_cast s2).trans h2)
        · next heq2 =>
          rw [heq2] at hc
          exact hc.trans ((CurrentScope_cast s2).trans h2)
      · split
        · exact True.intro
        · next ts2 s3 heq2 =>
          exact (OnFunction_cast fuel ts1 s2 _ heq2).trans h2
    · next ts1 s2 heq =>
      rw [heq] at hr
      exact hr.trans hcs
  · exact hcs

/-- The routine `OnClass`, entered with the invariant of the statement loop,
leaves the flag alone when the statement loop on the body does. -/
theorem OnClass_cast (fuel : Nat) (t : phpLexerToken) (ts : Tokens) (s : PHPSourceFile)
    (hi : LoopInv ts s)
    (ih : ∀ (d1 : Int) (ts1 : Tokens) (s1 : PHPSourceFile), LoopInv ts1 s1 →
      CastKept s1 (Parse fuel d1 ts1 s1)) :
    CastKept s (OnClass (Parse fuel) fuel t ts s) := by
  rw [OnClass_eq]
  have ho := OnClass_head_outcome fuel t ts s
  generalize OnClass_head fuel t ts s = r at ho
  cases r with
  | done o =>
    cases o with
    | none => exact CastKept_none _
    | some x =>
      obtain ⟨ts1, s1⟩ := x
      exact CastKept_some _ ho.2
  | body d ts2 s2 =>
    obtain ⟨hinv, hcst, _⟩ := ClassHead_body_inv hi ho
    have hp := ih d ts2 s2 hinv
    simp only [ClassHead.finish]
    generalize Parse fuel d ts2 s2 = o at hp
    cases o with
    | none => exact CastKept_none _
    | some x =>
      obtain ⟨ts3, s3⟩ := x
      have h3 : s3.nullClassCast = s2.nullClassCast := hp _ rfl
      refine CastKept_some _ ?_
      cases s3.m_reachedEOF <;> exact h3.trans hcst

/-- Every round of the statement loop that starts with the invariant of the
loop leaves the flag of the failed class cast alone. -/
theorem Parse_round_cast (fuel : Nat) (retDepth : Int) (t : phpLexerToken) (ts : Tokens)
    (s : PHPSourceFile) (hi : LoopInv (t :: ts) s)
    (ih : ∀ (d1 : Int) (ts1 : Tokens) (s1 : PHPSourceFile), LoopInv ts1 s1 →
      CastKept s1 (Parse fuel d1 ts1 s1)) :
    RoundCast s (Parse_round fuel retDepth t ts s) := by
  have h0 := NextToken_found_cast s t
  have hi0 : LoopInv ts (NextToken_found s t) := LoopInv_run (Run.read t ts s) hi
  have he0 : (NextToken_found s t).m_reachedEOF = false :=
    (NextToken_found_reachedEOF s t).trans hi.eof_false
  have hcls : RoundCast s
      (match OnClass (Parse fuel) fuel t ts (NextToken_found s t) with
        | none => Round.stop none
        | some (ts1, s1) => Round.next ts1 { s1 with m_lookBackTokens := [] }) := by
    split
    · exact True.intro
    · next ts1 s1 heq =>
      exact (OnClass_cast fuel t ts _ hi0 ih _ heq).trans h0
  unfold Parse_round
  dsimp only
  split
  · exact h0
  · exact h0
  · split_ifs
    · exact h0
    · exact h0
  · exact h0
  · split_ifs
    · exact (OnVariable_cast _ _ _).trans ((CurrentScope_cast _).trans h0)
    · exact (CurrentScope_cast _).trans h0
  · exact Parse_round_visibility_cast fuel t ts s _ _ h0
  · exact Parse_round_visibility_cast fuel t ts s _ _ h0
  · exact Parse_round_visibility_cast fuel t ts s _ _ h0
  · exact (OnDefine_cast _ _ _).trans h0
  · have hr := ReadUntilFound_cast TokType.kPHP_T_IDENTIFIER ts (NextToken_found s t)
    split
    · next tk ts1 s1 heq =>
      rw [heq] at hr
      have hc := ConsumeUntil_cast TokType.chr_semi ts1
        (AddChild (CurrentScope s1).2 (CurrentScope s1).1 (constVariable tk)).2
      split
      · next heq2 =>
        rw [heq2] at hc
        exact hc.trans ((CurrentScope_cast s1).trans (hr.trans h0))
      · next heq2 =>
        rw [heq2] at hc
        exact hc.trans ((CurrentScope_cast s1).trans (hr.trans h0))
    · next ts1 s1 heq =>
      rw [heq] at hr
      exact hr.trans h0
  · exact h0
  · exact h0
  · exact h0
  · exact h0
  · show (if (Class (NextToken_found s t)).1 = true
        then OnUseTrait ts (Class (NextToken_found s t)).2
        else OnUse ts (Class (NextToken_found s t)).2).2.nullClassCast = s.nullClassCast
    split_ifs with hc
    · exact (OnUseTrait_cast_class ts _ (Class_true_kind hi0.1 (hi0.2.2 he0) hc)).trans h0
    · exact (OnUse_cast _ _).trans ((Class_cast _).trans h0)
  · exact hcls
  · exact hcls
  · exact hcls
  · exact (OnNamespace_cast _ _).trans h0
  · split
    · exact True.intro
    · next ts1 s1 heq =>
      exact (OnFunction_cast fuel ts _ _ heq).trans h0
  · exact h0

/-- The statement loop, started with its invariant, leaves the flag of the
failed class cast alone: the class cast of `OnUseTrait` never yields null. -/
theorem Parse_cast (fuel : Nat) (retDepth : Int) (toks : Tokens) (s : PHPSourceFile)
    (hi : LoopInv toks s) : CastKept s (Parse fuel retDepth toks s) := by
  induction fuel generalizing retDepth toks s with
  | zero =>
    unfold Parse
    exact CastKept_none _
  | succ n ih =>
    cases toks with
    | nil =>
      unfold Parse
      exact CastKept_some _ (PhaseTwo_cast _)
    | cons t ts =>
      rw [Parse_unfold]
      have hr := Parse_round_cast n retDepth t ts s hi (fun d1 ts1 s1 h => ih d1 ts1 s1 h)
      have ho := Parse_round_outcome n retDepth t ts s
      generalize Parse_round n retDepth t ts s = r at hr ho
      cases r with
      | stop o =>
        cases o with
        | none => exact CastKept_none _
        | some x =>
          obtain ⟨ts1, s1⟩ := x
          exact CastKept_some _ hr
      | next ts1 s1 =>
        exact CastKept_after hr (ih retDepth ts1 s1
          (LoopInv_run (Run.trans (Run.read t ts s) ho) hi))

/-- Whenever a loop of `Parse` dispatches on a token, the invariant of the
loop holds. -/
theorem Dispatches_inv {fuel : Nat} {d : Int} {toks : Tokens} {s x : PHPSourceFile}
    (h : Dispatches fuel d toks s x) (hi : LoopInv toks s) :
    TreeInv x ∧ scopesOk x ∧ x.m_reachedEOF = false := by
  induction h with
  | here fuel d t ts s => exact ⟨hi.1, hi.2.2 hi.eof_false, hi.eof_false⟩
  | @later fuel d t ts ts1 s s1 x hround _ ih =>
    have ho := Parse_round_outcome fuel d t ts s
    rw [hround] at ho
    exact ih (LoopInv_run (Run.trans (Run.read t ts s) ho) hi)
  | @nested fuel d d1 t ts ts1 s s1 x _ hhead _ ih =>
    have ho := OnClass_head_outcome fuel t ts (NextToken_found s t)
    rw [hhead] at ho
    exact ih (ClassHead_body_inv (LoopInv_run (Run.read t ts s) hi) ho).1

theorem LoopInv_newSourceFile (b : Bool) (toks : Tokens) : LoopInv toks (newSourceFile b) := by
  refine ⟨TreeInv_newSourceFile b, ?_, ?_⟩
  · intro h
    cases h
  · intro _ x hx
    cases hx

/-! ## One push, one pop -/

theorem OnFunction_body_current (fuel : Nat) (func : PHPEntity) (funcDepth : Int)
    (toks : Tokens) (s : PHPSourceFile) :
    OnFunction_body fuel func funcDepth toks (CurrentScope s).2 =
      OnFunction_body fuel func funcDepth toks s := by
  unfold OnFunction_body
  rw [CurrentScope_idem]

theorem OnFunction_body_restores (fuel : Nat) (func : PHPEntity) (funcDepth : Int)
    (toks rest : Tokens) (s s1 : PHPSourceFile)
    (hk : func.kind ≠ EntityKind.kEntityTypeNamespace) (hc : func.children = [])
    (h : OnFunction_body fuel func funcDepth toks s = some (rest, s1))
    (he : s1.m_reachedEOF = false) : s1.m_scopes = (CurrentScope s).2.m_scopes := by
  rw [← OnFunction_body_current] at h
  exact ((OnFunction_body_run fuel func funcDepth toks _ hk hc rest s1 h).restores he).of_ne_nil
    (CurrentScope_scopes_ne_nil s)

theorem OnFunction_restores (fuel : Nat) (toks rest : Tokens) (s s1 : PHPSourceFile)
    (h : OnFunction fuel toks s = some (rest, s1)) (he : s1.m_reachedEOF = false) :
    ScopesRestored s s1 ∧
    ∀ tok ts, toks = tok :: ts →
      tok.type = TokType.kPHP_T_IDENTIFIER ∨ tok.type = TokType.chr_lparen →
      s1.m_scopes = (CurrentScope s).2.m_scopes := by
  refine ⟨(OnFunction_run fuel toks s rest s1 h).restores he, ?_⟩
  intro tok ts htoks hty
  subst htoks
  have hcs := (CurrentScope_congr s (NextToken_found s tok) (NextToken_found_store s tok)
    (NextToken_found_scopes s tok)).2.2
  unfold OnFunction at h
  dsimp only at h
  rcases hty with hty | hty
  · rw [if_pos hty] at h
    exact (OnFunction_body_restores _ _ _ _ _ _ _ (by simp [PHPEntity.SetFullName])
      (by simp [PHPEntity.SetFullName]) h he).trans hcs
  · have hne : tok.type ≠ TokType.kPHP_T_IDENTIFIER := by
      rw [hty]
      decide
    rw [if_neg hne, if_pos hty] at h
    exact (OnFunction_body_restores _ _ _ _ _ _ _ (by simp) (by simp) h he).trans hcs

theorem OnClass_restores (fuel : Nat) (tok : phpLexerToken) (toks rest : Tokens)
    (s s1 : PHPSourceFile)
    (h : OnClass (Parse fuel) fuel tok toks s = some (rest, s1))
    (he : s1.m_reachedEOF = false) :
    ScopesRestored s s1 ∧
    ∀ d ts2 s2, OnClass_head fuel tok toks s = ClassHead.body d ts2 s2 →
      s1.m_scopes = s2.m_scopes.dropLast := by
  refine ⟨(OnClass_run (Parse fuel) (fun d toks s => (Parse_outcome fuel d toks s).runsTo)
    fuel tok toks s rest s1 h).restores he, ?_⟩
  intro d ts2 s2 hhead
  have ho := OnClass_head_outcome fuel tok toks s
  rw [hhead] at ho
  obtain ⟨lb, s0, k, _, _, _, _, hs, _⟩ := ho
  have hne : s2.m_scopes ≠ [] := by
    rw [hs]
    show (AddChild _ _ _).2.m_scopes ++ [_] ≠ []
    simp
  rw [OnClass_eq, hhead] at h
  simp only [ClassHead.finish] at h
  cases hP : Parse fuel d ts2 s2 with
  | none =>
    rw [hP] at h
    cases h
  | some x =>
    obtain ⟨ts3, s3⟩ := x
    rw [hP] at h
    simp only [Option.some.injEq, Prod.mk.injEq] at h
    obtain ⟨_, h2⟩ := h
    cases h3 : s3.m_reachedEOF with
    | true =>
      rw [h3] at h2
      simp only [Bool.not_true, Bool.false_eq_true, if_false] at h2
      rw [← h2, h3] at he
      cases he
    | false =>
      rw [h3] at h2
      simp only [Bool.not_false, if_true] at h2
      have hr := ((Parse_outcome fuel d ts2 s2).runsTo ts3 s3 hP).restores h3
      rw [← h2]
      show s3.m_scopes.dropLast = _
      rw [hr.of_ne_nil hne]

/-- C27: a call of `OnFunction`, and a call of `OnClass` with the statement
loop as it runs it on the body, that returns before the end of input was met
leaves the scope stack as it was (up to the global namespace that
`CurrentScope` pushes on an empty stack): when the function was pushed, that is
when the first token is the name or the opening parenthesis, the stack is the
one the function was pushed on, and when the class was pushed, the stack is the
one of the parser at the entry of the body without its top, the class.
Consequently, for every call of the statement loop entered with its invariant
(as the call on a whole file is), whenever the loop of that call, or of the
call for the body of a class met during it, dispatches on a token, the current
scope is a namespace or a class, and no function, and it is a class when
`Class()` holds; the statement loop then leaves the flag of the failed class
cast of `OnUseTrait` as it was, so that after a whole file the flag is
unset. -/
theorem C27_scope_stack_discipline :
    (∀ (fuel : Nat) (toks rest : Tokens) (s s1 : PHPSourceFile),
      OnFunction fuel toks s = some (rest, s1) → s1.m_reachedEOF = false →
      ScopesRestored s s1 ∧ (s.m_scopes ≠ [] → s1.m_scopes = s.m_scopes) ∧
      ∀ tok ts, toks = tok :: ts →
        tok.type = TokType.kPHP_T_IDENTIFIER ∨ tok.type = TokType.chr_lparen →
        s1.m_scopes = (CurrentScope s).2.m_scopes) ∧
    (∀ (fuel : Nat) (tok : phpLexerToken) (toks rest : Tokens) (s s1 : PHPSourceFile),
      OnClass (Parse fuel) fuel tok toks s = some (rest, s1) → s1.m_reachedEOF = false →
      ScopesRestored s s1 ∧ (s.m_scopes ≠ [] → s1.m_scopes = s.m_scopes) ∧
      ∀ d ts2 s2, OnClass_head fuel tok toks s = ClassHead.body d ts2 s2 →
        s1.m_scopes = s2.m_scopes.dropLast) ∧
    (∀ (fuel : Nat) (d : Int) (toks : Tokens) (s x : PHPSourceFile),
      LoopInv toks s → Dispatches fuel d toks s x →
      ((entityAt (CurrentScope x).2 (CurrentScope x).1).kind =
          EntityKind.kEntityTypeNamespace ∨
        (entityAt (CurrentScope x).2 (CurrentScope x).1).kind =
          EntityKind.kEntityTypeClass) ∧
      (entityAt (CurrentScope x).2 (CurrentScope x).1).kind ≠
        EntityKind.kEntityTypeFunction ∧
      ((Class x).1 = true →
        (entityAt (CurrentScope x).2 (CurrentScope x).1).kind =
          EntityKind.kEntityTypeClass)) ∧
    (∀ (fuel : Nat) (d : Int) (toks rest : Tokens) (s s1 : PHPSourceFile),
      LoopInv toks s → Parse fuel d toks s = some (rest, s1) →
      s1.nullClassCast = s.nullClassCast) ∧
    (∀ (pfb : Bool) (d : Int) (toks : Tokens),
      LoopInv toks (newSourceFile pfb) ∧
      ∃ r, ParseFile pfb d toks = some r ∧ r.2.nullClassCast = false) := by
  refine ⟨?_, ?_, ?_, ?_, ?_⟩
  · intro fuel toks rest s s1 h he
    obtain ⟨h1, h2⟩ := OnFunction_restores fuel toks rest s s1 h he
    exact ⟨h1, h1.of_ne_nil, h2⟩
  · intro fuel tok toks rest s s1 h he
    obtain ⟨h1, h2⟩ := OnClass_restores fuel tok toks rest s s1 h he
    exact ⟨h1, h1.of_ne_nil, h2⟩
  · intro fuel d toks s x hi hd
    obtain ⟨h1, h2, _⟩ := Dispatches_inv hd hi
    have hk := scopesOk_current h1 h2
    refine ⟨hk, ?_, Class_true_kind h1 h2⟩
    rcases hk with hk | hk <;> rw [hk] <;> decide
  · intro fuel d toks rest s s1 hi h
    exact Parse_cast fuel d toks s hi _ h
  · intro pfb d toks
    refine ⟨LoopInv_newSourceFile pfb toks, ?_⟩
    obtain ⟨r, hr⟩ := Parse_total (toks.length + 1) d toks (newSourceFile pfb)
      (Nat.lt_succ_self _)
    exact ⟨r, hr, Parse_cast _ d toks _ (LoopInv_newSourceFile pfb toks) r hr⟩

theorem C27_scope_stack_discipline_witness :
    (((OnFunction 7 tokensEmptyMethod insideClassState).get (by decide)).2.m_reachedEOF =
        false ∧
      insideClassState.m_scopes ≠ []) ∧
    ((OnFunction 7 tokensEmptyMethod insideClassState).get (by decide)).2.m_scopes =
      insideClassState.m_scopes :=
  ⟨⟨by decide, by decide⟩,
    (C27_scope_stack_discipline.1 7 tokensEmptyMethod _ insideClassState _
      (Option.some_get (by decide)).symm (by decide)).2.1 (by decide)⟩

end PHP
